import Mathlib

/-!
Accounts API client: request building and response classification.

A shallow embedding of `client/client.go` (type `Client` with the operations
`Create`, `Fetch`, `List`, `Delete` and the helpers `newRequest`, `do`,
`logError`) together with the library functions it calls: the parts of
`strings`, `net/url`, `go-querystring`, `encoding/json` and `net/http` that
decide what request is built and how a response is turned into a result.

Conventions.

* A Go `string` is a sequence of bytes (`GoString`); text literals are given
  through `str`, their UTF-8 encoding.
* A Go pointer that may be nil is an `Option`.
* `int64` values are integers; where the range matters it is stated.
* The HTTP round trip is a function from the request to either a transport
  error or a response; the operations return, next to their Go results, the
  client after the call, the requests handed to the transport and the lines
  written to the log.
-/

namespace AccountAPI

/-! ## Go strings -/

/-- One byte of a Go string. -/
abbrev Byte := Fin 256

/-- Go `string`: an immutable sequence of bytes. -/
abbrev GoString := List Byte

/-- Go slice contents (the visible elements, in order). -/
abbrev Slice (α : Type) := List α

/-- Equality of Go results (a value or an error) is decidable. -/
instance instDecidableEqExcept {ε α : Type} [DecidableEq ε] [DecidableEq α] :
    DecidableEq (Except ε α)
  | .ok x, .ok y => if h : x = y then isTrue (by rw [h]) else isFalse (by intro e; cases e; exact h rfl)
  | .error x, .error y =>
    if h : x = y then isTrue (by rw [h]) else isFalse (by intro e; cases e; exact h rfl)
  | .ok _, .error _ => isFalse (by intro e; cases e)
  | .error _, .ok _ => isFalse (by intro e; cases e)

/-- The byte with the code of the (ASCII) character `c`. -/
def b (c : Char) : Byte := Fin.ofNat c.toNat

/-- UTF-8 encoding of one Unicode scalar value. -/
def utf8EncodeRune (n : Nat) : GoString :=
  if n < 0x80 then [Fin.ofNat n]
  else if n < 0x800 then [Fin.ofNat (0xC0 + n / 64), Fin.ofNat (0x80 + n % 64)]
  else if n < 0x10000 then
    [Fin.ofNat (0xE0 + n / 4096), Fin.ofNat (0x80 + n / 64 % 64), Fin.ofNat (0x80 + n % 64)]
  else
    [Fin.ofNat (0xF0 + n / 262144), Fin.ofNat (0x80 + n / 4096 % 64),
     Fin.ofNat (0x80 + n / 64 % 64), Fin.ofNat (0x80 + n % 64)]

/-- The Go string written as the literal `s`. -/
def str (s : String) : GoString := s.data.flatMap (fun c => utf8EncodeRune c.toNat)

namespace strings

/-- Go `strings.HasPrefix(s, p)`. -/
def HasPrefix (s p : GoString) : Bool := p.isPrefixOf s

/-- Go `strings.HasSuffix(s, p)`. -/
def HasSuffix (s p : GoString) : Bool := p.isSuffixOf s

/-- Go `strings.TrimPrefix(s, p)`. -/
def TrimPrefix (s p : GoString) : GoString := if p.isPrefixOf s then s.drop p.length else s

/-- Go `strings.TrimSuffix(s, p)`. -/
def TrimSuffix (s p : GoString) : GoString :=
  if p.isSuffixOf s then s.take (s.length - p.length) else s

/-- Go `strings.Cut(s, sep)` for a one-byte separator: the text before the
first `sep`, the text after it, and whether `sep` was found. -/
def Cut (sep : Byte) : GoString → GoString × GoString × Bool
  | [] => ([], [], false)
  | c :: cs =>
    if c = sep then ([], cs, true)
    else let r := Cut sep cs; (c :: r.1, r.2.1, r.2.2)

/-- Go `strings.Contains(s, sep)` for a one-byte separator. -/
def ContainsByte (sep : Byte) (s : GoString) : Bool := s.any (fun c => c = sep)

/-- Go `strings.Count(s, sep)` for a one-byte separator. -/
def Count (sep : Byte) (s : GoString) : Nat := s.countP (fun c => c = sep)

/-- Go `strings.IndexByte(s, c)`; `none` stands for `-1`. -/
def IndexByte (sep : Byte) : GoString → Option Nat
  | [] => none
  | c :: cs => if c = sep then some 0 else (IndexByte sep cs).map (· + 1)

/-- Go `strings.LastIndexByte(s, c)`; `none` stands for `-1`. -/
def LastIndexByte (sep : Byte) : GoString → Option Nat
  | [] => none
  | c :: cs =>
    match LastIndexByte sep cs with
    | some i => some (i + 1)
    | none => if c = sep then some 0 else none

/-- Go `strings.Index(s, sub)`; `none` stands for `-1`. -/
def Index (sub : GoString) : GoString → Option Nat
  | [] => if sub = [] then some 0 else none
  | c :: cs =>
    if sub.isPrefixOf (c :: cs) then some 0 else (Index sub cs).map (· + 1)

/-- Go `strings.Split(s, sep)` for a one-byte separator. -/
def Split (sep : Byte) : GoString → Slice GoString
  | [] => [[]]
  | c :: cs =>
    if c = sep then [] :: Split sep cs
    else
      match Split sep cs with
      | [] => [[c]]
      | x :: xs => (c :: x) :: xs

/-- Go `strings.Join(elems, sep)` for a one-byte separator. -/
def Join (sep : Byte) : Slice GoString → GoString
  | [] => []
  | [x] => x
  | x :: y :: ys => x ++ sep :: Join sep (y :: ys)

/-- Go `strings.ToLower` on ASCII text (bytes outside `A`..`Z` are kept). -/
def ToLowerASCII (s : GoString) : GoString :=
  s.map (fun c => if 'A'.toNat ≤ c.val ∧ c.val ≤ 'Z'.toNat then Fin.ofNat (c.val + 32) else c)

end strings

/-! ## Decimal rendering (`%d`, `fmt.Sprint` of an integer) -/

/-- Decimal digits of `n`, most significant first, appended to `acc`; `fuel`
bounds the number of digits produced. -/
def natDigits : Nat → Nat → GoString → GoString
  | 0, _, acc => acc
  | fuel + 1, n, acc =>
    let acc1 : GoString := Fin.ofNat ('0'.toNat + n % 10) :: acc
    if n / 10 = 0 then acc1 else natDigits fuel (n / 10) acc1

/-- Base-10 rendering of a natural number. -/
def formatNat (n : Nat) : GoString := natDigits (n + 1) n []

/-- Base-10 rendering of an integer, as `%d` prints an `int64`. -/
def formatInt : Int → GoString
  | Int.ofNat n => formatNat n
  | Int.negSucc n => b '-' :: formatNat (n + 1)

/-! ## `net/url`: escaping -/

namespace url

/-- Go `url.encoding`: the part of a URL a string is escaped for. -/
inductive encoding
  | encodePath
  | encodePathSegment
  | encodeHost
  | encodeZone
  | encodeUserPassword
  | encodeQueryComponent
  | encodeFragment
  deriving DecidableEq, Repr

/-- Errors of package `net/url`. -/
inductive Error
  /-- Go `url.EscapeError`: the malformed escape. -/
  | EscapeError (s : GoString)
  /-- Go `url.InvalidHostError`: the offending byte. -/
  | InvalidHostError (s : GoString)
  /-- The error "net/url: invalid control character in URL". -/
  | invalidControlCharacter
  /-- The error "empty url". -/
  | emptyURL
  /-- The error "missing protocol scheme". -/
  | missingProtocolScheme
  /-- The error "invalid URI for request". -/
  | invalidURIForRequest
  /-- The error "first path segment in URL cannot contain colon". -/
  | firstPathSegmentColon
  /-- The error "missing ']' in host". -/
  | missingBracket
  /-- The error "invalid port ... after host". -/
  | invalidPort (colonPort : GoString)
  /-- The error "net/url: invalid userinfo". -/
  | invalidUserinfo
  /-- The error "invalid semicolon separator in query". -/
  | invalidSemicolonSeparator
  deriving DecidableEq, Repr

/-- Letters and digits (RFC 3986 section 2.3, alphanum). -/
def isAlnum (c : Byte) : Bool :=
  ('a'.toNat ≤ c.val && c.val ≤ 'z'.toNat) || ('A'.toNat ≤ c.val && c.val ≤ 'Z'.toNat) ||
    ('0'.toNat ≤ c.val && c.val ≤ '9'.toNat)

/-- Whether the byte `c` is one of the (ASCII) characters of `s`. -/
def oneOf (c : Byte) (s : String) : Bool := s.data.any (fun x => c.val = x.toNat)

/-- The characters a host may carry unescaped (first `switch` of `shouldEscape`);
39 is the apostrophe and 34 the double quote. -/
def hostSubDelims (c : Byte) : Bool := oneOf c "!$&()*+,;=:[]<>" || c.val = 39 || c.val = 34

/-- Go `url.shouldEscape(c, mode)`. -/
def shouldEscape (c : Byte) (mode : encoding) : Bool :=
  if isAlnum c then false
  else if (mode = .encodeHost || mode = .encodeZone) && hostSubDelims c then false
  else if oneOf c "-_.~" then false
  else if oneOf c "$&+,/:;=?@" then
    match mode with
    | .encodePath => c.val = '?'.toNat
    | .encodePathSegment => oneOf c "/;,?"
    | .encodeUserPassword => oneOf c "@/?:"
    | .encodeQueryComponent => true
    | .encodeFragment => false
    | _ => true
  else if mode = .encodeFragment && oneOf c "!()*" then false
  else true

/-- Go `upperhex[n]` for `n < 16`. -/
def upperhex (n : Nat) : Byte :=
  if n < 10 then Fin.ofNat ('0'.toNat + n) else Fin.ofNat ('A'.toNat + (n - 10))

/-- Go `url.ishex`. -/
def ishex (c : Byte) : Bool :=
  ('0'.toNat ≤ c.val && c.val ≤ '9'.toNat) || ('a'.toNat ≤ c.val && c.val ≤ 'f'.toNat) ||
    ('A'.toNat ≤ c.val && c.val ≤ 'F'.toNat)

/-- Go `url.unhex`. -/
def unhex (c : Byte) : Nat :=
  if '0'.toNat ≤ c.val ∧ c.val ≤ '9'.toNat then c.val - '0'.toNat
  else if 'a'.toNat ≤ c.val ∧ c.val ≤ 'f'.toNat then c.val - 'a'.toNat + 10
  else if 'A'.toNat ≤ c.val ∧ c.val ≤ 'F'.toNat then c.val - 'A'.toNat + 10
  else 0

/-- What `escape` writes for one byte. -/
def escapeByte (mode : encoding) (c : Byte) : GoString :=
  if c.val = ' '.toNat ∧ mode = .encodeQueryComponent then [b '+']
  else if shouldEscape c mode then [b '%', upperhex (c.val / 16), upperhex (c.val % 16)]
  else [c]

/-- Go `url.escape(s, mode)`. -/
def escape (s : GoString) (mode : encoding) : GoString := s.flatMap (escapeByte mode)

/-- The byte an escape `%h1h2` stands for. -/
def unhexPair (h1 h2 : Byte) : Byte := Fin.ofNat (unhex h1 * 16 + unhex h2)

/-- Go `url.unescape(s, mode)`: the checks of the first pass and the
conversion of the second, byte by byte from the left. -/
def unescape (mode : encoding) : GoString → Except Error GoString
  | [] => .ok []
  | c :: rest =>
    if c.val = '%'.toNat then
      match rest with
      | h1 :: h2 :: rest' =>
        if !(ishex h1 && ishex h2) then .error (.EscapeError [c, h1, h2])
        else if mode = .encodeHost ∧ unhex h1 < 8 ∧ [c, h1, h2] ≠ str "%25" then
          .error (.EscapeError [c, h1, h2])
        else if mode = .encodeZone ∧ [c, h1, h2] ≠ str "%25" ∧ (unhexPair h1 h2).val ≠ ' '.toNat ∧
            shouldEscape (unhexPair h1 h2) .encodeHost then
          .error (.EscapeError [c, h1, h2])
        else (unescape mode rest').map (fun t => unhexPair h1 h2 :: t)
      | _ => .error (.EscapeError (c :: rest))
    else if c.val = '+'.toNat then
      (unescape mode rest).map
        (fun t => (if mode = .encodeQueryComponent then b ' ' else c) :: t)
    else if (mode = .encodeHost ∨ mode = .encodeZone) ∧ c.val < 0x80 ∧
        shouldEscape c .encodeHost then
      .error (.InvalidHostError [c])
    else (unescape mode rest).map (fun t => c :: t)

/-- Go `url.QueryEscape`. -/
def QueryEscape (s : GoString) : GoString := escape s .encodeQueryComponent

/-- Go `url.QueryUnescape`. -/
def QueryUnescape (s : GoString) : Except Error GoString := unescape .encodeQueryComponent s

/-- Go `url.validEncoded(s, mode)`. -/
def validEncoded (s : GoString) (mode : encoding) : Bool :=
  s.all (fun c =>
    oneOf c "!$&()*+,;=:@" || c.val = 39 || oneOf c "[]" || c.val = '%'.toNat ||
      !shouldEscape c mode)

/-! ## `net/url`: the URL type -/

/-- Go `url.Userinfo`. -/
structure Userinfo where
  username : GoString
  password : GoString
  passwordSet : Bool
  deriving DecidableEq, Repr

/-- Go `url.URL` (the fields of the Go releases contemporary with the client). -/
structure URL where
  Scheme : GoString := []
  Opaque : GoString := []
  User : Option Userinfo := none
  Host : GoString := []
  Path : GoString := []
  RawPath : GoString := []
  ForceQuery : Bool := false
  RawQuery : GoString := []
  Fragment : GoString := []
  RawFragment : GoString := []
  deriving DecidableEq, Repr

/-- Go `(*Userinfo).String`. -/
def Userinfo.String (u : Userinfo) : GoString :=
  let s := escape u.username .encodeUserPassword
  if u.passwordSet then s ++ b ':' :: escape u.password .encodeUserPassword else s

/-- Go `(*URL).EscapedPath`. -/
def URL.EscapedPath (u : URL) : GoString :=
  if u.RawPath ≠ [] ∧ validEncoded u.RawPath .encodePath ∧
      unescape .encodePath u.RawPath = .ok u.Path then u.RawPath
  else if u.Path = str "*" then str "*"
  else escape u.Path .encodePath

/-- Go `(*URL).EscapedFragment`. -/
def URL.EscapedFragment (u : URL) : GoString :=
  if u.RawFragment ≠ [] ∧ validEncoded u.RawFragment .encodeFragment ∧
      unescape .encodeFragment u.RawFragment = .ok u.Fragment then u.RawFragment
  else escape u.Fragment .encodeFragment

/-- Go `(*URL).setPath`. -/
def URL.setPath (u : URL) (p : GoString) : Except Error URL :=
  match unescape .encodePath p with
  | .error e => .error e
  | .ok path =>
    if p = escape path .encodePath then .ok { u with Path := path, RawPath := [] }
    else .ok { u with Path := path, RawPath := p }

/-- Go `(*URL).setFragment`. -/
def URL.setFragment (u : URL) (f : GoString) : Except Error URL :=
  match unescape .encodeFragment f with
  | .error e => .error e
  | .ok frag =>
    if f = escape frag .encodeFragment then .ok { u with Fragment := frag, RawFragment := [] }
    else .ok { u with Fragment := frag, RawFragment := f }

/-- One step of the loop of `resolvePath` over the elements of the path. -/
def resolveStep (dst : Slice GoString) (elem : GoString) : Slice GoString :=
  if elem = str "." then dst
  else if elem = str ".." then dst.dropLast
  else dst ++ [elem]

/-- Go `url.resolvePath(base, ref)`: the reference path joined to the base
path, without its `.` and `..` elements (RFC 3986, section 5.2.4). -/
def resolvePath (base ref : GoString) : GoString :=
  let full : GoString :=
    if ref = [] then base
    else if ref.head? ≠ some (b '/') then
      (match strings.LastIndexByte (b '/') base with
        | some i => base.take (i + 1)
        | none => []) ++ ref
    else ref
  if full = [] then []
  else
    let src := strings.Split (b '/') full
    let dst := src.foldl resolveStep []
    let dst :=
      if src.getLast? = some (str ".") ∨ src.getLast? = some (str "..") then dst ++ [[]] else dst
    b '/' :: strings.TrimPrefix (strings.Join (b '/') dst) (str "/")

/-- Go `(*URL).ResolveReference`. -/
def URL.ResolveReference (u ref : URL) : URL :=
  let url : URL := if ref.Scheme = [] then { ref with Scheme := u.Scheme } else ref
  if ref.Scheme ≠ [] ∨ ref.Host ≠ [] ∨ ref.User.isSome then
    match url.setPath (resolvePath ref.EscapedPath []) with
    | .ok url1 => url1
    | .error _ => url
  else if ref.Opaque ≠ [] then
    { url with User := none, Host := [], Path := [] }
  else
    let url : URL :=
      if ref.Path = [] ∧ ref.ForceQuery = false ∧ ref.RawQuery = [] then
        if ref.Fragment = [] then
          { url with RawQuery := u.RawQuery, Fragment := u.Fragment, RawFragment := u.RawFragment }
        else { url with RawQuery := u.RawQuery }
      else url
    if ref.Path = [] ∧ u.Opaque ≠ [] then
      { url with Opaque := u.Opaque, User := none, Host := [], Path := [] }
    else
      let url : URL := { url with Host := u.Host, User := u.User }
      match url.setPath (resolvePath u.EscapedPath ref.EscapedPath) with
      | .ok url1 => url1
      | .error _ => url

/-- Go `(*URL).String`. -/
def URL.String (u : URL) : GoString :=
  let buf : GoString := if u.Scheme ≠ [] then u.Scheme ++ [b ':'] else []
  let buf : GoString :=
    if u.Opaque ≠ [] then buf ++ u.Opaque
    else
      let buf : GoString :=
        if u.Scheme ≠ [] ∨ u.Host ≠ [] ∨ u.User.isSome then
          let buf : GoString :=
            if u.Host ≠ [] ∨ u.Path ≠ [] ∨ u.User.isSome then buf ++ str "//" else buf
          let buf : GoString :=
            match u.User with
            | some ui => buf ++ ui.String ++ [b '@']
            | none => buf
          if u.Host ≠ [] then buf ++ escape u.Host .encodeHost else buf
        else buf
      let path := u.EscapedPath
      let buf : GoString :=
        if path ≠ [] ∧ path.head? ≠ some (b '/') ∧ u.Host ≠ [] then buf ++ [b '/'] else buf
      let buf : GoString :=
        if buf = [] ∧ strings.ContainsByte (b ':') (strings.Cut (b '/') path).1 then
          buf ++ str "./"
        else buf
      buf ++ path
  let buf : GoString :=
    if u.ForceQuery ∨ u.RawQuery ≠ [] then buf ++ b '?' :: u.RawQuery else buf
  if u.Fragment ≠ [] then buf ++ b '#' :: u.EscapedFragment else buf

/-! ## `net/url`: parsing -/

/-- Go `url.stringContainsCTLByte`. -/
def stringContainsCTLByte (s : GoString) : Bool :=
  s.any (fun c => c.val < ' '.toNat || c.val = 0x7f)

/-- The loop of `getScheme`: `pre` holds the bytes already passed over,
`rawURL` the whole input. -/
def getSchemeLoop (rawURL : GoString) : GoString → GoString → Except Error (GoString × GoString)
  | _, [] => .ok ([], rawURL)
  | pre, c :: cs =>
    if ('a'.toNat ≤ c.val ∧ c.val ≤ 'z'.toNat) ∨ ('A'.toNat ≤ c.val ∧ c.val ≤ 'Z'.toNat) then
      getSchemeLoop rawURL (pre ++ [c]) cs
    else if ('0'.toNat ≤ c.val ∧ c.val ≤ '9'.toNat) ∨ oneOf c "+-." then
      if pre = [] then .ok ([], rawURL) else getSchemeLoop rawURL (pre ++ [c]) cs
    else if c.val = ':'.toNat then
      if pre = [] then .error .missingProtocolScheme else .ok (pre, cs)
    else .ok ([], rawURL)

/-- Go `url.getScheme`: the scheme and the text after its colon. -/
def getScheme (rawURL : GoString) : Except Error (GoString × GoString) :=
  getSchemeLoop rawURL [] rawURL

/-- Go `url.validOptionalPort`. -/
def validOptionalPort (port : GoString) : Bool :=
  match port with
  | [] => true
  | c :: ds => c.val = ':'.toNat && ds.all (fun d => '0'.toNat ≤ d.val && d.val ≤ '9'.toNat)

/-- Go `url.validUserinfo`. -/
def validUserinfo (s : GoString) : Bool :=
  s.all (fun r => isAlnum r || oneOf r "-._:~!$&()*+,;=%@" || r.val = 39)

/-- Go `url.parseHost`. -/
def parseHost (host : GoString) : Except Error GoString :=
  if strings.HasPrefix host (str "[") then
    match strings.LastIndexByte (b ']') host with
    | none => .error .missingBracket
    | some i =>
      let colonPort := host.drop (i + 1)
      if !validOptionalPort colonPort then .error (.invalidPort colonPort)
      else
        match strings.Index (str "%25") (host.take i) with
        | some zone =>
          match unescape .encodeHost (host.take zone) with
          | .error e => .error e
          | .ok host1 =>
            match unescape .encodeZone ((host.take i).drop zone) with
            | .error e => .error e
            | .ok host2 =>
              match unescape .encodeHost (host.drop i) with
              | .error e => .error e
              | .ok host3 => .ok (host1 ++ host2 ++ host3)
        | none => unescape .encodeHost host
  else
    match strings.LastIndexByte (b ':') host with
    | some i =>
      let colonPort := host.drop i
      if !validOptionalPort colonPort then .error (.invalidPort colonPort)
      else unescape .encodeHost host
    | none => unescape .encodeHost host

/-- Go `url.parseAuthority`. -/
def parseAuthority (authority : GoString) : Except Error (Option Userinfo × GoString) :=
  match strings.LastIndexByte (b '@') authority with
  | none =>
    match parseHost authority with
    | .error e => .error e
    | .ok host => .ok (none, host)
  | some i =>
    match parseHost (authority.drop (i + 1)) with
    | .error e => .error e
    | .ok host =>
      let userinfo := authority.take i
      if !validUserinfo userinfo then .error .invalidUserinfo
      else if !strings.ContainsByte (b ':') userinfo then
        match unescape .encodeUserPassword userinfo with
        | .error e => .error e
        | .ok name => .ok (some { username := name, password := [], passwordSet := false }, host)
      else
        let c := strings.Cut (b ':') userinfo
        match unescape .encodeUserPassword c.1 with
        | .error e => .error e
        | .ok name =>
          match unescape .encodeUserPassword c.2.1 with
          | .error e => .error e
          | .ok pw => .ok (some { username := name, password := pw, passwordSet := true }, host)

/-- Go `url.parse(rawURL, viaRequest)`: a URL without its fragment. -/
def parse (rawURL : GoString) (viaRequest : Bool) : Except Error URL :=
  if stringContainsCTLByte rawURL then .error .invalidControlCharacter
  else if rawURL = [] ∧ viaRequest then .error .emptyURL
  else if rawURL = str "*" then .ok { Path := str "*" }
  else
    match getScheme rawURL with
    | .error e => .error e
    | .ok (scheme, rest) =>
      let url : URL := { Scheme := strings.ToLowerASCII scheme }
      let forced : Bool :=
        strings.HasSuffix rest (str "?") && strings.Count (b '?') rest = 1
      let url : URL :=
        if forced then { url with ForceQuery := true }
        else { url with RawQuery := (strings.Cut (b '?') rest).2.1 }
      let rest : GoString :=
        if forced then rest.take (rest.length - 1) else (strings.Cut (b '?') rest).1
      if !strings.HasPrefix rest (str "/") ∧ url.Scheme ≠ [] then
        .ok { url with Opaque := rest }
      else if !strings.HasPrefix rest (str "/") ∧ viaRequest then .error .invalidURIForRequest
      else if !strings.HasPrefix rest (str "/") ∧
          strings.ContainsByte (b ':') (strings.Cut (b '/') rest).1 then
        .error .firstPathSegmentColon
      else if (url.Scheme ≠ [] ∨ (!viaRequest ∧ !strings.HasPrefix rest (str "///"))) ∧
          strings.HasPrefix rest (str "//") then
        let after := rest.drop 2
        let authority := after.takeWhile (fun c => c ≠ b '/')
        let rest := after.dropWhile (fun c => c ≠ b '/')
        match parseAuthority authority with
        | .error e => .error e
        | .ok (user, host) => URL.setPath { url with User := user, Host := host } rest
      else URL.setPath url rest

/-- Go `url.Parse`. -/
def Parse (rawURL : GoString) : Except Error URL :=
  let c := strings.Cut (b '#') rawURL
  match parse c.1 false with
  | .error e => .error e
  | .ok url => if c.2.1 = [] then .ok url else url.setFragment c.2.1

/-! ## `net/url`: query values -/

/-- Go `url.Values` (`map[string][]string`): each key once, with its values in
the order they were added. -/
abbrev Values := List (GoString × Slice GoString)

/-- Go `Values.Add`. -/
def Values.Add : Values → GoString → GoString → Values
  | [], key, value => [(key, [value])]
  | (k, vs) :: rest, key, value =>
    if k = key then (k, vs ++ [value]) :: rest else (k, vs) :: Values.Add rest key value

/-- The values stored under `key` (`v[key]`; empty when the key is absent). -/
def Values.lookup : Values → GoString → Slice GoString
  | [], _ => []
  | (k, vs) :: rest, key => if k = key then vs else Values.lookup rest key

/-- Go `Values.Has`. -/
def Values.Has (v : Values) (key : GoString) : Bool := v.any (fun kv => kv.1 = key)

/-- Go `Values.Get`: the first value of the key, or the empty string. -/
def Values.Get (v : Values) (key : GoString) : GoString := (Values.lookup v key).headD []

/-- Go string comparison `s < t` (byte-wise lexicographic). -/
def stringLess : GoString → GoString → Bool
  | [], [] => false
  | [], _ :: _ => true
  | _ :: _, [] => false
  | x :: xs, y :: ys => if x.val < y.val then true else if y.val < x.val then false else stringLess xs ys

/-- Insertion of a key into a sorted list of keys. -/
def insertSorted (k : GoString) : Slice GoString → Slice GoString
  | [] => [k]
  | x :: xs => if stringLess x k then x :: insertSorted k xs else k :: x :: xs

/-- Go `sort.Strings`. -/
def sortStrings (keys : Slice GoString) : Slice GoString := keys.foldr insertSorted []

/-- Go `Values.Encode`: `key=value` pairs, keys sorted, both sides
query-escaped, joined by `&`. -/
def Values.Encode (v : Values) : GoString :=
  let keys := sortStrings (v.map (fun kv => kv.1))
  let pairs : Slice GoString :=
    keys.flatMap (fun k =>
      (Values.lookup v k).map (fun value => QueryEscape k ++ b '=' :: QueryEscape value))
  strings.Join (b '&') pairs

/-- One round of the loop of `parseQuery`, for the part `part` of the query
between two `&`; the state is the map and the error to return. -/
def parseQueryStep (st : Values × Option Error) (part : GoString) : Values × Option Error :=
  if strings.ContainsByte (b ';') part then (st.1, some .invalidSemicolonSeparator)
  else if part = [] then st
  else
    let c := strings.Cut (b '=') part
    match QueryUnescape c.1 with
    | .error e => (st.1, if st.2.isSome then st.2 else some e)
    | .ok key =>
      match QueryUnescape c.2.1 with
      | .error e => (st.1, if st.2.isSome then st.2 else some e)
      | .ok value => (Values.Add st.1 key value, st.2)

/-- Go `url.ParseQuery`: the parameters of a query string, and the first
error met, if any. -/
def ParseQuery (query : GoString) : Values × Option Error :=
  (strings.Split (b '&') query).foldl parseQueryStep ([], none)

/-- Go `(*URL).Query`: the parameters of the query, errors dropped. -/
def URL.Query (u : URL) : Values := (ParseQuery u.RawQuery).1

end url

/-! ## The data model of `client.go` -/

/-- Go `Attributes`: the account attributes. `AlternativeBankAccountNames` is a
slice, `none` being the nil slice. -/
structure Attributes where
  Country : GoString := []
  BaseCurrency : GoString := []
  BankID : GoString := []
  BankIDCode : GoString := []
  AccountNumber : GoString := []
  BIC : GoString := []
  IBAN : GoString := []
  CustomerID : GoString := []
  Title : GoString := []
  FirstName : GoString := []
  BankAccountName : GoString := []
  AlternativeBankAccountNames : Option (Slice GoString) := none
  AccountClassification : GoString := []
  JointAccount : Bool := false
  AccountMatchingOptOut : Bool := false
  SecondaryIdentification : GoString := []
  deriving DecidableEq, Repr

/-- Go `Account`. `Version` is an `int64`; the field `Type` of the source is
`Type_` here. -/
structure Account where
  ID : GoString := []
  OrganisationID : GoString := []
  Type_ : GoString := []
  Version : Int := 0
  Attributes : Attributes := {}
  deriving DecidableEq, Repr

/-- Go `AccountResource`: the envelope of one account. -/
structure AccountResource where
  Data : Account := {}
  deriving DecidableEq, Repr

/-- Go `AccountsResource`: the envelope of a sequence of accounts (`none` is
the nil slice). -/
structure AccountsResource where
  Data : Option (Slice Account) := none
  deriving DecidableEq, Repr

/-- Go `errorDetail`: the error document of the service. -/
structure errorDetail where
  ErrorCode : GoString := []
  ErrorMsg : GoString := []
  deriving DecidableEq, Repr

/-- Go `PageOpts`; `PageNumOpt` is `*string` and `PageSizeOpt` is `*int64`, a
nil pointer being `none`. -/
structure PageOpts where
  Number : Option GoString := none
  Size : Option Int := none
  deriving DecidableEq, Repr

/-- Go `PageNumOptOf`. -/
def PageNumOptOf (v : GoString) : Option GoString := some v

/-- Go `PageSizeOptOf`. -/
def PageSizeOptOf (v : Int) : Option Int := some v

/-- The least `int64`. -/
def minInt64 : Int := -9223372036854775808

/-- The greatest `int64`. -/
def maxInt64 : Int := 9223372036854775807

/-! ## `go-querystring`: `query.Values` on `*PageOpts` -/

namespace query

/-- Go `query.Values(opts)` for `opts *PageOpts`, whose fields carry the tags
`url:"page[number],omitempty"` and `url:"page[size],omitempty"`: a nil `opts`
gives no values; a field is left out when `isEmptyValue` holds of it, which for
a pointer means that it is nil; a field that is kept is added under its name
with `fmt.Sprint` of the value it points to. -/
def Values (opts : Option PageOpts) : url.Values :=
  match opts with
  | none => []
  | some o =>
    let values : url.Values := []
    let values : url.Values :=
      match o.Number with
      | none => values
      | some v => url.Values.Add values (str "page[number]") v
    match o.Size with
    | none => values
    | some v => url.Values.Add values (str "page[size]") (formatInt v)

end query

/-! ## `unicode/utf8` -/

namespace utf8

/-- Whether `lo ≤ x ≤ hi`. -/
def inRange (lo hi : Nat) (x : Byte) : Bool := lo ≤ x.val && x.val ≤ hi

/-- Go `utf8.DecodeRune` at the head of `p`: the rune and the number of bytes
of a well-formed encoding, or `none` where Go returns `(RuneError, 1)`. -/
def DecodeRune : GoString → Option (Nat × Nat)
  | [] => none
  | p0 :: rest =>
    let v := p0.val
    if v < 0x80 then some (v, 1)
    else if v < 0xC2 then none
    else if v < 0xE0 then
      match rest with
      | b1 :: _ => if inRange 0x80 0xBF b1 then some (v % 32 * 64 + b1.val % 64, 2) else none
      | _ => none
    else if v < 0xF0 then
      match rest with
      | b1 :: b2 :: _ =>
        if inRange (if v = 0xE0 then 0xA0 else 0x80) (if v = 0xED then 0x9F else 0xBF) b1 &&
            inRange 0x80 0xBF b2 then
          some (v % 16 * 4096 + b1.val % 64 * 64 + b2.val % 64, 3)
        else none
      | _ => none
    else if v < 0xF5 then
      match rest with
      | b1 :: b2 :: b3 :: _ =>
        if inRange (if v = 0xF0 then 0x90 else 0x80) (if v = 0xF4 then 0x8F else 0xBF) b1 &&
            inRange 0x80 0xBF b2 && inRange 0x80 0xBF b3 then
          some (v % 8 * 262144 + b1.val % 64 * 4096 + b2.val % 64 * 64 + b3.val % 64, 4)
        else none
      | _ => none
    else none

/-- Go `utf8.EncodeRune`: surrogates and values above U+10FFFF are written
as U+FFFD. -/
def EncodeRune (r : Nat) : GoString :=
  if (0xD800 ≤ r ∧ r < 0xE000) ∨ 0x10FFFF < r then utf8EncodeRune 0xFFFD else utf8EncodeRune r

end utf8

/-! ## `encoding/json`: encoding -/

namespace json

/-- The double quote. -/
def quote : Byte := 34

/-- The backslash. -/
def backslash : Byte := 92

/-- Go `hex[n]` of `encoding/json` (lower case) for `n < 16`. -/
def hex (n : Nat) : Byte :=
  if n < 10 then Fin.ofNat ('0'.toNat + n) else Fin.ofNat ('a'.toNat + (n - 10))

/-- Go `htmlSafeSet[c]` for an ASCII byte: printable, and none of the double
quote, the backslash, `<`, `>`, `&`. -/
def htmlSafe (c : Byte) : Bool :=
  0x20 ≤ c.val && c.val < 0x80 && c ≠ quote && c ≠ backslash && !url.oneOf c "<>&"

/-- The loop of `encodeState.string` with HTML escaping on. `skip` counts the
remaining bytes of a rune whose first byte was handled; they are copied when
`copy` holds and dropped otherwise. -/
def encodeStringLoop : Nat → Bool → GoString → GoString
  | _, _, [] => []
  | skip + 1, copy, c :: rest =>
    if copy then c :: encodeStringLoop skip copy rest else encodeStringLoop skip copy rest
  | 0, _, c :: rest =>
    if c.val < 0x80 then
      if htmlSafe c then c :: encodeStringLoop 0 true rest
      else if c = backslash ∨ c = quote then backslash :: c :: encodeStringLoop 0 true rest
      else if c.val = 10 then backslash :: b 'n' :: encodeStringLoop 0 true rest
      else if c.val = 13 then backslash :: b 'r' :: encodeStringLoop 0 true rest
      else if c.val = 9 then backslash :: b 't' :: encodeStringLoop 0 true rest
      else
        backslash :: b 'u' :: b '0' :: b '0' :: hex (c.val / 16) :: hex (c.val % 16) ::
          encodeStringLoop 0 true rest
    else
      match utf8.DecodeRune (c :: rest) with
      | none => backslash :: str "ufffd" ++ encodeStringLoop 0 true rest
      | some (r, size) =>
        if r = 0x2028 ∨ r = 0x2029 then
          backslash :: str "u202" ++ hex (r % 16) :: encodeStringLoop (size - 1) false rest
        else c :: encodeStringLoop (size - 1) true rest

/-- A Go string as a JSON string (`encodeState.string`, HTML escaping on). -/
def encodeString (s : GoString) : GoString := quote :: encodeStringLoop 0 true s ++ [quote]

/-- A `[]string` as JSON: `null` for the nil slice, else an array. -/
def encodeStrings : Option (Slice GoString) → GoString
  | none => str "null"
  | some xs => b '[' :: strings.Join (b ',') (xs.map encodeString) ++ [b ']']

/-- A `bool` as JSON. -/
def encodeBool (v : Bool) : GoString := if v then str "true" else str "false"

/-- A struct as a JSON object: its fields in the order of declaration, each
under the name of its `json` tag; 123 and 125 are the braces. -/
def encodeObject (fields : List (String × GoString)) : GoString :=
  (123 : Byte) ::
    strings.Join (b ',') (fields.map (fun f => quote :: str f.1 ++ quote :: b ':' :: f.2)) ++
    [(125 : Byte)]

/-- JSON of an `Attributes` value. -/
def encodeAttributes (a : Attributes) : GoString :=
  encodeObject
    [("country", encodeString a.Country),
     ("base_currency", encodeString a.BaseCurrency),
     ("bank_id", encodeString a.BankID),
     ("bank_id_code", encodeString a.BankIDCode),
     ("account_number", encodeString a.AccountNumber),
     ("bic", encodeString a.BIC),
     ("iban", encodeString a.IBAN),
     ("customer_id", encodeString a.CustomerID),
     ("title", encodeString a.Title),
     ("first_name", encodeString a.FirstName),
     ("bank_account_name", encodeString a.BankAccountName),
     ("alternative_bank_account_names", encodeStrings a.AlternativeBankAccountNames),
     ("account_classification", encodeString a.AccountClassification),
     ("joint_account", encodeBool a.JointAccount),
     ("account_matching_opt_out", encodeBool a.AccountMatchingOptOut),
     ("secondary_identification", encodeString a.SecondaryIdentification)]

/-- JSON of an `Account` value. -/
def encodeAccount (a : Account) : GoString :=
  encodeObject
    [("id", encodeString a.ID),
     ("organisation_id", encodeString a.OrganisationID),
     ("type", encodeString a.Type_),
     ("version", formatInt a.Version),
     ("attributes", encodeAttributes a.Attributes)]

/-- Go `json.Marshal` of a `*AccountResource` (`null` for the nil pointer). -/
def Marshal : Option AccountResource → GoString
  | none => str "null"
  | some r => encodeObject [("data", encodeAccount r.Data)]

/-- Go `json.NewEncoder(buf).Encode(v)` for `v *AccountResource`: what is
written to the buffer, the JSON text and a newline. -/
def Encode (v : Option AccountResource) : GoString := Marshal v ++ [(10 : Byte)]

/-! ## `encoding/json`: scanning one value -/

/-- A JSON value as the decoder reads it: strings unquoted, numbers as their
literal text, the members of an object in the order of the text. -/
inductive Value
  | null
  | bool (v : Bool)
  | number (lit : GoString)
  | string (s : GoString)
  | array (elems : List Value)
  | object (members : List (GoString × Value))

/-- Why the scanner stopped without a value: the text ended too early, or a
byte cannot continue a JSON text. -/
inductive ScanError
  | incomplete
  | invalid
  deriving DecidableEq, Repr

/-- Go `isSpace` of the scanner: space, tab, carriage return, line feed. -/
def isSpace (c : Byte) : Bool := c.val = 32 || c.val = 9 || c.val = 13 || c.val = 10

/-- The text after its leading white space. -/
def skipSpace (s : GoString) : GoString := s.dropWhile isSpace

/-- Decimal digit. -/
def isDigit (c : Byte) : Bool := '0'.toNat ≤ c.val && c.val ≤ '9'.toNat

/-- The rest of the literal `lit` (`true`, `false`, `null` after their first
letter) at the head of the input. -/
def scanLiteral : GoString → GoString → Except ScanError GoString
  | [], input => .ok input
  | _ :: _, [] => .error .incomplete
  | l :: ls, c :: cs => if c = l then scanLiteral ls cs else .error .invalid

/-- The optional fraction of a number: its text and the rest. -/
def scanFraction (s : GoString) : Except ScanError (GoString × GoString) :=
  match s with
  | [] => .ok ([], [])
  | c :: cs =>
    if c = b '.' then
      match cs with
      | [] => .error .incomplete
      | d :: _ =>
        if isDigit d then .ok (c :: cs.takeWhile isDigit, cs.dropWhile isDigit)
        else .error .invalid
    else .ok ([], s)

/-- The digits of an exponent after `e` and its optional sign. -/
def scanExponentDigits (pre s : GoString) : Except ScanError (GoString × GoString) :=
  match s with
  | [] => .error .incomplete
  | d :: _ =>
    if isDigit d then .ok (pre ++ s.takeWhile isDigit, s.dropWhile isDigit) else .error .invalid

/-- The optional exponent of a number: its text and the rest. -/
def scanExponent (s : GoString) : Except ScanError (GoString × GoString) :=
  match s with
  | [] => .ok ([], [])
  | c :: cs =>
    if c = b 'e' ∨ c = b 'E' then
      match cs with
      | [] => .error .incomplete
      | g :: gs =>
        if g = b '+' ∨ g = b '-' then scanExponentDigits [c, g] gs
        else scanExponentDigits [c] cs
    else .ok ([], s)

/-- A number literal at the head of the input: its text and the rest. -/
def scanNumber (input : GoString) : Except ScanError (GoString × GoString) :=
  let sign : GoString := if input.head? = some (b '-') then [b '-'] else []
  let s1 : GoString := if input.head? = some (b '-') then input.tail else input
  match s1 with
  | [] => .error .incomplete
  | c :: s2 =>
    if !isDigit c then .error .invalid
    else
      let int : GoString := if c = b '0' then [c] else c :: s2.takeWhile isDigit
      let s3 : GoString := if c = b '0' then s2 else s2.dropWhile isDigit
      match scanFraction s3 with
      | .error e => .error e
      | .ok (frac, s4) =>
        match scanExponent s4 with
        | .error e => .error e
        | .ok (exp, s5) => .ok (sign ++ int ++ frac ++ exp, s5)

/-- A string literal after its opening quote: the text up to the closing
quote, escapes still in place, and the rest. -/
def scanString : GoString → Except ScanError (GoString × GoString)
  | [] => .error .incomplete
  | c :: rest =>
    if c = quote then .ok ([], rest)
    else if c = backslash then
      match rest with
      | [] => .error .incomplete
      | e :: rest1 =>
        if url.oneOf e "bfnrt/" || e = backslash || e = quote then
          (scanString rest1).map (fun r => (c :: e :: r.1, r.2))
        else if e = b 'u' then
          match rest1 with
          | h1 :: h2 :: h3 :: h4 :: rest2 =>
            if url.ishex h1 && url.ishex h2 && url.ishex h3 && url.ishex h4 then
              (scanString rest2).map (fun r => (c :: e :: h1 :: h2 :: h3 :: h4 :: r.1, r.2))
            else .error .invalid
          | _ => if rest1.all url.ishex then .error .incomplete else .error .invalid
        else .error .invalid
    else if c.val < 0x20 then .error .invalid
    else (scanString rest).map (fun r => (c :: r.1, r.2))

/-- The rune written as four hexadecimal digits. -/
def hex4 (h1 h2 h3 h4 : Byte) : Nat :=
  ((url.unhex h1 * 16 + url.unhex h2) * 16 + url.unhex h3) * 16 + url.unhex h4

/-- Go `getu4`: the rune of a `\uXXXX` escape at the head of `s`, if there
is one. -/
def getu4 (s : GoString) : Option Nat :=
  match s with
  | c :: e :: h1 :: h2 :: h3 :: h4 :: _ =>
    if c = backslash ∧ e = b 'u' ∧
        (url.ishex h1 && url.ishex h2 && url.ishex h3 && url.ishex h4) then
      some (hex4 h1 h2 h3 h4)
    else none
  | _ => none

/-- Go `utf16.DecodeRune(rr, rr1)` where `rr1` is the escape that follows, if
any: the rune of a valid surrogate pair. -/
def surrogatePair (rr : Nat) (next : Option Nat) : Option Nat :=
  match next with
  | some rr1 =>
    if 0xD800 ≤ rr ∧ rr < 0xDC00 ∧ 0xDC00 ≤ rr1 ∧ rr1 < 0xE000 then
      some ((rr - 0xD800) * 1024 + (rr1 - 0xDC00) + 0x10000)
    else none
  | none => none

/-- Go `unquoteBytes` on the inside of a string literal the scanner accepted:
escapes are replaced, a surrogate pair of `\u` escapes becomes one rune, a lone
surrogate and every byte that is not well-formed UTF-8 become U+FFFD. `skip`
counts bytes already accounted for: the rest of a rune being copied (`copy`),
or the second escape of a surrogate pair, which is dropped. -/
def unquoteLoop : Nat → Bool → GoString → GoString
  | _, _, [] => []
  | skip + 1, copy, c :: rest =>
    if copy then c :: unquoteLoop skip copy rest else unquoteLoop skip copy rest
  | 0, _, c :: rest =>
    if c = backslash then
      match rest with
      | [] => []
      | e :: rest1 =>
        if e = b 'u' then
          match rest1 with
          | h1 :: h2 :: h3 :: h4 :: rest2 =>
            if 0xD800 ≤ hex4 h1 h2 h3 h4 ∧ hex4 h1 h2 h3 h4 < 0xE000 then
              match surrogatePair (hex4 h1 h2 h3 h4) (getu4 rest2) with
              | some dec => utf8.EncodeRune dec ++ unquoteLoop 6 false rest2
              | none => utf8.EncodeRune 0xFFFD ++ unquoteLoop 0 true rest2
            else utf8.EncodeRune (hex4 h1 h2 h3 h4) ++ unquoteLoop 0 true rest2
          | _ => []
        else if e = b 'b' then (8 : Byte) :: unquoteLoop 0 true rest1
        else if e = b 'f' then (12 : Byte) :: unquoteLoop 0 true rest1
        else if e = b 'n' then (10 : Byte) :: unquoteLoop 0 true rest1
        else if e = b 'r' then (13 : Byte) :: unquoteLoop 0 true rest1
        else if e = b 't' then (9 : Byte) :: unquoteLoop 0 true rest1
        else e :: unquoteLoop 0 true rest1
    else if c.val < 0x80 then c :: unquoteLoop 0 true rest
    else
      match utf8.DecodeRune (c :: rest) with
      | none => utf8.EncodeRune 0xFFFD ++ unquoteLoop 0 true rest
      | some (_, size) => c :: unquoteLoop (size - 1) true rest

/-- The Go string a scanned string literal stands for. -/
def unquote (raw : GoString) : GoString := unquoteLoop 0 true raw

/-- Go `maxNestingDepth`. -/
def maxNestingDepth : Nat := 10000

/-- The elements of an array from its first element on; `pv` scans one value. -/
def parseElems (pv : GoString → Except ScanError (Value × GoString)) :
    Nat → List Value → GoString → Except ScanError (Value × GoString)
  | 0, _, _ => .error .incomplete
  | fuel + 1, acc, input =>
    match pv input with
    | .error e => .error e
    | .ok (v, rest) =>
      match skipSpace rest with
      | [] => .error .incomplete
      | c :: rest1 =>
        if c = b ',' then parseElems pv fuel (acc ++ [v]) rest1
        else if c = b ']' then .ok (.array (acc ++ [v]), rest1)
        else .error .invalid

/-- The members of an object from its first key on; `pv` scans one value. -/
def parseMembers (pv : GoString → Except ScanError (Value × GoString)) :
    Nat → List (GoString × Value) → GoString → Except ScanError (Value × GoString)
  | 0, _, _ => .error .incomplete
  | fuel + 1, acc, input =>
    match skipSpace input with
    | [] => .error .incomplete
    | q :: rest0 =>
      if q ≠ quote then .error .invalid
      else
        match scanString rest0 with
        | .error e => .error e
        | .ok (raw, rest1) =>
          match skipSpace rest1 with
          | [] => .error .incomplete
          | colon :: rest2 =>
            if colon ≠ b ':' then .error .invalid
            else
              match pv rest2 with
              | .error e => .error e
              | .ok (v, rest3) =>
                match skipSpace rest3 with
                | [] => .error .incomplete
                | c :: rest4 =>
                  if c = b ',' then parseMembers pv fuel (acc ++ [(unquote raw, v)]) rest4
                  else if c = (125 : Byte) then .ok (.object (acc ++ [(unquote raw, v)]), rest4)
                  else .error .invalid

/-- One JSON value at the head of the input, after white space: the value and
the text after it. `depth` is the number of arrays and objects that are open;
`fuel` bounds the nesting and is never exhausted when it exceeds the length of
the input, every nested value starting at least one byte further on. -/
def parseValue : Nat → Nat → GoString → Except ScanError (Value × GoString)
  | 0, _, _ => .error .incomplete
  | fuel + 1, depth, input =>
    match skipSpace input with
    | [] => .error .incomplete
    | c :: rest =>
      if c = (123 : Byte) then
        if maxNestingDepth < depth + 1 then .error .invalid
        else
          match skipSpace rest with
          | [] => .error .incomplete
          | d :: rest1 =>
            if d = (125 : Byte) then .ok (.object [], rest1)
            else parseMembers (parseValue fuel (depth + 1)) fuel [] rest
      else if c = b '[' then
        if maxNestingDepth < depth + 1 then .error .invalid
        else
          match skipSpace rest with
          | [] => .error .incomplete
          | d :: rest1 =>
            if d = b ']' then .ok (.array [], rest1)
            else parseElems (parseValue fuel (depth + 1)) fuel [] rest
      else if c = quote then (scanString rest).map (fun r => (.string (unquote r.1), r.2))
      else if c = b '-' ∨ isDigit c then (scanNumber (c :: rest)).map (fun r => (.number r.1, r.2))
      else if c = b 't' then (scanLiteral (str "rue") rest).map (fun r => (.bool true, r))
      else if c = b 'f' then (scanLiteral (str "alse") rest).map (fun r => (.bool false, r))
      else if c = b 'n' then (scanLiteral (str "ull") rest).map (fun r => (.null, r))
      else .error .invalid

/-- The first JSON value of a text. -/
def readValue (data : GoString) : Except ScanError (Value × GoString) :=
  parseValue (data.length + 1) 0 data

/-! ## `encoding/json`: storing a value into Go data -/

/-- Errors returned by `(*Decoder).Decode`. -/
inductive Error
  /-- `io.EOF`: the input holds no value. -/
  | EOF
  /-- `io.ErrUnexpectedEOF`: the input ends inside a value. -/
  | ErrUnexpectedEOF
  /-- `*json.SyntaxError`. -/
  | SyntaxError
  /-- `*json.UnmarshalTypeError`, with its field `Value`. -/
  | UnmarshalTypeError (value : GoString)
  /-- The error of the reader the decoder reads from. -/
  | ReadError (msg : GoString)
  deriving DecidableEq, Repr

/-- What the decoder reads from: the bytes the reader delivers and how it
ends, with `io.EOF` (`none`) or with an error of its own. -/
structure Reader where
  data : GoString
  err : Option GoString := none
  deriving DecidableEq, Repr

/-- The error saved for a JSON value stored into Go data of another kind
(`null` is stored into anything). -/
def typeError : Value → Option Error
  | .null => none
  | .bool _ => some (.UnmarshalTypeError (str "bool"))
  | .number _ => some (.UnmarshalTypeError (str "number"))
  | .string _ => some (.UnmarshalTypeError (str "string"))
  | .array _ => some (.UnmarshalTypeError (str "array"))
  | .object _ => some (.UnmarshalTypeError (str "object"))

/-- The first of two saved errors (`saveError` keeps the first). -/
def firstError (e1 e2 : Option Error) : Option Error :=
  match e1 with
  | some e => some e
  | none => e2

/-- A value stored into a `string`. -/
def setString (cur : GoString) (v : Value) : GoString × Option Error :=
  match v with
  | .null => (cur, none)
  | .string s => (s, none)
  | other => (cur, typeError other)

/-- A value stored into a `bool`. -/
def setBool (cur : Bool) (v : Value) : Bool × Option Error :=
  match v with
  | .null => (cur, none)
  | .bool x => (x, none)
  | other => (cur, typeError other)

/-- Go `strconv.ParseInt(lit, 10, 64)` on a JSON number literal: its value
when it is an integer literal within `int64`. -/
def parseInt64 (lit : GoString) : Option Int :=
  let neg : Bool := lit.head? = some (b '-')
  let ds : GoString := if neg then lit.tail else lit
  if ds ≠ [] ∧ ds.all isDigit then
    let n : Nat := ds.foldl (fun a d => a * 10 + (d.val - '0'.toNat)) 0
    let v : Int := if neg then -(n : Int) else (n : Int)
    if minInt64 ≤ v ∧ v ≤ maxInt64 then some v else none
  else none

/-- A value stored into an `int64`. -/
def setInt64 (cur : Int) (v : Value) : Int × Option Error :=
  match v with
  | .null => (cur, none)
  | .number lit =>
    match parseInt64 lit with
    | some n => (n, none)
    | none => (cur, some (.UnmarshalTypeError (str "number " ++ lit)))
  | other => (cur, typeError other)

/-- The elements of a JSON array stored into a slice, one by one: element `i`
is stored into the element `i` the slice has, or into a zero value. -/
def setElems {α : Type} (set : α → Value → α × Option Error) (zero : α) :
    List α → List Value → List α × Option Error
  | _, [] => ([], none)
  | old, v :: vs =>
    let r := set (old.headD zero) v
    let rs := setElems set zero old.tail vs
    (r.1 :: rs.1, firstError r.2 rs.2)

/-- A value stored into a slice: `null` gives the nil slice, an array a slice
of its elements. -/
def setSlice {α : Type} (set : α → Value → α × Option Error) (zero : α)
    (cur : Option (Slice α)) (v : Value) : Option (Slice α) × Option Error :=
  match v with
  | .null => (none, none)
  | .array elems =>
    let r := setElems set zero (cur.getD []) elems
    (some r.1, r.2)
  | other => (cur, typeError other)

/-- A value stored into a struct: `null` leaves it as it is, an object stores
its members in turn through `field`. -/
def setStruct {α : Type} (field : α → GoString → Value → α × Option Error)
    (cur : α) (v : Value) : α × Option Error :=
  match v with
  | .null => (cur, none)
  | .object members =>
    members.foldl (fun st kv => let r := field st.1 kv.1 kv.2; (r.1, firstError st.2 r.2))
      (cur, none)
  | other => (cur, typeError other)

/-- Two ASCII bytes that are equal, or the two cases of one letter. -/
def foldEqByte (n k : Byte) : Bool :=
  n = k ||
    (('a'.toNat ≤ n.val && n.val ≤ 'z'.toNat) && k.val + 32 = n.val) ||
    (('A'.toNat ≤ n.val && n.val ≤ 'Z'.toNat) && k.val = n.val + 32)

/-- Go `bytes.EqualFold(name, key)` for an ASCII field name: the key is the
name up to the case of its letters, where `k` also matches the Kelvin sign
U+212A and `s` the long s U+017F. -/
def equalFold : GoString → GoString → Bool
  | [], [] => true
  | [], _ :: _ => false
  | _ :: _, [] => false
  | n :: ns, k :: ks =>
    if foldEqByte n k then equalFold ns ks
    else if (n = b 'k' ∨ n = b 'K') ∧ k.val = 0xE2 ∧ ks.take 2 = [0x84, 0xAA] then
      (match ks with
        | _ :: _ :: ks2 => equalFold ns ks2
        | _ => false)
    else if (n = b 's' ∨ n = b 'S') ∧ k.val = 0xC5 ∧ ks.take 1 = [0xBF] then
      (match ks with
        | _ :: ks1 => equalFold ns ks1
        | _ => false)
    else false

/-- Whether the key of a member selects the field with the given tag name. -/
def isField (name : String) (key : GoString) : Bool := equalFold (str name) key

/-- One member of an object stored into an `Attributes` value. -/
def attributesField (a : Attributes) (key : GoString) (v : Value) : Attributes × Option Error :=
  if isField "country" key then
    let r := setString a.Country v; ({ a with Country := r.1 }, r.2)
  else if isField "base_currency" key then
    let r := setString a.BaseCurrency v; ({ a with BaseCurrency := r.1 }, r.2)
  else if isField "bank_id" key then
    let r := setString a.BankID v; ({ a with BankID := r.1 }, r.2)
  else if isField "bank_id_code" key then
    let r := setString a.BankIDCode v; ({ a with BankIDCode := r.1 }, r.2)
  else if isField "account_number" key then
    let r := setString a.AccountNumber v; ({ a with AccountNumber := r.1 }, r.2)
  else if isField "bic" key then
    let r := setString a.BIC v; ({ a with BIC := r.1 }, r.2)
  else if isField "iban" key then
    let r := setString a.IBAN v; ({ a with IBAN := r.1 }, r.2)
  else if isField "customer_id" key then
    let r := setString a.CustomerID v; ({ a with CustomerID := r.1 }, r.2)
  else if isField "title" key then
    let r := setString a.Title v; ({ a with Title := r.1 }, r.2)
  else if isField "first_name" key then
    let r := setString a.FirstName v; ({ a with FirstName := r.1 }, r.2)
  else if isField "bank_account_name" key then
    let r := setString a.BankAccountName v; ({ a with BankAccountName := r.1 }, r.2)
  else if isField "alternative_bank_account_names" key then
    let r := setSlice setString [] a.AlternativeBankAccountNames v
    ({ a with AlternativeBankAccountNames := r.1 }, r.2)
  else if isField "account_classification" key then
    let r := setString a.AccountClassification v; ({ a with AccountClassification := r.1 }, r.2)
  else if isField "joint_account" key then
    let r := setBool a.JointAccount v; ({ a with JointAccount := r.1 }, r.2)
  else if isField "account_matching_opt_out" key then
    let r := setBool a.AccountMatchingOptOut v; ({ a with AccountMatchingOptOut := r.1 }, r.2)
  else if isField "secondary_identification" key then
    let r := setString a.SecondaryIdentification v
    ({ a with SecondaryIdentification := r.1 }, r.2)
  else (a, none)

/-- One member of an object stored into an `Account` value. -/
def accountField (a : Account) (key : GoString) (v : Value) : Account × Option Error :=
  if isField "id" key then
    let r := setString a.ID v; ({ a with ID := r.1 }, r.2)
  else if isField "organisation_id" key then
    let r := setString a.OrganisationID v; ({ a with OrganisationID := r.1 }, r.2)
  else if isField "type" key then
    let r := setString a.Type_ v; ({ a with Type_ := r.1 }, r.2)
  else if isField "version" key then
    let r := setInt64 a.Version v; ({ a with Version := r.1 }, r.2)
  else if isField "attributes" key then
    let r := setStruct attributesField a.Attributes v; ({ a with Attributes := r.1 }, r.2)
  else (a, none)

/-- One member of an object stored into an `AccountResource` value. -/
def accountResourceField (a : AccountResource) (key : GoString) (v : Value) :
    AccountResource × Option Error :=
  if isField "data" key then
    let r := setStruct accountField a.Data v; ({ a with Data := r.1 }, r.2)
  else (a, none)

/-- One member of an object stored into an `AccountsResource` value. -/
def accountsResourceField (a : AccountsResource) (key : GoString) (v : Value) :
    AccountsResource × Option Error :=
  if isField "data" key then
    let r := setSlice (setStruct accountField) {} a.Data v; ({ a with Data := r.1 }, r.2)
  else (a, none)

/-- One member of an object stored into an `errorDetail` value. -/
def errorDetailField (a : errorDetail) (key : GoString) (v : Value) :
    errorDetail × Option Error :=
  if isField "error_code" key then
    let r := setString a.ErrorCode v; ({ a with ErrorCode := r.1 }, r.2)
  else if isField "error_message" key then
    let r := setString a.ErrorMsg v; ({ a with ErrorMsg := r.1 }, r.2)
  else (a, none)

/-- The Go types the client decodes into: how a JSON value is stored into a
value of the type, with the first error saved on the way. -/
class Target (α : Type) where
  set : α → Value → α × Option Error

instance instTargetAccountResource : Target AccountResource := ⟨setStruct accountResourceField⟩

instance instTargetAccountsResource : Target AccountsResource := ⟨setStruct accountsResourceField⟩

instance instTargetErrorDetail : Target errorDetail := ⟨setStruct errorDetailField⟩

/-- The value `(*Decoder).readValue` finds at the head of what the reader
delivers. White space alone ends in `io.EOF`, a value cut short in
`io.ErrUnexpectedEOF`, or in the error of the reader when it has one. A
string, number or literal at the very end of the data is only known to be
complete when the reader then reports the end of the input. -/
def decodeValue (r : Reader) : Except Error Value :=
  match readValue r.data with
  | .ok (v, rest) =>
    match v, rest, r.err with
    | .array _, _, _ => .ok v
    | .object _, _, _ => .ok v
    | _, [], some msg => .error (.ReadError msg)
    | _, _, _ => .ok v
  | .error .invalid => .error .SyntaxError
  | .error .incomplete =>
    match r.err with
    | some msg => .error (.ReadError msg)
    | none => if r.data.all isSpace then .error .EOF else .error .ErrUnexpectedEOF

/-- Go `json.NewDecoder(r).Decode(&v)` where `v` holds a pointer to `cur`: the
value pointed to after the call, and the error returned. Nothing is stored
when no value can be read; an error saved while storing is returned after the
rest has been stored. -/
def Decode {α : Type} [Target α] (r : Reader) (cur : α) : α × Option Error :=
  match decodeValue r with
  | .error e => (cur, some e)
  | .ok v => Target.set cur v

end json

/-! ## `net/http`: requests and responses -/

namespace http

/-- Go `http.Header`: canonical key to values. -/
abbrev Header := List (GoString × Slice GoString)

/-- Token characters of RFC 7230 (`httpguts.IsTokenRune`); 39 is the
apostrophe and 96 the grave accent. -/
def isTokenByte (c : Byte) : Bool :=
  url.isAlnum c || url.oneOf c "!#$%&*+-.^_|~" || c.val = 39 || c.val = 96

/-- Go `http.validMethod`. -/
def validMethod (method : GoString) : Bool := method ≠ [] && method.all isTokenByte

/-- The second loop of `textproto.canonicalMIMEHeaderKey`: the first letter
and every letter after a dash in upper case, the others in lower case. -/
def canonicalLoop : Bool → GoString → GoString
  | _, [] => []
  | upper, c :: cs =>
    let c1 : Byte :=
      if upper ∧ 'a'.toNat ≤ c.val ∧ c.val ≤ 'z'.toNat then Fin.ofNat (c.val - 32)
      else if !upper ∧ 'A'.toNat ≤ c.val ∧ c.val ≤ 'Z'.toNat then Fin.ofNat (c.val + 32)
      else c
    c1 :: canonicalLoop (c1 = b '-') cs

/-- Go `textproto.CanonicalMIMEHeaderKey`: a key with a byte that is no token
character is returned as it is. -/
def CanonicalMIMEHeaderKey (key : GoString) : GoString :=
  if key.all isTokenByte then canonicalLoop true key else key

/-- Replace the values of `key`, or add the key at the end. -/
def Header.put : Header → GoString → Slice GoString → Header
  | [], key, vs => [(key, vs)]
  | (k, old) :: rest, key, vs =>
    if k = key then (k, vs) :: rest else (k, old) :: Header.put rest key vs

/-- Go `Header.Set(key, value)`. -/
def Header.Set (h : Header) (key value : GoString) : Header :=
  Header.put h (CanonicalMIMEHeaderKey key) [value]

/-- Go `Header.Values(key)`. -/
def Header.Values (h : Header) (key : GoString) : Slice GoString :=
  url.Values.lookup h (CanonicalMIMEHeaderKey key)

/-- Go `Header.Get(key)`. -/
def Header.Get (h : Header) (key : GoString) : GoString := (Header.Values h key).headD []

/-- Go `http.Request`, as `http.NewRequest` fills it: `Body` is `none` when no
body is sent, else the bytes of the body. -/
structure Request where
  Method : GoString
  URL : url.URL
  Header : Header := []
  Body : Option GoString := none
  Host : GoString := []
  deriving DecidableEq, Repr

/-- The body of a response (`io.ReadCloser`): the bytes it delivers, the
error that ends them in place of `io.EOF` if any, whether it has been closed,
and the error `Close` returns if any. -/
structure Body where
  data : GoString := []
  readErr : Option GoString := none
  closed : Bool := false
  closeErr : Option GoString := none
  deriving DecidableEq, Repr

/-- Go `http.Response`: `Request` is the request that was sent to obtain it. -/
structure Response where
  StatusCode : Int
  Body : Body := {}
  Request : Request
  deriving DecidableEq, Repr

/-- Go `http.Client`, by what `Do` answers to a request: the error of the
round trip, or the response. -/
structure Client where
  Do : Request → Except GoString Response

/-- The error "http: read on closed response body", which a read from the
closed body of a response returns. -/
def errReadOnClosedResBody : GoString := str "http: read on closed response body"

/-- What a decoder reads from the body: its bytes while it is open, the error
`errReadOnClosedResBody` once it is closed. -/
def Body.reader (body : Body) : json.Reader :=
  if body.closed then { data := [], err := some errReadOnClosedResBody }
  else { data := body.data, err := body.readErr }

/-- Go `resp.Body.Close()`: the body after the call and the error returned. -/
def Body.Close (body : Body) : Body × Option GoString :=
  ({ body with closed := true }, body.closeErr)

/-- Go `http.removeEmptyPort`. -/
def removeEmptyPort (host : GoString) : GoString :=
  let colon := strings.LastIndexByte (b ':') host
  let bracket := strings.LastIndexByte (b ']') host
  let hasPort : Bool :=
    match colon, bracket with
    | some i, some j => j < i
    | some _, none => true
    | none, _ => false
  if hasPort then strings.TrimSuffix host (str ":") else host

/-- Errors of `http.NewRequest`. -/
inductive RequestError
  /-- The error "net/http: invalid method". -/
  | invalidMethod (method : GoString)
  /-- The error of `url.Parse`. -/
  | parse (e : url.Error)
  deriving DecidableEq, Repr

/-- Go `http.NewRequest(method, url, body)`. -/
def NewRequest (method urlStr : GoString) (body : Option GoString) :
    Except RequestError Request :=
  let method := if method = [] then str "GET" else method
  if !validMethod method then .error (.invalidMethod method)
  else
    match url.Parse urlStr with
    | .error e => .error (.parse e)
    | .ok u =>
      let u : url.URL := { u with Host := removeEmptyPort u.Host }
      .ok { Method := method, URL := u, Header := [], Body := body, Host := u.Host }

/-- Go `http.MethodGet`. -/
def MethodGet : GoString := str "GET"

/-- Go `http.MethodPost`. -/
def MethodPost : GoString := str "POST"

/-- Go `http.MethodDelete`. -/
def MethodDelete : GoString := str "DELETE"

/-- Go `http.StatusOK`. -/
def StatusOK : Int := 200

/-- Go `http.StatusCreated`. -/
def StatusCreated : Int := 201

/-- Go `http.StatusNoContent`. -/
def StatusNoContent : Int := 204

/-- Go `http.StatusBadRequest`. -/
def StatusBadRequest : Int := 400

/-- Go `http.StatusNotFound`. -/
def StatusNotFound : Int := 404

/-- Go `http.StatusConflict`. -/
def StatusConflict : Int := 409

/-- Go `http.StatusInternalServerError`. -/
def StatusInternalServerError : Int := 500

end http

/-! ## `client.go` -/

/-- The Go `error` values the operations return: the five errors declared by
the client, and the errors handed on from `http.NewRequest`, from the round
trip, from the JSON decoder and from closing the body of the response. -/
inductive Error
  /-- Go `ErrNotFound` ("not found"). -/
  | ErrNotFound
  /-- Go `ErrConflict` ("conflict"). -/
  | ErrConflict
  /-- Go `ErrBadInput` ("bad input"). -/
  | ErrBadInput
  /-- Go `ErrServerError` ("internal server error"). -/
  | ErrServerError
  /-- Go `ErrUnknown` ("unknown"). -/
  | ErrUnknown
  /-- An error of `http.NewRequest`. -/
  | request (e : http.RequestError)
  /-- An error of `httpClient.Do`. -/
  | transport (msg : GoString)
  /-- An error of `json.NewDecoder(resp.Body).Decode`. -/
  | decode (e : json.Error)
  /-- An error of `resp.Body.Close`. -/
  | close (msg : GoString)
  deriving DecidableEq, Repr

/-- Go `Client`: the consumer interface to the Accounts API. -/
structure Client where
  BaseURL : url.URL
  httpClient : Option http.Client := none

/-- What `log.Printf` is called with in `logError`: the first format
("failed to decode error response. request: %s. error: %s") with its request
URL and error, or the second ("failed to call Account api. request: %s. error:
%s %s") with its request URL, error code and error message. -/
inductive LogEntry
  | decodeFailed (request : GoString) (err : json.Error)
  | callFailed (request : GoString) (errorCode errorMsg : GoString)
  deriving DecidableEq, Repr

/-- What a call of `do` leaves behind: the client after the call, the requests
handed to the transport, the `(*http.Response, error)` returned, and the value
`v` points to after the call (`none` for a nil `v`). -/
structure DoResult (α : Type) where
  client : Client
  sent : Slice http.Request
  out : Except Error http.Response
  v : Option α

/-- What a call of an operation leaves behind: the pointer and the error
returned, the client after the call, the requests handed to the transport and
the entries written to the log. -/
structure Result (α : Type) where
  ret : Option α
  err : Option Error
  client : Client
  sent : Slice http.Request
  log : Slice LogEntry

/-- Go `(*Client).newRequest`. The `body` is the `interface{}` of the source:
`none` for nil, else the `*AccountResource` it holds. -/
def Client.newRequest (c : Client) (method path qryString : GoString)
    (body : Option (Option AccountResource)) : Except Error http.Request :=
  let rel : url.URL := { Path := path }
  let rel : url.URL := if qryString ≠ [] then { rel with RawQuery := qryString } else rel
  let u := c.BaseURL.ResolveReference rel
  let buf : Option GoString := body.map json.Encode
  match http.NewRequest method u.String buf with
  | .error e => .error (.request e)
  | .ok req =>
    let req : http.Request :=
      if body.isSome then
        { req with Header := req.Header.Set (str "Content-Type") (str "application/vnd.api+json") }
      else req
    let req : http.Request :=
      { req with Header := req.Header.Set (str "Accept") (str "application/vnd.api+json") }
    let req : http.Request :=
      { req with Header := req.Header.Set (str "User-Agent") (str "Accounts API Go client") }
    .ok req

/-- Go `(*Client).do`. `DefaultClient` is `http.DefaultClient`. -/
def Client.do {α : Type} [json.Target α] (DefaultClient : http.Client) (c : Client)
    (req : http.Request) (v : Option α) : DoResult α :=
  let c : Client :=
    if c.httpClient.isNone then { c with httpClient := some DefaultClient } else c
  let httpClient : http.Client := c.httpClient.getD DefaultClient
  match httpClient.Do req with
  | .error e => { client := c, sent := [req], out := .error (.transport e), v := v }
  | .ok resp =>
    let decoded : Option (α × Option json.Error) := v.map (json.Decode resp.Body.reader)
    match decoded with
    | some (v1, some e) => { client := c, sent := [req], out := .error (.decode e), v := some v1 }
    | _ =>
      let closed := resp.Body.Close
      let resp : http.Response := { resp with Body := closed.1 }
      match closed.2 with
      | some e =>
        { client := c, sent := [req], out := .error (.close e), v := decoded.map (fun d => d.1) }
      | none => { client := c, sent := [req], out := .ok resp, v := decoded.map (fun d => d.1) }

/-- Go `logError`: the entries written to the log. -/
def logError (resp : http.Response) : Slice LogEntry :=
  let decoded := json.Decode resp.Body.reader ({} : errorDetail)
  let errDetail := decoded.1
  let first : Slice LogEntry :=
    match decoded.2 with
    | some err => [.decodeFailed resp.Request.URL.String err]
    | none => []
  first ++ [.callFailed resp.Request.URL.String errDetail.ErrorCode errDetail.ErrorMsg]

/-- Go `(*Client).Create`. -/
def Client.Create (DefaultClient : http.Client) (c : Client)
    (account : Option AccountResource) : Result AccountResource :=
  let path := str "/v1/organisation/accounts"
  match c.newRequest http.MethodPost path [] (some account) with
  | .error err => { ret := none, err := some err, client := c, sent := [], log := [] }
  | .ok req =>
    let r := c.do DefaultClient req (some ({} : AccountResource))
    match r.out with
    | .error err => { ret := none, err := some err, client := r.client, sent := r.sent, log := [] }
    | .ok resp =>
      let created : AccountResource := r.v.getD {}
      if resp.StatusCode = http.StatusCreated then
        { ret := some created, err := none, client := r.client, sent := r.sent, log := [] }
      else if resp.StatusCode = http.StatusConflict then
        { ret := none, err := some .ErrConflict, client := r.client, sent := r.sent, log := [] }
      else if resp.StatusCode ≥ http.StatusInternalServerError then
        { ret := none, err := some .ErrServerError, client := r.client, sent := r.sent,
          log := logError resp }
      else if resp.StatusCode ≥ http.StatusBadRequest then
        { ret := none, err := some .ErrBadInput, client := r.client, sent := r.sent,
          log := logError resp }
      else
        { ret := none, err := some .ErrUnknown, client := r.client, sent := r.sent,
          log := logError resp }

/-- Go `(*Client).Fetch`. -/
def Client.Fetch (DefaultClient : http.Client) (c : Client) (accountID : GoString) :
    Result AccountResource :=
  let path := str "/v1/organisation/accounts/" ++ accountID
  match c.newRequest http.MethodGet path [] none with
  | .error err => { ret := none, err := some err, client := c, sent := [], log := [] }
  | .ok req =>
    let r := c.do DefaultClient req (some ({} : AccountResource))
    match r.out with
    | .error err => { ret := none, err := some err, client := r.client, sent := r.sent, log := [] }
    | .ok resp =>
      let account : AccountResource := r.v.getD {}
      if resp.StatusCode = http.StatusOK then
        { ret := some account, err := none, client := r.client, sent := r.sent, log := [] }
      else if resp.StatusCode = http.StatusNotFound then
        { ret := none, err := some .ErrNotFound, client := r.client, sent := r.sent, log := [] }
      else if resp.StatusCode ≥ http.StatusInternalServerError then
        { ret := none, err := some .ErrServerError, client := r.client, sent := r.sent,
          log := logError resp }
      else if resp.StatusCode ≥ http.StatusBadRequest then
        { ret := none, err := some .ErrBadInput, client := r.client, sent := r.sent,
          log := logError resp }
      else
        { ret := none, err := some .ErrUnknown, client := r.client, sent := r.sent,
          log := logError resp }

/-- Go `(*Client).List`. -/
def Client.List (DefaultClient : http.Client) (c : Client) (opts : Option PageOpts) :
    Result AccountsResource :=
  let qryParams := query.Values opts
  let qryString : GoString := if qryParams.length > 0 then url.Values.Encode qryParams else []
  match c.newRequest http.MethodGet (str "/v1/organisation/accounts") qryString none with
  | .error err => { ret := none, err := some err, client := c, sent := [], log := [] }
  | .ok req =>
    let r := c.do DefaultClient req (some ({} : AccountsResource))
    match r.out with
    | .error err => { ret := none, err := some err, client := r.client, sent := r.sent, log := [] }
    | .ok resp =>
      let accounts : AccountsResource := r.v.getD {}
      if resp.StatusCode = http.StatusOK then
        { ret := some accounts, err := none, client := r.client, sent := r.sent, log := [] }
      else if resp.StatusCode ≥ http.StatusInternalServerError then
        { ret := none, err := some .ErrServerError, client := r.client, sent := r.sent,
          log := logError resp }
      else if resp.StatusCode ≥ http.StatusBadRequest then
        { ret := none, err := some .ErrBadInput, client := r.client, sent := r.sent,
          log := logError resp }
      else
        { ret := none, err := some .ErrUnknown, client := r.client, sent := r.sent,
          log := logError resp }

/-- Go `(*Client).Delete`. It returns an error only: `ret` is never set. -/
def Client.Delete (DefaultClient : http.Client) (c : Client) (accountID : GoString)
    (version : Int) : Result Empty :=
  let path := str "/v1/organisation/accounts/" ++ accountID
  let qryString := str "version=" ++ formatInt version
  match c.newRequest http.MethodDelete path qryString none with
  | .error err => { ret := none, err := some err, client := c, sent := [], log := [] }
  | .ok req =>
    let r := c.do DefaultClient req (none : Option errorDetail)
    match r.out with
    | .error err => { ret := none, err := some err, client := r.client, sent := r.sent, log := [] }
    | .ok resp =>
      if resp.StatusCode = http.StatusNoContent then
        { ret := none, err := none, client := r.client, sent := r.sent, log := [] }
      else if resp.StatusCode = http.StatusNotFound then
        { ret := none, err := some .ErrNotFound, client := r.client, sent := r.sent, log := [] }
      else if resp.StatusCode = http.StatusConflict then
        { ret := none, err := some .ErrConflict, client := r.client, sent := r.sent, log := [] }
      else if resp.StatusCode ≥ http.StatusInternalServerError then
        { ret := none, err := some .ErrServerError, client := r.client, sent := r.sent,
          log := logError resp }
      else if resp.StatusCode ≥ http.StatusBadRequest then
        { ret := none, err := some .ErrBadInput, client := r.client, sent := r.sent,
          log := logError resp }
      else
        { ret := none, err := some .ErrUnknown, client := r.client, sent := r.sent,
          log := logError resp }

/-! ## Auxiliary definitions for the statements -/

/-- The transport a call goes through: the HTTP client of the client, or
`http.DefaultClient` when it has none. -/
def Client.transport (DefaultClient : http.Client) (c : Client) : http.Client :=
  c.httpClient.getD DefaultClient

/-- The five errors the client declares. -/
def Error.declared : Slice Error :=
  [.ErrNotFound, .ErrConflict, .ErrBadInput, .ErrServerError, .ErrUnknown]

/-- The requests handed to the transport when `newRequest` returned `x`. -/
def sentOf (x : Except Error http.Request) : Slice http.Request :=
  match x with
  | .ok req => [req]
  | .error _ => []

/-- The query string `List` computes from its options. -/
def listQuery (opts : Option PageOpts) : GoString :=
  if (query.Values opts).length > 0 then url.Values.Encode (query.Values opts) else []

/-- The error the shared `default` branch of the four operations returns for
the status `s`. -/
def defaultError (s : Int) : Error :=
  if s ≥ 500 then .ErrServerError else if s ≥ 400 then .ErrBadInput else .ErrUnknown

/-! ## Concrete clients, requests and responses -/

/-- The base URL `http://localhost:8080`. -/
def exampleBaseURL : url.URL := { Scheme := str "http", Host := str "localhost:8080" }

/-- The request the client builds on `exampleBaseURL` for a method, a path, a
query string and a body. -/
def exampleRequest (method path qry : GoString) (body : Option GoString) : http.Request :=
  { Method := method
    URL := { Scheme := str "http", Host := str "localhost:8080", Path := path, RawQuery := qry }
    Header :=
      (if body.isSome then [(str "Content-Type", [str "application/vnd.api+json"])] else []) ++
        [(str "Accept", [str "application/vnd.api+json"]),
         (str "User-Agent", [str "Accounts API Go client"])]
    Body := body
    Host := str "localhost:8080" }

/-- The response with a status and a body to a request. -/
def exampleResponse (status : Int) (body : GoString) (req : http.Request) : http.Response :=
  { StatusCode := status, Body := { data := body }, Request := req }

/-- A transport that answers every request with a status and a body. -/
def exampleTransport (status : Int) (body : GoString) : http.Client :=
  ⟨fun req => .ok (exampleResponse status body req)⟩

/-- A transport whose round trip fails. -/
def failingTransport (msg : GoString) : http.Client := ⟨fun _ => .error msg⟩

/-- A client on `exampleBaseURL` whose transport answers with a status and a
body. -/
def exampleClient (status : Int) (body : GoString) : Client :=
  { BaseURL := exampleBaseURL, httpClient := some (exampleTransport status body) }

/-- A client on `exampleBaseURL` whose transport fails. -/
def failingClient (msg : GoString) : Client :=
  { BaseURL := exampleBaseURL, httpClient := some (failingTransport msg) }

/-- An account envelope. -/
def exampleAccount : AccountResource :=
  { Data :=
      { ID := str "ad27e265-9605-4b4b-a0e5-3003ea9cc4dc"
        OrganisationID := str "eb0bd6f5-c3f5-44b2-b677-acd23cdde73c"
        Type_ := str "accounts"
        Version := 0
        Attributes :=
          { Country := str "GB", BaseCurrency := str "GBP", BankID := str "400300",
            AlternativeBankAccountNames := some [str "Sam Holder"] } } }

/-- The error document the service sends with a conflict. -/
def exampleErrorDocument : GoString :=
  str "\x7b\"error_code\":\"409\",\"error_message\":\"Conflict\"\x7d"

/-- The request `Create` builds on `exampleBaseURL` for `exampleAccount`. -/
def exampleCreateRequest : http.Request :=
  exampleRequest (str "POST") (str "/v1/organisation/accounts") []
    (some (json.Encode (some exampleAccount)))

/-- The identifier of `exampleAccount`. -/
def exampleID : GoString := str "ad27e265-9605-4b4b-a0e5-3003ea9cc4dc"

/-- The request `Fetch` builds on `exampleBaseURL` for `exampleID`. -/
def exampleFetchRequest : http.Request :=
  exampleRequest (str "GET") (str "/v1/organisation/accounts/" ++ exampleID) [] none

/-- The request `List` builds on `exampleBaseURL` without options. -/
def exampleListRequest : http.Request :=
  exampleRequest (str "GET") (str "/v1/organisation/accounts") [] none

/-- The request `Delete` builds on `exampleBaseURL` for `exampleID` and
version 0. -/
def exampleDeleteRequest : http.Request :=
  exampleRequest (str "DELETE") (str "/v1/organisation/accounts/" ++ exampleID)
    (str "version=0") none

/-- The envelope of an empty sequence of accounts, as JSON. -/
def exampleEmptyList : GoString := str "\x7b\"data\":[]\x7d"

/-! ## Well-formed base URLs and texts of a URL -/

/-- Control bytes (`stringContainsCTLByte`). -/
def isCTL (c : Byte) : Bool := c.val < ' '.toNat || c.val = 0x7f

/-- Bytes that may stand in a part of the text of a URL without ending it: no
control byte, no `#`, no `?`. -/
def urlTextByte (c : Byte) : Bool := !isCTL c && c ≠ b '#' && c ≠ b '?'

/-- Bytes a query string may hold without being cut short: no control byte
and no `#`. -/
def queryTextByte (c : Byte) : Bool := !isCTL c && c ≠ b '#'

/-- Lower-case ASCII letter. -/
def isLower (c : Byte) : Bool := 'a'.toNat ≤ c.val && c.val ≤ 'z'.toNat

/-- Bytes of a scheme after its first letter. -/
def schemeByte (d : Byte) : Bool := isLower d || json.isDigit d || url.oneOf d "+-."

/-- A scheme as `url.Parse` leaves it: a lower-case letter followed by
lower-case letters, digits, `+`, `-` and `.` (as `http`, `https`). -/
def plainScheme (s : GoString) : Bool :=
  match s with
  | [] => false
  | c :: cs => isLower c && cs.all schemeByte

/-- Bytes of a registered host name or an IPv4 address (the unreserved
characters), and the colon before a port. -/
def hostByte (c : Byte) : Bool := url.isAlnum c || url.oneOf c "-._~" || c = b ':'

/-- A host of the form `name` or `name:port`: made of unreserved characters
and colons, what follows its last colon being a port number of at least one
digit (as `localhost:8080`, `127.0.0.1:43210`, `api.example.com`). -/
def plainHost (h : GoString) : Bool :=
  h ≠ [] && h.all hostByte &&
    (match strings.LastIndexByte (b ':') h with
      | none => true
      | some i => url.validOptionalPort (h.drop i) && 1 < (h.drop i).length)

/-- A base URL of the form `scheme://host` or `scheme://host:port`, without
user information; what `url.Parse` returns for such a text, possibly with a
path, a query or a fragment, which the client does not use. -/
def plainBase (u : url.URL) : Bool := plainScheme u.Scheme && plainHost u.Host && u.User.isNone

/-- The `/`-separated elements of a path that `resolvePath` removes or
resolves: `.` and `..`. -/
def isDotSegment (s : GoString) : Bool := s = str "." || s = str ".."

/-- Whether none of the `/`-separated elements of `s` is `.` or `..`. -/
def noDotSegments (s : GoString) : Bool := (strings.Split (b '/') s).all (fun e => !isDotSegment e)

/-- The elements `resolvePath` joins, computed from the elements `src` of the
full path. -/
def resolveElems (src : Slice GoString) : Slice GoString :=
  if src.getLast? = some (str ".") ∨ src.getLast? = some (str "..") then
    src.foldl url.resolveStep [] ++ [[]]
  else src.foldl url.resolveStep []

/-- The header `newRequest` sets: `Content-Type` when there is a body, then
`Accept` and `User-Agent`. -/
def requestHeader (hasBody : Bool) : http.Header :=
  (if hasBody then [(str "Content-Type", [str "application/vnd.api+json"])] else []) ++
    [(str "Accept", [str "application/vnd.api+json"]),
     (str "User-Agent", [str "Accounts API Go client"])]

/-- The request `newRequest` builds on a plain base URL for a method, an
absolute path, a query string and a body. -/
def builtRequest (base : url.URL) (method path qry : GoString)
    (body : Option (Option AccountResource)) : http.Request :=
  { Method := method
    URL := { Scheme := base.Scheme, Host := base.Host, Path := url.resolvePath [] path,
             RawQuery := qry }
    Header := requestHeader body.isSome
    Body := body.map json.Encode
    Host := base.Host }

/-! ## `unicode/utf8`: valid strings -/

namespace utf8

/-- The loop of `utf8.ValidString`; `skip` counts the remaining bytes of a
rune whose encoding has been checked. -/
def validLoop : Nat → GoString → Bool
  | _, [] => true
  | skip + 1, _ :: rest => validLoop skip rest
  | 0, c :: rest =>
    match DecodeRune (c :: rest) with
    | none => false
    | some (_, size) => validLoop (size - 1) rest

/-- Go `utf8.ValidString`: whether the string is made of well-formed UTF-8
encodings only. -/
def ValidString (s : GoString) : Bool := validLoop 0 s

end utf8

/-! ## `strconv` -/

namespace strconv

/-- The errors of `strconv.ParseInt`: `ErrSyntax` and `ErrRange`. -/
inductive Error
  | ErrSyntax
  | ErrRange
  deriving DecidableEq, Repr

/-- Go `strconv.ParseInt(s, 10, 64)`: the value and the error returned. An
optional sign is followed by decimal digits; without a digit, or with another
byte, the result is 0 and `ErrSyntax`; a value outside `int64` gives the
nearest `int64` and `ErrRange`. -/
def ParseInt (s : GoString) : Int × Option Error :=
  if s = [] then (0, some .ErrSyntax)
  else
    let neg : Bool := s.head? = some (b '-')
    let s1 : GoString := if s.head? = some (b '+') ∨ s.head? = some (b '-') then s.tail else s
    if s1 = [] ∨ ¬ s1.all json.isDigit then (0, some .ErrSyntax)
    else
      let un : Nat := s1.foldl (fun a d => a * 10 + (d.val - '0'.toNat)) 0
      if !neg ∧ un ≥ 2 ^ 63 then (maxInt64, some .ErrRange)
      else if neg ∧ un > 2 ^ 63 then (minInt64, some .ErrRange)
      else (if neg then -(un : Int) else (un : Int), none)

end strconv

/-! ## Arithmetic of `int64` -/

/-- The `int64` an integer wraps to (two's complement). -/
def wrapInt64 (x : Int) : Int := (x + 2 ^ 63) % 2 ^ 64 - 2 ^ 63

/-- Go `x / y` on `int64`: the quotient truncated towards zero; `none` is the
panic of a division by zero. -/
def divInt64 (x y : Int) : Option Int := if y = 0 then none else some (wrapInt64 (Int.tdiv x y))

/-- Go `x % y` on `int64`: the remainder of the truncated division; `none` is
the panic of a division by zero. -/
def modInt64 (x y : Int) : Option Int := if y = 0 then none else some (Int.tmod x y)

/-- Go `s[i:]` with an `int64` index: `none` is the panic of an index out of
range. -/
def sliceFrom {α : Type} (s : Slice α) (i : Int) : Option (Slice α) :=
  if 0 ≤ i ∧ i ≤ s.length then some (s.drop i.toNat) else none

/-- Go `s[i:j]` with `int64` indices, for a slice without spare capacity:
`none` is the panic of an index out of range. -/
def sliceFromTo {α : Type} (s : Slice α) (i j : Int) : Option (Slice α) :=
  if 0 ≤ i ∧ i ≤ j ∧ j ≤ s.length then some ((s.take j.toNat).drop i.toNat) else none

/-! ## `encoding/json`: the values the test server encodes -/

namespace json

/-- JSON of an `errorDetail` value. -/
def encodeErrorDetail (e : errorDetail) : GoString :=
  encodeObject
    [("error_code", encodeString e.ErrorCode), ("error_message", encodeString e.ErrorMsg)]

/-- A `[]Account` as JSON: `null` for the nil slice, else an array. -/
def encodeAccounts : Option (Slice Account) → GoString
  | none => str "null"
  | some xs => b '[' :: strings.Join (b ',') (xs.map encodeAccount) ++ [b ']']

/-- The Go values the test server encodes: their JSON text. -/
class Source (α : Type) where
  encode : α → GoString

instance instSourceAccountResource : Source AccountResource :=
  ⟨fun r => encodeObject [("data", encodeAccount r.Data)]⟩

instance instSourceAccountsResource : Source AccountsResource :=
  ⟨fun r => encodeObject [("data", encodeAccounts r.Data)]⟩

instance instSourceErrorDetail : Source errorDetail := ⟨encodeErrorDetail⟩

/-- Go `json.Marshal(v)` for a struct value `v` (it never fails on these
types). -/
def MarshalValue {α : Type} [Source α] (v : α) : GoString := Source.encode v

end json

/-! ## `net/url` and `net/http`: what a server receives and answers -/

namespace url

/-- Go `(*URL).RequestURI`: the path and query a client writes on the request
line. -/
def URL.RequestURI (u : URL) : GoString :=
  let result : GoString :=
    if u.Opaque = [] then
      (if u.EscapedPath = [] then str "/" else u.EscapedPath)
    else if strings.HasPrefix u.Opaque (str "//") then u.Scheme ++ b ':' :: u.Opaque
    else u.Opaque
  if u.ForceQuery ∨ u.RawQuery ≠ [] then result ++ b '?' :: u.RawQuery else result

/-- Go `url.ParseRequestURI`. -/
def ParseRequestURI (rawURL : GoString) : Except Error URL := parse rawURL true

end url

namespace http

/-- Go `http.StatusText`: the text of a status code, empty for a code that is
not known. -/
def StatusText (code : Int) : GoString :=
  if code = 100 then str "Continue"
  else if code = 101 then str "Switching Protocols"
  else if code = 102 then str "Processing"
  else if code = 103 then str "Early Hints"
  else if code = 200 then str "OK"
  else if code = 201 then str "Created"
  else if code = 202 then str "Accepted"
  else if code = 203 then str "Non-Authoritative Information"
  else if code = 204 then str "No Content"
  else if code = 205 then str "Reset Content"
  else if code = 206 then str "Partial Content"
  else if code = 207 then str "Multi-Status"
  else if code = 208 then str "Already Reported"
  else if code = 226 then str "IM Used"
  else if code = 300 then str "Multiple Choices"
  else if code = 301 then str "Moved Permanently"
  else if code = 302 then str "Found"
  else if code = 303 then str "See Other"
  else if code = 304 then str "Not Modified"
  else if code = 305 then str "Use Proxy"
  else if code = 307 then str "Temporary Redirect"
  else if code = 308 then str "Permanent Redirect"
  else if code = 400 then str "Bad Request"
  else if code = 401 then str "Unauthorized"
  else if code = 402 then str "Payment Required"
  else if code = 403 then str "Forbidden"
  else if code = 404 then str "Not Found"
  else if code = 405 then str "Method Not Allowed"
  else if code = 406 then str "Not Acceptable"
  else if code = 407 then str "Proxy Authentication Required"
  else if code = 408 then str "Request Timeout"
  else if code = 409 then str "Conflict"
  else if code = 410 then str "Gone"
  else if code = 411 then str "Length Required"
  else if code = 412 then str "Precondition Failed"
  else if code = 413 then str "Request Entity Too Large"
  else if code = 414 then str "Request URI Too Long"
  else if code = 415 then str "Unsupported Media Type"
  else if code = 416 then str "Requested Range Not Satisfiable"
  else if code = 417 then str "Expectation Failed"
  else if code = 418 then str "I\x27m a teapot"
  else if code = 421 then str "Misdirected Request"
  else if code = 422 then str "Unprocessable Entity"
  else if code = 423 then str "Locked"
  else if code = 424 then str "Failed Dependency"
  else if code = 425 then str "Too Early"
  else if code = 426 then str "Upgrade Required"
  else if code = 428 then str "Precondition Required"
  else if code = 429 then str "Too Many Requests"
  else if code = 431 then str "Request Header Fields Too Large"
  else if code = 451 then str "Unavailable For Legal Reasons"
  else if code = 500 then str "Internal Server Error"
  else if code = 501 then str "Not Implemented"
  else if code = 502 then str "Bad Gateway"
  else if code = 503 then str "Service Unavailable"
  else if code = 504 then str "Gateway Timeout"
  else if code = 505 then str "HTTP Version Not Supported"
  else if code = 506 then str "Variant Also Negotiates"
  else if code = 507 then str "Insufficient Storage"
  else if code = 508 then str "Loop Detected"
  else if code = 510 then str "Not Extended"
  else if code = 511 then str "Network Authentication Required"
  else []

/-- What a handler has done with its `http.ResponseWriter`: the status of the
first `WriteHeader`, if there was one, and the bytes written to the body. -/
structure ResponseWriter where
  status : Option Int := none
  body : GoString := []
  deriving DecidableEq, Repr

/-- Go `ResponseWriter.WriteHeader`: a second call changes nothing. -/
def ResponseWriter.WriteHeader (rw : ResponseWriter) (statusCode : Int) : ResponseWriter :=
  if rw.status.isSome then rw else { rw with status := some statusCode }

/-- Go `bodyAllowedForStatus`. -/
def bodyAllowedForStatus (status : Int) : Bool :=
  !((100 ≤ status ∧ status ≤ 199) ∨ status = 204 ∨ status = 304)

/-- Go `ResponseWriter.Write`: the status is 200 when none has been written;
a status that allows no body takes none. -/
def ResponseWriter.Write (rw : ResponseWriter) (data : GoString) : ResponseWriter :=
  let rw : ResponseWriter := rw.WriteHeader StatusOK
  if bodyAllowedForStatus (rw.status.getD StatusOK) then { rw with body := rw.body ++ data }
  else rw

/-- A handler (`http.HandlerFunc`): what it leaves in the `ResponseWriter`
for a request, `none` when it panics. -/
abbrev HandlerFunc := ResponseWriter → Request → Option ResponseWriter

end http

namespace httptest

/-- Go `httptest.Server`, by its handler. -/
structure Server where
  Handler : http.HandlerFunc

/-- Go `httptest.NewServer(handler)`. -/
def NewServer (handler : http.HandlerFunc) : Server := ⟨handler⟩

/-- The round trip of an HTTP client whose requests reach the server. The
server reads the request line and parses its target with
`url.ParseRequestURI`, answering 400 when that fails; the handler sees the
request with the parsed target as its `URL` (and a header with more fields,
which the handlers of the test suite do not look at). A handler that panics
makes the server drop the connection, and the round trip fails. Otherwise the
response carries the status and the body the handler has written, the status
being 200 when it has written none. -/
def Server.Client (s : Server) : http.Client :=
  ⟨fun req =>
    match url.ParseRequestURI req.URL.RequestURI with
    | .error _ =>
      .ok { StatusCode := http.StatusBadRequest, Body := { data := str "400 Bad Request" },
            Request := req }
    | .ok u =>
      match s.Handler {} { req with URL := u } with
      | none => .error (str "EOF")
      | some rw =>
        .ok { StatusCode := rw.status.getD http.StatusOK, Body := { data := rw.body },
              Request := req }⟩

end httptest

/-! ## `client_test.go`: the store and the handlers of the test servers -/

/-- Go `badInput`. -/
def badInput : GoString := str "bad-input"

/-- Go `badInputPageNumParamOpt`. -/
def badInputPageNumParamOpt : GoString := str "bad-page-number"

/-- Go `badInputPageOpt`. -/
def badInputPageOpt : Int := -1

/-- Go `serviceFailure`. -/
def serviceFailure : GoString := str "force-service-failure"

/-- Go `serviceFailurePageOpt`. -/
def serviceFailurePageOpt : Int := -2

/-- The store of a test server, Go `map[string]Account`: each key once. The
order of the entries stands for the order in which a `range` visits them,
which Go leaves open. -/
abbrev AccountRepo := List (GoString × Account)

/-- Go `r[k] = a` on the store. -/
def AccountRepo.set : AccountRepo → GoString → Account → AccountRepo
  | [], k, a => [(k, a)]
  | (k1, a1) :: rest, k, a =>
    if k1 = k then (k1, a) :: rest else (k1, a1) :: AccountRepo.set rest k a

/-- Go `a, ok := r[k]` on the store. -/
def AccountRepo.get : AccountRepo → GoString → Option Account
  | [], _ => none
  | (k1, a1) :: rest, k => if k1 = k then some a1 else AccountRepo.get rest k

/-- Go `setupAccountRepo`. -/
def setupAccountRepo (accounts : Slice Account) : AccountRepo :=
  accounts.foldl (fun r a => r.set a.ID a) []

/-- Go `setupClient`, for a base URL that parses (the test is stopped when it
does not). -/
def setupClient (baseURL : GoString) : Option Client :=
  match url.Parse baseURL with
  | .error _ => none
  | .ok u => some { BaseURL := u }

/-- Go `serveError`. -/
def serveError (rw : http.ResponseWriter) (statusCode : Int) : http.ResponseWriter :=
  let errDetail := json.MarshalValue
    ({ ErrorCode := formatInt statusCode, ErrorMsg := http.StatusText statusCode } : errorDetail)
  (rw.WriteHeader statusCode).Write errDetail

/-- Go `serveContent`. -/
def serveContent {α : Type} [json.Source α] (rw : http.ResponseWriter) (statusCode : Int)
    (content : α) : http.ResponseWriter :=
  let body := json.MarshalValue content
  (rw.WriteHeader statusCode).Write body

/-- The handler of the server of `TestCreate` over a store. What the
assertions of the handler record is left out: they do not change the
response. -/
def TestCreate.handler (repo : AccountRepo) : http.HandlerFunc := fun rw req =>
  let a : AccountResource := (json.Decode { data := req.Body.getD [] } ({} : AccountResource)).1
  if a.Data.ID = badInput then some (serveError rw http.StatusBadRequest)
  else if a.Data.ID = serviceFailure then some (serveError rw http.StatusInternalServerError)
  else if (repo.get a.Data.ID).isSome then some (serveError rw http.StatusConflict)
  else some (serveContent rw http.StatusCreated a)

/-- The handler of the server of `TestDelete` over a store. What the
assertions of the handler record is left out: they do not change the
response. `strings.Split` returns at least one element, so that taking the
last one cannot fail. -/
def TestDelete.handler (repo : AccountRepo) : http.HandlerFunc := fun rw req =>
  let pathSegments := strings.Split (b '/') req.URL.Path
  let ID := pathSegments.getLastD []
  let qryParams := req.URL.Query
  let version := (strconv.ParseInt (qryParams.Get (str "version"))).1
  if ID = badInput then some (serveError rw http.StatusBadRequest)
  else if ID = serviceFailure then some (serveError rw http.StatusInternalServerError)
  else
    match repo.get ID with
    | some a =>
      if a.Version = version then some (rw.WriteHeader http.StatusNoContent)
      else some (rw.WriteHeader http.StatusConflict)
    | none => some (serveError rw http.StatusNotFound)

/-- The page number `pageOptsOf` of `TestList` computes for `last`; `none` is
the panic of the division by a page size of zero. -/
def TestList.lastPage (total pSize : Int) : Option Int :=
  if total > 0 then
    match modInt64 total pSize with
    | none => none
    | some m =>
      if m = 0 then (divInt64 total pSize).map (fun q => wrapInt64 (q - 1))
      else divInt64 total pSize
  else some 0

/-- Go `pageOptsOf` of `TestList` over a store: the effective page number and
page size of a request; `none` when it panics. -/
def TestList.pageOptsOf (repo : AccountRepo) (req : http.Request) : Option (Int × Int) :=
  let qryParams := req.URL.Query
  let pSizeParam := qryParams.Get (str "page[size]")
  let pSize : Int := if pSizeParam ≠ [] then (strconv.ParseInt pSizeParam).1 else 100
  let pNumParam := qryParams.Get (str "page[number]")
  if pNumParam = badInputPageNumParamOpt then some (badInputPageOpt, pSize)
  else if pNumParam = str "last" then
    (TestList.lastPage repo.length pSize).map (fun pNum => (pNum, pSize))
  else if pNumParam ≠ [] ∧ pNumParam ≠ str "first" then
    some ((strconv.ParseInt pNumParam).1, pSize)
  else some (0, pSize)

/-- One round of the loop of `serveAccountsPage` that collects the accounts:
the account under the key `k`, if there is one, is appended (`none` is the nil
slice). -/
def TestList.collect (repo : AccountRepo) (accounts : Option (Slice Account))
    (k : GoString) : Option (Slice Account) :=
  match repo.get k with
  | some a => some (accounts.getD [] ++ [a])
  | none => accounts

/-- The accounts `serveAccountsPage` of `TestList` collects for a page: the
outer `none` is the panic of a slice expression out of range, the inner one
the nil slice. -/
def TestList.pageAccounts (repo : AccountRepo) (pNum pSize : Int) :
    Option (Option (Slice Account)) :=
  let total : Int := repo.length
  let start := wrapInt64 (pNum * pSize)
  let end_ := wrapInt64 (start + pSize)
  let resultKeys : Option (Slice GoString) :=
    if start < total then
      let keys := url.sortStrings (repo.map (fun kv => kv.1))
      if end_ ≥ total then sliceFrom keys start else sliceFromTo keys start end_
    else some []
  resultKeys.map (fun ks => ks.foldl (TestList.collect repo) none)

/-- Go `serveAccountsPage` of `TestList` over a store. -/
def TestList.serveAccountsPage (repo : AccountRepo) (rw : http.ResponseWriter)
    (pNum pSize : Int) : Option http.ResponseWriter :=
  (TestList.pageAccounts repo pNum pSize).map (fun accounts =>
    serveContent rw http.StatusOK ({ Data := accounts } : AccountsResource))

/-- The handler of the server of `TestList` over a store. What the assertions
of the handler record is left out: they do not change the response. -/
def TestList.handler (repo : AccountRepo) : http.HandlerFunc := fun rw req =>
  match TestList.pageOptsOf repo req with
  | none => none
  | some (pNum, pSize) =>
    if pNum = badInputPageOpt ∨ pSize = badInputPageOpt then
      some (serveError rw http.StatusBadRequest)
    else if pNum = serviceFailurePageOpt ∨ pSize = serviceFailurePageOpt then
      some (serveError rw http.StatusInternalServerError)
    else TestList.serveAccountsPage repo rw pNum pSize

/-! ## Accounts that are text -/

/-- The strings of an `Attributes` value. -/
def Attributes.strings (a : Attributes) : Slice GoString :=
  [a.Country, a.BaseCurrency, a.BankID, a.BankIDCode, a.AccountNumber, a.BIC, a.IBAN,
    a.CustomerID, a.Title, a.FirstName, a.BankAccountName, a.AccountClassification,
    a.SecondaryIdentification] ++ a.AlternativeBankAccountNames.getD []

/-- The strings of an `Account` value. -/
def Account.strings (a : Account) : Slice GoString :=
  [a.ID, a.OrganisationID, a.Type_] ++ a.Attributes.strings

/-- An `Account` value all of whose strings are valid UTF-8, with a version
that is an `int64`. -/
def Account.isText (a : Account) : Bool :=
  a.strings.all utf8.ValidString && decide (minInt64 ≤ a.Version) && decide (a.Version ≤ maxInt64)

/-- The accounts of the test suite. -/
def accountOne : Account :=
  { ID := str "ad27e265-9605-4b4b-a0e5-3003ea9cc4dc"
    OrganisationID := str "eb0bd6f5-c3f5-44b2-b677-acd23cdde73c"
    Type_ := str "accounts"
    Version := 0
    Attributes :=
      { Country := str "GB", BaseCurrency := str "GBP", AccountNumber := str "41426819",
        BankID := str "400300", BankIDCode := str "GBDSC", BIC := str "NWBKGB22",
        IBAN := str "GB11NWBK40030041426819", Title := str "Ms", FirstName := str "Samantha",
        BankAccountName := str "Samantha Holder",
        AlternativeBankAccountNames := some [str "Sam Holder"],
        AccountClassification := str "Personal", JointAccount := false,
        AccountMatchingOptOut := false, SecondaryIdentification := str "A1B2C3D4" } }

/-- Go `accountTwo`. -/
def accountTwo : Account :=
  { ID := str "ad27e265-9605-4b4b-a0e5-3003ea9cc4dd"
    OrganisationID := str "eb0bd6f5-c3f5-44b2-b677-acd23cdde73c"
    Type_ := str "accounts"
    Version := 0
    Attributes :=
      { Country := str "GB", BaseCurrency := str "GBP", AccountNumber := str "41426820",
        BankID := str "400300", BankIDCode := str "GBDSC", BIC := str "NWBKGB22",
        IBAN := str "GB11NWBK40030041426820", Title := str "Mr", FirstName := str "Francisco",
        BankAccountName := str "Fernandez",
        AlternativeBankAccountNames := some [str "Paco Holder"],
        AccountClassification := str "Personal", JointAccount := false,
        AccountMatchingOptOut := false, SecondaryIdentification := str "A1B2C3D5" } }

/-- Go `accountThree`. -/
def accountThree : Account :=
  { ID := str "ad27e265-9605-4b4b-a0e5-3003ea9cc4de"
    OrganisationID := str "eb0bd6f5-c3f5-44b2-b677-acd23cdde73c"
    Type_ := str "accounts"
    Version := 0
    Attributes :=
      { Country := str "GB", BaseCurrency := str "GBP", AccountNumber := str "41426821",
        BankID := str "400300", BankIDCode := str "GBDSC", BIC := str "NWBKGB22",
        IBAN := str "GB11NWBK40030041426821", Title := str "Ms", FirstName := str "Liza",
        BankAccountName := str "Johnson",
        AlternativeBankAccountNames := some [str "Lize Holder"],
        AccountClassification := str "Personal", JointAccount := false,
        AccountMatchingOptOut := false, SecondaryIdentification := str "A1B2C3D6" } }

/-- A client as `setupClient` makes it for the URL of a test server: the base
URL and no HTTP client. -/
def testClient : Client := { BaseURL := { Scheme := str "http", Host := str "127.0.0.1:8080" } }

/-- A transport that answers every request with the status 201 and, as body,
the body of the request: a server that echoes what it is sent. -/
def echoTransport : http.Client :=
  ⟨fun req =>
    .ok { StatusCode := http.StatusCreated, Body := { data := req.Body.getD [] },
          Request := req }⟩

/-- An envelope whose account has the one byte 0xFF as identifier, which is
not valid UTF-8. -/
def exampleNotText : AccountResource := { Data := { ID := [0xFF] } }

/-- A store input of 101 accounts, whose identifiers are the decimal numbers
from 0 to 100. -/
def hundredAndOne : Slice Account :=
  (List.range 101).map (fun i => ({ ID := formatNat i } : Account))

/-- An account with the identifier `a` whose type is the one byte 0xFF, which
is not valid UTF-8. -/
def accountNotText : Account := { ID := str "a", Type_ := [0xFF] }

/-- A body that is not JSON. -/
def exampleNotJSON : GoString := str "<html>conflict</html>"

/-- The JSON text `Create` sends for the zero value of `AccountResource`. -/
def zeroAccountText : GoString :=
  str ("\x7b\"data\":\x7b\"id\":\"\",\"organisation_id\":\"\",\"type\":\"\",\"version\":0," ++
    "\"attributes\":\x7b\"country\":\"\",\"base_currency\":\"\",\"bank_id\":\"\"," ++
    "\"bank_id_code\":\"\",\"account_number\":\"\",\"bic\":\"\",\"iban\":\"\"," ++
    "\"customer_id\":\"\",\"title\":\"\",\"first_name\":\"\",\"bank_account_name\":\"\"," ++
    "\"alternative_bank_account_names\":null,\"account_classification\":\"\"," ++
    "\"joint_account\":false,\"account_matching_opt_out\":false," ++
    "\"secondary_identification\":\"\"\x7d\x7d\x7d\n")

/-! ## Auxiliary definitions on JSON texts -/

namespace json

/-- Whether a number literal may end before `r`: at the end of the text, or
before a byte that continues neither its digits nor a fraction or exponent. -/
def delimited (r : GoString) : Bool :=
  match r with
  | [] => true
  | c :: _ => !(isDigit c || c = b '.' || c = b 'e' || c = b 'E')

/-- Whether the scanner, at whatever nesting depth up to `depth` below the
limit and with fuel beyond the length of its input, reads `v` from `text` and
stops right after it, when what follows may follow a number. -/
def Reads (depth : Nat) (text : GoString) (v : Value) : Prop :=
  ∀ (fuel : Nat) (r : GoString), delimited r = true → (text ++ r).length < fuel →
    parseValue fuel depth (text ++ r) = .ok (v, r)

/-- A key that is written between quotes as it is: printable ASCII without
quote and backslash. -/
def plainKey (k : GoString) : Bool :=
  k.all (fun c => 0x20 ≤ c.val && c.val < 0x80 && c ≠ quote && c ≠ backslash)

/-- What the decoder reads from the JSON of a string. -/
def stringValue (s : GoString) : Value := .string (unquote (encodeStringLoop 0 true s))

/-- What the decoder reads from the JSON of a `[]string`. -/
def stringsValue : Option (Slice GoString) → Value
  | none => .null
  | some xs => .array (xs.map stringValue)

/-- What the decoder reads from the JSON of an `Attributes` value. -/
def attributesValue (a : Attributes) : Value :=
  .object
    [(str "country", stringValue a.Country),
     (str "base_currency", stringValue a.BaseCurrency),
     (str "bank_id", stringValue a.BankID),
     (str "bank_id_code", stringValue a.BankIDCode),
     (str "account_number", stringValue a.AccountNumber),
     (str "bic", stringValue a.BIC),
     (str "iban", stringValue a.IBAN),
     (str "customer_id", stringValue a.CustomerID),
     (str "title", stringValue a.Title),
     (str "first_name", stringValue a.FirstName),
     (str "bank_account_name", stringValue a.BankAccountName),
     (str "alternative_bank_account_names", stringsValue a.AlternativeBankAccountNames),
     (str "account_classification", stringValue a.AccountClassification),
     (str "joint_account", .bool a.JointAccount),
     (str "account_matching_opt_out", .bool a.AccountMatchingOptOut),
     (str "secondary_identification", stringValue a.SecondaryIdentification)]

/-- What the decoder reads from the JSON of an `Account` value. -/
def accountValue (a : Account) : Value :=
  .object
    [(str "id", stringValue a.ID),
     (str "organisation_id", stringValue a.OrganisationID),
     (str "type", stringValue a.Type_),
     (str "version", .number (formatInt a.Version)),
     (str "attributes", attributesValue a.Attributes)]

/-- What the decoder reads from the JSON of a `[]Account`. -/
def accountsValue : Option (Slice Account) → Value
  | none => .null
  | some xs => .array (xs.map accountValue)

end json

/-- The accounts of a store in the order of their keys, which are their
identifiers: the identifier-sorted store. -/
def AccountRepo.sorted (repo : AccountRepo) : Slice Account :=
  (url.sortStrings (repo.map (fun kv => kv.1))).filterMap repo.get

/-- The slice a loop of `append` leaves when it starts from the nil slice and
appends the elements of `l` in turn: the nil slice when there is none. -/
def appended {α : Type} (l : List α) : Option (Slice α) :=
  match l with
  | [] => none
  | x :: xs => some (x :: xs)

/-! ## Lemmas on the round trip and its results -/

theorem transport_do_eq (dc : http.Client) (c : Client) :
    ((if c.httpClient.isNone then { c with httpClient := some dc } else c).httpClient.getD dc)
      = c.transport dc := by
  unfold Client.transport
  cases h : c.httpClient <;> simp [h]

theorem do_sent {α : Type} [json.Target α] (dc : http.Client) (c : Client)
    (req : http.Request) (v : Option α) : (c.do dc req v).sent = [req] := by
  unfold Client.do
  simp only []
  split
  · rfl
  · split
    · rfl
    · split <;> rfl

theorem do_transport_error {α : Type} [json.Target α] (dc : http.Client) (c : Client)
    (req : http.Request) (v : Option α) (msg : GoString)
    (hdo : (c.transport dc).Do req = .error msg) :
    (c.do dc req v).out = .error (.transport msg) := by
  unfold Client.do
  simp only [transport_do_eq, hdo]

theorem do_decode_error {α : Type} [json.Target α] (dc : http.Client) (c : Client)
    (req : http.Request) (cur v1 : α) (resp : http.Response) (e : json.Error)
    (hdo : (c.transport dc).Do req = .ok resp)
    (hdec : json.Decode resp.Body.reader cur = (v1, some e)) :
    (c.do dc req (some cur)).out = .error (.decode e) := by
  unfold Client.do
  simp only [transport_do_eq, hdo, Option.map, hdec]

theorem do_close_error {α : Type} [json.Target α] (dc : http.Client) (c : Client)
    (req : http.Request) (cur v1 : α) (resp : http.Response) (msg : GoString)
    (hdo : (c.transport dc).Do req = .ok resp)
    (hdec : json.Decode resp.Body.reader cur = (v1, none))
    (hclose : resp.Body.closeErr = some msg) :
    (c.do dc req (some cur)).out = .error (.close msg) := by
  unfold Client.do
  simp only [transport_do_eq, hdo, Option.map, hdec, http.Body.Close, hclose]

theorem do_ok {α : Type} [json.Target α] (dc : http.Client) (c : Client)
    (req : http.Request) (cur v1 : α) (resp : http.Response)
    (hdo : (c.transport dc).Do req = .ok resp)
    (hdec : json.Decode resp.Body.reader cur = (v1, none))
    (hclose : resp.Body.closeErr = none) :
    (c.do dc req (some cur)).out = .ok { resp with Body := { resp.Body with closed := true } } ∧
    (c.do dc req (some cur)).v = some v1 := by
  unfold Client.do
  constructor <;> simp only [transport_do_eq, hdo, Option.map, hdec, http.Body.Close, hclose]

theorem do_nil_ok (dc : http.Client) (c : Client)
    (req : http.Request) (resp : http.Response)
    (hdo : (c.transport dc).Do req = .ok resp)
    (hclose : resp.Body.closeErr = none) :
    (c.do dc req (none : Option errorDetail)).out =
      .ok { resp with Body := { resp.Body with closed := true } } := by
  unfold Client.do
  simp only [transport_do_eq, hdo, Option.map, http.Body.Close, hclose]

theorem do_nil_close_error (dc : http.Client) (c : Client)
    (req : http.Request) (resp : http.Response) (msg : GoString)
    (hdo : (c.transport dc).Do req = .ok resp)
    (hclose : resp.Body.closeErr = some msg) :
    (c.do dc req (none : Option errorDetail)).out = .error (.close msg) := by
  unfold Client.do
  simp only [transport_do_eq, hdo, Option.map, http.Body.Close, hclose]

/-! ## Requests handed to the transport -/

theorem Create_sent (dc : http.Client) (c : Client) (account : Option AccountResource) :
    (c.Create dc account).sent =
      sentOf (c.newRequest http.MethodPost (str "/v1/organisation/accounts") [] (some account)) := by
  cases h : c.newRequest http.MethodPost (str "/v1/organisation/accounts") [] (some account) with
  | error e => unfold Client.Create sentOf; simp only [h]
  | ok req =>
    unfold Client.Create sentOf
    simp only [h]
    have hs := do_sent dc c req (some ({} : AccountResource))
    generalize c.do dc req (some ({} : AccountResource)) = r at hs ⊢
    cases hr : r.out with
    | error e => exact hs
    | ok resp => simp only []; split_ifs <;> exact hs

theorem Fetch_sent (dc : http.Client) (c : Client) (accountID : GoString) :
    (c.Fetch dc accountID).sent =
      sentOf (c.newRequest http.MethodGet (str "/v1/organisation/accounts/" ++ accountID) []
        none) := by
  cases h : c.newRequest http.MethodGet (str "/v1/organisation/accounts/" ++ accountID) []
      none with
  | error e => unfold Client.Fetch sentOf; simp only [h]
  | ok req =>
    unfold Client.Fetch sentOf
    simp only [h]
    have hs := do_sent dc c req (some ({} : AccountResource))
    generalize c.do dc req (some ({} : AccountResource)) = r at hs ⊢
    cases hr : r.out with
    | error e => exact hs
    | ok resp => simp only []; split_ifs <;> exact hs

theorem List_sent (dc : http.Client) (c : Client) (opts : Option PageOpts) :
    (c.List dc opts).sent =
      sentOf (c.newRequest http.MethodGet (str "/v1/organisation/accounts") (listQuery opts)
        none) := by
  unfold listQuery
  cases h : c.newRequest http.MethodGet (str "/v1/organisation/accounts")
      (if (query.Values opts).length > 0 then url.Values.Encode (query.Values opts) else [])
      none with
  | error e => unfold Client.List sentOf; simp only [h]
  | ok req =>
    unfold Client.List sentOf
    simp only [h]
    have hs := do_sent dc c req (some ({} : AccountsResource))
    generalize c.do dc req (some ({} : AccountsResource)) = r at hs ⊢
    cases hr : r.out with
    | error e => exact hs
    | ok resp => simp only []; split_ifs <;> exact hs

theorem Delete_sent (dc : http.Client) (c : Client) (accountID : GoString) (version : Int) :
    (c.Delete dc accountID version).sent =
      sentOf (c.newRequest http.MethodDelete (str "/v1/organisation/accounts/" ++ accountID)
        (str "version=" ++ formatInt version) none) := by
  cases h : c.newRequest http.MethodDelete (str "/v1/organisation/accounts/" ++ accountID)
      (str "version=" ++ formatInt version) none with
  | error e => unfold Client.Delete sentOf; simp only [h]
  | ok req =>
    unfold Client.Delete sentOf
    simp only [h]
    have hs := do_sent dc c req (none : Option errorDetail)
    generalize c.do dc req (none : Option errorDetail) = r at hs ⊢
    cases hr : r.out with
    | error e => exact hs
    | ok resp => simp only []; split_ifs <;> exact hs

theorem request_of_sent {req : http.Request} {x : Except Error http.Request}
    (h : sentOf x = [req]) : x = .ok req := by
  cases x with
  | error e => simp [sentOf] at h
  | ok r => simp [sentOf] at h; rw [h]

/-! ## Results as a function of the status -/

theorem Create_result (dc : http.Client) (c : Client) (account : Option AccountResource)
    (req : http.Request) (resp : http.Response) (created : AccountResource)
    (hsent : (c.Create dc account).sent = [req])
    (hdo : (c.transport dc).Do req = .ok resp)
    (hclose : resp.Body.closeErr = none)
    (hdec : json.Decode resp.Body.reader ({} : AccountResource) = (created, none)) :
    (c.Create dc account).ret = (if resp.StatusCode = 201 then some created else none) ∧
    (c.Create dc account).err =
      (if resp.StatusCode = 201 then none
       else if resp.StatusCode = 409 then some .ErrConflict
       else some (defaultError resp.StatusCode)) := by
  have hreq := request_of_sent ((Create_sent dc c account).symm.trans hsent)
  obtain ⟨hout, hv⟩ := do_ok dc c req ({} : AccountResource) created resp hdo hdec hclose
  unfold Client.Create defaultError
  simp only [hreq, hout, hv, Option.getD, http.StatusCreated, http.StatusConflict,
    http.StatusInternalServerError, http.StatusBadRequest]
  constructor <;> split_ifs <;> rfl

theorem Fetch_result (dc : http.Client) (c : Client) (accountID : GoString)
    (req : http.Request) (resp : http.Response) (account : AccountResource)
    (hsent : (c.Fetch dc accountID).sent = [req])
    (hdo : (c.transport dc).Do req = .ok resp)
    (hclose : resp.Body.closeErr = none)
    (hdec : json.Decode resp.Body.reader ({} : AccountResource) = (account, none)) :
    (c.Fetch dc accountID).ret = (if resp.StatusCode = 200 then some account else none) ∧
    (c.Fetch dc accountID).err =
      (if resp.StatusCode = 200 then none
       else if resp.StatusCode = 404 then some .ErrNotFound
       else some (defaultError resp.StatusCode)) := by
  have hreq := request_of_sent ((Fetch_sent dc c accountID).symm.trans hsent)
  obtain ⟨hout, hv⟩ := do_ok dc c req ({} : AccountResource) account resp hdo hdec hclose
  unfold Client.Fetch defaultError
  simp only [hreq, hout, hv, Option.getD, http.StatusOK, http.StatusNotFound,
    http.StatusInternalServerError, http.StatusBadRequest]
  constructor <;> split_ifs <;> rfl

theorem List_result (dc : http.Client) (c : Client) (opts : Option PageOpts)
    (req : http.Request) (resp : http.Response) (accounts : AccountsResource)
    (hsent : (c.List dc opts).sent = [req])
    (hdo : (c.transport dc).Do req = .ok resp)
    (hclose : resp.Body.closeErr = none)
    (hdec : json.Decode resp.Body.reader ({} : AccountsResource) = (accounts, none)) :
    (c.List dc opts).ret = (if resp.StatusCode = 200 then some accounts else none) ∧
    (c.List dc opts).err =
      (if resp.StatusCode = 200 then none else some (defaultError resp.StatusCode)) := by
  have hreq := request_of_sent ((List_sent dc c opts).symm.trans hsent)
  unfold listQuery at hreq
  obtain ⟨hout, hv⟩ := do_ok dc c req ({} : AccountsResource) accounts resp hdo hdec hclose
  unfold Client.List defaultError
  simp only [hreq, hout, hv, Option.getD, http.StatusOK,
    http.StatusInternalServerError, http.StatusBadRequest]
  constructor <;> split_ifs <;> rfl

theorem Delete_result (dc : http.Client) (c : Client) (accountID : GoString) (version : Int)
    (req : http.Request) (resp : http.Response)
    (hsent : (c.Delete dc accountID version).sent = [req])
    (hdo : (c.transport dc).Do req = .ok resp)
    (hclose : resp.Body.closeErr = none) :
    (c.Delete dc accountID version).err =
      (if resp.StatusCode = 204 then none
       else if resp.StatusCode = 404 then some .ErrNotFound
       else if resp.StatusCode = 409 then some .ErrConflict
       else some (defaultError resp.StatusCode)) := by
  have hreq := request_of_sent ((Delete_sent dc c accountID version).symm.trans hsent)
  have hout := do_nil_ok dc c req resp hdo hclose
  unfold Client.Delete defaultError
  simp only [hreq, hout, http.StatusNoContent, http.StatusNotFound, http.StatusConflict,
    http.StatusInternalServerError, http.StatusBadRequest]
  split_ifs <;> rfl

/-! ## Lemmas on strings -/

theorem Cut_not_mem (sep : Byte) (s : GoString) (h : sep ∉ s) :
    strings.Cut sep s = (s, [], false) := by
  induction s with
  | nil => rfl
  | cons c cs ih =>
    have hc : c ≠ sep := fun e => h (by simp [e])
    have hcs : sep ∉ cs := fun m => h (by simp [m])
    simp [strings.Cut, hc, ih hcs]

theorem Cut_append (sep : Byte) (s t : GoString) (h : sep ∉ s) :
    strings.Cut sep (s ++ sep :: t) = (s, t, true) := by
  induction s with
  | nil => simp [strings.Cut]
  | cons c cs ih =>
    have hc : c ≠ sep := fun e => h (by simp [e])
    have hcs : sep ∉ cs := fun m => h (by simp [m])
    simp [strings.Cut, hc, ih hcs]

theorem LastIndexByte_not_mem (sep : Byte) (s : GoString) (h : sep ∉ s) :
    strings.LastIndexByte sep s = none := by
  induction s with
  | nil => rfl
  | cons c cs ih =>
    have hc : c ≠ sep := fun e => h (by simp [e])
    have hcs : sep ∉ cs := fun m => h (by simp [m])
    simp [strings.LastIndexByte, hc, ih hcs]

theorem Split_ne_nil (sep : Byte) (s : GoString) : strings.Split sep s ≠ [] := by
  induction s with
  | nil => simp [strings.Split]
  | cons c cs ih =>
    unfold strings.Split
    split_ifs
    · simp
    · cases h : strings.Split sep cs <;> simp

theorem Split_cons_sep (sep : Byte) (s : GoString) :
    strings.Split sep (sep :: s) = [] :: strings.Split sep s := by
  simp [strings.Split]

theorem Split_cons_ne (sep c : Byte) (s : GoString) (h : c ≠ sep) :
    strings.Split sep (c :: s) =
      (c :: (strings.Split sep s).headD []) :: (strings.Split sep s).tail := by
  have hne := Split_ne_nil sep s
  rw [strings.Split]
  simp only [h, if_false]
  cases hs : strings.Split sep s with
  | nil => exact absurd hs hne
  | cons x xs => simp

theorem Split_append_not_mem (sep : Byte) (l s : GoString) (h : sep ∉ l) :
    strings.Split sep (l ++ s) =
      (l ++ (strings.Split sep s).headD []) :: (strings.Split sep s).tail := by
  induction l with
  | nil =>
    have hne := Split_ne_nil sep s
    cases hs : strings.Split sep s with
    | nil => exact absurd hs hne
    | cons x xs => simp [hs]
  | cons c cs ih =>
    have hc : c ≠ sep := fun e => h (by simp [e])
    have hcs : sep ∉ cs := fun m => h (by simp [m])
    rw [List.cons_append, Split_cons_ne sep c _ hc, ih hcs]
    simp

theorem Split_append_sep (sep : Byte) (a t : GoString) :
    strings.Split sep (a ++ sep :: t) = strings.Split sep a ++ strings.Split sep t := by
  induction a with
  | nil => simp [strings.Split]
  | cons c cs ih =>
    by_cases hc : c = sep
    · subst hc
      rw [List.cons_append, Split_cons_sep, Split_cons_sep, ih]
      simp
    · rw [List.cons_append, Split_cons_ne sep c _ hc, Split_cons_ne sep c _ hc, ih]
      have hne := Split_ne_nil sep cs
      cases hs : strings.Split sep cs with
      | nil => exact absurd hs hne
      | cons x xs => simp

theorem Join_cons (sep : Byte) (x : GoString) (xs : Slice GoString) (h : xs ≠ []) :
    strings.Join sep (x :: xs) = x ++ sep :: strings.Join sep xs := by
  cases xs with
  | nil => exact absurd rfl h
  | cons y ys => rfl

theorem Join_Split (sep : Byte) (s : GoString) : strings.Join sep (strings.Split sep s) = s := by
  induction s with
  | nil => rfl
  | cons c cs ih =>
    have hne := Split_ne_nil sep cs
    by_cases hc : c = sep
    · subst hc
      rw [Split_cons_sep, Join_cons _ _ _ hne, ih]
      rfl
    · rw [Split_cons_ne sep c _ hc]
      cases hs : strings.Split sep cs with
      | nil => exact absurd hs hne
      | cons x xs =>
        rw [hs] at ih
        cases xs with
        | nil =>
          simp only [List.headD_cons, List.tail_cons]
          simp only [strings.Join] at ih ⊢
          rw [ih]
        | cons y ys =>
          simp only [List.headD_cons, List.tail_cons]
          rw [Join_cons _ _ _ (by simp)] at ih ⊢
          rw [← ih]
          rfl

/-! ## Lemmas on escaping -/

theorem escape_nil (mode : url.encoding) : url.escape [] mode = [] := rfl

theorem escape_cons (mode : url.encoding) (c : Byte) (s : GoString) :
    url.escape (c :: s) mode = url.escapeByte mode c ++ url.escape s mode := by
  simp [url.escape]

theorem escape_append (mode : url.encoding) (s t : GoString) :
    url.escape (s ++ t) mode = url.escape s mode ++ url.escape t mode := by
  simp [url.escape]

set_option maxRecDepth 1000000 in
theorem escapeByte_path_bytes :
    ∀ c : Byte, (url.escapeByte .encodePath c).all
      (fun x => urlTextByte x && (x ≠ b '/' || c = b '/')) = true := by
  decide

set_option maxRecDepth 1000000 in
theorem escapeByte_query_bytes :
    ∀ c : Byte, (url.escapeByte .encodeQueryComponent c).all
      (fun x => urlTextByte x && x ≠ b '&' && x ≠ b '=' && x ≠ b ';') = true := by
  decide

set_option maxRecDepth 1000000 in
theorem unhexPair_upperhex :
    ∀ c : Byte, url.unhexPair (url.upperhex (c.val / 16)) (url.upperhex (c.val % 16)) = c ∧
      url.ishex (url.upperhex (c.val / 16)) = true ∧
      url.ishex (url.upperhex (c.val % 16)) = true := by
  decide

set_option maxRecDepth 1000000 in
theorem shouldEscape_false_path :
    ∀ c : Byte, url.shouldEscape c .encodePath = false → c.val ≠ 37 := by
  decide

set_option maxRecDepth 1000000 in
theorem shouldEscape_false_query :
    ∀ c : Byte, url.shouldEscape c .encodeQueryComponent = false → c.val ≠ 37 ∧ c.val ≠ 43 := by
  decide

theorem b_val (c : Char) : (b c).val = c.toNat % 256 := rfl

theorem unescape_cons_plain (mode : url.encoding) (c : Byte) (t : GoString)
    (h37 : c.val ≠ 37) (h43 : c.val ≠ 43)
    (hm : mode ≠ .encodeHost ∧ mode ≠ .encodeZone) :
    url.unescape mode (c :: t) = (url.unescape mode t).map (fun r => c :: r) := by
  rw [url.unescape.eq_def]
  simp [h37, h43, hm.1, hm.2]

theorem unescape_cons_plus (c : Byte) (t : GoString) (h43 : c.val = 43) :
    url.unescape .encodePath (c :: t) = (url.unescape .encodePath t).map (fun r => c :: r) := by
  rw [url.unescape.eq_def]
  simp [h43]

theorem unescape_cons_pct (mode : url.encoding) (h1 h2 : Byte) (t : GoString)
    (hh1 : url.ishex h1 = true) (hh2 : url.ishex h2 = true)
    (hm : mode ≠ .encodeHost ∧ mode ≠ .encodeZone) :
    url.unescape mode (b '%' :: h1 :: h2 :: t) =
      (url.unescape mode t).map (fun r => url.unhexPair h1 h2 :: r) := by
  rw [url.unescape.eq_def]
  simp [hh1, hh2, hm.1, hm.2, b_val]

theorem unescape_escapeByte_path (c : Byte) (t : GoString) :
    url.unescape .encodePath (url.escapeByte .encodePath c ++ t) =
      (url.unescape .encodePath t).map (fun r => c :: r) := by
  obtain ⟨h1, h2, h3⟩ := unhexPair_upperhex c
  unfold url.escapeByte
  by_cases hs : url.shouldEscape c .encodePath = true
  · simp only [hs, if_true, reduceCtorEq, and_false, if_false, List.cons_append, List.nil_append]
    rw [unescape_cons_pct _ _ _ _ h2 h3 (by simp), h1]
  · have hs' : url.shouldEscape c .encodePath = false := by simpa using hs
    have h37 := shouldEscape_false_path c hs'
    simp only [hs', reduceCtorEq, and_false, if_false, List.cons_append, List.nil_append,
      Bool.false_eq_true]
    by_cases h43 : c.val = 43
    · exact unescape_cons_plus c t h43
    · exact unescape_cons_plain _ c t h37 h43 (by simp)

theorem unescape_escape_path (s : GoString) :
    url.unescape .encodePath (url.escape s .encodePath) = .ok s := by
  induction s with
  | nil => rfl
  | cons c cs ih =>
    rw [escape_cons, unescape_escapeByte_path, ih]
    rfl

theorem unescape_cons_plus_query (t : GoString) :
    url.unescape .encodeQueryComponent (b '+' :: t) =
      (url.unescape .encodeQueryComponent t).map (fun r => b ' ' :: r) := by
  rw [url.unescape.eq_def]
  simp [b_val]

theorem unescape_escapeByte_query (c : Byte) (t : GoString) :
    url.unescape .encodeQueryComponent (url.escapeByte .encodeQueryComponent c ++ t) =
      (url.unescape .encodeQueryComponent t).map (fun r => c :: r) := by
  obtain ⟨h1, h2, h3⟩ := unhexPair_upperhex c
  unfold url.escapeByte
  by_cases hsp : c.val = 32
  · have hc : c = b ' ' := Fin.ext hsp
    subst hc
    simp only [List.cons_append, List.nil_append]
    rw [if_pos (by decide)]
    exact unescape_cons_plus_query t
  · by_cases hs : url.shouldEscape c .encodeQueryComponent = true
    · rw [if_neg (by simp [hsp]), if_pos hs]
      simp only [List.cons_append, List.nil_append]
      rw [unescape_cons_pct _ _ _ _ h2 h3 (by simp), h1]
    · have hs' : url.shouldEscape c .encodeQueryComponent = false := by simpa using hs
      obtain ⟨h37, h43⟩ := shouldEscape_false_query c hs'
      rw [if_neg (by simp [hsp]), if_neg hs]
      exact unescape_cons_plain _ c t h37 h43 (by simp)

theorem QueryUnescape_QueryEscape (s : GoString) :
    url.QueryUnescape (url.QueryEscape s) = .ok s := by
  unfold url.QueryUnescape url.QueryEscape
  induction s with
  | nil => rfl
  | cons c cs ih =>
    rw [escape_cons, unescape_escapeByte_query, ih]
    rfl

theorem escape_path_bytes (s : GoString) :
    ∀ x ∈ url.escape s .encodePath, urlTextByte x = true := by
  intro x hx
  simp only [url.escape, List.mem_flatMap] at hx
  obtain ⟨c, _, hxc⟩ := hx
  have h := escapeByte_path_bytes c
  rw [List.all_eq_true] at h
  have := h x hxc
  simp only [Bool.and_eq_true] at this
  exact this.1

theorem QueryEscape_bytes (s : GoString) :
    ∀ x ∈ url.QueryEscape s,
      urlTextByte x = true ∧ x ≠ b '&' ∧ x ≠ b '=' ∧ x ≠ b ';' := by
  intro x hx
  simp only [url.QueryEscape, url.escape, List.mem_flatMap] at hx
  obtain ⟨c, _, hxc⟩ := hx
  have h := escapeByte_query_bytes c
  rw [List.all_eq_true] at h
  have := h x hxc
  simp only [Bool.and_eq_true, decide_eq_true_eq, ne_eq, decide_not, Bool.not_eq_true',
    decide_eq_false_iff_not] at this
  exact ⟨this.1.1.1, this.1.1.2, this.1.2, this.2⟩

/-! ## Lemmas on `resolvePath` -/

theorem resolvePath_abs (base p : GoString) :
    url.resolvePath base (b '/' :: p) =
      b '/' :: strings.TrimPrefix
        (strings.Join (b '/') (resolveElems (strings.Split (b '/') (b '/' :: p)))) (str "/") := by
  unfold url.resolvePath resolveElems
  simp only [List.head?_cons, ne_eq, not_true_eq_false, if_false, reduceCtorEq]

theorem foldl_resolveStep_no_dots (acc l : Slice GoString)
    (h : l.all (fun e => !isDotSegment e) = true) :
    l.foldl url.resolveStep acc = acc ++ l := by
  induction l generalizing acc with
  | nil => simp
  | cons e es ih =>
    simp only [List.all_cons, Bool.and_eq_true] at h
    have he : isDotSegment e = false := by simpa using h.1
    simp only [isDotSegment, Bool.or_eq_false_iff, decide_eq_false_iff_not] at he
    rw [List.foldl_cons, ih _ h.2]
    simp [url.resolveStep, he.1, he.2]

theorem resolveElems_no_dots (l : Slice GoString)
    (h : l.all (fun e => !isDotSegment e) = true) : resolveElems l = l := by
  unfold resolveElems
  rw [foldl_resolveStep_no_dots [] l h]
  have hlast : ¬ (l.getLast? = some (str ".") ∨ l.getLast? = some (str "..")) := by
    intro hl
    have hmem : ∃ e, l.getLast? = some e ∧ isDotSegment e = true := by
      rcases hl with hl | hl
      · exact ⟨_, hl, by decide⟩
      · exact ⟨_, hl, by decide⟩
    obtain ⟨e, he, hd⟩ := hmem
    have hin : e ∈ l := List.mem_of_getLast?_eq_some he
    rw [List.all_eq_true] at h
    have := h e hin
    simp [hd] at this
  simp [hlast]

/-- A path without `.` and `..` elements is left as it is by `resolvePath`. -/
theorem resolvePath_no_dots (base p : GoString) (h : noDotSegments (b '/' :: p) = true) :
    url.resolvePath base (b '/' :: p) = b '/' :: p := by
  rw [resolvePath_abs, resolveElems_no_dots _ h, Join_Split]
  simp [strings.TrimPrefix, str, utf8EncodeRune, b]

/-! ## `resolvePath` on an escaped path -/

theorem escapeByte_path_slash : url.escapeByte .encodePath (b '/') = [b '/'] := by decide

theorem slash_not_mem_escapeByte (c : Byte) (hc : c ≠ b '/') :
    b '/' ∉ url.escapeByte .encodePath c := by
  intro hx
  have h := escapeByte_path_bytes c
  rw [List.all_eq_true] at h
  have := h _ hx
  simp [hc] at this

theorem Split_escape (s : GoString) :
    strings.Split (b '/') (url.escape s .encodePath) =
      (strings.Split (b '/') s).map (fun e => url.escape e .encodePath) := by
  induction s with
  | nil => rfl
  | cons c cs ih =>
    by_cases hc : c = b '/'
    · subst hc
      rw [escape_cons, escapeByte_path_slash]
      simp only [List.cons_append, List.nil_append]
      rw [Split_cons_sep, Split_cons_sep, ih]
      rfl
    · rw [escape_cons, Split_append_not_mem _ _ _ (slash_not_mem_escapeByte c hc), ih,
        Split_cons_ne _ _ _ hc]
      have hne := Split_ne_nil (b '/') cs
      cases hs : strings.Split (b '/') cs with
      | nil => exact absurd hs hne
      | cons x xs => simp [escape_cons]

theorem escape_path_injective (s t : GoString)
    (h : url.escape s .encodePath = url.escape t .encodePath) : s = t := by
  have h1 := unescape_escape_path s
  rw [h, unescape_escape_path t] at h1
  injection h1 with h2
  exact h2.symm

theorem isDotSegment_escape (s : GoString) :
    isDotSegment (url.escape s .encodePath) = isDotSegment s := by
  have h1 : url.escape (str ".") .encodePath = str "." := by decide
  have h2 : url.escape (str "..") .encodePath = str ".." := by decide
  unfold isDotSegment
  have e1 : (url.escape s .encodePath = str ".") ↔ (s = str ".") :=
    ⟨fun h => escape_path_injective _ _ (h.trans h1.symm), fun h => by rw [h, h1]⟩
  have e2 : (url.escape s .encodePath = str "..") ↔ (s = str "..") :=
    ⟨fun h => escape_path_injective _ _ (h.trans h2.symm), fun h => by rw [h, h2]⟩
  simp only [e1, e2]

theorem escape_eq_dot (s : GoString) :
    ((url.escape s .encodePath = str ".") ↔ (s = str ".")) ∧
    ((url.escape s .encodePath = str "..") ↔ (s = str "..")) := by
  have h1 : url.escape (str ".") .encodePath = str "." := by decide
  have h2 : url.escape (str "..") .encodePath = str ".." := by decide
  exact ⟨⟨fun h => escape_path_injective _ _ (h.trans h1.symm), fun h => by rw [h, h1]⟩,
    ⟨fun h => escape_path_injective _ _ (h.trans h2.symm), fun h => by rw [h, h2]⟩⟩

theorem resolveStep_escape (acc : Slice GoString) (e : GoString) :
    url.resolveStep (acc.map (fun x => url.escape x .encodePath)) (url.escape e .encodePath) =
      (url.resolveStep acc e).map (fun x => url.escape x .encodePath) := by
  unfold url.resolveStep
  simp only [(escape_eq_dot e).1, (escape_eq_dot e).2]
  split_ifs
  · rfl
  · simp [List.map_dropLast]
  · simp

theorem foldl_resolveStep_escape (acc l : Slice GoString) :
    (l.map (fun x => url.escape x .encodePath)).foldl url.resolveStep
        (acc.map (fun x => url.escape x .encodePath)) =
      (l.foldl url.resolveStep acc).map (fun x => url.escape x .encodePath) := by
  induction l generalizing acc with
  | nil => rfl
  | cons e es ih =>
    simp only [List.map_cons, List.foldl_cons]
    rw [resolveStep_escape, ih]

theorem getLast?_map_escape (l : Slice GoString) (d : GoString)
    (hinj : ∀ s, url.escape s .encodePath = d ↔ s = d) :
    ((l.map (fun x => url.escape x .encodePath)).getLast? = some d) ↔ (l.getLast? = some d) := by
  rw [List.getLast?_map]
  cases h : l.getLast? with
  | none => simp
  | some x => simp [hinj]

theorem resolveElems_escape (l : Slice GoString) :
    resolveElems (l.map (fun x => url.escape x .encodePath)) =
      (resolveElems l).map (fun x => url.escape x .encodePath) := by
  unfold resolveElems
  have h1 := getLast?_map_escape l (str ".") (fun s => (escape_eq_dot s).1)
  have h2 := getLast?_map_escape l (str "..") (fun s => (escape_eq_dot s).2)
  have hf := foldl_resolveStep_escape [] l
  simp only [List.map_nil] at hf
  simp only [h1, h2, hf]
  split_ifs
  · simp [escape_nil]
  · rfl

theorem Join_escape (l : Slice GoString) :
    strings.Join (b '/') (l.map (fun x => url.escape x .encodePath)) =
      url.escape (strings.Join (b '/') l) .encodePath := by
  induction l with
  | nil => rfl
  | cons x xs ih =>
    cases xs with
    | nil => rfl
    | cons y ys =>
      have hl : strings.Join (b '/') (List.map (fun x => url.escape x .encodePath) (x :: y :: ys)) =
          url.escape x .encodePath ++ b '/' ::
            strings.Join (b '/') (List.map (fun x => url.escape x .encodePath) (y :: ys)) := rfl
      have hr : strings.Join (b '/') (x :: y :: ys) = x ++ b '/' :: strings.Join (b '/') (y :: ys) :=
        rfl
      rw [hl, hr, ih, escape_append, escape_cons, escapeByte_path_slash]
      rfl

theorem escapeByte_path_head (c : Byte) :
    (url.escapeByte .encodePath c).head? = some (b '/') ↔ c = b '/' := by
  constructor
  · intro h
    by_contra hc
    have hm : b '/' ∈ url.escapeByte .encodePath c := List.mem_of_mem_head? h
    exact slash_not_mem_escapeByte c hc hm
  · intro h
    rw [h, escapeByte_path_slash]
    rfl

theorem escapeByte_ne_nil (mode : url.encoding) (c : Byte) : url.escapeByte mode c ≠ [] := by
  unfold url.escapeByte
  split_ifs <;> simp

theorem TrimPrefix_escape (s : GoString) :
    strings.TrimPrefix (url.escape s .encodePath) (str "/") =
      url.escape (strings.TrimPrefix s (str "/")) .encodePath := by
  have hstr : str "/" = [b '/'] := by decide
  rw [hstr]
  cases s with
  | nil => rfl
  | cons c cs =>
    by_cases hc : c = b '/'
    · subst hc
      rw [escape_cons, escapeByte_path_slash]
      simp [strings.TrimPrefix]
    · have hh := (escapeByte_path_head c).not.mpr hc
      have hne := escapeByte_ne_nil .encodePath c
      rw [escape_cons]
      cases he : url.escapeByte .encodePath c with
      | nil => exact absurd he hne
      | cons x xs =>
        rw [he] at hh
        simp only [List.head?_cons, Option.some.injEq] at hh
        have hx : ¬ (b '/' = x) := fun e => hh e.symm
        have hc' : ¬ (b '/' = c) := fun e => hc e.symm
        simp [strings.TrimPrefix, hx, hc', escape_cons, he]

/-- Removing the `.` and `..` elements of an escaped absolute path gives the
escaped form of the path without them. -/
theorem resolvePath_escape (base1 base2 p : GoString) :
    url.resolvePath base1 (url.escape (b '/' :: p) .encodePath) =
      url.escape (url.resolvePath base2 (b '/' :: p)) .encodePath := by
  have he : url.escape (b '/' :: p) .encodePath = b '/' :: url.escape p .encodePath := by
    rw [escape_cons, escapeByte_path_slash]; rfl
  rw [he, resolvePath_abs, resolvePath_abs, ← he, Split_escape, resolveElems_escape,
    Join_escape, TrimPrefix_escape, escape_cons, escapeByte_path_slash]
  rfl

/-! ## The URL of a request: `ResolveReference` and `String` -/

theorem setPath_escape (u : url.URL) (P : GoString) :
    u.setPath (url.escape P .encodePath) = .ok { u with Path := P, RawPath := [] } := by
  unfold url.URL.setPath
  rw [unescape_escape_path]
  simp

theorem resolvePath_head (base p : GoString) :
    ∃ r, url.resolvePath base (b '/' :: p) = b '/' :: r := by
  rw [resolvePath_abs]
  exact ⟨_, rfl⟩

theorem cons_slash_ne_star (r : GoString) : (b '/' :: r) ≠ str "*" := by
  intro h
  have h1 : (b '/' :: r).head? = (str "*").head? := by rw [h]
  have h2 : (str "*").head? = some (b '*') := by decide
  rw [h2] at h1
  simp only [List.head?_cons, Option.some.injEq] at h1
  revert h1
  decide

theorem EscapedPath_abs (u : url.URL) (r : GoString) (hraw : u.RawPath = [])
    (hp : u.Path = b '/' :: r) : u.EscapedPath = url.escape (b '/' :: r) .encodePath := by
  unfold url.URL.EscapedPath
  simp [hraw, hp, cons_slash_ne_star]

/-- The URL `newRequest` resolves against the base URL for an absolute path. -/
theorem ResolveReference_abs (base : url.URL) (p q : GoString) :
    base.ResolveReference { Path := b '/' :: p, RawQuery := q } =
      { Scheme := base.Scheme, User := base.User, Host := base.Host,
        Path := url.resolvePath [] (b '/' :: p), RawQuery := q } := by
  have hE : url.URL.EscapedPath { Path := b '/' :: p, RawQuery := q } =
      url.escape (b '/' :: p) .encodePath := EscapedPath_abs _ p rfl rfl
  unfold url.URL.ResolveReference
  simp only [hE, resolvePath_escape base.EscapedPath [] p, setPath_escape]
  simp

theorem String_abs (S H r q : GoString) (hS : S ≠ []) (hH : H ≠ [])
    (hesc : url.escape H .encodeHost = H) :
    url.URL.String { Scheme := S, Host := H, Path := b '/' :: r, RawQuery := q } =
      S ++ b ':' :: b '/' :: b '/' ::
        (H ++ (url.escape (b '/' :: r) .encodePath ++ (if q = [] then [] else b '?' :: q))) := by
  have hE : url.URL.EscapedPath { Scheme := S, Host := H, Path := b '/' :: r, RawQuery := q } =
      url.escape (b '/' :: r) .encodePath := EscapedPath_abs _ r rfl rfl
  have hhead : (url.escape (b '/' :: r) .encodePath).head? = some (b '/') := by
    rw [escape_cons, escapeByte_path_slash]; rfl
  have hstr : str "//" = [b '/', b '/'] := by decide
  unfold url.URL.String
  simp only [hE, hesc, hhead, hstr]
  by_cases hq : q = []
  · simp [hS, hH, hq]
  · simp [hS, hH, hq]

/-! ## Hosts and schemes of a plain base URL -/

set_option maxRecDepth 1000000 in
theorem hostByte_facts :
    ∀ c : Byte, hostByte c = true →
      url.escapeByte .encodeHost c = [c] ∧ c.val ≠ 37 ∧ c.val ≠ 43 ∧
      ¬ (c.val < 0x80 ∧ url.shouldEscape c .encodeHost = true) ∧
      urlTextByte c = true ∧ c ≠ b '/' ∧ c ≠ b '@' ∧ c ≠ b '[' ∧ c ≠ b ']' := by
  decide

theorem plainHost_all (H : GoString) (h : plainHost H = true) : ∀ c ∈ H, hostByte c = true := by
  unfold plainHost at h
  simp only [Bool.and_eq_true, List.all_eq_true] at h
  exact h.1.2

theorem plainHost_ne_nil (H : GoString) (h : plainHost H = true) : H ≠ [] := by
  unfold plainHost at h
  simp only [Bool.and_eq_true, decide_eq_true_eq] at h
  exact h.1.1

theorem escape_host_of_hostBytes (H : GoString) (h : ∀ c ∈ H, hostByte c = true) :
    url.escape H .encodeHost = H := by
  induction H with
  | nil => rfl
  | cons c cs ih =>
    rw [escape_cons, (hostByte_facts c (h c (by simp))).1, ih (fun x hx => h x (by simp [hx]))]
    rfl

theorem unescape_cons_host (c : Byte) (t : GoString) (hc : hostByte c = true) :
    url.unescape .encodeHost (c :: t) = (url.unescape .encodeHost t).map (fun r => c :: r) := by
  obtain ⟨_, h37, h43, hesc, _⟩ := hostByte_facts c hc
  rw [url.unescape.eq_def]
  simp only [not_and] at hesc
  simp [h37, h43]
  intro hlt hse
  exact absurd hse (hesc hlt)

theorem unescape_host_of_hostBytes (H : GoString) (h : ∀ c ∈ H, hostByte c = true) :
    url.unescape .encodeHost H = .ok H := by
  induction H with
  | nil => rfl
  | cons c cs ih =>
    rw [unescape_cons_host c cs (h c (by simp)), ih (fun x hx => h x (by simp [hx]))]
    rfl

theorem not_mem_of_hostBytes (H : GoString) (h : ∀ c ∈ H, hostByte c = true) (x : Byte)
    (hx : hostByte x = false) : x ∉ H := by
  intro hm
  rw [h x hm] at hx
  exact absurd hx (by simp)

theorem parseHost_plain (H : GoString) (h : plainHost H = true) : url.parseHost H = .ok H := by
  have hall := plainHost_all H h
  have hne := plainHost_ne_nil H h
  have hun := unescape_host_of_hostBytes H hall
  have hpre : strings.HasPrefix H (str "[") = false := by
    cases H with
    | nil => exact absurd rfl hne
    | cons c cs =>
      have hc := (hostByte_facts c (hall c (by simp))).2.2.2.2.2.2.2.1
      have hc' : ¬ (b '[' = c) := fun e => hc e.symm
      simp [strings.HasPrefix, str, utf8EncodeRune, List.isPrefixOf]
      intro e
      apply hc
      rw [← e]
      rfl
  unfold plainHost at h
  simp only [Bool.and_eq_true] at h
  have hport := h.2
  unfold url.parseHost
  rw [hpre]
  simp only [Bool.false_eq_true, if_false]
  cases hl : strings.LastIndexByte (b ':') H with
  | none => simp only [hun]
  | some i =>
    rw [hl] at hport
    simp only [Bool.and_eq_true] at hport
    simp only [hport.1, hun, Bool.not_true, Bool.false_eq_true, if_false]

theorem parseAuthority_plain (H : GoString) (h : plainHost H = true) :
    url.parseAuthority H = .ok (none, H) := by
  have hall := plainHost_all H h
  have hat : b '@' ∉ H := not_mem_of_hostBytes H hall _ (by decide)
  unfold url.parseAuthority
  rw [LastIndexByte_not_mem _ _ hat]
  simp only [parseHost_plain H h]

set_option maxRecDepth 1000000 in
theorem schemeByte_facts :
    ∀ d : Byte, schemeByte d = true →
      ((('a'.toNat ≤ d.val ∧ d.val ≤ 'z'.toNat) ∨ ('A'.toNat ≤ d.val ∧ d.val ≤ 'Z'.toNat)) ∨
        (('0'.toNat ≤ d.val ∧ d.val ≤ '9'.toNat) ∨ url.oneOf d "+-." = true)) ∧
      ¬ ('A'.toNat ≤ d.val ∧ d.val ≤ 'Z'.toNat) ∧ urlTextByte d = true ∧ d ≠ b '*' := by
  decide

set_option maxRecDepth 1000000 in
theorem isLower_facts :
    ∀ d : Byte, isLower d = true →
      (('a'.toNat ≤ d.val ∧ d.val ≤ 'z'.toNat) ∨ ('A'.toNat ≤ d.val ∧ d.val ≤ 'Z'.toNat)) ∧
      schemeByte d = true := by
  decide

theorem getSchemeLoop_tail (raw pre s rest : GoString) (hpre : pre ≠ [])
    (hs : ∀ d ∈ s, schemeByte d = true) :
    url.getSchemeLoop raw pre (s ++ b ':' :: rest) = .ok (pre ++ s, rest) := by
  induction s generalizing pre with
  | nil =>
    simp only [List.nil_append, List.append_nil]
    rw [url.getSchemeLoop.eq_def]
    simp [b_val, url.oneOf, hpre]
  | cons d ds ih =>
    have hd := (schemeByte_facts d (hs d (by simp))).1
    rw [List.cons_append, url.getSchemeLoop.eq_def]
    simp only []
    rcases hd with hl | hdg
    · rw [if_pos hl, ih (pre ++ [d]) (by simp) (fun x hx => hs x (by simp [hx]))]
      simp
    · by_cases hl : ('a'.toNat ≤ d.val ∧ d.val ≤ 'z'.toNat) ∨ ('A'.toNat ≤ d.val ∧ d.val ≤ 'Z'.toNat)
      · rw [if_pos hl, ih (pre ++ [d]) (by simp) (fun x hx => hs x (by simp [hx]))]
        simp
      · rw [if_neg hl, if_pos hdg, if_neg hpre,
          ih (pre ++ [d]) (by simp) (fun x hx => hs x (by simp [hx]))]
        simp

theorem getScheme_plain (S rest : GoString) (h : plainScheme S = true) :
    url.getScheme (S ++ b ':' :: rest) = .ok (S, rest) := by
  cases S with
  | nil => simp [plainScheme] at h
  | cons c cs =>
    simp only [plainScheme, Bool.and_eq_true, List.all_eq_true] at h
    have hc := (isLower_facts c h.1).1
    unfold url.getScheme
    rw [List.cons_append, url.getSchemeLoop.eq_def]
    simp only []
    rw [if_pos hc, getSchemeLoop_tail _ _ _ _ (by simp) h.2]
    simp

theorem plainScheme_bytes (S : GoString) (h : plainScheme S = true) :
    ∀ d ∈ S, schemeByte d = true := by
  cases S with
  | nil => simp [plainScheme] at h
  | cons c cs =>
    simp only [plainScheme, Bool.and_eq_true, List.all_eq_true] at h
    intro d hd
    simp only [List.mem_cons] at hd
    rcases hd with hd | hd
    · rw [hd]; exact (isLower_facts c h.1).2
    · exact h.2 d hd

theorem plainScheme_ne_nil (S : GoString) (h : plainScheme S = true) : S ≠ [] := by
  cases S with
  | nil => simp [plainScheme] at h
  | cons c cs => simp

theorem ToLowerASCII_plain (S : GoString) (h : ∀ d ∈ S, schemeByte d = true) :
    strings.ToLowerASCII S = S := by
  unfold strings.ToLowerASCII
  induction S with
  | nil => rfl
  | cons c cs ih =>
    have hc := (schemeByte_facts c (h c (by simp))).2.1
    simp only [List.map_cons, hc, if_false]
    rw [ih (fun x hx => h x (by simp [hx]))]

/-! ## Parsing the text of the URL of a request -/

theorem urlTextByte_facts (x : Byte) (h : urlTextByte x = true) :
    isCTL x = false ∧ x ≠ b '#' ∧ x ≠ b '?' := by
  simp only [urlTextByte, Bool.and_eq_true, Bool.not_eq_true', decide_eq_true_eq] at h
  exact ⟨h.1.1, h.1.2, h.2⟩

theorem queryTextByte_facts (x : Byte) (h : queryTextByte x = true) :
    isCTL x = false ∧ x ≠ b '#' := by
  simp only [queryTextByte, Bool.and_eq_true, Bool.not_eq_true', decide_eq_true_eq] at h
  exact ⟨h.1, h.2⟩

/-- The text before the query of the URL of a request: `//host` and the escaped
path. -/
theorem text_before_query (H E : GoString) (hH : ∀ c ∈ H, hostByte c = true)
    (hE : ∀ x ∈ E, urlTextByte x = true) :
    ∀ x ∈ b '/' :: b '/' :: (H ++ E), urlTextByte x = true := by
  intro x hx
  simp only [List.mem_cons, List.mem_append] at hx
  rcases hx with hx | hx | hx | hx
  · rw [hx]; decide
  · rw [hx]; decide
  · exact (hostByte_facts x (hH x hx)).2.2.2.2.1
  · exact hE x hx

theorem forced_query_false (pre q : GoString) (hpre : b '?' ∉ pre) :
    (strings.HasSuffix (pre ++ (if q = [] then [] else b '?' :: q)) (str "?") &&
      decide (strings.Count (b '?') (pre ++ (if q = [] then [] else b '?' :: q)) = 1)) = false := by
  have hstr : str "?" = [b '?'] := by decide
  rw [hstr]
  unfold strings.HasSuffix strings.Count
  by_cases hq : q = []
  · simp only [hq, if_true, List.append_nil]
    have : ([b '?'].isSuffixOf pre) = false := by
      rw [Bool.eq_false_iff]
      intro hs
      rw [List.isSuffixOf_iff_suffix] at hs
      obtain ⟨t, ht⟩ := hs
      exact hpre (by rw [← ht]; simp)
    simp [this]
  · simp only [hq, if_false]
    rw [Bool.and_eq_false_iff]
    by_cases hs : ([b '?'].isSuffixOf (pre ++ b '?' :: q)) = true
    · right
      rw [List.isSuffixOf_iff_suffix] at hs
      obtain ⟨t, ht⟩ := hs
      have hlast : (pre ++ b '?' :: q).getLast? = some (b '?') := by rw [← ht]; simp
      have hqlast : q.getLast? = some (b '?') := by
        rw [List.getLast?_append] at hlast
        rw [List.getLast?_cons] at hlast
        cases hql : q.getLast? with
        | none =>
          rw [List.getLast?_eq_none_iff] at hql
          exact absurd hql hq
        | some y =>
          rw [hql] at hlast
          simpa using hlast
      have hmem : b '?' ∈ q := List.mem_of_getLast?_eq_some hqlast
      have hc : 0 < List.countP (fun c => decide (c = b '?')) q := by
        rw [List.countP_pos_iff]
        exact ⟨_, hmem, by simp⟩
      simp only [List.countP_append, List.countP_cons, decide_eq_false_iff_not]
      simp
      omega
    · left
      exact Bool.eq_false_iff.mpr hs

theorem Cut_query (pre q : GoString) (hpre : b '?' ∉ pre) :
    (strings.Cut (b '?') (pre ++ (if q = [] then [] else b '?' :: q))).1 = pre ∧
    (strings.Cut (b '?') (pre ++ (if q = [] then [] else b '?' :: q))).2.1 = q := by
  by_cases hq : q = []
  · simp [hq, Cut_not_mem _ _ hpre]
  · simp [hq, Cut_append _ _ _ hpre]

theorem takeWhile_host (H E : GoString) (hH : ∀ c ∈ H, hostByte c = true) :
    (H ++ b '/' :: E).takeWhile (fun c => c ≠ b '/') = H ∧
    (H ++ b '/' :: E).dropWhile (fun c => c ≠ b '/') = b '/' :: E := by
  induction H with
  | nil => simp
  | cons c cs ih =>
    have hc := (hostByte_facts c (hH c (by simp))).2.2.2.2.2.1
    have ih' := ih (fun x hx => hH x (by simp [hx]))
    simp only [List.cons_append, List.takeWhile_cons, List.dropWhile_cons, hc, ne_eq,
      not_false_eq_true, decide_True, if_true, ih'.1, ih'.2, and_self]

theorem any_isCTL_false (s : GoString) (h : ∀ x ∈ s, isCTL x = false) :
    url.stringContainsCTLByte s = false := by
  unfold url.stringContainsCTLByte
  rw [List.any_eq_false]
  intro x hx
  have := h x hx
  unfold isCTL at this
  simpa using this

/-- Parsing the text `scheme://host/path?query` that `String` writes for the
URL of a request gives back its scheme, host, path and query. -/
theorem parse_request_text (S H r q : GoString) (hS : plainScheme S = true)
    (hH : plainHost H = true) (hq : ∀ x ∈ q, queryTextByte x = true) :
    url.Parse (S ++ b ':' :: b '/' :: b '/' ::
        (H ++ (url.escape (b '/' :: r) .encodePath ++ (if q = [] then [] else b '?' :: q)))) =
      .ok { Scheme := S, Host := H, Path := b '/' :: r, RawQuery := q } := by
  have hSb := plainScheme_bytes S hS
  have hHb := plainHost_all H hH
  have hEb := escape_path_bytes (b '/' :: r)
  have hE : url.escape (b '/' :: r) .encodePath = b '/' :: url.escape r .encodePath := by
    rw [escape_cons, escapeByte_path_slash]; rfl
  have hpreb := text_before_query H _ hHb hEb
  have hQb : ∀ x ∈ (if q = [] then [] else b '?' :: q), isCTL x = false ∧ x ≠ b '#' := by
    intro x hx
    by_cases hq0 : q = []
    · simp [hq0] at hx
    · simp only [hq0, if_false, List.mem_cons] at hx
      rcases hx with hx | hx
      · rw [hx]; decide
      · exact queryTextByte_facts x (hq x hx)
  -- the whole text, and its part after the scheme
  have hassoc : S ++ b ':' :: b '/' :: b '/' ::
        (H ++ (url.escape (b '/' :: r) .encodePath ++ (if q = [] then [] else b '?' :: q))) =
      S ++ b ':' :: ((b '/' :: b '/' :: (H ++ url.escape (b '/' :: r) .encodePath)) ++
        (if q = [] then [] else b '?' :: q)) := by
    simp
  rw [hassoc]
  generalize hpre : (b '/' :: b '/' :: (H ++ url.escape (b '/' :: r) .encodePath)) = pre at hpreb
  generalize hQs : (if q = [] then ([] : GoString) else b '?' :: q) = Qs at hQb
  have hall : ∀ x ∈ S ++ b ':' :: (pre ++ Qs), isCTL x = false ∧ x ≠ b '#' := by
    intro x hx
    simp only [List.mem_append, List.mem_cons] at hx
    rcases hx with hx | hx | hx | hx
    · have := urlTextByte_facts x (schemeByte_facts x (hSb x hx)).2.2.1
      exact ⟨this.1, this.2.1⟩
    · rw [hx]; decide
    · have := urlTextByte_facts x (hpreb x hx)
      exact ⟨this.1, this.2.1⟩
    · exact hQb x hx
  have hhash : b '#' ∉ S ++ b ':' :: (pre ++ Qs) := fun hm => (hall _ hm).2 rfl
  have hctl : url.stringContainsCTLByte (S ++ b ':' :: (pre ++ Qs)) = false :=
    any_isCTL_false _ (fun x hx => (hall x hx).1)
  have hstar : S ++ b ':' :: (pre ++ Qs) ≠ str "*" := by
    cases S with
    | nil => simp [plainScheme] at hS
    | cons c cs =>
      intro h
      have h1 : (c :: cs ++ b ':' :: (pre ++ Qs)).length = (str "*").length := by rw [h]
      have h2 : (str "*").length = 1 := by decide
      rw [h2] at h1
      simp at h1
  have hne : S ++ b ':' :: (pre ++ Qs) ≠ [] := by simp
  have hqpre : b '?' ∉ pre := fun hm => (urlTextByte_facts _ (hpreb _ hm)).2.2 rfl
  have hforced := forced_query_false pre q hqpre
  have hcutq := Cut_query pre q hqpre
  rw [hQs] at hforced hcutq
  have hs1 : str "/" = [b '/'] := by decide
  have hs2 : str "//" = [b '/', b '/'] := by decide
  have hs3 : str "///" = [b '/', b '/', b '/'] := by decide
  have hp1 : strings.HasPrefix pre (str "/") = true := by
    rw [← hpre, hs1]; simp [strings.HasPrefix]
  have hp2 : strings.HasPrefix pre (str "//") = true := by
    rw [← hpre, hs2]; simp [strings.HasPrefix]
  have hdrop : pre.drop 2 = H ++ url.escape (b '/' :: r) .encodePath := by
    rw [← hpre]; rfl
  have htw := takeWhile_host H (url.escape r .encodePath) hHb
  have htw1 : List.takeWhile (fun c => !decide (c = b '/'))
      (H ++ url.escape (b '/' :: r) .encodePath) = H := by
    rw [hE]; simpa using htw.1
  have htw2 : List.dropWhile (fun c => !decide (c = b '/'))
      (H ++ url.escape (b '/' :: r) .encodePath) = url.escape (b '/' :: r) .encodePath := by
    rw [hE]; simpa using htw.2
  have hSne := plainScheme_ne_nil S hS
  unfold url.Parse
  rw [Cut_not_mem _ _ hhash]
  simp only []
  unfold url.parse
  simp [hctl, hstar, getScheme_plain S _ hS, ToLowerASCII_plain S hSb, hforced, hcutq.1,
    hcutq.2, hp1, hp2, hdrop, htw1, htw2, parseAuthority_plain H hH, setPath_escape,
    hSne]

/-! ## The request `newRequest` builds -/

theorem removeEmptyPort_plain (H : GoString) (h : plainHost H = true) :
    http.removeEmptyPort H = H := by
  have hall := plainHost_all H h
  have hbr : b ']' ∉ H := not_mem_of_hostBytes H hall _ (by decide)
  unfold plainHost at h
  simp only [Bool.and_eq_true] at h
  have hport := h.2
  unfold http.removeEmptyPort
  rw [LastIndexByte_not_mem _ _ hbr]
  cases hl : strings.LastIndexByte (b ':') H with
  | none => simp
  | some i =>
    rw [hl] at hport
    simp only [Bool.and_eq_true, decide_eq_true_eq] at hport
    obtain ⟨hvalid, hlen⟩ := hport
    have hsuf : ([b ':'].isSuffixOf H) = false := by
      rw [Bool.eq_false_iff]
      intro hs
      rw [List.isSuffixOf_iff_suffix] at hs
      obtain ⟨t, ht⟩ := hs
      have hlast : H.getLast? = some (b ':') := by rw [← ht]; simp
      have hdl : (H.drop i).getLast? = some (b ':') := by
        rw [List.getLast?_drop]
        have : ¬ (H.length ≤ i) := by
          intro hle
          rw [List.drop_of_length_le hle] at hlen
          simp at hlen
        simp [this, hlast]
      cases hd : H.drop i with
      | nil => rw [hd] at hlen; simp at hlen
      | cons x ds =>
        rw [hd] at hvalid hlen hdl
        simp only [url.validOptionalPort, Bool.and_eq_true, List.all_eq_true] at hvalid
        have hds : ds ≠ [] := by
          intro e
          rw [e] at hlen
          simp at hlen
        obtain ⟨y, ys, hys⟩ := List.exists_cons_of_ne_nil hds
        rw [hys, List.getLast?_cons_cons, ← hys] at hdl
        have hmem : b ':' ∈ ds := List.mem_of_getLast?_eq_some hdl
        have := hvalid.2 _ hmem
        revert this
        decide
    have hstr : str ":" = [b ':'] := by decide
    simp [strings.TrimSuffix, hstr, hsuf]

theorem header_set (hasBody : Bool) :
    (http.Header.Set
      (http.Header.Set
        (if hasBody = true then
          http.Header.Set [] (str "Content-Type") (str "application/vnd.api+json")
        else [])
        (str "Accept") (str "application/vnd.api+json"))
      (str "User-Agent") (str "Accounts API Go client")) = requestHeader hasBody := by
  cases hasBody <;> decide

/-- On a plain base URL, for a valid method, an absolute path and a query
string without control bytes and `#`, `newRequest` builds `builtRequest`. -/
theorem newRequest_plain (c : Client) (method p q : GoString)
    (body : Option (Option AccountResource))
    (hbase : plainBase c.BaseURL = true) (hm : http.validMethod method = true)
    (hq : ∀ x ∈ q, queryTextByte x = true) :
    c.newRequest method (b '/' :: p) q body =
      .ok (builtRequest c.BaseURL method (b '/' :: p) q body) := by
  simp only [plainBase, Bool.and_eq_true, Option.isNone_iff_eq_none] at hbase
  obtain ⟨⟨hS, hH⟩, hU⟩ := hbase
  obtain ⟨r, hr⟩ := resolvePath_head [] p
  have hrel : (if q ≠ [] then
      ({ ({ Path := b '/' :: p } : url.URL) with RawQuery := q } : url.URL)
      else ({ Path := b '/' :: p } : url.URL)) = { Path := b '/' :: p, RawQuery := q } := by
    by_cases hq0 : q = []
    · simp [hq0]
    · simp [hq0]
  have hmne : method ≠ [] := by
    intro e
    rw [e] at hm
    simp [http.validMethod] at hm
  have hesc := escape_host_of_hostBytes _ (plainHost_all _ hH)
  unfold Client.newRequest builtRequest
  simp only [hrel, ResolveReference_abs, hU, hr,
    String_abs _ _ r q (plainScheme_ne_nil _ hS) (plainHost_ne_nil _ hH) hesc,
    parse_request_text _ _ r q hS hH hq, http.NewRequest, hmne, hm, if_false,
    removeEmptyPort_plain _ hH, Bool.not_true, Bool.false_eq_true]
  have hh := header_set body.isSome
  cases body with
  | none => simp only [Option.isSome_none] at hh ⊢; rw [← hh]; rfl
  | some a => simp only [Option.isSome_some] at hh ⊢; rw [← hh]; rfl

/-! ## Decimal renderings and query strings -/

/-- Bytes of a decimal rendering: digits and the minus sign. -/
theorem natDigits_bytes (fuel n : Nat) (acc : GoString)
    (hacc : ∀ x ∈ acc, json.isDigit x = true) :
    ∀ x ∈ natDigits fuel n acc, json.isDigit x = true := by
  induction fuel generalizing n acc with
  | zero => simpa [natDigits] using hacc
  | succ f ih =>
    have hd : json.isDigit (Fin.ofNat ('0'.toNat + n % 10)) = true := by
      have h10 : n % 10 < 10 := Nat.mod_lt _ (by decide)
      have hv : ((Fin.ofNat ('0'.toNat + n % 10) : Byte)).val = 48 + n % 10 := by
        show ('0'.toNat + n % 10) % 256 = 48 + n % 10
        have : '0'.toNat = 48 := rfl
        rw [this]
        omega
      unfold json.isDigit
      rw [hv]
      have h0 : '0'.toNat = 48 := rfl
      have h9 : '9'.toNat = 57 := rfl
      rw [h0, h9]
      simp
      omega
    have hacc1 : ∀ x ∈ (Fin.ofNat ('0'.toNat + n % 10) : Byte) :: acc, json.isDigit x = true := by
      intro x hx
      simp only [List.mem_cons] at hx
      rcases hx with hx | hx
      · rw [hx]; exact hd
      · exact hacc x hx
    unfold natDigits
    simp only []
    split_ifs
    · exact hacc1
    · exact ih _ _ hacc1

theorem formatInt_bytes (v : Int) :
    ∀ x ∈ formatInt v, json.isDigit x = true ∨ x = b '-' := by
  intro x hx
  cases v with
  | ofNat n =>
    left
    exact natDigits_bytes _ _ [] (by simp) x hx
  | negSucc n =>
    simp only [formatInt, List.mem_cons] at hx
    rcases hx with hx | hx
    · right; exact hx
    · left
      exact natDigits_bytes _ _ [] (by simp) x hx

set_option maxRecDepth 1000000 in
theorem decimalByte_facts :
    ∀ x : Byte, (json.isDigit x = true ∨ x = b '-') →
      urlTextByte x = true ∧ x ≠ b '&' ∧ x ≠ b '=' ∧ x ≠ b ';' ∧ x.val ≠ 37 ∧ x.val ≠ 43 := by
  decide

theorem QueryUnescape_decimal (s : GoString)
    (h : ∀ x ∈ s, json.isDigit x = true ∨ x = b '-') : url.QueryUnescape s = .ok s := by
  unfold url.QueryUnescape
  induction s with
  | nil => rfl
  | cons c cs ih =>
    obtain ⟨_, _, _, _, h37, h43⟩ := decimalByte_facts c (h c (by simp))
    rw [unescape_cons_plain _ c cs h37 h43 (by simp), ih (fun x hx => h x (by simp [hx]))]
    rfl

theorem Split_not_mem (sep : Byte) (s : GoString) (h : sep ∉ s) :
    strings.Split sep s = [s] := by
  have := Split_append_not_mem sep s [] h
  simpa [strings.Split] using this

theorem urlTextByte_query (x : Byte) (h : urlTextByte x = true) : queryTextByte x = true := by
  obtain ⟨h1, h2, _⟩ := urlTextByte_facts x h
  simp [queryTextByte, h1, h2]

/-- One `key=value` part of a query, both sides query-escaped, adds the value
under the key. -/
theorem parseQueryStep_pair (st : url.Values × Option url.Error) (k v : GoString) :
    url.parseQueryStep st (url.QueryEscape k ++ b '=' :: url.QueryEscape v) =
      (url.Values.Add st.1 k v, st.2) := by
  have hk := QueryEscape_bytes k
  have hv := QueryEscape_bytes v
  have hsemi : strings.ContainsByte (b ';') (url.QueryEscape k ++ b '=' :: url.QueryEscape v) =
      false := by
    unfold strings.ContainsByte
    rw [List.any_eq_false]
    intro x hx
    simp only [List.mem_append, List.mem_cons] at hx
    rcases hx with hx | hx | hx
    · simpa using (hk x hx).2.2.2
    · rw [hx]; decide
    · simpa using (hv x hx).2.2.2
  have heq : b '=' ∉ url.QueryEscape k := fun hm => (hk _ hm).2.2.1 rfl
  unfold url.parseQueryStep
  rw [hsemi]
  simp [Cut_append _ _ _ heq, QueryUnescape_QueryEscape]

theorem ParseQuery_one (k v : GoString) :
    url.ParseQuery (url.QueryEscape k ++ b '=' :: url.QueryEscape v) = ([(k, [v])], none) := by
  have hk := QueryEscape_bytes k
  have hv := QueryEscape_bytes v
  have hamp : b '&' ∉ url.QueryEscape k ++ b '=' :: url.QueryEscape v := by
    intro hx
    simp only [List.mem_append, List.mem_cons] at hx
    rcases hx with hx | hx | hx
    · exact (hk _ hx).2.1 rfl
    · revert hx; decide
    · exact (hv _ hx).2.1 rfl
  unfold url.ParseQuery
  rw [Split_not_mem _ _ hamp]
  simp [parseQueryStep_pair, url.Values.Add]

theorem ParseQuery_two (k1 v1 k2 v2 : GoString) (hne : k1 ≠ k2) :
    url.ParseQuery ((url.QueryEscape k1 ++ b '=' :: url.QueryEscape v1) ++ b '&' ::
        (url.QueryEscape k2 ++ b '=' :: url.QueryEscape v2)) =
      ([(k1, [v1]), (k2, [v2])], none) := by
  have hamp : ∀ k v, b '&' ∉ url.QueryEscape k ++ b '=' :: url.QueryEscape v := by
    intro k v hx
    simp only [List.mem_append, List.mem_cons] at hx
    rcases hx with hx | hx | hx
    · exact (QueryEscape_bytes k _ hx).2.1 rfl
    · revert hx; decide
    · exact (QueryEscape_bytes v _ hx).2.1 rfl
  unfold url.ParseQuery
  rw [Split_append_sep, Split_not_mem _ _ (hamp k1 v1), Split_not_mem _ _ (hamp k2 v2)]
  simp [parseQueryStep_pair, url.Values.Add, hne]

/-! ## Lemmas on the requests of `List`, `Delete` and `Fetch` -/

theorem listQuery_cases (o : PageOpts) :
    listQuery (some o) =
      match o.Number, o.Size with
      | none, none => []
      | some n, none => url.QueryEscape (str "page[number]") ++ b '=' :: url.QueryEscape n
      | none, some k =>
        url.QueryEscape (str "page[size]") ++ b '=' :: url.QueryEscape (formatInt k)
      | some n, some k =>
        (url.QueryEscape (str "page[number]") ++ b '=' :: url.QueryEscape n) ++ b '&' ::
          (url.QueryEscape (str "page[size]") ++ b '=' :: url.QueryEscape (formatInt k)) := by
  have hne : str "page[number]" ≠ str "page[size]" := by decide
  have hne' : str "page[size]" ≠ str "page[number]" := by decide
  have hlt : url.stringLess (str "page[number]") (str "page[size]") = true := by decide
  obtain ⟨num, size⟩ := o
  cases num <;> cases size <;>
    simp [listQuery, query.Values, url.Values.Add, url.Values.Encode, url.sortStrings,
      url.insertSorted, url.Values.lookup, strings.Join, hne, hne', hlt]

theorem pair_bytes (k v : GoString) :
    ∀ x ∈ url.QueryEscape k ++ b '=' :: url.QueryEscape v, queryTextByte x = true := by
  intro x hx
  simp only [List.mem_append, List.mem_cons] at hx
  rcases hx with hx | hx | hx
  · exact urlTextByte_query x (QueryEscape_bytes k x hx).1
  · rw [hx]; decide
  · exact urlTextByte_query x (QueryEscape_bytes v x hx).1

theorem listQuery_bytes (opts : Option PageOpts) :
    ∀ x ∈ listQuery opts, queryTextByte x = true := by
  cases opts with
  | none => intro x hx; simp [listQuery, query.Values] at hx
  | some o =>
    rw [listQuery_cases]
    obtain ⟨num, size⟩ := o
    cases num <;> cases size
    · intro x hx; simp at hx
    · exact pair_bytes _ _
    · exact pair_bytes _ _
    · intro x hx
      simp only [List.mem_append, List.mem_cons] at hx
      rcases hx with (hx | hx | hx) | hx | hx | hx | hx
      · exact urlTextByte_query x (QueryEscape_bytes _ x hx).1
      · rw [hx]; decide
      · exact urlTextByte_query x (QueryEscape_bytes _ x hx).1
      · rw [hx]; decide
      · exact urlTextByte_query x (QueryEscape_bytes _ x hx).1
      · rw [hx]; decide
      · exact urlTextByte_query x (QueryEscape_bytes _ x hx).1

theorem collection_path : str "/v1/organisation/accounts" = b '/' :: str "v1/organisation/accounts" := by
  decide

theorem member_path (accountID : GoString) :
    str "/v1/organisation/accounts/" ++ accountID =
      b '/' :: (str "v1/organisation/accounts" ++ b '/' :: accountID) := by
  have : str "/v1/organisation/accounts/" = b '/' :: (str "v1/organisation/accounts" ++ [b '/']) := by
    decide
  rw [this]
  simp

theorem member_path_no_dots (accountID : GoString) (h : noDotSegments accountID = true) :
    noDotSegments (b '/' :: (str "v1/organisation/accounts" ++ b '/' :: accountID)) = true := by
  unfold noDotSegments at h ⊢
  rw [Split_cons_sep, Split_append_sep]
  have hp : (strings.Split (b '/') (str "v1/organisation/accounts")).all
      (fun e => !isDotSegment e) = true := by decide
  have h0 : isDotSegment [] = false := by decide
  simp only [List.all_cons, List.all_append, hp, h, h0, Bool.not_false, Bool.and_self]

theorem version_query_bytes (version : Int) :
    ∀ x ∈ str "version=" ++ formatInt version, queryTextByte x = true := by
  intro x hx
  simp only [List.mem_append] at hx
  rcases hx with hx | hx
  · have : (str "version=").all queryTextByte = true := by decide
    rw [List.all_eq_true] at this
    exact this x hx
  · exact urlTextByte_query x (decimalByte_facts x (formatInt_bytes version x hx)).1

set_option maxRecDepth 1000000 in
theorem decimalByte_escape :
    ∀ x : Byte, (json.isDigit x = true ∨ x = b '-') →
      url.escapeByte .encodeQueryComponent x = [x] := by
  decide

theorem ParseQuery_version (version : Int) :
    url.ParseQuery (str "version=" ++ formatInt version) =
      ([(str "version", [formatInt version])], none) := by
  have h1 : str "version=" = url.QueryEscape (str "version") ++ [b '='] := by decide
  have h2 : url.QueryEscape (formatInt version) = formatInt version := by
    unfold url.QueryEscape
    have hb := formatInt_bytes version
    generalize formatInt version = s at hb
    induction s with
    | nil => rfl
    | cons c cs ih =>
      have hc := hb c (by simp)
      have he : url.escapeByte .encodeQueryComponent c = [c] := decimalByte_escape c hc
      rw [escape_cons, he, ih (fun x hx => hb x (by simp [hx]))]
      rfl
  have := ParseQuery_one (str "version") (formatInt version)
  rw [h2] at this
  rw [h1]
  simpa using this

/-! ## Classification of responses (claims C1 to C7) -/

/-- C1. Given that the transport call for the request `req` of `Create`
succeeds with the response `resp` (the round trip returns it and its body
closes without error) and that the body of `resp` decodes as JSON into the
envelope `created`, the outcome of `Create` is fixed by the status of `resp`
alone: 201 returns `created` and no error; 409 fails with `ErrConflict`; 500 and
above fail with `ErrServerError`; 400 to 499 other than 409 fail with
`ErrBadInput`; every other status (all below 400 except 201) fails with
`ErrUnknown`. -/
theorem Create_outcome_fixed_by_status (dc : http.Client) (c : Client)
    (account : Option AccountResource) (req : http.Request) (resp : http.Response)
    (created : AccountResource)
    (hsent : (c.Create dc account).sent = [req])
    (hdo : (c.transport dc).Do req = .ok resp)
    (hclose : resp.Body.closeErr = none)
    (hdec : json.Decode resp.Body.reader ({} : AccountResource) = (created, none)) :
    (resp.StatusCode = 201 →
      (c.Create dc account).ret = some created ∧ (c.Create dc account).err = none) ∧
    (resp.StatusCode = 409 →
      (c.Create dc account).ret = none ∧ (c.Create dc account).err = some .ErrConflict) ∧
    (500 ≤ resp.StatusCode →
      (c.Create dc account).ret = none ∧ (c.Create dc account).err = some .ErrServerError) ∧
    (400 ≤ resp.StatusCode ∧ resp.StatusCode ≤ 499 ∧ resp.StatusCode ≠ 409 →
      (c.Create dc account).ret = none ∧ (c.Create dc account).err = some .ErrBadInput) ∧
    (resp.StatusCode < 400 ∧ resp.StatusCode ≠ 201 →
      (c.Create dc account).ret = none ∧ (c.Create dc account).err = some .ErrUnknown) := by
  obtain ⟨hret, herr⟩ := Create_result dc c account req resp created hsent hdo hclose hdec
  rw [hret, herr]
  unfold defaultError
  refine ⟨?_, ?_, ?_, ?_, ?_⟩
  · intro h; simp [h]
  · intro h; simp [h]
  · intro h
    have h1 : resp.StatusCode ≠ 201 := by omega
    have h2 : resp.StatusCode ≠ 409 := by omega
    simp [h1, h2, h]
  · rintro ⟨h3, h4, h2⟩
    have h1 : resp.StatusCode ≠ 201 := by omega
    have h5 : ¬ (500 ≤ resp.StatusCode) := by omega
    simp [h1, h2, h3, h5]
  · rintro ⟨h3, h1⟩
    have h2 : resp.StatusCode ≠ 409 := by omega
    have h5 : ¬ (500 ≤ resp.StatusCode) := by omega
    have h6 : ¬ (400 ≤ resp.StatusCode) := by omega
    simp [h1, h2, h5, h6]

set_option maxRecDepth 1000000 in
/-- Witness for C1: against a service that answers 201 with the envelope it
was sent, `Create` returns that envelope and no error. -/
theorem Create_outcome_fixed_by_status_witness :
    ((exampleClient 201 (json.Encode (some exampleAccount))).Create
        (failingTransport []) (some exampleAccount)).sent = [exampleCreateRequest] ∧
    ((exampleClient 201 (json.Encode (some exampleAccount))).transport
        (failingTransport [])).Do exampleCreateRequest =
      .ok (exampleResponse 201 (json.Encode (some exampleAccount)) exampleCreateRequest) ∧
    (exampleResponse 201 (json.Encode (some exampleAccount))
        exampleCreateRequest).Body.closeErr = none ∧
    json.Decode
        (exampleResponse 201 (json.Encode (some exampleAccount)) exampleCreateRequest).Body.reader
        ({} : AccountResource) = (exampleAccount, none) ∧
    ((exampleClient 201 (json.Encode (some exampleAccount))).Create
        (failingTransport []) (some exampleAccount)).ret = some exampleAccount ∧
    ((exampleClient 201 (json.Encode (some exampleAccount))).Create
        (failingTransport []) (some exampleAccount)).err = none :=
  ⟨by decide, by decide, by decide, by decide,
    (Create_outcome_fixed_by_status (failingTransport [])
      (exampleClient 201 (json.Encode (some exampleAccount))) (some exampleAccount)
      exampleCreateRequest
      (exampleResponse 201 (json.Encode (some exampleAccount)) exampleCreateRequest)
      exampleAccount (by decide) (by decide) (by decide) (by decide)).1 (by decide)⟩

/-- C2. Given that the transport call for the request `req` of `Fetch`
succeeds with the response `resp` (the round trip returns it and its body
closes without error) and that the body of `resp` decodes as JSON into the
envelope `account`, the outcome of `Fetch` is fixed by the status of `resp`
alone: 200 returns `account` and no error; 404 fails with `ErrNotFound`; 500 and
above fail with `ErrServerError`; 400 to 499 other than 404 (409 included)
fail with `ErrBadInput`; every other status (201 and 204 included) fails with
`ErrUnknown`. -/
theorem Fetch_outcome_fixed_by_status (dc : http.Client) (c : Client)
    (accountID : GoString) (req : http.Request) (resp : http.Response)
    (account : AccountResource)
    (hsent : (c.Fetch dc accountID).sent = [req])
    (hdo : (c.transport dc).Do req = .ok resp)
    (hclose : resp.Body.closeErr = none)
    (hdec : json.Decode resp.Body.reader ({} : AccountResource) = (account, none)) :
    (resp.StatusCode = 200 →
      (c.Fetch dc accountID).ret = some account ∧ (c.Fetch dc accountID).err = none) ∧
    (resp.StatusCode = 404 →
      (c.Fetch dc accountID).ret = none ∧ (c.Fetch dc accountID).err = some .ErrNotFound) ∧
    (500 ≤ resp.StatusCode →
      (c.Fetch dc accountID).ret = none ∧ (c.Fetch dc accountID).err = some .ErrServerError) ∧
    (400 ≤ resp.StatusCode ∧ resp.StatusCode ≤ 499 ∧ resp.StatusCode ≠ 404 →
      (c.Fetch dc accountID).ret = none ∧ (c.Fetch dc accountID).err = some .ErrBadInput) ∧
    (resp.StatusCode < 400 ∧ resp.StatusCode ≠ 200 →
      (c.Fetch dc accountID).ret = none ∧ (c.Fetch dc accountID).err = some .ErrUnknown) := by
  obtain ⟨hret, herr⟩ := Fetch_result dc c accountID req resp account hsent hdo hclose hdec
  rw [hret, herr]
  unfold defaultError
  refine ⟨?_, ?_, ?_, ?_, ?_⟩
  · intro h; simp [h]
  · intro h; simp [h]
  · intro h
    have h1 : resp.StatusCode ≠ 200 := by omega
    have h2 : resp.StatusCode ≠ 404 := by omega
    simp [h1, h2, h]
  · rintro ⟨h3, h4, h2⟩
    have h1 : resp.StatusCode ≠ 200 := by omega
    have h5 : ¬ (500 ≤ resp.StatusCode) := by omega
    simp [h1, h2, h3, h5]
  · rintro ⟨h3, h1⟩
    have h2 : resp.StatusCode ≠ 404 := by omega
    have h5 : ¬ (500 ≤ resp.StatusCode) := by omega
    have h6 : ¬ (400 ≤ resp.StatusCode) := by omega
    simp [h1, h2, h5, h6]

set_option maxRecDepth 1000000 in
/-- Witness for C2: a 409 answer to `Fetch`, with the error document as body,
is a bad input. -/
theorem Fetch_outcome_fixed_by_status_witness :
    ((exampleClient 409 exampleErrorDocument).Fetch (failingTransport []) exampleID).sent =
      [exampleFetchRequest] ∧
    ((exampleClient 409 exampleErrorDocument).transport (failingTransport [])).Do
        exampleFetchRequest =
      .ok (exampleResponse 409 exampleErrorDocument exampleFetchRequest) ∧
    (exampleResponse 409 exampleErrorDocument exampleFetchRequest).Body.closeErr = none ∧
    json.Decode (exampleResponse 409 exampleErrorDocument exampleFetchRequest).Body.reader
        ({} : AccountResource) = ({}, none) ∧
    ((exampleClient 409 exampleErrorDocument).Fetch (failingTransport []) exampleID).ret = none ∧
    ((exampleClient 409 exampleErrorDocument).Fetch (failingTransport []) exampleID).err =
      some .ErrBadInput :=
  ⟨by decide, by decide, by decide, by decide,
    (Fetch_outcome_fixed_by_status (failingTransport [])
      (exampleClient 409 exampleErrorDocument) exampleID exampleFetchRequest
      (exampleResponse 409 exampleErrorDocument exampleFetchRequest) {}
      (by decide) (by decide) (by decide) (by decide)).2.2.2.1 (by decide)⟩

/-- C3. Given that the transport call for the request `req` of `List` succeeds
with the response `resp` (the round trip returns it and its body closes
without error) and that the body of `resp` decodes as JSON into the envelope
`accounts`, the outcome of `List` is fixed by the status of `resp` alone: 200
returns the envelope (a non-nil pointer, whatever its sequence) and no error;
500 and above fail with `ErrServerError`; every status in 400 to 499 fails with
`ErrBadInput`, 404 and 409 too; every other status fails with `ErrUnknown`. -/
theorem List_outcome_fixed_by_status (dc : http.Client) (c : Client)
    (opts : Option PageOpts) (req : http.Request) (resp : http.Response)
    (accounts : AccountsResource)
    (hsent : (c.List dc opts).sent = [req])
    (hdo : (c.transport dc).Do req = .ok resp)
    (hclose : resp.Body.closeErr = none)
    (hdec : json.Decode resp.Body.reader ({} : AccountsResource) = (accounts, none)) :
    (resp.StatusCode = 200 →
      (c.List dc opts).ret = some accounts ∧ (c.List dc opts).err = none) ∧
    (500 ≤ resp.StatusCode →
      (c.List dc opts).ret = none ∧ (c.List dc opts).err = some .ErrServerError) ∧
    (400 ≤ resp.StatusCode ∧ resp.StatusCode ≤ 499 →
      (c.List dc opts).ret = none ∧ (c.List dc opts).err = some .ErrBadInput) ∧
    (resp.StatusCode = 404 ∨ resp.StatusCode = 409 →
      (c.List dc opts).ret = none ∧ (c.List dc opts).err = some .ErrBadInput) ∧
    (resp.StatusCode < 400 ∧ resp.StatusCode ≠ 200 →
      (c.List dc opts).ret = none ∧ (c.List dc opts).err = some .ErrUnknown) := by
  obtain ⟨hret, herr⟩ := List_result dc c opts req resp accounts hsent hdo hclose hdec
  rw [hret, herr]
  unfold defaultError
  refine ⟨?_, ?_, ?_, ?_, ?_⟩
  · intro h; simp [h]
  · intro h
    have h1 : resp.StatusCode ≠ 200 := by omega
    simp [h1, h]
  · rintro ⟨h3, h4⟩
    have h1 : resp.StatusCode ≠ 200 := by omega
    have h5 : ¬ (500 ≤ resp.StatusCode) := by omega
    simp [h1, h3, h5]
  · intro h
    have h1 : resp.StatusCode ≠ 200 := by omega
    have h3 : 400 ≤ resp.StatusCode := by omega
    have h5 : ¬ (500 ≤ resp.StatusCode) := by omega
    simp [h1, h3, h5]
  · rintro ⟨h3, h1⟩
    have h5 : ¬ (500 ≤ resp.StatusCode) := by omega
    have h6 : ¬ (400 ≤ resp.StatusCode) := by omega
    simp [h1, h5, h6]

set_option maxRecDepth 1000000 in
/-- Witness for C3: a 200 answer with an empty sequence gives a non-nil
envelope whose sequence is empty. -/
theorem List_outcome_fixed_by_status_witness :
    ((exampleClient 200 exampleEmptyList).List (failingTransport []) none).sent =
      [exampleListRequest] ∧
    ((exampleClient 200 exampleEmptyList).transport (failingTransport [])).Do
        exampleListRequest =
      .ok (exampleResponse 200 exampleEmptyList exampleListRequest) ∧
    (exampleResponse 200 exampleEmptyList exampleListRequest).Body.closeErr = none ∧
    json.Decode (exampleResponse 200 exampleEmptyList exampleListRequest).Body.reader
        ({} : AccountsResource) = ({ Data := some [] }, none) ∧
    ((exampleClient 200 exampleEmptyList).List (failingTransport []) none).ret =
      some { Data := some [] } ∧
    ((exampleClient 200 exampleEmptyList).List (failingTransport []) none).err = none :=
  ⟨by decide, by decide, by decide, by decide,
    (List_outcome_fixed_by_status (failingTransport [])
      (exampleClient 200 exampleEmptyList) none exampleListRequest
      (exampleResponse 200 exampleEmptyList exampleListRequest) { Data := some [] }
      (by decide) (by decide) (by decide) (by decide)).1 (by decide)⟩

/-- C4. Given that the transport call for the request `req` of `Delete`
succeeds with the response `resp` (the round trip returns it and its body
closes without error), the outcome of `Delete` is fixed by the status of
`resp` alone: 204 returns nil; 404 fails with `ErrNotFound`; 409 fails with
`ErrConflict`; 500 and above fail with `ErrServerError`; every other status in
400 to 499 fails with `ErrBadInput`; every other status (200 included) fails
with `ErrUnknown`. The cases 404 and 409 come before the rule of the range 400
to 499. -/
theorem Delete_outcome_fixed_by_status (dc : http.Client) (c : Client)
    (accountID : GoString) (version : Int) (req : http.Request) (resp : http.Response)
    (hsent : (c.Delete dc accountID version).sent = [req])
    (hdo : (c.transport dc).Do req = .ok resp)
    (hclose : resp.Body.closeErr = none) :
    (resp.StatusCode = 204 → (c.Delete dc accountID version).err = none) ∧
    (resp.StatusCode = 404 → (c.Delete dc accountID version).err = some .ErrNotFound) ∧
    (resp.StatusCode = 409 → (c.Delete dc accountID version).err = some .ErrConflict) ∧
    (500 ≤ resp.StatusCode → (c.Delete dc accountID version).err = some .ErrServerError) ∧
    (400 ≤ resp.StatusCode ∧ resp.StatusCode ≤ 499 ∧ resp.StatusCode ≠ 404 ∧
        resp.StatusCode ≠ 409 →
      (c.Delete dc accountID version).err = some .ErrBadInput) ∧
    (resp.StatusCode < 400 ∧ resp.StatusCode ≠ 204 →
      (c.Delete dc accountID version).err = some .ErrUnknown) := by
  have herr := Delete_result dc c accountID version req resp hsent hdo hclose
  rw [herr]
  unfold defaultError
  refine ⟨?_, ?_, ?_, ?_, ?_, ?_⟩
  · intro h; simp [h]
  · intro h; simp [h]
  · intro h; simp [h]
  · intro h
    have h1 : resp.StatusCode ≠ 204 := by omega
    have h2 : resp.StatusCode ≠ 404 := by omega
    have h3 : resp.StatusCode ≠ 409 := by omega
    simp [h1, h2, h3, h]
  · rintro ⟨h4, h5, h2, h3⟩
    have h1 : resp.StatusCode ≠ 204 := by omega
    have h6 : ¬ (500 ≤ resp.StatusCode) := by omega
    simp [h1, h2, h3, h4, h6]
  · rintro ⟨h4, h1⟩
    have h2 : resp.StatusCode ≠ 404 := by omega
    have h3 : resp.StatusCode ≠ 409 := by omega
    have h5 : ¬ (500 ≤ resp.StatusCode) := by omega
    have h6 : ¬ (400 ≤ resp.StatusCode) := by omega
    simp [h1, h2, h3, h5, h6]

set_option maxRecDepth 1000000 in
/-- Witness for C4: a 200 answer to `Delete` is an unknown error. -/
theorem Delete_outcome_fixed_by_status_witness :
    ((exampleClient 200 []).Delete (failingTransport []) exampleID 0).sent =
      [exampleDeleteRequest] ∧
    ((exampleClient 200 []).transport (failingTransport [])).Do exampleDeleteRequest =
      .ok (exampleResponse 200 [] exampleDeleteRequest) ∧
    (exampleResponse 200 [] exampleDeleteRequest).Body.closeErr = none ∧
    ((exampleClient 200 []).Delete (failingTransport []) exampleID 0).err = some .ErrUnknown :=
  ⟨by decide, by decide, by decide,
    (Delete_outcome_fixed_by_status (failingTransport []) (exampleClient 200 []) exampleID 0
      exampleDeleteRequest (exampleResponse 200 [] exampleDeleteRequest)
      (by decide) (by decide) (by decide)).2.2.2.2.2 (by decide)⟩

theorem Create_error (dc : http.Client) (c : Client) (account : Option AccountResource)
    (req : http.Request) (e : Error)
    (hsent : (c.Create dc account).sent = [req])
    (hout : (c.do dc req (some ({} : AccountResource))).out = .error e) :
    (c.Create dc account).ret = none ∧ (c.Create dc account).err = some e := by
  have hreq := request_of_sent ((Create_sent dc c account).symm.trans hsent)
  unfold Client.Create
  simp only [hreq, hout, and_self]

theorem Fetch_error (dc : http.Client) (c : Client) (accountID : GoString)
    (req : http.Request) (e : Error)
    (hsent : (c.Fetch dc accountID).sent = [req])
    (hout : (c.do dc req (some ({} : AccountResource))).out = .error e) :
    (c.Fetch dc accountID).ret = none ∧ (c.Fetch dc accountID).err = some e := by
  have hreq := request_of_sent ((Fetch_sent dc c accountID).symm.trans hsent)
  unfold Client.Fetch
  simp only [hreq, hout, and_self]

theorem List_error (dc : http.Client) (c : Client) (opts : Option PageOpts)
    (req : http.Request) (e : Error)
    (hsent : (c.List dc opts).sent = [req])
    (hout : (c.do dc req (some ({} : AccountsResource))).out = .error e) :
    (c.List dc opts).ret = none ∧ (c.List dc opts).err = some e := by
  have hreq := request_of_sent ((List_sent dc c opts).symm.trans hsent)
  unfold listQuery at hreq
  unfold Client.List
  simp only [hreq, hout, and_self]

theorem Delete_error (dc : http.Client) (c : Client) (accountID : GoString) (version : Int)
    (req : http.Request) (e : Error)
    (hsent : (c.Delete dc accountID version).sent = [req])
    (hout : (c.do dc req (none : Option errorDetail)).out = .error e) :
    (c.Delete dc accountID version).err = some e := by
  have hreq := request_of_sent ((Delete_sent dc c accountID version).symm.trans hsent)
  unfold Client.Delete
  simp only [hreq, hout]

/-- C5. For `Create`, `Fetch` and `List`, with `req` the request handed to the
transport: if the round trip fails with `msg`, the operation returns no
envelope and that error; if the round trip returns a response `resp`, of
whatever status, whose body does not decode into the result envelope, the
operation returns no envelope and the error `e` of the decoder; if closing the
body fails with `msg`, it returns no envelope and that error. None of these
errors is one of the five declared ones. -/
theorem transport_and_decode_errors_propagate (dc : http.Client) (c : Client)
    (account : Option AccountResource) (accountID : GoString) (opts : Option PageOpts)
    (req : http.Request) :
    (∀ msg : GoString, (c.transport dc).Do req = .error msg →
      ((c.Create dc account).sent = [req] →
        (c.Create dc account).ret = none ∧ (c.Create dc account).err = some (.transport msg)) ∧
      ((c.Fetch dc accountID).sent = [req] →
        (c.Fetch dc accountID).ret = none ∧ (c.Fetch dc accountID).err = some (.transport msg)) ∧
      ((c.List dc opts).sent = [req] →
        (c.List dc opts).ret = none ∧ (c.List dc opts).err = some (.transport msg))) ∧
    (∀ (resp : http.Response) (e : json.Error), (c.transport dc).Do req = .ok resp →
      (∀ v : AccountResource, json.Decode resp.Body.reader ({} : AccountResource) = (v, some e) →
        ((c.Create dc account).sent = [req] →
          (c.Create dc account).ret = none ∧ (c.Create dc account).err = some (.decode e)) ∧
        ((c.Fetch dc accountID).sent = [req] →
          (c.Fetch dc accountID).ret = none ∧ (c.Fetch dc accountID).err = some (.decode e))) ∧
      (∀ v : AccountsResource,
        json.Decode resp.Body.reader ({} : AccountsResource) = (v, some e) →
        (c.List dc opts).sent = [req] →
        (c.List dc opts).ret = none ∧ (c.List dc opts).err = some (.decode e))) ∧
    (∀ (resp : http.Response) (msg : GoString), (c.transport dc).Do req = .ok resp →
      resp.Body.closeErr = some msg →
      (∀ v : AccountResource, json.Decode resp.Body.reader ({} : AccountResource) = (v, none) →
        ((c.Create dc account).sent = [req] →
          (c.Create dc account).ret = none ∧ (c.Create dc account).err = some (.close msg)) ∧
        ((c.Fetch dc accountID).sent = [req] →
          (c.Fetch dc accountID).ret = none ∧ (c.Fetch dc accountID).err = some (.close msg))) ∧
      (∀ v : AccountsResource, json.Decode resp.Body.reader ({} : AccountsResource) = (v, none) →
        (c.List dc opts).sent = [req] →
        (c.List dc opts).ret = none ∧ (c.List dc opts).err = some (.close msg))) ∧
    (∀ (msg : GoString) (e : json.Error),
      Error.transport msg ∉ Error.declared ∧ Error.decode e ∉ Error.declared ∧
        Error.close msg ∉ Error.declared) := by
  refine ⟨?_, ?_, ?_, ?_⟩
  · intro msg hdo
    exact ⟨fun hs => Create_error dc c account req _ hs (do_transport_error dc c req _ msg hdo),
      fun hs => Fetch_error dc c accountID req _ hs (do_transport_error dc c req _ msg hdo),
      fun hs => List_error dc c opts req _ hs (do_transport_error dc c req _ msg hdo)⟩
  · intro resp e hdo
    refine ⟨fun v hdec => ⟨fun hs => ?_, fun hs => ?_⟩, fun v hdec hs => ?_⟩
    · exact Create_error dc c account req _ hs (do_decode_error dc c req _ v resp e hdo hdec)
    · exact Fetch_error dc c accountID req _ hs (do_decode_error dc c req _ v resp e hdo hdec)
    · exact List_error dc c opts req _ hs (do_decode_error dc c req _ v resp e hdo hdec)
  · intro resp msg hdo hclose
    refine ⟨fun v hdec => ⟨fun hs => ?_, fun hs => ?_⟩, fun v hdec hs => ?_⟩
    · exact Create_error dc c account req _ hs
        (do_close_error dc c req _ v resp msg hdo hdec hclose)
    · exact Fetch_error dc c accountID req _ hs
        (do_close_error dc c req _ v resp msg hdo hdec hclose)
    · exact List_error dc c opts req _ hs
        (do_close_error dc c req _ v resp msg hdo hdec hclose)
  · intro msg e
    simp [Error.declared]

set_option maxRecDepth 1000000 in
/-- Witness for C5: a 201 answer whose body is not JSON makes `Create` return
the error of the decoder, and a failed round trip makes `Fetch` return the
error of the transport. -/
theorem transport_and_decode_errors_propagate_witness :
    (((exampleClient 201 (str "<html>")).transport (failingTransport [])).Do
        exampleCreateRequest = .ok (exampleResponse 201 (str "<html>") exampleCreateRequest) ∧
      json.Decode (exampleResponse 201 (str "<html>") exampleCreateRequest).Body.reader
        ({} : AccountResource) = ({}, some .SyntaxError) ∧
      ((exampleClient 201 (str "<html>")).Create (failingTransport [])
        (some exampleAccount)).sent = [exampleCreateRequest] ∧
      ((exampleClient 201 (str "<html>")).Create (failingTransport [])
        (some exampleAccount)).ret = none ∧
      ((exampleClient 201 (str "<html>")).Create (failingTransport [])
        (some exampleAccount)).err = some (.decode .SyntaxError)) ∧
    (((failingClient (str "connection refused")).transport (failingTransport [])).Do
        exampleFetchRequest = .error (str "connection refused") ∧
      ((failingClient (str "connection refused")).Fetch (failingTransport [])
        exampleID).sent = [exampleFetchRequest] ∧
      ((failingClient (str "connection refused")).Fetch (failingTransport [])
        exampleID).ret = none ∧
      ((failingClient (str "connection refused")).Fetch (failingTransport [])
        exampleID).err = some (.transport (str "connection refused"))) :=
  ⟨⟨by decide, by decide, by decide,
    (((transport_and_decode_errors_propagate (failingTransport [])
      (exampleClient 201 (str "<html>")) (some exampleAccount) exampleID none
      exampleCreateRequest).2.1
      (exampleResponse 201 (str "<html>") exampleCreateRequest) .SyntaxError (by decide)).1
      {} (by decide)).1 (by decide)⟩,
   ⟨by decide, by decide,
    ((transport_and_decode_errors_propagate (failingTransport [])
      (failingClient (str "connection refused")) none exampleID none
      exampleFetchRequest).1 (str "connection refused") (by decide)).2.1 (by decide)⟩⟩

/-- C6, as amended. For every response to `Create` whose status is 409: if
its body decodes as JSON into the envelope (as an error document does) and
closes without error, `Create` fails with `ErrConflict`; if its body does not
decode (an empty body, text that is not JSON), `Create` fails with the error of
the decoder. -/
theorem Create_conflict_when_body_decodes (dc : http.Client) (c : Client)
    (account : Option AccountResource) (req : http.Request) (resp : http.Response)
    (hsent : (c.Create dc account).sent = [req])
    (hdo : (c.transport dc).Do req = .ok resp)
    (hstatus : resp.StatusCode = 409) :
    (∀ v : AccountResource, json.Decode resp.Body.reader ({} : AccountResource) = (v, none) →
      resp.Body.closeErr = none →
      (c.Create dc account).ret = none ∧ (c.Create dc account).err = some .ErrConflict) ∧
    (∀ (v : AccountResource) (e : json.Error),
      json.Decode resp.Body.reader ({} : AccountResource) = (v, some e) →
      (c.Create dc account).ret = none ∧ (c.Create dc account).err = some (.decode e)) := by
  constructor
  · intro v hdec hclose
    obtain ⟨hret, herr⟩ := Create_result dc c account req resp v hsent hdo hclose hdec
    rw [hret, herr, hstatus]
    simp
  · intro v e hdec
    exact Create_error dc c account req _ hsent (do_decode_error dc c req _ v resp e hdo hdec)

set_option maxRecDepth 1000000 in
/-- Witness for C6 as amended: a 409 answer with the error document of the
service makes `Create` fail with `ErrConflict`. -/
theorem Create_conflict_when_body_decodes_witness :
    ((exampleClient 409 exampleErrorDocument).Create (failingTransport [])
        (some exampleAccount)).sent = [exampleCreateRequest] ∧
    ((exampleClient 409 exampleErrorDocument).transport (failingTransport [])).Do
        exampleCreateRequest =
      .ok (exampleResponse 409 exampleErrorDocument exampleCreateRequest) ∧
    (exampleResponse 409 exampleErrorDocument exampleCreateRequest).StatusCode = 409 ∧
    json.Decode (exampleResponse 409 exampleErrorDocument exampleCreateRequest).Body.reader
        ({} : AccountResource) = ({}, none) ∧
    ((exampleClient 409 exampleErrorDocument).Create (failingTransport [])
        (some exampleAccount)).ret = none ∧
    ((exampleClient 409 exampleErrorDocument).Create (failingTransport [])
        (some exampleAccount)).err = some .ErrConflict :=
  ⟨by decide, by decide, by decide, by decide,
    (Create_conflict_when_body_decodes (failingTransport [])
      (exampleClient 409 exampleErrorDocument) (some exampleAccount) exampleCreateRequest
      (exampleResponse 409 exampleErrorDocument exampleCreateRequest)
      (by decide) (by decide) (by decide)).1 {} (by decide) (by decide)⟩

set_option maxRecDepth 1000000 in
/-- Counterexample to C6 as stated: to a 409 answer with an empty body
`Create` returns `io.EOF` from the decoder, and to a 409 answer whose body is
not JSON a syntax error, not `ErrConflict`. -/
theorem Create_conflict_any_body_counterexample :
    ((exampleClient 409 []).transport (failingTransport [])).Do exampleCreateRequest =
      .ok (exampleResponse 409 [] exampleCreateRequest) ∧
    ((exampleClient 409 []).Create (failingTransport []) (some exampleAccount)).sent =
      [exampleCreateRequest] ∧
    ((exampleClient 409 []).Create (failingTransport []) (some exampleAccount)).err =
      some (.decode .EOF) ∧
    ((exampleClient 409 []).Create (failingTransport []) (some exampleAccount)).err ≠
      some .ErrConflict ∧
    ((exampleClient 409 (str "Conflict")).Create (failingTransport [])
      (some exampleAccount)).err = some (.decode .SyntaxError) ∧
    ((exampleClient 409 (str "Conflict")).Create (failingTransport [])
      (some exampleAccount)).err ≠ some .ErrConflict := by
  decide

/-- C7, as amended. For each of the four operations, given that the round trip
for its request `req` returned `resp` and the body closed without error, and,
for `Create`, `Fetch` and `List`, that the body decoded: every status below 400
other than the success code of the operation (201 for `Create`, 200 for `Fetch`
and `List`, 204 for `Delete`) fails with `ErrUnknown`, while a status of 600 or
above fails with `ErrServerError`, as every status of 500 or above does. -/
theorem unexpected_status_outcome (dc : http.Client) (c : Client)
    (req : http.Request) (resp : http.Response)
    (hdo : (c.transport dc).Do req = .ok resp)
    (hclose : resp.Body.closeErr = none) :
    (∀ (account : Option AccountResource) (v : AccountResource),
      (c.Create dc account).sent = [req] →
      json.Decode resp.Body.reader ({} : AccountResource) = (v, none) →
      (resp.StatusCode < 400 ∧ resp.StatusCode ≠ 201 →
        (c.Create dc account).err = some .ErrUnknown) ∧
      (600 ≤ resp.StatusCode → (c.Create dc account).err = some .ErrServerError)) ∧
    (∀ (accountID : GoString) (v : AccountResource),
      (c.Fetch dc accountID).sent = [req] →
      json.Decode resp.Body.reader ({} : AccountResource) = (v, none) →
      (resp.StatusCode < 400 ∧ resp.StatusCode ≠ 200 →
        (c.Fetch dc accountID).err = some .ErrUnknown) ∧
      (600 ≤ resp.StatusCode → (c.Fetch dc accountID).err = some .ErrServerError)) ∧
    (∀ (opts : Option PageOpts) (v : AccountsResource),
      (c.List dc opts).sent = [req] →
      json.Decode resp.Body.reader ({} : AccountsResource) = (v, none) →
      (resp.StatusCode < 400 ∧ resp.StatusCode ≠ 200 →
        (c.List dc opts).err = some .ErrUnknown) ∧
      (600 ≤ resp.StatusCode → (c.List dc opts).err = some .ErrServerError)) ∧
    (∀ (accountID : GoString) (version : Int),
      (c.Delete dc accountID version).sent = [req] →
      (resp.StatusCode < 400 ∧ resp.StatusCode ≠ 204 →
        (c.Delete dc accountID version).err = some .ErrUnknown) ∧
      (600 ≤ resp.StatusCode → (c.Delete dc accountID version).err = some .ErrServerError)) := by
  refine ⟨?_, ?_, ?_, ?_⟩
  · intro account v hsent hdec
    rw [(Create_result dc c account req resp v hsent hdo hclose hdec).2]
    unfold defaultError
    constructor
    · rintro ⟨h1, h2⟩
      have h3 : resp.StatusCode ≠ 409 := by omega
      have h5 : ¬ (500 ≤ resp.StatusCode) := by omega
      have h6 : ¬ (400 ≤ resp.StatusCode) := by omega
      simp [h2, h3, h5, h6]
    · intro h
      have h2 : resp.StatusCode ≠ 201 := by omega
      have h3 : resp.StatusCode ≠ 409 := by omega
      have h5 : 500 ≤ resp.StatusCode := by omega
      simp [h2, h3, h5]
  · intro accountID v hsent hdec
    rw [(Fetch_result dc c accountID req resp v hsent hdo hclose hdec).2]
    unfold defaultError
    constructor
    · rintro ⟨h1, h2⟩
      have h3 : resp.StatusCode ≠ 404 := by omega
      have h5 : ¬ (500 ≤ resp.StatusCode) := by omega
      have h6 : ¬ (400 ≤ resp.StatusCode) := by omega
      simp [h2, h3, h5, h6]
    · intro h
      have h2 : resp.StatusCode ≠ 200 := by omega
      have h3 : resp.StatusCode ≠ 404 := by omega
      have h5 : 500 ≤ resp.StatusCode := by omega
      simp [h2, h3, h5]
  · intro opts v hsent hdec
    rw [(List_result dc c opts req resp v hsent hdo hclose hdec).2]
    unfold defaultError
    constructor
    · rintro ⟨h1, h2⟩
      have h5 : ¬ (500 ≤ resp.StatusCode) := by omega
      have h6 : ¬ (400 ≤ resp.StatusCode) := by omega
      simp [h2, h5, h6]
    · intro h
      have h2 : resp.StatusCode ≠ 200 := by omega
      have h5 : 500 ≤ resp.StatusCode := by omega
      simp [h2, h5]
  · intro accountID version hsent
    rw [Delete_result dc c accountID version req resp hsent hdo hclose]
    unfold defaultError
    constructor
    · rintro ⟨h1, h2⟩
      have h3 : resp.StatusCode ≠ 404 := by omega
      have h4 : resp.StatusCode ≠ 409 := by omega
      have h5 : ¬ (500 ≤ resp.StatusCode) := by omega
      have h6 : ¬ (400 ≤ resp.StatusCode) := by omega
      simp [h2, h3, h4, h5, h6]
    · intro h
      have h2 : resp.StatusCode ≠ 204 := by omega
      have h3 : resp.StatusCode ≠ 404 := by omega
      have h4 : resp.StatusCode ≠ 409 := by omega
      have h5 : 500 ≤ resp.StatusCode := by omega
      simp [h2, h3, h4, h5]

set_option maxRecDepth 1000000 in
/-- Witness for C7 as amended: a 302 answer to `Delete` is an unknown error. -/
theorem unexpected_status_outcome_witness :
    ((exampleClient 302 []).transport (failingTransport [])).Do exampleDeleteRequest =
      .ok (exampleResponse 302 [] exampleDeleteRequest) ∧
    (exampleResponse 302 [] exampleDeleteRequest).Body.closeErr = none ∧
    ((exampleClient 302 []).Delete (failingTransport []) exampleID 0).sent =
      [exampleDeleteRequest] ∧
    ((exampleClient 302 []).Delete (failingTransport []) exampleID 0).err = some .ErrUnknown :=
  ⟨by decide, by decide, by decide,
    ((unexpected_status_outcome (failingTransport []) (exampleClient 302 [])
      exampleDeleteRequest (exampleResponse 302 [] exampleDeleteRequest)
      (by decide) (by decide)).2.2.2 exampleID 0 (by decide)).1 (by decide)⟩

set_option maxRecDepth 1000000 in
/-- Counterexample to C7 as stated: the status 600 is neither a success code
nor within 400 to 599, the round trip of `Delete` completes, and `Delete`
fails with `ErrServerError`, not with `ErrUnknown`; and a 302 answer with an
empty body makes `Fetch` fail with `io.EOF` from the decoder, not with
`ErrUnknown`. -/
theorem unexpected_status_unknown_counterexample :
    ((exampleClient 600 []).transport (failingTransport [])).Do exampleDeleteRequest =
      .ok (exampleResponse 600 [] exampleDeleteRequest) ∧
    (exampleResponse 600 [] exampleDeleteRequest).Body.closeErr = none ∧
    ((exampleClient 600 []).Delete (failingTransport []) exampleID 0).sent =
      [exampleDeleteRequest] ∧
    ((exampleClient 600 []).Delete (failingTransport []) exampleID 0).err =
      some .ErrServerError ∧
    ((exampleClient 600 []).Delete (failingTransport []) exampleID 0).err ≠
      some .ErrUnknown ∧
    ((exampleClient 302 []).Fetch (failingTransport []) exampleID).err =
      some (.decode .EOF) := by
  decide

/-! ## The requests of `List`, `Delete` and `Fetch` (claims C8 to C10) -/

/-- C8. On a client with a plain base URL (`scheme://host[:port]`), for every
`PageOpts`: `List` hands one GET request to the transport; the parameters of
its query string hold `page[number]` if and only if `Number` is present and
`page[size]` if and only if `Size` is present; a present option is sent with
its value, also when that is the empty string or 0; and when neither option is
present the URL of the request carries no query string at all (no query, no
`?`). -/
theorem List_query_parameters (dc : http.Client) (c : Client) (o : PageOpts)
    (hbase : plainBase c.BaseURL = true) :
    ∃ req, (c.List dc (some o)).sent = [req] ∧ req.Method = http.MethodGet ∧
      (req.URL.Query.Has (str "page[number]") = true ↔ o.Number.isSome = true) ∧
      (req.URL.Query.Has (str "page[size]") = true ↔ o.Size.isSome = true) ∧
      (∀ n, o.Number = some n → req.URL.Query.lookup (str "page[number]") = [n]) ∧
      (∀ k, o.Size = some k → req.URL.Query.lookup (str "page[size]") = [formatInt k]) ∧
      (o.Number = none → o.Size = none →
        req.URL.RawQuery = [] ∧ req.URL.ForceQuery = false ∧ b '?' ∉ req.URL.String) := by
  have hreq := newRequest_plain c http.MethodGet (str "v1/organisation/accounts")
    (listQuery (some o)) none hbase (by decide) (listQuery_bytes (some o))
  rw [← collection_path] at hreq
  refine ⟨builtRequest c.BaseURL http.MethodGet (str "/v1/organisation/accounts")
    (listQuery (some o)) none, ?_, ?_⟩
  · rw [List_sent, hreq]; rfl
  have hne : str "page[number]" ≠ str "page[size]" := by decide
  have hne' : str "page[size]" ≠ str "page[number]" := by decide
  refine ⟨rfl, ?_⟩
  simp only [builtRequest, url.URL.Query]
  rw [listQuery_cases]
  obtain ⟨num, size⟩ := o
  cases num with
  | none =>
    cases size with
    | none =>
      simp only [Option.isSome_none, Bool.false_eq_true, iff_false, Bool.not_eq_true]
      refine ⟨by decide, by decide, by simp, by simp,
        fun _ _ => ⟨by first | rfl | trivial, by first | rfl | trivial, ?_⟩⟩
      simp only [plainBase, Bool.and_eq_true, Option.isNone_iff_eq_none] at hbase
      obtain ⟨⟨hS, hH⟩, hU⟩ := hbase
      obtain ⟨r, hr⟩ := resolvePath_head [] (str "v1/organisation/accounts")
      rw [collection_path, hr,
        String_abs _ _ r [] (plainScheme_ne_nil _ hS) (plainHost_ne_nil _ hH)
          (escape_host_of_hostBytes _ (plainHost_all _ hH))]
      intro hm
      simp only [if_true, List.append_nil, List.mem_append, List.mem_cons] at hm
      rcases hm with hm | hm | hm | hm | hm | hm
      · exact (urlTextByte_facts _
          (schemeByte_facts _ (plainScheme_bytes _ hS _ hm)).2.2.1).2.2 rfl
      · revert hm; decide
      · revert hm; decide
      · revert hm; decide
      · exact (urlTextByte_facts _ (hostByte_facts _ (plainHost_all _ hH _ hm)).2.2.2.2.1).2.2 rfl
      · exact (urlTextByte_facts _ (escape_path_bytes _ _ hm)).2.2 rfl
    | some k =>
      simp only [ParseQuery_one]
      simp [url.Values.Has, url.Values.lookup, hne, hne']
  | some n =>
    cases size with
    | none =>
      simp only [ParseQuery_one]
      simp [url.Values.Has, url.Values.lookup, hne, hne']
    | some k =>
      simp only [ParseQuery_two _ _ _ _ hne]
      simp [url.Values.Has, url.Values.lookup, hne, hne']

/-- C9. On a client with a plain base URL (`scheme://host[:port]`), for every
account id and every version: `Delete` hands one DELETE request to the
transport, whose query string is exactly `version=` followed by the base-10
rendering of the version, with no fragment; its parameters are `version` with
that one value and nothing else, whatever bytes the id holds. -/
theorem Delete_query_is_version (dc : http.Client) (c : Client) (accountID : GoString)
    (version : Int) (hbase : plainBase c.BaseURL = true) :
    ∃ req, (c.Delete dc accountID version).sent = [req] ∧ req.Method = http.MethodDelete ∧
      req.URL.RawQuery = str "version=" ++ formatInt version ∧
      req.URL.ForceQuery = false ∧ req.URL.Fragment = [] ∧
      url.ParseQuery req.URL.RawQuery = ([(str "version", [formatInt version])], none) ∧
      req.URL.Query = [(str "version", [formatInt version])] := by
  have hreq := newRequest_plain c http.MethodDelete
    (str "v1/organisation/accounts" ++ b '/' :: accountID)
    (str "version=" ++ formatInt version) none hbase (by decide) (version_query_bytes version)
  rw [← member_path] at hreq
  refine ⟨builtRequest c.BaseURL http.MethodDelete (str "/v1/organisation/accounts/" ++ accountID)
    (str "version=" ++ formatInt version) none, ?_, rfl, rfl, rfl, rfl, ?_, ?_⟩
  · rw [Delete_sent, hreq]; rfl
  · exact ParseQuery_version version
  · simp only [builtRequest, url.URL.Query, ParseQuery_version]

/-- C10, as amended. On a client with a plain base URL (`scheme://host[:port]`),
for every account id: `Fetch` hands one GET request and `Delete` one DELETE
request to the transport, on the scheme and host of the base URL, whose
unescaped path is what `resolvePath` leaves of `/v1/organisation/accounts/`
followed by the id, that is the path without its `.` and `..` elements; when
none of the `/`-separated elements of the id is `.` or `..`, this path is
exactly `/v1/organisation/accounts/` followed by the id as given. The URL of
the request of `Fetch` has no query string, and neither request has a body. -/
theorem Fetch_Delete_request_path (dc : http.Client) (c : Client) (accountID : GoString)
    (version : Int) (hbase : plainBase c.BaseURL = true) :
    (∃ req, (c.Fetch dc accountID).sent = [req] ∧ req.Method = http.MethodGet ∧
      req.URL.Scheme = c.BaseURL.Scheme ∧ req.URL.Host = c.BaseURL.Host ∧
      req.URL.Path = url.resolvePath [] (str "/v1/organisation/accounts/" ++ accountID) ∧
      (noDotSegments accountID = true →
        req.URL.Path = str "/v1/organisation/accounts/" ++ accountID) ∧
      req.URL.RawQuery = [] ∧ req.URL.ForceQuery = false ∧ req.Body = none) ∧
    (∃ req, (c.Delete dc accountID version).sent = [req] ∧ req.Method = http.MethodDelete ∧
      req.URL.Scheme = c.BaseURL.Scheme ∧ req.URL.Host = c.BaseURL.Host ∧
      req.URL.Path = url.resolvePath [] (str "/v1/organisation/accounts/" ++ accountID) ∧
      (noDotSegments accountID = true →
        req.URL.Path = str "/v1/organisation/accounts/" ++ accountID) ∧
      req.Body = none) := by
  have hpath : noDotSegments accountID = true →
      url.resolvePath [] (str "/v1/organisation/accounts/" ++ accountID) =
        str "/v1/organisation/accounts/" ++ accountID := by
    intro hid
    have h := resolvePath_no_dots [] _ (member_path_no_dots accountID hid)
    rw [← member_path] at h
    exact h
  constructor
  · have hreq := newRequest_plain c http.MethodGet
      (str "v1/organisation/accounts" ++ b '/' :: accountID) [] none hbase (by decide)
      (by simp)
    rw [← member_path] at hreq
    refine ⟨builtRequest c.BaseURL http.MethodGet (str "/v1/organisation/accounts/" ++ accountID)
      [] none, ?_, rfl, rfl, rfl, rfl, hpath, rfl, rfl, rfl⟩
    rw [Fetch_sent, hreq]; rfl
  · have hreq := newRequest_plain c http.MethodDelete
      (str "v1/organisation/accounts" ++ b '/' :: accountID)
      (str "version=" ++ formatInt version) none hbase (by decide) (version_query_bytes version)
    rw [← member_path] at hreq
    refine ⟨builtRequest c.BaseURL http.MethodDelete
      (str "/v1/organisation/accounts/" ++ accountID) (str "version=" ++ formatInt version) none,
      ?_, rfl, rfl, rfl, rfl, hpath, rfl⟩
    rw [Delete_sent, hreq]; rfl

set_option maxRecDepth 1000000 in
/-- Witness for C8: with the empty string as number and 0 as size, both
parameters are sent, with their zero values. -/
theorem List_query_parameters_witness :
    plainBase (exampleClient 200 exampleEmptyList).BaseURL = true ∧
    ((exampleClient 200 exampleEmptyList).List (failingTransport [])
        (some { Number := some [], Size := some 0 })).sent.map (fun r => r.URL.String) =
      [str "http://localhost:8080/v1/organisation/accounts?page%5Bnumber%5D=&page%5Bsize%5D=0"] ∧
    ∃ req, ((exampleClient 200 exampleEmptyList).List (failingTransport [])
        (some { Number := some [], Size := some 0 })).sent = [req] ∧
      req.Method = http.MethodGet ∧
      (req.URL.Query.Has (str "page[number]") = true ↔
        (some ([] : GoString)).isSome = true) ∧
      (req.URL.Query.Has (str "page[size]") = true ↔ (some (0 : Int)).isSome = true) ∧
      (∀ n, some ([] : GoString) = some n → req.URL.Query.lookup (str "page[number]") = [n]) ∧
      (∀ k, some (0 : Int) = some k → req.URL.Query.lookup (str "page[size]") = [formatInt k]) ∧
      (some ([] : GoString) = none → some (0 : Int) = none →
        req.URL.RawQuery = [] ∧ req.URL.ForceQuery = false ∧ b '?' ∉ req.URL.String) :=
  ⟨by decide, by decide,
    List_query_parameters (failingTransport []) (exampleClient 200 exampleEmptyList)
      { Number := some [], Size := some 0 } (by decide)⟩

set_option maxRecDepth 1000000 in
/-- Witness for C9: an id with `?`, `&`, `=` and `#` and the version -5. -/
theorem Delete_query_is_version_witness :
    plainBase (exampleClient 204 []).BaseURL = true ∧
    ((exampleClient 204 []).Delete (failingTransport []) (str "a?b&c=d#e") (-5)).sent.map
        (fun r => r.URL.String) =
      [str "http://localhost:8080/v1/organisation/accounts/a%3Fb&c=d%23e?version=-5"] ∧
    ∃ req, ((exampleClient 204 []).Delete (failingTransport []) (str "a?b&c=d#e") (-5)).sent =
        [req] ∧ req.Method = http.MethodDelete ∧
      req.URL.RawQuery = str "version=" ++ formatInt (-5) ∧
      req.URL.ForceQuery = false ∧ req.URL.Fragment = [] ∧
      url.ParseQuery req.URL.RawQuery = ([(str "version", [formatInt (-5)])], none) ∧
      req.URL.Query = [(str "version", [formatInt (-5)])] :=
  ⟨by decide, by decide,
    Delete_query_is_version (failingTransport []) (exampleClient 204 []) (str "a?b&c=d#e") (-5)
      (by decide)⟩

set_option maxRecDepth 1000000 in
/-- Witness for C10 as amended: the requests for the id of `exampleAccount`,
which has no `.` or `..` element, and for the id `a/../b`, whose path is
`/v1/organisation/accounts/b`. -/
theorem Fetch_Delete_request_path_witness :
    plainBase (exampleClient 200 []).BaseURL = true ∧ noDotSegments exampleID = true ∧
    ((exampleClient 200 []).Fetch (failingTransport []) exampleID).sent = [exampleFetchRequest] ∧
    ((exampleClient 200 []).Delete (failingTransport []) exampleID 0).sent =
      [exampleDeleteRequest] ∧
    noDotSegments (str "a/../b") = false ∧
    url.resolvePath [] (str "/v1/organisation/accounts/" ++ str "a/../b") =
      str "/v1/organisation/accounts/b" ∧
    ((∃ req, ((exampleClient 200 []).Fetch (failingTransport []) exampleID).sent = [req] ∧
        req.Method = http.MethodGet ∧
        req.URL.Scheme = (exampleClient 200 []).BaseURL.Scheme ∧
        req.URL.Host = (exampleClient 200 []).BaseURL.Host ∧
        req.URL.Path = url.resolvePath [] (str "/v1/organisation/accounts/" ++ exampleID) ∧
        (noDotSegments exampleID = true →
          req.URL.Path = str "/v1/organisation/accounts/" ++ exampleID) ∧
        req.URL.RawQuery = [] ∧ req.URL.ForceQuery = false ∧ req.Body = none) ∧
      (∃ req, ((exampleClient 200 []).Delete (failingTransport []) exampleID 0).sent = [req] ∧
        req.Method = http.MethodDelete ∧
        req.URL.Scheme = (exampleClient 200 []).BaseURL.Scheme ∧
        req.URL.Host = (exampleClient 200 []).BaseURL.Host ∧
        req.URL.Path = url.resolvePath [] (str "/v1/organisation/accounts/" ++ exampleID) ∧
        (noDotSegments exampleID = true →
          req.URL.Path = str "/v1/organisation/accounts/" ++ exampleID) ∧
        req.Body = none)) ∧
    ((∃ req, ((exampleClient 200 []).Fetch (failingTransport []) (str "a/../b")).sent =
          [req] ∧
        req.Method = http.MethodGet ∧
        req.URL.Scheme = (exampleClient 200 []).BaseURL.Scheme ∧
        req.URL.Host = (exampleClient 200 []).BaseURL.Host ∧
        req.URL.Path = url.resolvePath [] (str "/v1/organisation/accounts/" ++ (str "a/../b")) ∧
        (noDotSegments (str "a/../b") = true →
          req.URL.Path = str "/v1/organisation/accounts/" ++ (str "a/../b")) ∧
        req.URL.RawQuery = [] ∧ req.URL.ForceQuery = false ∧ req.Body = none) ∧
      (∃ req, ((exampleClient 200 []).Delete (failingTransport []) (str "a/../b") 0).sent = [req] ∧
        req.Method = http.MethodDelete ∧
        req.URL.Scheme = (exampleClient 200 []).BaseURL.Scheme ∧
        req.URL.Host = (exampleClient 200 []).BaseURL.Host ∧
        req.URL.Path = url.resolvePath [] (str "/v1/organisation/accounts/" ++ (str "a/../b")) ∧
        (noDotSegments (str "a/../b") = true →
          req.URL.Path = str "/v1/organisation/accounts/" ++ (str "a/../b")) ∧
        req.Body = none)) :=
  ⟨by decide, by decide, by decide, by decide, by decide, by decide,
    Fetch_Delete_request_path (failingTransport []) (exampleClient 200 []) exampleID 0
      (by decide),
    Fetch_Delete_request_path (failingTransport []) (exampleClient 200 []) (str "a/../b") 0
      (by decide)⟩

set_option maxRecDepth 1000000 in
/-- Counterexample to C10 as stated: for the id `..` the requests of `Fetch`
and `Delete` go to the path `/v1/organisation/`, and for the id `a/../b` to
`/v1/organisation/accounts/b`, not to `/v1/organisation/accounts/` followed by
the id. -/
theorem Fetch_Delete_request_path_counterexample :
    ((exampleClient 200 []).Fetch (failingTransport []) (str "..")).sent.map
        (fun r => (r.Method, r.URL.Path)) = [(str "GET", str "/v1/organisation/")] ∧
    ((exampleClient 204 []).Delete (failingTransport []) (str "..") 0).sent.map
        (fun r => (r.Method, r.URL.Path)) = [(str "DELETE", str "/v1/organisation/")] ∧
    str "/v1/organisation/" ≠ str "/v1/organisation/accounts/" ++ str ".." ∧
    ((exampleClient 200 []).Fetch (failingTransport []) (str "a/../b")).sent.map
        (fun r => r.URL.Path) = [str "/v1/organisation/accounts/b"] ∧
    str "/v1/organisation/accounts/b" ≠ str "/v1/organisation/accounts/" ++ str "a/../b" := by
  decide

/-! ## The header and the body of a request -/

theorem NewRequest_header (method urlStr : GoString) (body : Option GoString)
    (req : http.Request) (h : http.NewRequest method urlStr body = .ok req) :
    req.Header = [] ∧ req.Body = body := by
  unfold http.NewRequest at h
  simp only [] at h
  split_ifs at h
  all_goals
    cases hp : url.Parse urlStr with
    | error e => rw [hp] at h; simp at h
    | ok u =>
      rw [hp] at h
      simp only [Except.ok.injEq] at h
      rw [← h]
      exact ⟨rfl, rfl⟩

/-- Whatever the base URL, a request `newRequest` returns carries the header
`requestHeader` and the encoded body. -/
theorem newRequest_header (c : Client) (method path q : GoString)
    (body : Option (Option AccountResource)) (req : http.Request)
    (h : c.newRequest method path q body = .ok req) :
    req.Header = requestHeader body.isSome ∧ req.Body = body.map json.Encode := by
  unfold Client.newRequest at h
  simp only [] at h
  cases hn : http.NewRequest method
      (c.BaseURL.ResolveReference
        (if q ≠ [] then { ({ Path := path } : url.URL) with RawQuery := q }
          else ({ Path := path } : url.URL))).String (body.map json.Encode) with
  | error e => rw [hn] at h; simp at h
  | ok r =>
    rw [hn] at h
    obtain ⟨hH, hB⟩ := NewRequest_header _ _ _ _ hn
    simp only [Except.ok.injEq] at h
    rw [← h]
    have hh := header_set body.isSome
    cases body with
    | none =>
      simp only [Option.isSome_none, Bool.false_eq_true, if_false] at hh ⊢
      rw [hH, hh]
      exact ⟨rfl, hB⟩
    | some a =>
      simp only [Option.isSome_some, if_true] at hh ⊢
      rw [hH, hh]
      exact ⟨rfl, hB⟩

theorem mem_sentOf {req : http.Request} {x : Except Error http.Request}
    (h : req ∈ sentOf x) : x = .ok req := by
  cases x with
  | error e => simp [sentOf] at h
  | ok r =>
    simp only [sentOf, List.mem_singleton] at h
    rw [h]

/-! ## The client after a call -/

theorem do_client {α : Type} [json.Target α] (dc : http.Client) (c : Client)
    (req : http.Request) (v : Option α) :
    (c.do dc req v).client =
      (if c.httpClient.isNone then { c with httpClient := some dc } else c) := by
  unfold Client.do
  simp only []
  split
  · rfl
  · split
    · rfl
    · split <;> rfl

theorem Create_client (dc : http.Client) (c : Client) (account : Option AccountResource) :
    (c.Create dc account).client =
      (if (c.Create dc account).sent = [] then c
        else if c.httpClient.isNone then { c with httpClient := some dc } else c) := by
  have hs := Create_sent dc c account
  cases h : c.newRequest http.MethodPost (str "/v1/organisation/accounts") [] (some account) with
  | error e =>
    rw [h] at hs
    rw [hs]
    unfold Client.Create
    simp [h, sentOf]
  | ok req =>
    rw [h] at hs
    rw [hs]
    unfold Client.Create
    simp only [h, sentOf]
    have hc := do_client dc c req (some ({} : AccountResource))
    generalize c.do dc req (some ({} : AccountResource)) = r at hc ⊢
    rw [if_neg (List.cons_ne_nil _ _), ← hc]
    cases hr : r.out with
    | error e => rfl
    | ok resp => simp only []; split_ifs <;> rfl

theorem Fetch_client (dc : http.Client) (c : Client) (accountID : GoString) :
    (c.Fetch dc accountID).client =
      (if (c.Fetch dc accountID).sent = [] then c
        else if c.httpClient.isNone then { c with httpClient := some dc } else c) := by
  have hs := Fetch_sent dc c accountID
  cases h : c.newRequest http.MethodGet (str "/v1/organisation/accounts/" ++ accountID) []
      none with
  | error e =>
    rw [h] at hs
    rw [hs]
    unfold Client.Fetch
    simp [h, sentOf]
  | ok req =>
    rw [h] at hs
    rw [hs]
    unfold Client.Fetch
    simp only [h, sentOf]
    have hc := do_client dc c req (some ({} : AccountResource))
    generalize c.do dc req (some ({} : AccountResource)) = r at hc ⊢
    rw [if_neg (List.cons_ne_nil _ _), ← hc]
    cases hr : r.out with
    | error e => rfl
    | ok resp => simp only []; split_ifs <;> rfl

theorem List_client (dc : http.Client) (c : Client) (opts : Option PageOpts) :
    (c.List dc opts).client =
      (if (c.List dc opts).sent = [] then c
        else if c.httpClient.isNone then { c with httpClient := some dc } else c) := by
  have hs := List_sent dc c opts
  cases h : c.newRequest http.MethodGet (str "/v1/organisation/accounts") (listQuery opts)
      none with
  | error e =>
    rw [h] at hs
    rw [hs]
    unfold listQuery at h
    unfold Client.List
    simp [h, sentOf]
  | ok req =>
    rw [h] at hs
    rw [hs]
    unfold listQuery at h
    unfold Client.List
    simp only [h, sentOf]
    have hc := do_client dc c req (some ({} : AccountsResource))
    generalize c.do dc req (some ({} : AccountsResource)) = r at hc ⊢
    rw [if_neg (List.cons_ne_nil _ _), ← hc]
    cases hr : r.out with
    | error e => rfl
    | ok resp => simp only []; split_ifs <;> rfl

theorem Delete_client (dc : http.Client) (c : Client) (accountID : GoString) (version : Int) :
    (c.Delete dc accountID version).client =
      (if (c.Delete dc accountID version).sent = [] then c
        else if c.httpClient.isNone then { c with httpClient := some dc } else c) := by
  have hs := Delete_sent dc c accountID version
  cases h : c.newRequest http.MethodDelete (str "/v1/organisation/accounts/" ++ accountID)
      (str "version=" ++ formatInt version) none with
  | error e =>
    rw [h] at hs
    rw [hs]
    unfold Client.Delete
    simp [h, sentOf]
  | ok req =>
    rw [h] at hs
    rw [hs]
    unfold Client.Delete
    simp only [h, sentOf]
    have hc := do_client dc c req (none : Option errorDetail)
    generalize c.do dc req (none : Option errorDetail) = r at hc ⊢
    rw [if_neg (List.cons_ne_nil _ _), ← hc]
    cases hr : r.out with
    | error e => rfl
    | ok resp => simp only []; split_ifs <;> rfl

/-- What the client is after a call, given what it was and the requests the
call handed to the transport: the base URL and the transport in effect are
the same; the HTTP client is the same when it was set or when no request was
sent, and `http.DefaultClient` when it was nil and a request has been sent. -/
theorem client_after (dc : http.Client) (c r : Client) (sent : Slice http.Request)
    (h : r = (if sent = [] then c
        else if c.httpClient.isNone then { c with httpClient := some dc } else c)) :
    r.BaseURL = c.BaseURL ∧ r.transport dc = c.transport dc ∧
    (c.httpClient.isSome = true → r = c) ∧ (sent = [] → r = c) ∧
    (c.httpClient.isNone = true → sent ≠ [] → r = { c with httpClient := some dc }) := by
  subst h
  by_cases hs : sent = []
  · simp [hs]
  · cases hc : c.httpClient with
    | none => simp [hs, hc, Client.transport]
    | some t => simp [hs, hc, Client.transport]

/-! ## The query string of `List`, re-encoded -/

theorem QueryEscape_formatInt (version : Int) :
    url.QueryEscape (formatInt version) = formatInt version := by
  unfold url.QueryEscape
  have hb := formatInt_bytes version
  generalize formatInt version = s at hb
  induction s with
  | nil => rfl
  | cons c cs ih =>
    have hc := hb c (by simp)
    have he : url.escapeByte .encodeQueryComponent c = [c] := decimalByte_escape c hc
    rw [escape_cons, he, ih (fun x hx => hb x (by simp [hx]))]
    rfl

theorem Encode_one (k v : GoString) :
    url.Values.Encode [(k, [v])] = url.QueryEscape k ++ b '=' :: url.QueryEscape v := by
  simp [url.Values.Encode, url.sortStrings, url.insertSorted, url.Values.lookup, strings.Join]

theorem Encode_two (k1 v1 k2 v2 : GoString) (hne : k1 ≠ k2)
    (hlt : url.stringLess k2 k1 = false) :
    url.Values.Encode [(k1, [v1]), (k2, [v2])] =
      (url.QueryEscape k1 ++ b '=' :: url.QueryEscape v1) ++ b '&' ::
        (url.QueryEscape k2 ++ b '=' :: url.QueryEscape v2) := by
  simp [url.Values.Encode, url.sortStrings, url.insertSorted, url.Values.lookup, strings.Join,
    hne, hne.symm, hlt]

theorem collection_path_no_dots :
    url.resolvePath [] (str "/v1/organisation/accounts") = str "/v1/organisation/accounts" := by
  decide

/-! ## Lemmas on `utf8.DecodeRune` -/

theorem DecodeRune_ascii (c : Byte) (rest : GoString) (h : c.val < 0x80) :
    utf8.DecodeRune (c :: rest) = some (c.val, 1) := by
  simp [utf8.DecodeRune, h]

theorem inRange_iff (lo hi : Nat) (x : Byte) :
    utf8.inRange lo hi x = true ↔ lo ≤ x.val ∧ x.val ≤ hi := by
  simp [utf8.inRange]

theorem byte_eq_of_val (x : Byte) (n : Nat) (hn : n < 256) (h : x.val = n) :
    x = (Fin.ofNat n : Byte) := by
  apply Fin.ext
  rw [h]
  show n = n % 256
  omega

/-- The shape of a well-formed encoding of more than one byte at the head of
a string. -/
theorem DecodeRune_shape (c : Byte) (rest : GoString) (r k : Nat) (hc : 0x80 ≤ c.val)
    (h : utf8.DecodeRune (c :: rest) = some (r, k)) :
    ∃ cont rest', rest = cont ++ rest' ∧ cont.length = k - 1 ∧
      (∀ x ∈ cont, 0x80 ≤ x.val) ∧
      (∀ t, utf8.DecodeRune (c :: (cont ++ t)) = some (r, k)) ∧
      (r = 0x2028 → c :: cont = [0xE2, 0x80, 0xA8]) ∧
      (r = 0x2029 → c :: cont = [0xE2, 0x80, 0xA9]) := by
  have hc256 := c.isLt
  unfold utf8.DecodeRune at h
  simp only [] at h
  rw [if_neg (by omega)] at h
  by_cases h1 : c.val < 0xC2
  · rw [if_pos h1] at h; exact absurd h (by simp)
  rw [if_neg h1] at h
  by_cases h2 : c.val < 0xE0
  · rw [if_pos h2] at h
    rcases rest with _ | ⟨b1, rest1⟩
    · exact absurd h (by simp)
    · simp only [] at h
      by_cases hb1 : utf8.inRange 0x80 0xBF b1 = true
      · rw [if_pos hb1] at h
        simp only [Option.some.injEq, Prod.mk.injEq] at h
        obtain ⟨hr, hk⟩ := h
        have hb1' := (inRange_iff _ _ _).1 hb1
        refine ⟨[b1], rest1, rfl, by simp [← hk], ?_, ?_, ?_, ?_⟩
        · intro x hx
          simp only [List.mem_singleton] at hx
          rw [hx]; exact hb1'.1
        · intro t
          unfold utf8.DecodeRune
          simp only [List.singleton_append]
          rw [if_neg (by omega), if_neg h1, if_pos h2, if_pos hb1, hr, hk]
        · intro h28; omega
        · intro h29; omega
      · rw [if_neg hb1] at h; exact absurd h (by simp)
  rw [if_neg h2] at h
  by_cases h3 : c.val < 0xF0
  · rw [if_pos h3] at h
    rcases rest with _ | ⟨b1, _ | ⟨b2, rest2⟩⟩
    · exact absurd h (by simp)
    · exact absurd h (by simp)
    · simp only [] at h
      by_cases hin : (utf8.inRange (if c.val = 0xE0 then 0xA0 else 0x80)
          (if c.val = 0xED then 0x9F else 0xBF) b1 && utf8.inRange 0x80 0xBF b2) = true
      swap
      · rw [if_neg hin] at h; exact absurd h (by simp)
      rw [if_pos hin] at h
      simp only [Option.some.injEq, Prod.mk.injEq] at h
      obtain ⟨hr, hk⟩ := h
      have hin' := hin
      simp only [Bool.and_eq_true, inRange_iff] at hin'
      obtain ⟨⟨hlo, hhi⟩, hb2lo, hb2hi⟩ := hin'
      have hb1lo : 0x80 ≤ b1.val := by
        split_ifs at hlo <;> omega
      have hb1hi : b1.val ≤ 0xBF := by
        split_ifs at hhi <;> omega
      refine ⟨[b1, b2], rest2, rfl, by simp [← hk], ?_, ?_, ?_, ?_⟩
      · intro x hx
        simp only [List.mem_cons, List.mem_singleton, List.not_mem_nil, or_false] at hx
        rcases hx with hx | hx <;> rw [hx] <;> assumption
      · intro t
        unfold utf8.DecodeRune
        simp only [List.cons_append, List.nil_append]
        rw [if_neg (by omega), if_neg h1, if_neg h2, if_pos h3, if_pos hin, hr, hk]
      · intro h28
        have e0 : c.val = 0xE2 := by omega
        have e1 : b1.val = 0x80 := by omega
        have e2 : b2.val = 0xA8 := by omega
        rw [byte_eq_of_val c _ (by decide) e0, byte_eq_of_val b1 _ (by decide) e1,
          byte_eq_of_val b2 _ (by decide) e2]
        rfl
      · intro h29
        have e0 : c.val = 0xE2 := by omega
        have e1 : b1.val = 0x80 := by omega
        have e2 : b2.val = 0xA9 := by omega
        rw [byte_eq_of_val c _ (by decide) e0, byte_eq_of_val b1 _ (by decide) e1,
          byte_eq_of_val b2 _ (by decide) e2]
        rfl
  rw [if_neg h3] at h
  by_cases h4 : c.val < 0xF5
  · rw [if_pos h4] at h
    rcases rest with _ | ⟨b1, _ | ⟨b2, _ | ⟨b3, rest3⟩⟩⟩
    · exact absurd h (by simp)
    · exact absurd h (by simp)
    · exact absurd h (by simp)
    · simp only [] at h
      by_cases hin : (utf8.inRange (if c.val = 0xF0 then 0x90 else 0x80)
          (if c.val = 0xF4 then 0x8F else 0xBF) b1 && utf8.inRange 0x80 0xBF b2 &&
          utf8.inRange 0x80 0xBF b3) = true
      swap
      · rw [if_neg hin] at h; exact absurd h (by simp)
      rw [if_pos hin] at h
      simp only [Option.some.injEq, Prod.mk.injEq] at h
      obtain ⟨hr, hk⟩ := h
      have hin' := hin
      simp only [Bool.and_eq_true, inRange_iff] at hin'
      obtain ⟨⟨⟨hlo, hhi⟩, hb2lo, hb2hi⟩, hb3lo, hb3hi⟩ := hin'
      have hb1lo : 0x80 ≤ b1.val := by
        split_ifs at hlo <;> omega
      have hb1hi : b1.val ≤ 0xBF := by
        split_ifs at hhi <;> omega
      have hbig : 0x10000 ≤ r := by
        split_ifs at hlo <;> omega
      refine ⟨[b1, b2, b3], rest3, rfl, by simp [← hk], ?_, ?_, ?_, ?_⟩
      · intro x hx
        simp only [List.mem_cons, List.mem_singleton, List.not_mem_nil, or_false] at hx
        rcases hx with hx | hx | hx <;> rw [hx] <;> assumption
      · intro t
        unfold utf8.DecodeRune
        simp only [List.cons_append, List.nil_append]
        rw [if_neg (by omega), if_neg h1, if_neg h2, if_neg h3, if_pos h4, if_pos hin, hr, hk]
      · intro h28; omega
      · intro h29; omega
  · rw [if_neg h4] at h; exact absurd h (by simp)

/-! ## Lemmas on the encoding of strings -/

theorem encodeStringLoop_zero (copy : Bool) (s : GoString) :
    json.encodeStringLoop 0 copy s = json.encodeStringLoop 0 true s := by
  cases s with
  | nil => rw [json.encodeStringLoop, json.encodeStringLoop]
  | cons c rest => rw [json.encodeStringLoop, json.encodeStringLoop]

theorem encodeStringLoop_skip (cont rest : GoString) (copy : Bool) :
    json.encodeStringLoop cont.length copy (cont ++ rest) =
      (if copy then cont else []) ++ json.encodeStringLoop 0 true rest := by
  induction cont with
  | nil => simp [encodeStringLoop_zero]
  | cons x xs ih =>
    simp only [List.length_cons, List.cons_append]
    rw [json.encodeStringLoop, ih]
    cases copy <;> simp

theorem unquoteLoop_zero (copy : Bool) (s : GoString) :
    json.unquoteLoop 0 copy s = json.unquoteLoop 0 true s := by
  cases s with
  | nil => rw [json.unquoteLoop, json.unquoteLoop]
  | cons c rest =>
    conv_lhs => rw [json.unquoteLoop.eq_def]
    conv_rhs => rw [json.unquoteLoop.eq_def]

theorem unquoteLoop_skip (cont rest : GoString) (copy : Bool) :
    json.unquoteLoop cont.length copy (cont ++ rest) =
      (if copy then cont else []) ++ json.unquoteLoop 0 true rest := by
  induction cont with
  | nil => simp [unquoteLoop_zero]
  | cons x xs ih =>
    simp only [List.length_cons, List.cons_append]
    rw [json.unquoteLoop, ih]
    cases copy <;> simp

theorem validLoop_skip (cont rest : GoString) :
    utf8.validLoop cont.length (cont ++ rest) = utf8.validLoop 0 rest := by
  induction cont with
  | nil => rfl
  | cons x xs ih =>
    simp only [List.length_cons, List.cons_append]
    rw [utf8.validLoop, ih]

set_option maxRecDepth 1000000 in
theorem htmlSafe_facts :
    ∀ c : Byte, json.htmlSafe c = true →
      c ≠ json.quote ∧ c ≠ json.backslash ∧ ¬ c.val < 0x20 ∧ c.val < 0x80 := by
  decide

set_option maxRecDepth 1000000 in
theorem high_facts :
    ∀ c : Byte, 0x80 ≤ c.val → c ≠ json.quote ∧ c ≠ json.backslash ∧ ¬ c.val < 0x20 := by
  decide

set_option maxRecDepth 1000000 in
theorem hex_facts :
    ∀ c : Byte, url.ishex (json.hex (c.val / 16)) = true ∧
      url.ishex (json.hex (c.val % 16)) = true ∧
      json.hex4 (b '0') (b '0') (json.hex (c.val / 16)) (json.hex (c.val % 16)) = c.val := by
  decide

set_option maxRecDepth 1000000 in
theorem EncodeRune_ascii : ∀ c : Byte, c.val < 0x80 → utf8.EncodeRune c.val = [c] := by
  decide

/-! ## Scanning an encoded string -/

theorem scanString_plain (c : Byte) (t : GoString) (h1 : c ≠ json.quote)
    (h2 : c ≠ json.backslash) (h3 : ¬ c.val < 0x20) :
    json.scanString (c :: t) = (json.scanString t).map (fun r => (c :: r.1, r.2)) := by
  rw [json.scanString.eq_def]
  simp only [h1, h2, h3, if_false]

theorem scanString_escape (e : Byte) (t : GoString)
    (he : (url.oneOf e "bfnrt/" || e = json.backslash || e = json.quote) = true) :
    json.scanString (json.backslash :: e :: t) =
      (json.scanString t).map (fun r => (json.backslash :: e :: r.1, r.2)) := by
  rw [json.scanString.eq_def]
  have h1 : json.backslash ≠ json.quote := by decide
  simp only [h1, if_false, if_true, he]

theorem scanString_u (h1 h2 h3 h4 : Byte) (t : GoString)
    (hh : (url.ishex h1 && url.ishex h2 && url.ishex h3 && url.ishex h4) = true) :
    json.scanString (json.backslash :: b 'u' :: h1 :: h2 :: h3 :: h4 :: t) =
      (json.scanString t).map
        (fun r => (json.backslash :: b 'u' :: h1 :: h2 :: h3 :: h4 :: r.1, r.2)) := by
  rw [json.scanString.eq_def]
  have e1 : json.backslash ≠ json.quote := by decide
  have e2 : (url.oneOf (b 'u') "bfnrt/" || b 'u' = json.backslash || b 'u' = json.quote)
      = false := by decide
  simp only [e1, if_false, if_true, e2, hh, Bool.false_eq_true]

theorem scanString_high (pre t : GoString) (h : ∀ x ∈ pre, 0x80 ≤ x.val) :
    json.scanString (pre ++ t) = (json.scanString t).map (fun r => (pre ++ r.1, r.2)) := by
  induction pre with
  | nil =>
    simp only [List.nil_append]
    cases json.scanString t <;> rfl
  | cons x xs ih =>
    obtain ⟨a1, a2, a3⟩ := high_facts x (h x (by simp))
    rw [List.cons_append, scanString_plain x _ a1 a2 a3, ih (fun y hy => h y (by simp [hy]))]
    cases json.scanString t <;> rfl

/-- The scanner reads the text the encoder writes for a string, up to the
closing quote. -/
theorem scanString_encode (n : Nat) :
    ∀ s : GoString, s.length ≤ n → ∀ r : GoString,
      json.scanString (json.encodeStringLoop 0 true s ++ json.quote :: r) =
        .ok (json.encodeStringLoop 0 true s, r) := by
  induction n with
  | zero =>
    intro s hs r
    have : s = [] := List.eq_nil_of_length_eq_zero (by omega)
    subst this
    rw [json.encodeStringLoop, List.nil_append, json.scanString.eq_def]
    simp
  | succ n ih =>
    intro s hs r
    cases s with
    | nil =>
      rw [json.encodeStringLoop, List.nil_append, json.scanString.eq_def]
      simp
    | cons c rest =>
      have hrest : rest.length ≤ n := by simpa using hs
      have ihr := ih rest hrest r
      rw [json.encodeStringLoop]
      by_cases hc : c.val < 0x80
      · rw [if_pos hc]
        by_cases hs : json.htmlSafe c = true
        · obtain ⟨a1, a2, a3, _⟩ := htmlSafe_facts c hs
          rw [if_pos hs, List.cons_append, scanString_plain c _ a1 a2 a3, ihr]
          rfl
        rw [if_neg hs]
        by_cases hq : c = json.backslash ∨ c = json.quote
        · rw [if_pos hq]
          simp only [List.cons_append]
          rw [scanString_escape c _ (by rcases hq with hq | hq <;> rw [hq] <;> decide), ihr]
          rfl
        rw [if_neg hq]
        by_cases h10 : c.val = 10
        · rw [if_pos h10]
          simp only [List.cons_append]
          rw [scanString_escape _ _ (by decide), ihr]
          rfl
        rw [if_neg h10]
        by_cases h13 : c.val = 13
        · rw [if_pos h13]
          simp only [List.cons_append]
          rw [scanString_escape _ _ (by decide), ihr]
          rfl
        rw [if_neg h13]
        by_cases h9 : c.val = 9
        · rw [if_pos h9]
          simp only [List.cons_append]
          rw [scanString_escape _ _ (by decide), ihr]
          rfl
        rw [if_neg h9]
        simp only [List.cons_append]
        obtain ⟨x1, x2, _⟩ := hex_facts c
        rw [scanString_u _ _ _ _ _ (by rw [x1, x2]; decide), ihr]
        rfl
      · rw [if_neg hc]
        cases hd : utf8.DecodeRune (c :: rest) with
        | none =>
          simp only [List.cons_append]
          have : str "ufffd" = [b 'u', b 'f', b 'f', b 'f', b 'd'] := by decide
          rw [this]
          simp only [List.cons_append, List.nil_append]
          rw [scanString_u _ _ _ _ _ (by decide), ihr]
          rfl
        | some p =>
          obtain ⟨rn, k⟩ := p
          obtain ⟨cont, rest', hre, hlen, hhigh, _, _, _⟩ :=
            DecodeRune_shape c rest rn k (by omega) hd
          have hlen' : rest'.length ≤ n := by
            rw [hre] at hrest
            simp only [List.length_append] at hrest
            omega
          have ih' := ih rest' hlen' r
          simp only []
          rw [← hlen, hre]
          by_cases h2 : rn = 0x2028 ∨ rn = 0x2029
          · rw [if_pos h2, encodeStringLoop_skip]
            have : str "u202" = [b 'u', b '2', b '0', b '2'] := by decide
            rw [this]
            simp only [List.cons_append, List.nil_append, Bool.false_eq_true, if_false]
            rw [scanString_u _ _ _ _ _
              (by rcases h2 with h2 | h2 <;> rw [h2] <;> decide), ih']
            rfl
          · rw [if_neg h2, encodeStringLoop_skip]
            simp only [if_true]
            have hall : ∀ x ∈ c :: cont, 0x80 ≤ x.val := by
              intro x hx
              simp only [List.mem_cons] at hx
              rcases hx with hx | hx
              · rw [hx]; omega
              · exact hhigh x hx
            have := scanString_high (c :: cont)
              (json.encodeStringLoop 0 true rest' ++ json.quote :: r) hall
            simp only [List.cons_append, List.append_assoc] at this ⊢
            rw [this, ih']
            rfl

/-! ## Unquoting an encoded string -/

theorem unquoteLoop_plain (c : Byte) (t : GoString) (h : c ≠ json.backslash)
    (hlt : c.val < 0x80) :
    json.unquoteLoop 0 true (c :: t) = c :: json.unquoteLoop 0 true t := by
  rw [json.unquoteLoop.eq_def]
  simp only [h, hlt, if_false, if_true]

theorem unquoteLoop_escape (e : Byte) (t : GoString) (he : e ≠ b 'u') :
    json.unquoteLoop 0 true (json.backslash :: e :: t) =
      (if e = b 'b' then (8 : Byte) else if e = b 'f' then (12 : Byte)
        else if e = b 'n' then (10 : Byte) else if e = b 'r' then (13 : Byte)
        else if e = b 't' then (9 : Byte) else e) :: json.unquoteLoop 0 true t := by
  rw [json.unquoteLoop.eq_def]
  simp only [he, if_false, if_true]
  split_ifs <;> rfl

theorem unquoteLoop_u (h1 h2 h3 h4 : Byte) (t : GoString)
    (hns : ¬ (0xD800 ≤ json.hex4 h1 h2 h3 h4 ∧ json.hex4 h1 h2 h3 h4 < 0xE000)) :
    json.unquoteLoop 0 true (json.backslash :: b 'u' :: h1 :: h2 :: h3 :: h4 :: t) =
      utf8.EncodeRune (json.hex4 h1 h2 h3 h4) ++ json.unquoteLoop 0 true t := by
  rw [json.unquoteLoop.eq_def]
  simp only [hns, if_false, if_true]

theorem unquoteLoop_high (c : Byte) (cont t : GoString) (r k : Nat) (hc : 0x80 ≤ c.val)
    (hd : utf8.DecodeRune (c :: (cont ++ t)) = some (r, k)) (hlen : cont.length = k - 1) :
    json.unquoteLoop 0 true (c :: (cont ++ t)) = c :: (cont ++ json.unquoteLoop 0 true t) := by
  obtain ⟨_, a2, _⟩ := high_facts c hc
  rw [json.unquoteLoop.eq_def]
  simp only [a2, if_false, hd, show ¬ c.val < 0x80 from by omega]
  rw [← hlen, unquoteLoop_skip]
  simp

theorem ValidString_cons_ascii (c : Byte) (rest : GoString) (hc : c.val < 0x80) :
    utf8.ValidString (c :: rest) = utf8.ValidString rest := by
  unfold utf8.ValidString
  rw [utf8.validLoop, DecodeRune_ascii c rest hc]

theorem byte_eq_of_val_eq (x y : Byte) (h : x.val = y.val) : x = y := Fin.ext h

/-- Unquoting the text the encoder writes for a string of valid UTF-8 gives
the string back. -/
theorem unquote_encode (n : Nat) :
    ∀ s : GoString, s.length ≤ n → utf8.ValidString s = true →
      json.unquoteLoop 0 true (json.encodeStringLoop 0 true s) = s := by
  induction n with
  | zero =>
    intro s hs _
    have : s = [] := List.eq_nil_of_length_eq_zero (by omega)
    subst this
    rw [json.encodeStringLoop, json.unquoteLoop]
  | succ n ih =>
    intro s hs hv
    cases s with
    | nil => rw [json.encodeStringLoop, json.unquoteLoop]
    | cons c rest =>
      have hrest : rest.length ≤ n := by simpa using hs
      rw [json.encodeStringLoop]
      by_cases hc : c.val < 0x80
      · rw [ValidString_cons_ascii c rest hc] at hv
        have ihr := ih rest hrest hv
        rw [if_pos hc]
        by_cases hs : json.htmlSafe c = true
        · obtain ⟨_, a2, _, _⟩ := htmlSafe_facts c hs
          rw [if_pos hs, unquoteLoop_plain c _ a2 hc, ihr]
        rw [if_neg hs]
        by_cases hq : c = json.backslash ∨ c = json.quote
        · rw [if_pos hq]
          rw [unquoteLoop_escape c _ (by rcases hq with hq | hq <;> rw [hq] <;> decide), ihr]
          rcases hq with hq | hq <;> rw [hq] <;> rfl
        rw [if_neg hq]
        by_cases h10 : c.val = 10
        · rw [if_pos h10, unquoteLoop_escape _ _ (by decide), ihr]
          rw [byte_eq_of_val_eq c (10 : Byte) h10]
          rfl
        rw [if_neg h10]
        by_cases h13 : c.val = 13
        · rw [if_pos h13, unquoteLoop_escape _ _ (by decide), ihr]
          rw [byte_eq_of_val_eq c (13 : Byte) h13]
          rfl
        rw [if_neg h13]
        by_cases h9 : c.val = 9
        · rw [if_pos h9, unquoteLoop_escape _ _ (by decide), ihr]
          rw [byte_eq_of_val_eq c (9 : Byte) h9]
          rfl
        rw [if_neg h9]
        obtain ⟨_, _, x3⟩ := hex_facts c
        rw [unquoteLoop_u _ _ _ _ _ (by rw [x3]; omega), x3, EncodeRune_ascii c hc, ihr]
        rfl
      · rw [if_neg hc]
        unfold utf8.ValidString at hv
        rw [utf8.validLoop] at hv
        cases hd : utf8.DecodeRune (c :: rest) with
        | none => rw [hd] at hv; exact absurd hv (by simp)
        | some p =>
          obtain ⟨rn, k⟩ := p
          rw [hd] at hv
          simp only [] at hv
          obtain ⟨cont, rest', hre, hlen, hhigh, hany, h28, h29⟩ :=
            DecodeRune_shape c rest rn k (by omega) hd
          have hlen' : rest'.length ≤ n := by
            rw [hre] at hrest
            simp only [List.length_append] at hrest
            omega
          rw [hre, ← hlen, validLoop_skip] at hv
          have ih' := ih rest' hlen' hv
          simp only []
          rw [← hlen, hre]
          by_cases h2 : rn = 0x2028 ∨ rn = 0x2029
          · rw [if_pos h2, encodeStringLoop_skip]
            have : str "u202" = [b 'u', b '2', b '0', b '2'] := by decide
            rw [this]
            simp only [List.cons_append, List.nil_append, Bool.false_eq_true, if_false]
            rcases h2 with h2 | h2
            · have hx : json.hex (rn % 16) = b '8' := by rw [h2]; decide
              rw [hx, unquoteLoop_u _ _ _ _ _ (by decide), ih']
              have := h28 h2
              simp only [List.cons.injEq] at this
              obtain ⟨e0, e1⟩ := this
              rw [e0, e1]
              have he : utf8.EncodeRune (json.hex4 (b '2') (b '0') (b '2') (b '8')) =
                  [0x80, 0xA8].cons 0xE2 := by decide
              rw [he]
              rfl
            · have hx : json.hex (rn % 16) = b '9' := by rw [h2]; decide
              rw [hx, unquoteLoop_u _ _ _ _ _ (by decide), ih']
              have := h29 h2
              simp only [List.cons.injEq] at this
              obtain ⟨e0, e1⟩ := this
              rw [e0, e1]
              have he : utf8.EncodeRune (json.hex4 (b '2') (b '0') (b '2') (b '9')) =
                  [0x80, 0xA9].cons 0xE2 := by decide
              rw [he]
              rfl
          · rw [if_neg h2, encodeStringLoop_skip]
            simp only [if_true]
            rw [unquoteLoop_high c cont _ rn k (by omega) (hany _) hlen, ih']

/-! ## Lemmas on decimal renderings -/

theorem digit_val (n : Nat) :
    ((Fin.ofNat ('0'.toNat + n % 10) : Byte)).val = 48 + n % 10 := by
  show ('0'.toNat + n % 10) % 256 = 48 + n % 10
  have : '0'.toNat = 48 := rfl
  rw [this]
  omega

theorem digit_isDigit (n : Nat) :
    json.isDigit (Fin.ofNat ('0'.toNat + n % 10) : Byte) = true := by
  unfold json.isDigit
  rw [digit_val]
  have h0 : '0'.toNat = 48 := rfl
  have h9 : '9'.toNat = 57 := rfl
  rw [h0, h9]
  simp
  omega

theorem digit_eq_zero (n : Nat) (h : (Fin.ofNat ('0'.toNat + n % 10) : Byte) = b '0') :
    n % 10 = 0 := by
  have := congrArg Fin.val h
  rw [digit_val] at this
  have h0 : (b '0').val = 48 := rfl
  omega

/-- The digits `natDigits` writes before `acc`: at least one, no leading zero
except for 0 itself, and their value is `n`. -/
theorem natDigits_spec (n : Nat) : ∀ fuel acc, n < fuel →
    ∃ ds : GoString, natDigits fuel n acc = ds ++ acc ∧ ds ≠ [] ∧
      (∀ x ∈ ds, json.isDigit x = true) ∧
      (ds.head? = some (b '0') → ds = [b '0']) ∧
      ds.foldl (fun a d => a * 10 + (d.val - '0'.toNat)) 0 = n := by
  induction n using Nat.strong_induction_on with
  | _ n ih =>
    intro fuel acc hf
    cases fuel with
    | zero => omega
    | succ fuel =>
      rw [natDigits]
      by_cases h10 : n / 10 = 0
      · rw [if_pos h10]
        refine ⟨[Fin.ofNat ('0'.toNat + n % 10)], rfl, by simp, ?_, ?_, ?_⟩
        · intro x hx
          simp only [List.mem_singleton] at hx
          rw [hx]; exact digit_isDigit n
        · intro hh
          simp only [List.head?_cons, Option.some.injEq] at hh
          rw [hh]
        · simp only [List.foldl_cons, List.foldl_nil, digit_val]
          have h0 : '0'.toNat = 48 := rfl
          rw [h0]
          have : n < 10 := by
            by_contra hcon
            have : 1 ≤ n / 10 := Nat.div_pos (by omega) (by decide)
            omega
          omega
      · rw [if_neg h10]
        have hlt : n / 10 < n := Nat.div_lt_self (by
          by_contra hcon
          have : n = 0 := by omega
          rw [this] at h10
          exact h10 rfl) (by decide)
        obtain ⟨ds, hds, hne, hdig, hhead, hval⟩ :=
          ih (n / 10) hlt fuel (Fin.ofNat ('0'.toNat + n % 10) :: acc) (by omega)
        refine ⟨ds ++ [Fin.ofNat ('0'.toNat + n % 10)], by rw [hds]; simp, by simp, ?_, ?_, ?_⟩
        · intro x hx
          simp only [List.mem_append, List.mem_singleton] at hx
          rcases hx with hx | hx
          · exact hdig x hx
          · rw [hx]; exact digit_isDigit n
        · intro hh
          exfalso
          obtain ⟨d, ds', hd⟩ := List.exists_cons_of_ne_nil hne
          rw [hd] at hh hhead hval
          simp only [List.cons_append, List.head?_cons, Option.some.injEq] at hh hhead
          have := hhead hh
          simp only [List.cons.injEq] at this
          rw [this.1, this.2] at hval
          simp only [List.foldl_cons, List.foldl_nil] at hval
          have h0 : (b '0').val = 48 := rfl
          have h0' : '0'.toNat = 48 := rfl
          rw [h0, h0'] at hval
          omega
        · rw [List.foldl_append, hval]
          simp only [List.foldl_cons, List.foldl_nil, digit_val]
          have h0 : '0'.toNat = 48 := rfl
          rw [h0]
          omega

theorem formatNat_spec (n : Nat) :
    ∃ d ds, formatNat n = d :: ds ∧ (∀ x ∈ d :: ds, json.isDigit x = true) ∧
      (d = b '0' → ds = []) ∧
      (d :: ds).foldl (fun a d => a * 10 + (d.val - '0'.toNat)) 0 = n := by
  obtain ⟨ds, hds, hne, hdig, hhead, hval⟩ := natDigits_spec n (n + 1) [] (by omega)
  obtain ⟨d, ds', hd⟩ := List.exists_cons_of_ne_nil hne
  subst hd
  refine ⟨d, ds', by unfold formatNat; rw [hds]; simp, hdig, ?_, hval⟩
  intro h0
  have := hhead (by rw [h0]; rfl)
  simp only [List.cons.injEq] at this
  exact this.2

/-- The digits at the head of a text made of digits followed by a text that
does not start with a digit. -/
theorem takeWhile_digits (ds r : GoString) (hds : ∀ x ∈ ds, json.isDigit x = true)
    (hr : r.head?.all (fun c => !json.isDigit c) = true) :
    (ds ++ r).takeWhile json.isDigit = ds ∧ (ds ++ r).dropWhile json.isDigit = r := by
  induction ds with
  | nil =>
    cases r with
    | nil => simp
    | cons c t =>
      simp only [List.head?_cons, Option.all_some, Bool.not_eq_true'] at hr
      simp [List.takeWhile, List.dropWhile, hr]
  | cons d ds ih =>
    have hd := hds d (by simp)
    obtain ⟨h1, h2⟩ := ih (fun x hx => hds x (by simp [hx]))
    simp [List.takeWhile, List.dropWhile, hd, h1, h2]

/-! ## Scanning and parsing a decimal rendering -/

set_option maxRecDepth 1000000 in
theorem isDigit_facts :
    ∀ c : Byte, json.isDigit c = true →
      c ≠ b '-' ∧ c ≠ b '+' ∧ json.isSpace c = false ∧ c ≠ (123 : Byte) ∧ c ≠ b '[' ∧
      c ≠ json.quote := by
  decide

theorem delimited_facts (r : GoString) (h : json.delimited r = true) :
    r.head?.all (fun c => !json.isDigit c) = true ∧
    json.scanFraction r = .ok ([], r) ∧ json.scanExponent r = .ok ([], r) := by
  cases r with
  | nil => exact ⟨rfl, rfl, rfl⟩
  | cons c t =>
    simp only [json.delimited, Bool.not_eq_true', Bool.or_eq_false_iff,
      decide_eq_false_iff_not] at h
    obtain ⟨⟨⟨h1, h2⟩, h3⟩, h4⟩ := h
    refine ⟨by simp [h1], ?_, ?_⟩
    · simp [json.scanFraction, h2]
    · simp [json.scanExponent, h3, h4]

theorem scanNumber_digits (d : Byte) (ds r : GoString)
    (hall : ∀ x ∈ d :: ds, json.isDigit x = true) (h0 : d = b '0' → ds = [])
    (hr : json.delimited r = true) :
    json.scanNumber (d :: ds ++ r) = .ok (d :: ds, r) ∧
    json.scanNumber (b '-' :: d :: ds ++ r) = .ok (b '-' :: d :: ds, r) := by
  obtain ⟨hr1, hr2, hr3⟩ := delimited_facts r hr
  have hd := hall d (by simp)
  have hdm : d ≠ b '-' := (isDigit_facts d hd).1
  obtain ⟨ht, hdw⟩ := takeWhile_digits ds r (fun x hx => hall x (by simp [hx])) hr1
  have key : ∀ sign : GoString,
      (match (d :: (ds ++ r) : GoString) with
        | [] => (Except.error json.ScanError.incomplete : Except json.ScanError (GoString × GoString))
        | c :: s2 =>
          if !json.isDigit c then .error .invalid
          else
            let int : GoString := if c = b '0' then [c] else c :: s2.takeWhile json.isDigit
            let s3 : GoString := if c = b '0' then s2 else s2.dropWhile json.isDigit
            match json.scanFraction s3 with
            | .error e => .error e
            | .ok (frac, s4) =>
              match json.scanExponent s4 with
              | .error e => .error e
              | .ok (exp, s5) => .ok (sign ++ int ++ frac ++ exp, s5)) =
        .ok (sign ++ d :: ds, r) := by
    intro sign
    simp only [hd, Bool.not_true, Bool.false_eq_true, if_false]
    by_cases hz : d = b '0'
    · have := h0 hz
      subst this
      simp only [hz, if_true, List.nil_append, hr2, hr3, List.append_nil]
    · simp only [hz, if_false, ht, hdw, hr2, hr3, List.append_nil]
  constructor
  · unfold json.scanNumber
    have hh : ((d :: ds ++ r : GoString).head? = some (b '-')) = False := by
      simp [hdm]
    simp only [hh, if_false]
    have := key []
    simpa using this
  · unfold json.scanNumber
    have hh : ((b '-' :: d :: ds ++ r : GoString).head? = some (b '-')) = True := by
      simp
    simp only [hh, if_true, List.tail_cons]
    have := key [b '-']
    simpa using this

theorem formatInt_cases (v : Int) :
    ∃ d ds, (∀ x ∈ d :: ds, json.isDigit x = true) ∧ (d = b '0' → ds = []) ∧
      (d :: ds).foldl (fun a d => a * 10 + (d.val - '0'.toNat)) 0 = v.natAbs ∧
      ((0 ≤ v ∧ formatInt v = d :: ds) ∨ (v < 0 ∧ formatInt v = b '-' :: d :: ds)) := by
  cases v with
  | ofNat n =>
    obtain ⟨d, ds, hf, hall, h0, hval⟩ := formatNat_spec n
    refine ⟨d, ds, hall, h0, by simpa using hval, Or.inl ⟨Int.ofNat_nonneg n, ?_⟩⟩
    simp only [formatInt, hf]
  | negSucc n =>
    obtain ⟨d, ds, hf, hall, h0, hval⟩ := formatNat_spec (n + 1)
    refine ⟨d, ds, hall, h0, by simpa using hval, Or.inr ⟨Int.negSucc_lt_zero n, ?_⟩⟩
    simp only [formatInt, hf]

theorem scanNumber_formatInt (v : Int) (r : GoString) (hr : json.delimited r = true) :
    json.scanNumber (formatInt v ++ r) = .ok (formatInt v, r) := by
  obtain ⟨d, ds, hall, h0, _, hcase⟩ := formatInt_cases v
  obtain ⟨h1, h2⟩ := scanNumber_digits d ds r hall h0 hr
  rcases hcase with ⟨_, hf⟩ | ⟨_, hf⟩
  · rw [hf]; exact h1
  · rw [hf]; exact h2

theorem parseInt64_formatInt (v : Int) (hlo : minInt64 ≤ v) (hhi : v ≤ maxInt64) :
    json.parseInt64 (formatInt v) = some v := by
  obtain ⟨d, ds, hall, h0, hval, hcase⟩ := formatInt_cases v
  have hd := hall d (by simp)
  have hdm : d ≠ b '-' := (isDigit_facts d hd).1
  have hall' : (d :: ds).all json.isDigit = true := by
    rw [List.all_eq_true]; exact hall
  rcases hcase with ⟨hv, hf⟩ | ⟨hv, hf⟩
  · unfold json.parseInt64
    rw [hf]
    have hh : ((d :: ds : GoString).head? = some (b '-')) = False := by simp [hdm]
    simp only [hh, decide_False, Bool.false_eq_true, if_false, hall', hval, ne_eq,
      not_false_eq_true, and_self, if_true, reduceCtorEq]
    have : (v.natAbs : Int) = v := Int.natAbs_of_nonneg hv
    rw [this, if_pos ⟨hlo, hhi⟩]
  · unfold json.parseInt64
    rw [hf]
    have hh : ((b '-' :: d :: ds : GoString).head? = some (b '-')) = True := by simp
    simp only [hh, decide_True, if_true, List.tail_cons, hall', hval, ne_eq,
      not_false_eq_true, and_self, reduceCtorEq]
    have : -(v.natAbs : Int) = v := by omega
    rw [this, if_pos ⟨hlo, hhi⟩]

theorem ParseInt_formatInt (v : Int) (hlo : minInt64 ≤ v) (hhi : v ≤ maxInt64) :
    strconv.ParseInt (formatInt v) = (v, none) := by
  obtain ⟨d, ds, hall, h0, hval, hcase⟩ := formatInt_cases v
  have hd := hall d (by simp)
  obtain ⟨hdm, hdp, _⟩ := isDigit_facts d hd
  have hall' : (d :: ds).all json.isDigit = true := by
    rw [List.all_eq_true]; exact hall
  have hmin : minInt64 = -9223372036854775808 := rfl
  have hmax : maxInt64 = 9223372036854775807 := rfl
  rcases hcase with ⟨hv, hf⟩ | ⟨hv, hf⟩
  · unfold strconv.ParseInt
    rw [hf]
    have hh : ((d :: ds : GoString).head? = some (b '-')) = False := by simp [hdm]
    have hh2 : ((d :: ds : GoString).head? = some (b '+')) = False := by simp [hdp]
    simp only [hh, hh2, or_self, decide_False, Bool.false_eq_true, if_false, hall', hval,
      reduceCtorEq, not_true_eq_false, or_false, Bool.not_false, true_and, false_and]
    have : (v.natAbs : Int) = v := Int.natAbs_of_nonneg hv
    rw [this, if_neg (by omega)]
  · unfold strconv.ParseInt
    rw [hf]
    have hh : ((b '-' :: d :: ds : GoString).head? = some (b '-')) = True := by simp
    have hh2 : ((b '-' :: d :: ds : GoString).head? = some (b '+')) = False := by
      simp; decide
    simp only [hh, hh2, false_or, decide_True, if_true, List.tail_cons, hall', hval,
      reduceCtorEq, not_true_eq_false, or_false, Bool.not_true, Bool.false_eq_true,
      false_and, if_false, true_and]
    have : -(v.natAbs : Int) = v := by omega
    rw [this, if_neg (by omega)]

/-- A page number above `int64`: `ParseInt` gives the greatest `int64`. -/
theorem ParseInt_formatInt_large (v : Int) (hhi : maxInt64 < v) :
    (strconv.ParseInt (formatInt v)).1 = maxInt64 := by
  obtain ⟨d, ds, hall, h0, hval, hcase⟩ := formatInt_cases v
  have hd := hall d (by simp)
  obtain ⟨hdm, hdp, _⟩ := isDigit_facts d hd
  have hall' : (d :: ds).all json.isDigit = true := by
    rw [List.all_eq_true]; exact hall
  have hmax : maxInt64 = 9223372036854775807 := rfl
  rcases hcase with ⟨hv, hf⟩ | ⟨hv, hf⟩
  · unfold strconv.ParseInt
    rw [hf]
    have hh : ((d :: ds : GoString).head? = some (b '-')) = False := by simp [hdm]
    have hh2 : ((d :: ds : GoString).head? = some (b '+')) = False := by simp [hdp]
    simp only [hh, hh2, or_self, decide_False, Bool.false_eq_true, if_false, hall', hval,
      reduceCtorEq, not_true_eq_false, or_false, Bool.not_false, true_and, false_and]
    rw [if_pos (by omega)]
  · omega

/-! ## Scanning the members of an object and the elements of an array -/

theorem skipSpace_cons (c : Byte) (r : GoString) (h : json.isSpace c = false) :
    json.skipSpace (c :: r) = c :: r := by
  simp [json.skipSpace, List.dropWhile, h]

theorem scanString_key (k r : GoString) (hk : json.plainKey k = true) :
    json.scanString (k ++ json.quote :: r) = .ok (k, r) := by
  induction k with
  | nil =>
    rw [List.nil_append, json.scanString.eq_def]
    simp
  | cons c cs ih =>
    simp only [json.plainKey, List.all_cons, Bool.and_eq_true, decide_eq_true_eq] at hk
    obtain ⟨⟨⟨⟨h1, h2⟩, h3⟩, h4⟩, hcs⟩ := hk
    rw [List.cons_append, scanString_plain c _ (by simpa using h3) (by simpa using h4) (by omega),
      ih hcs]
    rfl

theorem unquote_key (k : GoString) (hk : json.plainKey k = true) : json.unquote k = k := by
  unfold json.unquote
  induction k with
  | nil => rw [json.unquoteLoop]
  | cons c cs ih =>
    simp only [json.plainKey, List.all_cons, Bool.and_eq_true, decide_eq_true_eq] at hk
    obtain ⟨⟨⟨⟨h1, h2⟩, h3⟩, h4⟩, hcs⟩ := hk
    rw [unquoteLoop_plain c _ (by simpa using h4) h2, ih hcs]

theorem parseMembers_step (pv : GoString → Except json.ScanError (json.Value × GoString))
    (fuel : Nat) (acc : List (GoString × json.Value)) (k val : GoString) (v : json.Value)
    (c : Byte) (more : GoString) (hk : json.plainKey k = true)
    (hpv : pv (val ++ c :: more) = .ok (v, c :: more)) (hc : json.isSpace c = false) :
    json.parseMembers pv (fuel + 1) acc
        (json.quote :: (k ++ json.quote :: b ':' :: (val ++ c :: more))) =
      (if c = b ',' then json.parseMembers pv fuel (acc ++ [(k, v)]) more
        else if c = (125 : Byte) then .ok (.object (acc ++ [(k, v)]), more)
        else .error .invalid) := by
  rw [json.parseMembers.eq_def]
  simp only []
  rw [skipSpace_cons _ _ (by decide)]
  simp only [ne_eq, not_true_eq_false, if_false]
  rw [scanString_key k _ hk]
  simp only []
  rw [skipSpace_cons _ _ (by decide)]
  simp only [ne_eq, not_true_eq_false, if_false, hpv]
  rw [skipSpace_cons _ _ hc]
  simp only [unquote_key k hk]

/-- The text of one member of an object, as `encodeObject` writes it. -/
theorem member_text (f : String × GoString) (t : GoString) :
    (json.quote :: str f.1 ++ json.quote :: b ':' :: f.2) ++ t =
      json.quote :: (str f.1 ++ json.quote :: b ':' :: (f.2 ++ t)) := by
  simp

theorem parseMembers_ok (pv : GoString → Except json.ScanError (json.Value × GoString))
    (F : Nat) (fields : List (String × GoString)) (vals : List json.Value)
    (h : List.Forall₂
      (fun (f : String × GoString) (v : json.Value) =>
        json.plainKey (str f.1) = true ∧
        ∀ r : GoString, json.delimited r = true → (f.2 ++ r).length < F →
          pv (f.2 ++ r) = .ok (v, r)) fields vals) :
    fields ≠ [] → ∀ (fuel : Nat) (acc : List (GoString × json.Value)) (rest : GoString),
      (strings.Join (b ',')
          (fields.map (fun f => json.quote :: str f.1 ++ json.quote :: b ':' :: f.2)) ++
        (125 : Byte) :: rest).length ≤ fuel →
      (strings.Join (b ',')
          (fields.map (fun f => json.quote :: str f.1 ++ json.quote :: b ':' :: f.2)) ++
        (125 : Byte) :: rest).length ≤ F →
      json.parseMembers pv fuel acc
          (strings.Join (b ',')
              (fields.map (fun f => json.quote :: str f.1 ++ json.quote :: b ':' :: f.2)) ++
            (125 : Byte) :: rest) =
        .ok (.object (acc ++ (fields.zip vals).map (fun p => (str p.1.1, p.2))), rest) := by
  induction h with
  | nil => intro hne; exact absurd rfl hne
  | @cons f v fs vs hfv htail ih =>
    intro _ fuel acc rest hfuel hF
    obtain ⟨hk, hpv⟩ := hfv
    by_cases hfs : fs = []
    · subst hfs
      cases htail
      simp only [List.map_cons, List.map_nil, strings.Join] at hfuel hF ⊢
      rw [member_text] at hfuel hF ⊢
      cases fuel with
      | zero => simp at hfuel
      | succ fuel =>
        have hp := hpv ((125 : Byte) :: rest) rfl (by
          simp only [List.length_cons, List.length_append] at hF ⊢
          omega)
        rw [parseMembers_step pv fuel acc _ _ v _ _ hk hp (by decide)]
        simp only [show ((125 : Byte) = b ',') = False from by decide, if_false, if_true]
        simp
    · have hmap : fs.map (fun f => json.quote :: str f.1 ++ json.quote :: b ':' :: f.2) ≠ [] := by
        simpa using hfs
      simp only [List.map_cons] at hfuel hF ⊢
      rw [Join_cons _ _ _ hmap] at hfuel hF ⊢
      rw [List.append_assoc, member_text, List.cons_append] at hfuel hF ⊢
      cases fuel with
      | zero => simp at hfuel
      | succ fuel =>
        have hp := hpv (b ',' :: (strings.Join (b ',')
            (fs.map (fun f => json.quote :: str f.1 ++ json.quote :: b ':' :: f.2)) ++
          (125 : Byte) :: rest)) rfl (by
          simp only [List.length_cons, List.length_append] at hF ⊢
          omega)
        rw [parseMembers_step pv fuel acc _ _ v _ _ hk hp (by decide)]
        simp only [if_true]
        rw [ih hfs fuel _ rest (by
          simp only [List.length_cons, List.length_append] at hfuel ⊢
          omega) (by
          simp only [List.length_cons, List.length_append] at hF ⊢
          omega)]
        simp

theorem parseElems_step (pv : GoString → Except json.ScanError (json.Value × GoString))
    (fuel : Nat) (acc : List json.Value) (val : GoString) (v : json.Value)
    (c : Byte) (more : GoString)
    (hpv : pv (val ++ c :: more) = .ok (v, c :: more)) (hc : json.isSpace c = false) :
    json.parseElems pv (fuel + 1) acc (val ++ c :: more) =
      (if c = b ',' then json.parseElems pv fuel (acc ++ [v]) more
        else if c = b ']' then .ok (.array (acc ++ [v]), more)
        else .error .invalid) := by
  rw [json.parseElems.eq_def]
  simp only [hpv]
  rw [skipSpace_cons _ _ hc]

theorem parseElems_ok (pv : GoString → Except json.ScanError (json.Value × GoString))
    (F : Nat) (texts : List GoString) (vals : List json.Value)
    (h : List.Forall₂
      (fun (t : GoString) (v : json.Value) =>
        ∀ r : GoString, json.delimited r = true → (t ++ r).length < F →
          pv (t ++ r) = .ok (v, r)) texts vals) :
    texts ≠ [] → ∀ (fuel : Nat) (acc : List json.Value) (rest : GoString),
      (strings.Join (b ',') texts ++ b ']' :: rest).length < fuel →
      (strings.Join (b ',') texts ++ b ']' :: rest).length < F →
      json.parseElems pv fuel acc (strings.Join (b ',') texts ++ b ']' :: rest) =
        .ok (.array (acc ++ vals), rest) := by
  induction h with
  | nil => intro hne; exact absurd rfl hne
  | @cons t v ts vs htv htail ih =>
    intro _ fuel acc rest hfuel hF
    by_cases hts : ts = []
    · subst hts
      cases htail
      simp only [strings.Join] at hfuel hF ⊢
      cases fuel with
      | zero => simp at hfuel
      | succ fuel =>
        have hp := htv (b ']' :: rest) rfl hF
        rw [parseElems_step pv fuel acc _ v _ _ hp (by decide)]
        simp only [show (b ']' = b ',') = False from by decide, if_false, if_true]
    · rw [Join_cons _ _ _ hts] at hfuel hF ⊢
      rw [List.append_assoc, List.cons_append] at hfuel hF ⊢
      cases fuel with
      | zero => simp at hfuel
      | succ fuel =>
        have hp := htv (b ',' :: (strings.Join (b ',') ts ++ b ']' :: rest)) rfl hF
        rw [parseElems_step pv fuel acc _ v _ _ hp (by decide)]
        simp only [if_true]
        rw [ih hts fuel _ rest (by
          simp only [List.length_cons, List.length_append] at hfuel ⊢
          omega) (by
          simp only [List.length_cons, List.length_append] at hF ⊢
          omega)]
        simp

/-! ## Reading the JSON the encoder writes -/

theorem fuel_succ {n fuel : Nat} (h : n < fuel) : ∃ f, fuel = f + 1 ∧ n ≤ f :=
  ⟨fuel - 1, by omega, by omega⟩

theorem Reads_string (depth : Nat) (s : GoString) :
    json.Reads depth (json.encodeString s) (json.stringValue s) := by
  intro fuel r _ hlen
  obtain ⟨f, hf, _⟩ := fuel_succ hlen
  subst hf
  have hform : json.encodeString s ++ r =
      json.quote :: (json.encodeStringLoop 0 true s ++ json.quote :: r) := by
    unfold json.encodeString
    rw [List.append_assoc]
    rfl
  rw [hform]
  unfold json.stringValue json.unquote
  rw [json.parseValue.eq_def]
  simp only []
  rw [skipSpace_cons _ _ (by decide)]
  simp only [show (json.quote = (123 : Byte)) = False from by decide,
    show (json.quote = b '[') = False from by decide, if_false, if_true]
  rw [scanString_encode _ s (le_refl _) r]
  rfl

theorem Reads_bool (depth : Nat) (v : Bool) :
    json.Reads depth (json.encodeBool v) (.bool v) := by
  intro fuel r _ hlen
  obtain ⟨f, hf, _⟩ := fuel_succ hlen
  subst hf
  cases v with
  | true =>
    have : json.encodeBool true = [b 't', b 'r', b 'u', b 'e'] := by decide
    rw [this, json.parseValue.eq_def]
    simp only [List.cons_append, List.nil_append]
    rw [skipSpace_cons _ _ (by decide)]
    have hl : str "rue" = [b 'r', b 'u', b 'e'] := by decide
    simp +decide only [hl, json.scanLiteral, if_false, if_true]
    rfl
  | false =>
    have : json.encodeBool false = [b 'f', b 'a', b 'l', b 's', b 'e'] := by decide
    rw [this, json.parseValue.eq_def]
    simp only [List.cons_append, List.nil_append]
    rw [skipSpace_cons _ _ (by decide)]
    have hl : str "alse" = [b 'a', b 'l', b 's', b 'e'] := by decide
    simp +decide only [hl, json.scanLiteral, if_false, if_true]
    rfl

theorem Reads_null (depth : Nat) : json.Reads depth (str "null") .null := by
  intro fuel r _ hlen
  obtain ⟨f, hf, _⟩ := fuel_succ hlen
  subst hf
  have : str "null" = [b 'n', b 'u', b 'l', b 'l'] := by decide
  rw [this, json.parseValue.eq_def]
  simp only [List.cons_append, List.nil_append]
  rw [skipSpace_cons _ _ (by decide)]
  have hl : str "ull" = [b 'u', b 'l', b 'l'] := by decide
  simp +decide only [hl, json.scanLiteral, if_false, if_true]
  rfl

set_option maxRecDepth 1000000 in
theorem number_head_facts :
    ∀ c : Byte, (c = b '-' ∨ json.isDigit c = true) →
      json.isSpace c = false ∧ c ≠ (123 : Byte) ∧ c ≠ b '[' ∧ c ≠ json.quote := by
  decide

theorem Reads_number (depth : Nat) (v : Int) :
    json.Reads depth (formatInt v) (.number (formatInt v)) := by
  intro fuel r hr hlen
  obtain ⟨f, hf, _⟩ := fuel_succ hlen
  subst hf
  have hscan := scanNumber_formatInt v r hr
  obtain ⟨d, ds, hall, _, _, hcase⟩ := formatInt_cases v
  have hd := hall d (by simp)
  have key : ∀ (c : Byte) (t : GoString), (c = b '-' ∨ json.isDigit c = true) →
      json.scanNumber (c :: t ++ r) = .ok (c :: t, r) →
      json.parseValue (f + 1) depth (c :: t ++ r) = .ok (.number (c :: t), r) := by
    intro c t hc hs
    obtain ⟨a1, a2, a3, a4⟩ := number_head_facts c hc
    rw [json.parseValue.eq_def]
    simp only [List.cons_append]
    rw [skipSpace_cons _ _ a1]
    simp only [a2, a3, a4, if_false, hc, if_true]
    simp only [List.cons_append] at hs
    rw [hs]
    rfl
  rcases hcase with ⟨_, hfm⟩ | ⟨_, hfm⟩
  · rw [hfm] at hscan ⊢
    exact key d ds (Or.inr hd) hscan
  · rw [hfm] at hscan ⊢
    exact key (b '-') (d :: ds) (Or.inl rfl) hscan

theorem Reads_object (depth : Nat) (fields : List (String × GoString))
    (vals : List json.Value) (hd : depth < json.maxNestingDepth) (hne : fields ≠ [])
    (h : List.Forall₂
      (fun (f : String × GoString) (v : json.Value) =>
        json.plainKey (str f.1) = true ∧ json.Reads (depth + 1) f.2 v) fields vals) :
    json.Reads depth (json.encodeObject fields)
      (.object ((fields.zip vals).map (fun p => (str p.1.1, p.2)))) := by
  intro fuel r _ hlen
  obtain ⟨f, hf, hle⟩ := fuel_succ hlen
  subst hf
  have hform : json.encodeObject fields ++ r =
      (123 : Byte) :: (strings.Join (b ',')
        (fields.map (fun f => json.quote :: str f.1 ++ json.quote :: b ':' :: f.2)) ++
          (125 : Byte) :: r) := by
    unfold json.encodeObject
    rw [List.append_assoc]
    rfl
  rw [hform] at hle ⊢
  rw [List.length_cons] at hle
  have h' : List.Forall₂
      (fun (fd : String × GoString) (v : json.Value) =>
        json.plainKey (str fd.1) = true ∧
        ∀ r : GoString, json.delimited r = true → (fd.2 ++ r).length < f →
          json.parseValue f (depth + 1) (fd.2 ++ r) = .ok (v, r)) fields vals :=
    h.imp (fun _ _ hh => ⟨hh.1, fun r hr hl => hh.2 f r hr hl⟩)
  have hpm := parseMembers_ok (json.parseValue f (depth + 1)) f fields vals h' hne f [] r
    (by omega) (by omega)
  -- the text of the members starts with a quote
  obtain ⟨fd, fs, hfs⟩ := List.exists_cons_of_ne_nil hne
  have hhd : (strings.Join (b ',')
      (fields.map (fun f => json.quote :: str f.1 ++ json.quote :: b ':' :: f.2)) ++
        (125 : Byte) :: r).head? = some json.quote := by
    rw [hfs]
    cases fs <;> simp [strings.Join]
  have hstart : ∃ t, strings.Join (b ',')
      (fields.map (fun f => json.quote :: str f.1 ++ json.quote :: b ':' :: f.2)) ++
        (125 : Byte) :: r = json.quote :: t := by
    generalize strings.Join (b ',')
      (fields.map (fun f => json.quote :: str f.1 ++ json.quote :: b ':' :: f.2)) ++
        (125 : Byte) :: r = x at hhd
    cases x with
    | nil => simp at hhd
    | cons c t =>
      simp only [List.head?_cons, Option.some.injEq] at hhd
      exact ⟨t, by rw [hhd]⟩
  obtain ⟨t, ht⟩ := hstart
  rw [json.parseValue.eq_def]
  simp only []
  rw [skipSpace_cons _ _ (by decide)]
  simp only [if_true]
  rw [if_neg (by omega)]
  rw [ht] at hpm ⊢
  rw [skipSpace_cons _ _ (by decide)]
  simp only [show (json.quote = (125 : Byte)) = False from by decide, if_false]
  rw [hpm]
  simp

theorem Reads_array (depth : Nat) (texts : List GoString) (vals : List json.Value)
    (hd : depth < json.maxNestingDepth)
    (hhead : ∀ t ∈ texts, t.head? = some json.quote ∨ t.head? = some (123 : Byte))
    (h : List.Forall₂ (fun (t : GoString) (v : json.Value) => json.Reads (depth + 1) t v)
      texts vals) :
    json.Reads depth (b '[' :: strings.Join (b ',') texts ++ [b ']']) (.array vals) := by
  intro fuel r _ hlen
  obtain ⟨f, hf, hle⟩ := fuel_succ hlen
  subst hf
  have hform : (b '[' :: strings.Join (b ',') texts ++ [b ']']) ++ r =
      b '[' :: (strings.Join (b ',') texts ++ b ']' :: r) := by
    rw [List.append_assoc]
    rfl
  rw [hform] at hle ⊢
  rw [List.length_cons] at hle
  rw [json.parseValue.eq_def]
  simp only []
  rw [skipSpace_cons _ _ (by decide)]
  simp only [show (b '[' = (123 : Byte)) = False from by decide, if_false, if_true]
  rw [if_neg (by omega)]
  cases texts with
  | nil =>
    cases h
    simp only [strings.Join, List.nil_append]
    rw [skipSpace_cons _ _ (by decide)]
    simp
  | cons t ts =>
    have h' : List.Forall₂
        (fun (t : GoString) (v : json.Value) =>
          ∀ r : GoString, json.delimited r = true → (t ++ r).length < f →
            json.parseValue f (depth + 1) (t ++ r) = .ok (v, r)) (t :: ts) vals :=
      h.imp (fun _ _ hh => fun r hr hl => hh f r hr hl)
    have hpe := parseElems_ok (json.parseValue f (depth + 1)) f (t :: ts) vals h'
      (by simp) f [] r (by omega) (by omega)
    have hhd : (strings.Join (b ',') (t :: ts) ++ b ']' :: r).head? = t.head? := by
      have hh := hhead t (by simp)
      cases t with
      | nil => simp at hh
      | cons c u => cases ts <;> simp [strings.Join]
    have hstart : ∃ c u, strings.Join (b ',') (t :: ts) ++ b ']' :: r = c :: u ∧
        (c = json.quote ∨ c = (123 : Byte)) := by
      have hh := hhead t (by simp)
      rw [← hhd] at hh
      generalize strings.Join (b ',') (t :: ts) ++ b ']' :: r = x at hh
      cases x with
      | nil => simp at hh
      | cons c u =>
        simp only [List.head?_cons, Option.some.injEq] at hh
        exact ⟨c, u, rfl, hh⟩
    obtain ⟨c, u, hcu, hc⟩ := hstart
    rw [hcu] at hpe ⊢
    have hsp : json.isSpace c = false := by rcases hc with hc | hc <;> rw [hc] <;> decide
    have hnb : (c = b ']') = False := by
      rcases hc with hc | hc <;> rw [hc] <;> decide
    rw [skipSpace_cons _ _ hsp]
    simp only [hnb, if_false]
    rw [hpe]
    simp

/-! ## Reading the JSON of accounts -/

theorem encodeString_head (s : GoString) : (json.encodeString s).head? = some json.quote := rfl

theorem encodeObject_head (fields : List (String × GoString)) :
    (json.encodeObject fields).head? = some (123 : Byte) := rfl

theorem key_reads (depth : Nat) (k : String) (t : GoString) (v : json.Value)
    (hk : json.plainKey (str k) = true) (hr : json.Reads depth t v) :
    json.plainKey (str (k, t).1) = true ∧ json.Reads depth (k, t).2 v := ⟨hk, hr⟩

theorem Reads_strings (depth : Nat) (hd : depth < json.maxNestingDepth)
    (xs : Option (Slice GoString)) :
    json.Reads depth (json.encodeStrings xs) (json.stringsValue xs) := by
  cases xs with
  | none => exact Reads_null depth
  | some l =>
    unfold json.encodeStrings json.stringsValue
    apply Reads_array depth _ _ hd
    · intro t ht
      simp only [List.mem_map] at ht
      obtain ⟨s, _, hs⟩ := ht
      rw [← hs]
      exact Or.inl (encodeString_head s)
    · rw [List.forall₂_map_left_iff, List.forall₂_map_right_iff, List.forall₂_same]
      intro s _
      exact Reads_string (depth + 1) s

theorem Reads_attributes (depth : Nat) (hd : depth + 1 < json.maxNestingDepth)
    (a : Attributes) :
    json.Reads depth (json.encodeAttributes a) (json.attributesValue a) := by
  unfold json.encodeAttributes
  have h := Reads_object depth
    [("country", json.encodeString a.Country),
     ("base_currency", json.encodeString a.BaseCurrency),
     ("bank_id", json.encodeString a.BankID),
     ("bank_id_code", json.encodeString a.BankIDCode),
     ("account_number", json.encodeString a.AccountNumber),
     ("bic", json.encodeString a.BIC),
     ("iban", json.encodeString a.IBAN),
     ("customer_id", json.encodeString a.CustomerID),
     ("title", json.encodeString a.Title),
     ("first_name", json.encodeString a.FirstName),
     ("bank_account_name", json.encodeString a.BankAccountName),
     ("alternative_bank_account_names", json.encodeStrings a.AlternativeBankAccountNames),
     ("account_classification", json.encodeString a.AccountClassification),
     ("joint_account", json.encodeBool a.JointAccount),
     ("account_matching_opt_out", json.encodeBool a.AccountMatchingOptOut),
     ("secondary_identification", json.encodeString a.SecondaryIdentification)]
    [json.stringValue a.Country, json.stringValue a.BaseCurrency, json.stringValue a.BankID,
     json.stringValue a.BankIDCode, json.stringValue a.AccountNumber, json.stringValue a.BIC,
     json.stringValue a.IBAN, json.stringValue a.CustomerID, json.stringValue a.Title,
     json.stringValue a.FirstName, json.stringValue a.BankAccountName,
     json.stringsValue a.AlternativeBankAccountNames,
     json.stringValue a.AccountClassification, .bool a.JointAccount,
     .bool a.AccountMatchingOptOut, json.stringValue a.SecondaryIdentification]
    (by omega) (by simp)
    (.cons (key_reads _ _ _ _ (by decide) (Reads_string _ _))
    (.cons (key_reads _ _ _ _ (by decide) (Reads_string _ _))
    (.cons (key_reads _ _ _ _ (by decide) (Reads_string _ _))
    (.cons (key_reads _ _ _ _ (by decide) (Reads_string _ _))
    (.cons (key_reads _ _ _ _ (by decide) (Reads_string _ _))
    (.cons (key_reads _ _ _ _ (by decide) (Reads_string _ _))
    (.cons (key_reads _ _ _ _ (by decide) (Reads_string _ _))
    (.cons (key_reads _ _ _ _ (by decide) (Reads_string _ _))
    (.cons (key_reads _ _ _ _ (by decide) (Reads_string _ _))
    (.cons (key_reads _ _ _ _ (by decide) (Reads_string _ _))
    (.cons (key_reads _ _ _ _ (by decide) (Reads_string _ _))
    (.cons (key_reads _ _ _ _ (by decide) (Reads_strings _ (by omega) _))
    (.cons (key_reads _ _ _ _ (by decide) (Reads_string _ _))
    (.cons (key_reads _ _ _ _ (by decide) (Reads_bool _ _))
    (.cons (key_reads _ _ _ _ (by decide) (Reads_bool _ _))
    (.cons (key_reads _ _ _ _ (by decide) (Reads_string _ _))
    .nil))))))))))))))))
  exact h

theorem Reads_account (depth : Nat) (hd : depth + 2 < json.maxNestingDepth) (a : Account) :
    json.Reads depth (json.encodeAccount a) (json.accountValue a) := by
  unfold json.encodeAccount
  have h := Reads_object depth
    [("id", json.encodeString a.ID),
     ("organisation_id", json.encodeString a.OrganisationID),
     ("type", json.encodeString a.Type_),
     ("version", formatInt a.Version),
     ("attributes", json.encodeAttributes a.Attributes)]
    [json.stringValue a.ID, json.stringValue a.OrganisationID, json.stringValue a.Type_,
     .number (formatInt a.Version), json.attributesValue a.Attributes]
    (by omega) (by simp)
    (.cons (key_reads _ _ _ _ (by decide) (Reads_string _ _))
    (.cons (key_reads _ _ _ _ (by decide) (Reads_string _ _))
    (.cons (key_reads _ _ _ _ (by decide) (Reads_string _ _))
    (.cons (key_reads _ _ _ _ (by decide) (Reads_number _ _))
    (.cons (key_reads _ _ _ _ (by decide) (Reads_attributes _ (by omega) _)) .nil)))))
  exact h

theorem Reads_accounts (depth : Nat) (hd : depth + 3 < json.maxNestingDepth)
    (xs : Option (Slice Account)) :
    json.Reads depth (json.encodeAccounts xs) (json.accountsValue xs) := by
  cases xs with
  | none => exact Reads_null depth
  | some l =>
    unfold json.encodeAccounts json.accountsValue
    apply Reads_array depth _ _ (by omega)
    · intro t ht
      simp only [List.mem_map] at ht
      obtain ⟨s, _, hs⟩ := ht
      rw [← hs]
      exact Or.inr (encodeObject_head _)
    · rw [List.forall₂_map_left_iff, List.forall₂_map_right_iff, List.forall₂_same]
      intro s _
      exact Reads_account (depth + 1) (by omega) s

/-- The scanner reads the JSON of an envelope of one account, whatever
follows it. -/
theorem readValue_AccountResource (a : AccountResource) (r : GoString)
    (hr : json.delimited r = true) :
    json.readValue (json.encodeObject [("data", json.encodeAccount a.Data)] ++ r) =
      .ok (.object [(str "data", json.accountValue a.Data)], r) := by
  have h := Reads_object 0 [("data", json.encodeAccount a.Data)] [json.accountValue a.Data]
    (by decide) (by simp) (.cons (key_reads _ _ _ _ (by decide) (Reads_account 1 (by decide) a.Data)) .nil)
  exact h _ r hr (Nat.lt_succ_self _)

/-- The scanner reads the JSON of an envelope of a sequence of accounts,
whatever follows it. -/
theorem readValue_AccountsResource (a : AccountsResource) (r : GoString)
    (hr : json.delimited r = true) :
    json.readValue (json.encodeObject [("data", json.encodeAccounts a.Data)] ++ r) =
      .ok (.object [(str "data", json.accountsValue a.Data)], r) := by
  have h := Reads_object 0 [("data", json.encodeAccounts a.Data)] [json.accountsValue a.Data]
    (by decide) (by simp) (.cons (key_reads _ _ _ _ (by decide) (Reads_accounts 1 (by decide) a.Data)) .nil)
  exact h _ r hr (Nat.lt_succ_self _)

/-! ## Storing the JSON of accounts -/

theorem stringValue_valid (s : GoString) (h : utf8.ValidString s = true) :
    json.stringValue s = .string s := by
  unfold json.stringValue json.unquote
  rw [unquote_encode _ s (le_refl _) h]

theorem setElems_strings (xs : Slice GoString) (h : ∀ s ∈ xs, utf8.ValidString s = true) :
    json.setElems json.setString [] [] (xs.map json.stringValue) = (xs, none) := by
  induction xs with
  | nil => rfl
  | cons x xs ih =>
    simp only [List.map_cons, json.setElems, List.tail_nil, List.headD_nil]
    rw [ih (fun s hs => h s (by simp [hs])), stringValue_valid x (h x (by simp))]
    rfl

theorem setSlice_strings (xs : Option (Slice GoString))
    (h : ∀ s ∈ xs.getD [], utf8.ValidString s = true) :
    json.setSlice json.setString [] none (json.stringsValue xs) = (xs, none) := by
  cases xs with
  | none => rfl
  | some l =>
    simp only [json.stringsValue, json.setSlice, Option.getD_none]
    rw [setElems_strings l h]

theorem attributesField_keys (a : Attributes) (v : json.Value) :
    json.attributesField a (str "country") v =
      ({ a with Country := (json.setString a.Country v).1 }, (json.setString a.Country v).2) ∧
    json.attributesField a (str "base_currency") v =
      ({ a with BaseCurrency := (json.setString a.BaseCurrency v).1 },
        (json.setString a.BaseCurrency v).2) ∧
    json.attributesField a (str "bank_id") v =
      ({ a with BankID := (json.setString a.BankID v).1 }, (json.setString a.BankID v).2) ∧
    json.attributesField a (str "bank_id_code") v =
      ({ a with BankIDCode := (json.setString a.BankIDCode v).1 },
        (json.setString a.BankIDCode v).2) ∧
    json.attributesField a (str "account_number") v =
      ({ a with AccountNumber := (json.setString a.AccountNumber v).1 },
        (json.setString a.AccountNumber v).2) ∧
    json.attributesField a (str "bic") v =
      ({ a with BIC := (json.setString a.BIC v).1 }, (json.setString a.BIC v).2) ∧
    json.attributesField a (str "iban") v =
      ({ a with IBAN := (json.setString a.IBAN v).1 }, (json.setString a.IBAN v).2) ∧
    json.attributesField a (str "customer_id") v =
      ({ a with CustomerID := (json.setString a.CustomerID v).1 },
        (json.setString a.CustomerID v).2) ∧
    json.attributesField a (str "title") v =
      ({ a with Title := (json.setString a.Title v).1 }, (json.setString a.Title v).2) ∧
    json.attributesField a (str "first_name") v =
      ({ a with FirstName := (json.setString a.FirstName v).1 },
        (json.setString a.FirstName v).2) ∧
    json.attributesField a (str "bank_account_name") v =
      ({ a with BankAccountName := (json.setString a.BankAccountName v).1 },
        (json.setString a.BankAccountName v).2) ∧
    json.attributesField a (str "alternative_bank_account_names") v =
      ({ a with AlternativeBankAccountNames :=
          (json.setSlice json.setString [] a.AlternativeBankAccountNames v).1 },
        (json.setSlice json.setString [] a.AlternativeBankAccountNames v).2) ∧
    json.attributesField a (str "account_classification") v =
      ({ a with AccountClassification := (json.setString a.AccountClassification v).1 },
        (json.setString a.AccountClassification v).2) ∧
    json.attributesField a (str "joint_account") v =
      ({ a with JointAccount := (json.setBool a.JointAccount v).1 },
        (json.setBool a.JointAccount v).2) ∧
    json.attributesField a (str "account_matching_opt_out") v =
      ({ a with AccountMatchingOptOut := (json.setBool a.AccountMatchingOptOut v).1 },
        (json.setBool a.AccountMatchingOptOut v).2) ∧
    json.attributesField a (str "secondary_identification") v =
      ({ a with SecondaryIdentification := (json.setString a.SecondaryIdentification v).1 },
        (json.setString a.SecondaryIdentification v).2) := by
  refine ⟨?_, ?_, ?_, ?_, ?_, ?_, ?_, ?_, ?_, ?_, ?_, ?_, ?_, ?_, ?_, ?_⟩ <;>
    (unfold json.attributesField; simp +decide only [if_true, if_false])

theorem accountField_keys (a : Account) (v : json.Value) :
    json.accountField a (str "id") v =
      ({ a with ID := (json.setString a.ID v).1 }, (json.setString a.ID v).2) ∧
    json.accountField a (str "organisation_id") v =
      ({ a with OrganisationID := (json.setString a.OrganisationID v).1 },
        (json.setString a.OrganisationID v).2) ∧
    json.accountField a (str "type") v =
      ({ a with Type_ := (json.setString a.Type_ v).1 }, (json.setString a.Type_ v).2) ∧
    json.accountField a (str "version") v =
      ({ a with Version := (json.setInt64 a.Version v).1 }, (json.setInt64 a.Version v).2) ∧
    json.accountField a (str "attributes") v =
      ({ a with Attributes := (json.setStruct json.attributesField a.Attributes v).1 },
        (json.setStruct json.attributesField a.Attributes v).2) := by
  refine ⟨?_, ?_, ?_, ?_, ?_⟩ <;>
    (unfold json.accountField; simp +decide only [if_true, if_false])

theorem setStruct_attributes (a : Attributes)
    (h : ∀ s ∈ a.strings, utf8.ValidString s = true) :
    json.setStruct json.attributesField {} (json.attributesValue a) = (a, none) := by
  have hs : ∀ s ∈ a.AlternativeBankAccountNames.getD [], utf8.ValidString s = true :=
    fun s hs => h s (by simp [Attributes.strings, hs])
  unfold json.attributesValue json.setStruct
  simp only [List.foldl_cons, List.foldl_nil, attributesField_keys,
    stringValue_valid _ (h a.Country (by simp [Attributes.strings])),
    stringValue_valid _ (h a.BaseCurrency (by simp [Attributes.strings])),
    stringValue_valid _ (h a.BankID (by simp [Attributes.strings])),
    stringValue_valid _ (h a.BankIDCode (by simp [Attributes.strings])),
    stringValue_valid _ (h a.AccountNumber (by simp [Attributes.strings])),
    stringValue_valid _ (h a.BIC (by simp [Attributes.strings])),
    stringValue_valid _ (h a.IBAN (by simp [Attributes.strings])),
    stringValue_valid _ (h a.CustomerID (by simp [Attributes.strings])),
    stringValue_valid _ (h a.Title (by simp [Attributes.strings])),
    stringValue_valid _ (h a.FirstName (by simp [Attributes.strings])),
    stringValue_valid _ (h a.BankAccountName (by simp [Attributes.strings])),
    stringValue_valid _ (h a.AccountClassification (by simp [Attributes.strings])),
    stringValue_valid _ (h a.SecondaryIdentification (by simp [Attributes.strings])),
    setSlice_strings _ hs, json.setString, json.setBool, json.firstError]

theorem setStruct_account (a : Account) (h : a.isText = true) :
    json.setStruct json.accountField {} (json.accountValue a) = (a, none) := by
  simp only [Account.isText, Bool.and_eq_true, List.all_eq_true, decide_eq_true_eq] at h
  obtain ⟨⟨hs, hlo⟩, hhi⟩ := h
  have hattr : ∀ s ∈ a.Attributes.strings, utf8.ValidString s = true :=
    fun s hm => hs s (by simp [Account.strings, hm])
  unfold json.accountValue json.setStruct
  simp only [List.foldl_cons, List.foldl_nil, accountField_keys,
    stringValue_valid _ (hs a.ID (by simp [Account.strings])),
    stringValue_valid _ (hs a.OrganisationID (by simp [Account.strings])),
    stringValue_valid _ (hs a.Type_ (by simp [Account.strings])),
    setStruct_attributes _ hattr, json.setString, json.setInt64,
    parseInt64_formatInt _ hlo hhi, json.firstError]

theorem setElems_accounts (xs : Slice Account) (h : ∀ a ∈ xs, a.isText = true) :
    json.setElems (json.setStruct json.accountField) {} [] (xs.map json.accountValue) =
      (xs, none) := by
  induction xs with
  | nil => rfl
  | cons x xs ih =>
    simp only [List.map_cons, json.setElems, List.tail_nil, List.headD_nil]
    rw [ih (fun s hs => h s (by simp [hs])), setStruct_account x (h x (by simp))]
    rfl

theorem setSlice_accounts (xs : Option (Slice Account))
    (h : ∀ a ∈ xs.getD [], a.isText = true) :
    json.setSlice (json.setStruct json.accountField) {} none (json.accountsValue xs) =
      (xs, none) := by
  cases xs with
  | none => rfl
  | some l =>
    simp only [json.accountsValue, json.setSlice, Option.getD_none]
    rw [setElems_accounts l h]

/-! ## Decoding the JSON of an envelope -/

/-- Decoding the JSON of an envelope of one account that is text, followed by
white space or by nothing, into a zero envelope gives the envelope back. -/
theorem Decode_AccountResource (a : AccountResource) (r : GoString) (err : Option GoString)
    (h : a.Data.isText = true) (hr : json.delimited r = true) :
    json.Decode { data := json.encodeObject [("data", json.encodeAccount a.Data)] ++ r,
                  err := err } ({} : AccountResource) = (a, none) := by
  unfold json.Decode json.decodeValue
  simp only [readValue_AccountResource a r hr]
  show json.setStruct json.accountResourceField {} _ = _
  unfold json.setStruct
  simp only [List.foldl_cons, List.foldl_nil]
  unfold json.accountResourceField
  simp +decide only [if_true]
  show (({ Data := (json.setStruct json.accountField {} (json.accountValue a.Data)).1 } :
    AccountResource), json.firstError none
      (json.setStruct json.accountField {} (json.accountValue a.Data)).2) = _
  rw [setStruct_account a.Data h]
  rfl

/-- Decoding the JSON of an envelope of accounts that are text into a zero
envelope gives the envelope back. -/
theorem Decode_AccountsResource (a : AccountsResource) (r : GoString) (err : Option GoString)
    (h : ∀ x ∈ a.Data.getD [], x.isText = true) (hr : json.delimited r = true) :
    json.Decode { data := json.encodeObject [("data", json.encodeAccounts a.Data)] ++ r,
                  err := err } ({} : AccountsResource) = (a, none) := by
  unfold json.Decode json.decodeValue
  simp only [readValue_AccountsResource a r hr]
  show json.setStruct json.accountsResourceField {} _ = _
  unfold json.setStruct
  simp only [List.foldl_cons, List.foldl_nil]
  unfold json.accountsResourceField
  simp +decide only [if_true]
  show (({ Data := (json.setSlice (json.setStruct json.accountField) {} none
      (json.accountsValue a.Data)).1 } : AccountsResource),
    json.firstError none (json.setSlice (json.setStruct json.accountField) {} none
      (json.accountsValue a.Data)).2) = _
  rw [setSlice_accounts a.Data h]
  rfl

/-! ## What the test server receives -/

/-- Parsing the target `path?query` a client writes on the request line gives
back the path and the query of the URL of the request. -/
theorem ParseRequestURI_text (r q : GoString) (hq : ∀ x ∈ q, queryTextByte x = true) :
    url.ParseRequestURI
        (url.escape (b '/' :: r) .encodePath ++ (if q = [] then [] else b '?' :: q)) =
      .ok { Path := b '/' :: r, RawQuery := q } := by
  have hEb := escape_path_bytes (b '/' :: r)
  have hE : url.escape (b '/' :: r) .encodePath = b '/' :: url.escape r .encodePath := by
    rw [escape_cons, escapeByte_path_slash]; rfl
  have hQb : ∀ x ∈ (if q = [] then [] else b '?' :: q), isCTL x = false := by
    intro x hx
    by_cases hq0 : q = []
    · simp [hq0] at hx
    · simp only [hq0, if_false, List.mem_cons] at hx
      rcases hx with hx | hx
      · rw [hx]; decide
      · exact (queryTextByte_facts x (hq x hx)).1
  generalize hpre : url.escape (b '/' :: r) .encodePath = pre at hEb
  have hqpre : b '?' ∉ pre := fun hm => (urlTextByte_facts _ (hEb _ hm)).2.2 rfl
  have hforced := forced_query_false pre q hqpre
  have hcutq := Cut_query pre q hqpre
  generalize hQs : (if q = [] then ([] : GoString) else b '?' :: q) = Qs at hQb hforced hcutq
  have hctl : url.stringContainsCTLByte (pre ++ Qs) = false := by
    apply any_isCTL_false
    intro x hx
    simp only [List.mem_append] at hx
    rcases hx with hx | hx
    · exact (urlTextByte_facts x (hEb x hx)).1
    · exact hQb x hx
  have hpre' : pre = b '/' :: url.escape r .encodePath := by rw [← hpre, hE]
  have hne : pre ++ Qs ≠ [] := by rw [hpre']; simp
  have hstar : pre ++ Qs ≠ str "*" := by
    rw [hpre']
    intro h
    have : (b '/' :: url.escape r .encodePath ++ Qs).head? = (str "*").head? := by rw [h]
    revert this
    simp only [List.cons_append, List.head?_cons]
    decide
  have hs1 : str "/" = [b '/'] := by decide
  have hs2 : str "//" = [b '/', b '/'] := by decide
  have hp1 : strings.HasPrefix pre (str "/") = true := by
    rw [hpre', hs1]; simp [strings.HasPrefix]
  have hsch : url.getScheme (pre ++ Qs) = .ok ([], pre ++ Qs) := by
    rw [hpre']
    unfold url.getScheme
    simp only [List.cons_append]
    rw [url.getSchemeLoop]
    simp +decide only [if_false]
  unfold url.ParseRequestURI url.parse
  simp [hctl, hne, hstar, hsch, hforced, hcutq.1, hcutq.2, hp1, strings.ToLowerASCII]
  rw [← hpre]
  exact setPath_escape _ _

theorem RequestURI_built (base : url.URL) (method p q : GoString)
    (body : Option (Option AccountResource)) :
    ∃ r, url.resolvePath [] (b '/' :: p) = b '/' :: r ∧
      (builtRequest base method (b '/' :: p) q body).URL.RequestURI =
        url.escape (b '/' :: r) .encodePath ++ (if q = [] then [] else b '?' :: q) := by
  obtain ⟨r, hr⟩ := resolvePath_head [] p
  refine ⟨r, hr, ?_⟩
  have hE : url.escape (b '/' :: r) .encodePath = b '/' :: url.escape r .encodePath := by
    rw [escape_cons, escapeByte_path_slash]; rfl
  unfold url.URL.RequestURI builtRequest
  simp only [hr]
  rw [EscapedPath_abs _ r rfl rfl, hE]
  by_cases hq0 : q = []
  · simp [hq0]
  · simp [hq0]

/-- The request the handler of a test server sees for the request
`newRequest` builds: the method, the body and the host as sent, and as URL
the path after dot segments are resolved, with the query string. -/
theorem server_sees (base : url.URL) (method p q : GoString)
    (body : Option (Option AccountResource)) (hq : ∀ x ∈ q, queryTextByte x = true) :
    url.ParseRequestURI (builtRequest base method (b '/' :: p) q body).URL.RequestURI =
      .ok { Path := url.resolvePath [] (b '/' :: p), RawQuery := q } := by
  obtain ⟨r, hr, huri⟩ := RequestURI_built base method p q body
  rw [huri, hr]
  exact ParseRequestURI_text r q hq

/-! ## `Delete` against the test server -/

theorem Split_last (sep : Byte) (pre t : GoString) (h : sep ∉ t) :
    (strings.Split sep (pre ++ sep :: t)).getLastD [] = t := by
  rw [Split_append_sep, Split_not_mem sep t h]
  simp [List.getLastD_eq_getLast?]

theorem segment_no_dots (s : GoString) (hseg : b '/' ∉ s) (h1 : s ≠ str ".")
    (h2 : s ≠ str "..") : noDotSegments s = true := by
  unfold noDotSegments
  rw [Split_not_mem _ _ hseg]
  simp [isDotSegment, h1, h2]

theorem Get_version (p : GoString) (version : Int) :
    url.Values.Get (url.URL.Query { Path := p, RawQuery := str "version=" ++ formatInt version })
      (str "version") = formatInt version := by
  simp [url.URL.Query, ParseQuery_version, url.Values.Get, url.Values.lookup]

/-- The status the handler of `TestDelete` answers with for an id and a
version. -/
theorem TestDelete_handler_status (repo : AccountRepo) (req : http.Request) (p id : GoString)
    (version : Int) (hseg : b '/' ∉ id) (hbad : id ≠ badInput) (hfail : id ≠ serviceFailure)
    (hlo : minInt64 ≤ version) (hhi : version ≤ maxInt64) :
    ∃ rw, TestDelete.handler repo {}
        { req with URL := { Path := p ++ b '/' :: id,
                            RawQuery := str "version=" ++ formatInt version } } = some rw ∧
      rw.status = some
        (match repo.get id with
          | some a => if a.Version = version then 204 else 409
          | none => 404) := by
  unfold TestDelete.handler
  simp only [Split_last _ _ _ hseg, Get_version, ParseInt_formatInt version hlo hhi, hbad,
    hfail, if_false]
  cases hg : repo.get id with
  | none => exact ⟨_, rfl, rfl⟩
  | some a =>
    simp only []
    by_cases hv : a.Version = version
    · rw [if_pos hv, if_pos hv]; exact ⟨_, rfl, rfl⟩
    · rw [if_neg hv, if_neg hv]; exact ⟨_, rfl, rfl⟩

/-- The outcome of `Delete` against the server of `TestDelete`, by the last
segment `seg` of the path the request goes to. -/
theorem Delete_against_handler_path (repo : AccountRepo) (c : Client) (accountID : GoString)
    (version : Int) (p seg : GoString) (hbase : plainBase c.BaseURL = true)
    (hc : c.httpClient = none)
    (hpath : url.resolvePath [] (str "/v1/organisation/accounts/" ++ accountID) =
      p ++ b '/' :: seg)
    (hseg : b '/' ∉ seg) (hbad : seg ≠ badInput) (hfail : seg ≠ serviceFailure)
    (hlo : minInt64 ≤ version) (hhi : version ≤ maxInt64) :
    (c.Delete (httptest.NewServer (TestDelete.handler repo)).Client accountID version).err =
      (match repo.get seg with
        | some a => if a.Version = version then none else some .ErrConflict
        | none => some .ErrNotFound) := by
  have hreq := newRequest_plain c http.MethodDelete
    (str "v1/organisation/accounts" ++ b '/' :: accountID)
    (str "version=" ++ formatInt version) none hbase (by decide) (version_query_bytes version)
  have hsees := server_sees c.BaseURL http.MethodDelete
    (str "v1/organisation/accounts" ++ b '/' :: accountID)
    (str "version=" ++ formatInt version) none (version_query_bytes version)
  rw [← member_path] at hreq hsees
  rw [hpath] at hsees
  generalize hq : builtRequest c.BaseURL http.MethodDelete
    (str "/v1/organisation/accounts/" ++ accountID)
    (str "version=" ++ formatInt version) none = req at hsees hreq
  have hsent : (c.Delete (httptest.NewServer (TestDelete.handler repo)).Client accountID
      version).sent = [req] := by
    rw [Delete_sent, hreq]; rfl
  obtain ⟨rw, hrw, hst⟩ := TestDelete_handler_status repo req p seg version hseg hbad hfail
    hlo hhi
  have hdo : (c.transport (httptest.NewServer (TestDelete.handler repo)).Client).Do req =
      .ok { StatusCode := rw.status.getD http.StatusOK, Body := { data := rw.body },
            Request := req } := by
    unfold Client.transport
    rw [hc]
    simp only [Option.getD_none, httptest.Server.Client, httptest.NewServer, hsees]
    rw [hrw]
  rw [Delete_result _ c accountID version req _ hsent hdo rfl]
  simp only [hst, Option.getD_some]
  cases hg : repo.get seg with
  | none => simp +decide [defaultError]
  | some a =>
    simp only []
    by_cases hv : a.Version = version
    · simp [hv]
    · simp +decide [hv]

/-- The outcome of `Delete` against the server of `TestDelete`, for an id
that is one path segment, neither `.` nor `..` nor reserved. -/
theorem Delete_against_handler (repo : AccountRepo) (c : Client) (accountID : GoString)
    (version : Int) (hbase : plainBase c.BaseURL = true) (hc : c.httpClient = none)
    (hseg : b '/' ∉ accountID) (hdot1 : accountID ≠ str ".") (hdot2 : accountID ≠ str "..")
    (hbad : accountID ≠ badInput) (hfail : accountID ≠ serviceFailure)
    (hlo : minInt64 ≤ version) (hhi : version ≤ maxInt64) :
    (c.Delete (httptest.NewServer (TestDelete.handler repo)).Client accountID version).err =
      (match repo.get accountID with
        | some a => if a.Version = version then none else some .ErrConflict
        | none => some .ErrNotFound) := by
  have hpath := resolvePath_no_dots [] _
    (member_path_no_dots accountID (segment_no_dots accountID hseg hdot1 hdot2))
  rw [← member_path] at hpath
  have hp : str "/v1/organisation/accounts/" ++ accountID =
      str "/v1/organisation/accounts" ++ b '/' :: accountID := by
    have : str "/v1/organisation/accounts/" = str "/v1/organisation/accounts" ++ [b '/'] := by
      decide
    rw [this]; simp
  exact Delete_against_handler_path repo c accountID version (str "/v1/organisation/accounts")
    accountID hbase hc (hpath.trans hp) hseg hbad hfail hlo hhi

/-! ## `Create` against a server that answers with the account -/

theorem Encode_eq (a : AccountResource) :
    json.Encode (some a) =
      json.encodeObject [("data", json.encodeAccount a.Data)] ++ [(10 : Byte)] := rfl

/-- Decoding what the client encodes for an envelope whose account is text
gives the envelope back. -/
theorem Decode_Encode (a : AccountResource) (err : Option GoString)
    (h : a.Data.isText = true) :
    json.Decode { data := json.Encode (some a), err := err } ({} : AccountResource) =
      (a, none) := by
  rw [Encode_eq]
  exact Decode_AccountResource a [10] err h (by decide)

/-- Decoding what the test server encodes for an envelope whose account is
text gives the envelope back. -/
theorem Decode_MarshalValue (a : AccountResource) (err : Option GoString)
    (h : a.Data.isText = true) :
    json.Decode { data := json.MarshalValue a, err := err } ({} : AccountResource) =
      (a, none) := by
  have := Decode_AccountResource a [] err h rfl
  rw [List.append_nil] at this
  exact this

theorem TestCreate_handler_created (repo : AccountRepo) (req : http.Request)
    (a : AccountResource) (h : a.Data.isText = true)
    (hbody : req.Body = some (json.Encode (some a)))
    (hbad : a.Data.ID ≠ badInput) (hfail : a.Data.ID ≠ serviceFailure)
    (hnew : repo.get a.Data.ID = none) :
    TestCreate.handler repo {} req =
      some { status := some http.StatusCreated, body := json.MarshalValue a } := by
  unfold TestCreate.handler
  simp only [hbody, Option.getD_some, Decode_Encode a none h, hbad, hfail, hnew, if_false,
    Option.isSome_none, Bool.false_eq_true]
  rfl

/-- The outcome of `Create` for an envelope whose account is text, against a
server that echoes the body and against the server of `TestCreate`. -/
theorem Create_returns_input (c : Client) (a : AccountResource)
    (htext : a.Data.isText = true) (hbase : plainBase c.BaseURL = true) :
    (∀ dc, c.transport dc = echoTransport →
      (c.Create dc (some a)).ret = some a ∧ (c.Create dc (some a)).err = none) ∧
    (∀ repo : AccountRepo, c.httpClient = none → a.Data.ID ≠ badInput →
      a.Data.ID ≠ serviceFailure → repo.get a.Data.ID = none →
      (c.Create (httptest.NewServer (TestCreate.handler repo)).Client (some a)).ret = some a ∧
      (c.Create (httptest.NewServer (TestCreate.handler repo)).Client (some a)).err = none) := by
  have hreq := newRequest_plain c http.MethodPost (str "v1/organisation/accounts")
    [] (some (some a)) hbase (by decide) (by simp)
  have hsees := server_sees c.BaseURL http.MethodPost (str "v1/organisation/accounts")
    [] (some (some a)) (by simp)
  generalize hq : builtRequest c.BaseURL http.MethodPost
    (b '/' :: str "v1/organisation/accounts") [] (some (some a)) = req at hsees hreq
  have hbody : req.Body = some (json.Encode (some a)) := by rw [← hq]; rfl
  rw [← collection_path] at hreq
  constructor
  · intro dc hdc
    have hsent : (c.Create dc (some a)).sent = [req] := by
      rw [Create_sent, hreq]; rfl
    have hdo : (c.transport dc).Do req =
        .ok { StatusCode := http.StatusCreated, Body := { data := req.Body.getD [] },
              Request := req } := by
      rw [hdc]; rfl
    have hdec : json.Decode
        ({ StatusCode := http.StatusCreated, Body := { data := req.Body.getD [] },
           Request := req } : http.Response).Body.reader ({} : AccountResource) = (a, none) := by
      simp only [http.Body.reader, hbody, Option.getD_some, Bool.false_eq_true, if_false]
      exact Decode_Encode a none htext
    obtain ⟨h1, h2⟩ := Create_result dc c (some a) req _ a hsent hdo rfl hdec
    rw [h1, h2]
    exact ⟨rfl, rfl⟩
  · intro repo hc hbad hfail hnew
    have hsent : (c.Create (httptest.NewServer (TestCreate.handler repo)).Client
        (some a)).sent = [req] := by
      rw [Create_sent, hreq]; rfl
    have hh := TestCreate_handler_created repo
      { req with URL := { Path := url.resolvePath [] (b '/' :: str "v1/organisation/accounts"),
                          RawQuery := [] } } a htext hbody hbad hfail hnew
    have hdo : (c.transport (httptest.NewServer (TestCreate.handler repo)).Client).Do req =
        .ok { StatusCode := http.StatusCreated, Body := { data := json.MarshalValue a },
              Request := req } := by
      unfold Client.transport
      rw [hc]
      simp only [Option.getD_none, httptest.Server.Client, httptest.NewServer, hsees]
      rw [hh]
      rfl
    have hdec : json.Decode
        ({ StatusCode := http.StatusCreated, Body := { data := json.MarshalValue a },
           Request := req } : http.Response).Body.reader ({} : AccountResource) = (a, none) := by
      simp only [http.Body.reader, Bool.false_eq_true, if_false]
      exact Decode_MarshalValue a none htext
    obtain ⟨h1, h2⟩ := Create_result _ c (some a) req _ a hsent hdo rfl hdec
    rw [h1, h2]
    exact ⟨rfl, rfl⟩

/-! ## Lemmas on the order of strings and on `sort.Strings` -/

theorem stringLess_asymm : ∀ a b : GoString, url.stringLess a b = true →
    url.stringLess b a = false := by
  intro a
  induction a with
  | nil =>
    intro b h
    cases b with
    | nil => rfl
    | cons y ys => rfl
  | cons x xs ih =>
    intro b h
    cases b with
    | nil => simp [url.stringLess] at h
    | cons y ys =>
      rw [url.stringLess] at h ⊢
      by_cases h1 : x.val < y.val
      · rw [if_neg (by omega), if_pos h1]
      · rw [if_neg h1] at h
        by_cases h2 : y.val < x.val
        · rw [if_pos h2] at h; exact absurd h (by simp)
        · rw [if_neg h2] at h
          rw [if_neg h2, if_neg h1]
          exact ih ys h

theorem stringLess_trichotomy : ∀ a b : GoString, url.stringLess a b = false →
    url.stringLess b a = false → a = b := by
  intro a
  induction a with
  | nil =>
    intro b h1 _
    cases b with
    | nil => rfl
    | cons y ys => simp [url.stringLess] at h1
  | cons x xs ih =>
    intro b h1 h2
    cases b with
    | nil => simp [url.stringLess] at h2
    | cons y ys =>
      rw [url.stringLess] at h1 h2
      by_cases c1 : x.val < y.val
      · rw [if_pos c1] at h1; exact absurd h1 (by simp)
      · rw [if_neg c1] at h1
        by_cases c2 : y.val < x.val
        · rw [if_pos c2] at h2; exact absurd h2 (by simp)
        · rw [if_neg c2] at h1 h2
          rw [if_neg c1] at h2
          have hxy : x = y := Fin.ext (by omega)
          rw [hxy, ih ys h1 h2]

theorem stringLess_negtrans : ∀ c a b : GoString, url.stringLess c a = true →
    url.stringLess c b = true ∨ url.stringLess b a = true := by
  intro c
  induction c with
  | nil =>
    intro a b h
    cases b with
    | nil =>
      cases a with
      | nil => simp [url.stringLess] at h
      | cons x xs => right; rfl
    | cons y ys => left; rfl
  | cons z zs ih =>
    intro a b h
    cases a with
    | nil => simp [url.stringLess] at h
    | cons x xs =>
      cases b with
      | nil => right; rfl
      | cons y ys =>
        rw [url.stringLess] at h
        rw [url.stringLess, url.stringLess]
        by_cases c1 : z.val < x.val
        · by_cases c2 : z.val < y.val
          · left; rw [if_pos c2]
          · right; rw [if_pos (by omega)]
        · rw [if_neg c1] at h
          by_cases c3 : x.val < z.val
          · rw [if_pos c3] at h; exact absurd h (by simp)
          · rw [if_neg c3] at h
            by_cases c2 : z.val < y.val
            · left; rw [if_pos c2]
            · by_cases c4 : y.val < z.val
              · right; rw [if_pos (by omega)]
              · rw [if_neg c2, if_neg c4, if_neg (by omega), if_neg (by omega)]
                exact ih xs ys h

theorem insertSorted_eq (k : GoString) (l : Slice GoString) :
    url.insertSorted k l = List.orderedInsert (fun a b => url.stringLess b a = false) k l := by
  induction l with
  | nil => rfl
  | cons x xs ih =>
    rw [url.insertSorted, List.orderedInsert]
    by_cases h : url.stringLess x k = true
    · rw [if_pos h, if_neg (by simp [h]), ih]
    · rw [if_neg h, if_pos (by simpa using h)]

theorem sortStrings_eq (l : Slice GoString) :
    url.sortStrings l = List.insertionSort (fun a b => url.stringLess b a = false) l := by
  unfold url.sortStrings
  induction l with
  | nil => rfl
  | cons x xs ih => rw [List.foldr_cons, ih, insertSorted_eq, List.insertionSort]

theorem sortStrings_perm (l : Slice GoString) : (url.sortStrings l).Perm l := by
  rw [sortStrings_eq]
  exact List.perm_insertionSort _ l

theorem sortStrings_sorted (l : Slice GoString) :
    (url.sortStrings l).Pairwise (fun a b => url.stringLess b a = false) := by
  rw [sortStrings_eq]
  haveI : IsTotal GoString (fun a b => url.stringLess b a = false) :=
    ⟨fun a b => by
      by_cases h : url.stringLess b a = true
      · right; exact stringLess_asymm b a h
      · left; simpa using h⟩
  haveI : IsTrans GoString (fun a b => url.stringLess b a = false) :=
    ⟨fun a b c hab hbc => by
      by_contra hca
      have hca' : url.stringLess c a = true := by simpa using hca
      rcases stringLess_negtrans c a b hca' with h | h
      · rw [h] at hbc; exact absurd hbc (by simp)
      · rw [h] at hab; exact absurd hab (by simp)⟩
  exact List.sorted_insertionSort _ l

/-- Distinct keys come out of `sort.Strings` in strictly increasing order. -/
theorem sortStrings_increasing (l : Slice GoString) (h : l.Nodup) :
    (url.sortStrings l).Pairwise (fun a b => url.stringLess a b = true) := by
  have hs := sortStrings_sorted l
  have hn : (url.sortStrings l).Nodup := (sortStrings_perm l).nodup_iff.2 h
  have := hs.and hn
  refine this.imp ?_
  intro a b hab
  obtain ⟨h1, h2⟩ := hab
  by_contra hlt
  exact h2 (stringLess_trichotomy a b (by simpa using hlt) h1)

/-! ## Lemmas on the store of the test server -/

theorem set_keys (repo : AccountRepo) (k : GoString) (a : Account) :
    (repo.set k a).map (fun kv => kv.1) =
      if k ∈ repo.map (fun kv => kv.1) then repo.map (fun kv => kv.1)
      else repo.map (fun kv => kv.1) ++ [k] := by
  induction repo with
  | nil => simp [AccountRepo.set]
  | cons kv rest ih =>
    obtain ⟨k1, a1⟩ := kv
    rw [AccountRepo.set]
    by_cases h : k1 = k
    · simp [h]
    · rw [if_neg h]
      simp only [List.map_cons, List.mem_cons, ih]
      have h' : ¬ k = k1 := fun e => h e.symm
      by_cases hm : k ∈ rest.map (fun kv => kv.1)
      · simp [hm]
      · simp [hm, h']

theorem set_mem (repo : AccountRepo) (k : GoString) (a : Account) (kv : GoString × Account)
    (h : kv ∈ repo.set k a) : kv ∈ repo ∨ kv = (k, a) := by
  induction repo with
  | nil =>
    simp only [AccountRepo.set, List.mem_singleton] at h
    exact Or.inr h
  | cons kv1 rest ih =>
    obtain ⟨k1, a1⟩ := kv1
    rw [AccountRepo.set] at h
    by_cases hk : k1 = k
    · rw [if_pos hk] at h
      simp only [List.mem_cons] at h ⊢
      rcases h with h | h
      · right; rw [h, hk]
      · left; right; exact h
    · rw [if_neg hk] at h
      simp only [List.mem_cons] at h ⊢
      rcases h with h | h
      · left; left; exact h
      · rcases ih h with h' | h'
        · left; right; exact h'
        · right; exact h'

/-- What holds of every store `setupAccountRepo` builds: each key once, and
under each key an account of the given ones with the key as identifier. -/
theorem setupAccountRepo_inv (accounts : Slice Account) :
    ((setupAccountRepo accounts).map (fun kv => kv.1)).Nodup ∧
    ∀ kv ∈ setupAccountRepo accounts, kv.2.ID = kv.1 ∧ kv.2 ∈ accounts := by
  unfold setupAccountRepo
  have key : ∀ (xs : Slice Account) (init : AccountRepo) (seen : Slice Account),
      (init.map (fun kv => kv.1)).Nodup →
      (∀ kv ∈ init, kv.2.ID = kv.1 ∧ kv.2 ∈ seen) →
      ((xs.foldl (fun r a => r.set a.ID a) init).map (fun kv => kv.1)).Nodup ∧
      ∀ kv ∈ xs.foldl (fun r a => r.set a.ID a) init, kv.2.ID = kv.1 ∧ kv.2 ∈ seen ++ xs := by
    intro xs
    induction xs with
    | nil =>
      intro init seen h1 h2
      rw [List.foldl_nil, List.append_nil]
      exact ⟨h1, h2⟩
    | cons x xs ih =>
      intro init seen h1 h2
      rw [List.foldl_cons]
      have := ih (init.set x.ID x) (seen ++ [x]) (by
        rw [set_keys]
        by_cases hm : x.ID ∈ init.map (fun kv => kv.1)
        · rw [if_pos hm]; exact h1
        · rw [if_neg hm]
          exact List.Nodup.append h1 (List.nodup_singleton _) (by simpa using hm)) (by
        intro kv hkv
        rcases set_mem _ _ _ _ hkv with h | h
        · exact ⟨(h2 kv h).1, by simp [(h2 kv h).2]⟩
        · rw [h]; exact ⟨rfl, by simp⟩)
      simpa using this
  have := key accounts [] [] (by simp) (by simp)
  simpa using this

theorem get_of_mem (repo : AccountRepo) (h : (repo.map (fun kv => kv.1)).Nodup)
    (k : GoString) (a : Account) (hm : (k, a) ∈ repo) : repo.get k = some a := by
  induction repo with
  | nil => simp at hm
  | cons kv rest ih =>
    obtain ⟨k1, a1⟩ := kv
    simp only [List.map_cons, List.nodup_cons, List.mem_map, not_exists, not_and] at h
    rw [AccountRepo.get]
    simp only [List.mem_cons, Prod.mk.injEq] at hm
    rcases hm with hm | hm
    · rw [if_pos hm.1.symm, hm.2]
    · have hne : k1 ≠ k := by
        intro e
        exact h.1 (k, a) hm e.symm
      rw [if_neg hne]
      exact ih h.2 hm

theorem get_some_mem (repo : AccountRepo) (k : GoString) (a : Account)
    (h : repo.get k = some a) : (k, a) ∈ repo := by
  induction repo with
  | nil => simp [AccountRepo.get] at h
  | cons kv rest ih =>
    obtain ⟨k1, a1⟩ := kv
    rw [AccountRepo.get] at h
    by_cases hk : k1 = k
    · rw [if_pos hk] at h
      simp only [Option.some.injEq] at h
      simp [hk, h]
    · rw [if_neg hk] at h
      simp [ih h]

theorem filterMap_get_keys (repo : AccountRepo) (h : (repo.map (fun kv => kv.1)).Nodup)
    (ks : Slice GoString) (hks : ∀ k ∈ ks, k ∈ repo.map (fun kv => kv.1)) :
    ks.filterMap repo.get = ks.map (fun k => (repo.get k).getD {}) := by
  induction ks with
  | nil => rfl
  | cons k ks ih =>
    have hk := hks k (by simp)
    simp only [List.mem_map] at hk
    obtain ⟨kv, hkv, hkk⟩ := hk
    have hg : repo.get k = some kv.2 := get_of_mem repo h k kv.2 (by rw [← hkk]; exact hkv)
    rw [List.filterMap_cons, hg, List.map_cons, hg, ih (fun x hx => hks x (by simp [hx]))]
    rfl

/-- The identifier-sorted store holds the accounts of the store, each once,
by strictly increasing key. -/
theorem sorted_spec (repo : AccountRepo) (h : (repo.map (fun kv => kv.1)).Nodup) :
    repo.sorted = (url.sortStrings (repo.map (fun kv => kv.1))).map
      (fun k => (repo.get k).getD {}) ∧
    repo.sorted.length = repo.length ∧
    repo.sorted.Perm (repo.map (fun kv => kv.2)) := by
  have hp := sortStrings_perm (repo.map (fun kv => kv.1))
  have h1 : repo.sorted = (url.sortStrings (repo.map (fun kv => kv.1))).map
      (fun k => (repo.get k).getD {}) := by
    unfold AccountRepo.sorted
    exact filterMap_get_keys repo h _ (fun k hk => hp.mem_iff.1 hk)
  refine ⟨h1, ?_, ?_⟩
  · rw [h1, List.length_map, hp.length_eq, List.length_map]
  · rw [h1]
    have h2 : (repo.map (fun kv => kv.1)).map (fun k => (repo.get k).getD {}) =
        repo.map (fun kv => kv.2) := by
      rw [List.map_map]
      apply List.map_congr_left
      intro kv hkv
      simp only [Function.comp]
      rw [get_of_mem repo h kv.1 kv.2 hkv]
      rfl
    rw [← h2]
    exact hp.map _

/-! ## The page the handler of `TestList` serves -/

theorem wrapInt64_id (x : Int) (h1 : minInt64 ≤ x) (h2 : x ≤ maxInt64) : wrapInt64 x = x := by
  have e1 : minInt64 = -9223372036854775808 := rfl
  have e2 : maxInt64 = 9223372036854775807 := rfl
  rw [e1] at h1
  rw [e2] at h2
  show (x + 9223372036854775808) % 18446744073709551616 - 9223372036854775808 = x
  omega

theorem collect_eq (repo : AccountRepo) (ks : Slice GoString) :
    ∀ acc : Option (Slice Account),
      ks.foldl (TestList.collect repo) acc =
        if ks.filterMap repo.get = [] then acc else some (acc.getD [] ++ ks.filterMap repo.get) := by
  induction ks with
  | nil => intro acc; simp
  | cons k ks ih =>
    intro acc
    rw [List.foldl_cons, ih]
    unfold TestList.collect
    cases hg : repo.get k with
    | none => simp [List.filterMap_cons, hg]
    | some a =>
      simp only [List.filterMap_cons, hg, Option.getD_some]
      by_cases hr : ks.filterMap repo.get = []
      · simp [hr]
      · simp [hr]

/-- The accounts the handler collects for a page whose bounds are
non-negative and within `int64`: those at the positions from `pNum * pSize`
on, `pSize` of them at most, of the identifier-sorted store; the nil slice
when there is none. -/
theorem pageAccounts_eq (repo : AccountRepo) (h : (repo.map (fun kv => kv.1)).Nodup)
    (pNum pSize : Int) (hs : 0 ≤ pNum * pSize) (hN : 0 ≤ pSize)
    (he : pNum * pSize + pSize ≤ maxInt64) :
    TestList.pageAccounts repo pNum pSize =
      some (appended ((repo.sorted.drop (pNum * pSize).toNat).take pSize.toNat)) := by
  have happ : ∀ l : Slice Account, (if l = [] then none else some l) = appended l := by
    intro l; cases l <;> rfl
  obtain ⟨hsorted, hlen, _⟩ := sorted_spec repo h
  have e1 : minInt64 = -9223372036854775808 := rfl
  have e2 : maxInt64 = 9223372036854775807 := rfl
  have hw1 : wrapInt64 (pNum * pSize) = pNum * pSize := wrapInt64_id _ (by omega) (by omega)
  have hw2 : wrapInt64 (pNum * pSize + pSize) = pNum * pSize + pSize :=
    wrapInt64_id _ (by omega) he
  have hp := sortStrings_perm (repo.map (fun kv => kv.1))
  have hklen : (url.sortStrings (repo.map (fun kv => kv.1))).length = repo.length := by
    rw [hp.length_eq, List.length_map]
  have hfm : ∀ ks : Slice GoString,
      (∀ k ∈ ks, k ∈ url.sortStrings (repo.map (fun kv => kv.1))) →
      ks.filterMap repo.get = ks.map (fun k => (repo.get k).getD {}) :=
    fun ks hks => filterMap_get_keys repo h ks (fun k hk => hp.mem_iff.1 (hks k hk))
  generalize hS : (pNum * pSize).toNat = s
  generalize hN' : pSize.toNat = n
  have hsInt : pNum * pSize = (s : Int) := by omega
  have hnInt : pSize = (n : Int) := by omega
  unfold TestList.pageAccounts
  simp only [hw1, hw2]
  rw [hsInt, hnInt]
  by_cases hlt : (s : Int) < (repo.length : Int)
  · rw [if_pos hlt]
    have hlt' : s < repo.length := by omega
    by_cases hge : ((s : Int) + (n : Int)) ≥ (repo.length : Int)
    · rw [if_pos hge]
      have hge' : repo.length ≤ s + n := by omega
      unfold sliceFrom
      rw [if_pos ⟨by omega, by rw [hklen]; omega⟩]
      simp only [Option.map_some', Int.toNat_ofNat, collect_eq, Option.getD_none, List.nil_append]
      rw [hfm _ (fun k hk => List.mem_of_mem_drop hk), List.map_drop, ← hsorted]
      have htake : (repo.sorted.drop s).take n = repo.sorted.drop s := by
        apply List.take_of_length_le
        rw [List.length_drop, hlen]
        omega
      rw [htake, happ]
    · rw [if_neg hge]
      have hge' : s + n < repo.length := by omega
      unfold sliceFromTo
      rw [if_pos ⟨by omega, by omega, by rw [hklen]; omega⟩]
      have hsn : ((s : Int) + (n : Int)).toNat = s + n := by omega
      simp only [Option.map_some', Int.toNat_ofNat, collect_eq, Option.getD_none,
        List.nil_append, hsn]
      rw [hfm _ (fun k hk => List.mem_of_mem_take (List.mem_of_mem_drop hk)), List.map_drop,
        List.map_take, ← hsorted]
      have hdt : (repo.sorted.take (s + n)).drop s = (repo.sorted.drop s).take n := by
        rw [List.drop_take]
        congr 1
        omega
      rw [hdt, happ]
  · rw [if_neg hlt]
    have hge : repo.length ≤ s := by omega
    have hnil : repo.sorted.drop s = [] := by
      apply List.drop_eq_nil_of_le
      rw [hlen]; exact hge
    simp [hnil, appended]

/-! ## `List` against the test server -/

theorem ParseQuery_listQuery (o : PageOpts) :
    url.ParseQuery (listQuery (some o)) =
      (o.Number.toList.map (fun n => (str "page[number]", [n])) ++
        o.Size.toList.map (fun k => (str "page[size]", [formatInt k])), none) := by
  have hne : str "page[number]" ≠ str "page[size]" := by decide
  rw [listQuery_cases]
  obtain ⟨num, size⟩ := o
  cases num <;> cases size
  · decide
  · simp only [ParseQuery_one, Option.toList, List.map_nil, List.map_cons, List.nil_append]
  · simp only [ParseQuery_one, Option.toList, List.map_nil, List.map_cons, List.append_nil]
  · simp only [ParseQuery_two _ _ _ _ hne, Option.toList, List.map_nil, List.map_cons,
      List.cons_append, List.nil_append]

theorem listQuery_none : listQuery none = [] := by decide

/-- The two parameters the handler of `TestList` reads from the query string
`List` sends: each is the value of its option, or empty when the option is
absent. -/
theorem Get_page_params (p : GoString) (opts : Option PageOpts) :
    url.Values.Get (url.URL.Query { Path := p, RawQuery := listQuery opts })
      (str "page[size]") = ((opts.bind (fun o => o.Size)).map formatInt).getD [] ∧
    url.Values.Get (url.URL.Query { Path := p, RawQuery := listQuery opts })
      (str "page[number]") = (opts.bind (fun o => o.Number)).getD [] := by
  have hne : str "page[number]" ≠ str "page[size]" := by decide
  have hne' : str "page[size]" ≠ str "page[number]" := by decide
  cases opts with
  | none => rw [listQuery_none]; exact ⟨rfl, rfl⟩
  | some o =>
    simp only [url.URL.Query, ParseQuery_listQuery]
    obtain ⟨num, size⟩ := o
    cases num <;> cases size <;>
      simp [url.Values.Get, url.Values.lookup, hne, hne']

theorem formatInt_head (v : Int) :
    ∃ c t, formatInt v = c :: t ∧ (c = b '-' ∨ json.isDigit c = true) := by
  obtain ⟨d, ds, hall, _, _, hcase⟩ := formatInt_cases v
  rcases hcase with ⟨_, hf⟩ | ⟨_, hf⟩
  · exact ⟨d, ds, hf, Or.inr (hall d (by simp))⟩
  · exact ⟨b '-', d :: ds, hf, Or.inl rfl⟩

set_option maxRecDepth 1000000 in
theorem number_head_letters :
    ∀ c : Byte, (c = b '-' ∨ json.isDigit c = true) → c ≠ b 'b' ∧ c ≠ b 'l' ∧ c ≠ b 'f' := by
  decide

theorem formatInt_not_word (v : Int) :
    formatInt v ≠ [] ∧ formatInt v ≠ badInputPageNumParamOpt ∧ formatInt v ≠ str "last" ∧
    formatInt v ≠ str "first" := by
  obtain ⟨c, t, hf, hc⟩ := formatInt_head v
  obtain ⟨h1, h2, h3⟩ := number_head_letters c hc
  rw [hf]
  refine ⟨by simp, ?_, ?_, ?_⟩
  · intro h
    have := congrArg List.head? h
    simp only [List.head?_cons] at this
    exact h1 (Option.some.inj (this.trans (by decide)))
  · intro h
    have := congrArg List.head? h
    simp only [List.head?_cons] at this
    exact h2 (Option.some.inj (this.trans (by decide)))
  · intro h
    have := congrArg List.head? h
    simp only [List.head?_cons] at this
    exact h3 (Option.some.inj (this.trans (by decide)))

/-- The page number and size the handler computes when `List` is called
without options: page 0 of size 100. -/
theorem pageOptsOf_default (repo : AccountRepo) (req : http.Request) (p : GoString)
    (opts : Option PageOpts) (hn : opts.bind (fun o => o.Number) = none)
    (hs : opts.bind (fun o => o.Size) = none) :
    TestList.pageOptsOf repo { req with URL := { Path := p, RawQuery := listQuery opts } } =
      some (0, 100) := by
  obtain ⟨h1, h2⟩ := Get_page_params p opts
  unfold TestList.pageOptsOf
  simp only [h1, h2, hn, hs, Option.map_none', Option.getD_none]
  simp +decide only [if_true, if_false, ne_eq, not_true_eq_false, false_and]

/-- The page number and size the handler computes for a decimal page number
and a page size that is a non-negative `int64`. -/
theorem pageOptsOf_number (repo : AccountRepo) (req : http.Request) (p : GoString)
    (K N : Int) (hN : 0 ≤ N) (hN' : N ≤ maxInt64) :
    TestList.pageOptsOf repo
        { req with
          URL := { Path := p
                   RawQuery :=
                     listQuery (some { Number := some (formatInt K), Size := some N }) } } =
      some ((strconv.ParseInt (formatInt K)).1, N) := by
  obtain ⟨h1, h2⟩ := Get_page_params p (some { Number := some (formatInt K), Size := some N })
  simp only [Option.some_bind, Option.map_some', Option.getD_some] at h1 h2
  obtain ⟨a1, a2, a3, a4⟩ := formatInt_not_word K
  obtain ⟨b1, _, _, _⟩ := formatInt_not_word N
  have hmin : minInt64 ≤ N := le_trans (by decide) hN
  unfold TestList.pageOptsOf
  simp only [h1, h2, ne_eq, b1, not_false_eq_true, if_true, a1, a2, a3, a4, if_false,
    and_self, ParseInt_formatInt N hmin hN']

theorem appended_getD {α : Type} (l : List α) : (appended l).getD [] = l := by
  cases l <;> rfl

theorem appended_eq_none {α : Type} (l : List α) : appended l = none ↔ l = [] := by
  cases l <;> simp [appended]

theorem page_mem_sorted (repo : AccountRepo) (s n : Nat) (a : Account)
    (h : a ∈ (repo.sorted.drop s).take n) : a ∈ repo.sorted :=
  List.mem_of_mem_drop (List.mem_of_mem_take h)

theorem sorted_mem_existing (existing : Slice Account) (a : Account)
    (h : a ∈ (setupAccountRepo existing).sorted) : a ∈ existing := by
  obtain ⟨hnd, hinv⟩ := setupAccountRepo_inv existing
  obtain ⟨_, _, hperm⟩ := sorted_spec _ hnd
  have := hperm.mem_iff.1 h
  simp only [List.mem_map] at this
  obtain ⟨kv, hkv, he⟩ := this
  rw [← he]
  exact (hinv kv hkv).2

/-- What the handler of `TestList` answers when the page number and the page
size it computes are non-negative and the end of the page is within `int64`:
the status 200 and the JSON of the page. -/
theorem TestList_handler_page (repo : AccountRepo) (h : (repo.map (fun kv => kv.1)).Nodup)
    (req : http.Request) (pNum pSize : Int)
    (hopts : TestList.pageOptsOf repo req = some (pNum, pSize))
    (h0 : 0 ≤ pNum) (hN : 0 ≤ pSize) (he : pNum * pSize + pSize ≤ maxInt64) :
    TestList.handler repo {} req =
      some { status := some http.StatusOK,
             body := json.MarshalValue
               ({ Data := appended ((repo.sorted.drop (pNum * pSize).toNat).take pSize.toNat) } :
                 AccountsResource) } := by
  have hb1 : ¬ (pNum = badInputPageOpt ∨ pSize = badInputPageOpt) := by
    have : badInputPageOpt = -1 := rfl
    rw [this]; omega
  have hb2 : ¬ (pNum = serviceFailurePageOpt ∨ pSize = serviceFailurePageOpt) := by
    have : serviceFailurePageOpt = -2 := rfl
    rw [this]; omega
  unfold TestList.handler
  simp only [hopts, hb1, hb2, if_false]
  unfold TestList.serveAccountsPage
  rw [pageAccounts_eq repo h pNum pSize (mul_nonneg h0 hN) hN he]
  rfl

/-- The outcome of `List` against the server of `TestList`, by the page number
and size the handler computes and by what the JSON of the page decodes to. -/
theorem List_against_handler_decode (existing : Slice Account) (c : Client)
    (opts : Option PageOpts) (pNum pSize : Int) (accounts : AccountsResource)
    (hbase : plainBase c.BaseURL = true) (hc : c.httpClient = none)
    (hopts : ∀ (req : http.Request) (p : GoString),
      TestList.pageOptsOf (setupAccountRepo existing)
        { req with URL := { Path := p, RawQuery := listQuery opts } } = some (pNum, pSize))
    (h0 : 0 ≤ pNum) (hN : 0 ≤ pSize) (he : pNum * pSize + pSize ≤ maxInt64)
    (hdec : json.Decode
      { data := json.MarshalValue
          ({ Data :=
              appended
                (((setupAccountRepo existing).sorted.drop (pNum * pSize).toNat).take
                  pSize.toNat) } : AccountsResource) }
      ({} : AccountsResource) = (accounts, none)) :
    (c.List (httptest.NewServer (TestList.handler (setupAccountRepo existing))).Client opts).ret =
      some accounts ∧
    (c.List (httptest.NewServer (TestList.handler (setupAccountRepo existing))).Client opts).err =
      none := by
  obtain ⟨hnd, _⟩ := setupAccountRepo_inv existing
  have hreq := newRequest_plain c http.MethodGet (str "v1/organisation/accounts")
    (listQuery opts) none hbase (by decide) (listQuery_bytes opts)
  have hsees := server_sees c.BaseURL http.MethodGet (str "v1/organisation/accounts")
    (listQuery opts) none (listQuery_bytes opts)
  rw [← collection_path] at hreq hsees
  generalize hq : builtRequest c.BaseURL http.MethodGet (str "/v1/organisation/accounts")
    (listQuery opts) none = req at hsees hreq
  have hsent : (c.List (httptest.NewServer (TestList.handler (setupAccountRepo existing))).Client
      opts).sent = [req] := by
    rw [List_sent, hreq]; rfl
  have hh := TestList_handler_page (setupAccountRepo existing) hnd _ pNum pSize
    (hopts req (url.resolvePath [] (str "/v1/organisation/accounts"))) h0 hN he
  generalize hpage : appended
      (((setupAccountRepo existing).sorted.drop (pNum * pSize).toNat).take pSize.toNat) =
      page at hh hdec
  have hdo : (c.transport (httptest.NewServer (TestList.handler
      (setupAccountRepo existing))).Client).Do req =
      .ok { StatusCode := http.StatusOK,
            Body := { data := json.MarshalValue ({ Data := page } : AccountsResource) },
            Request := req } := by
    unfold Client.transport
    rw [hc]
    simp only [Option.getD_none, httptest.Server.Client, httptest.NewServer, hsees]
    rw [hh]
    rfl
  have hdec' : json.Decode
      ({ StatusCode := http.StatusOK,
         Body := { data := json.MarshalValue ({ Data := page } : AccountsResource) },
         Request := req } : http.Response).Body.reader ({} : AccountsResource) =
      (accounts, none) := by
    simp only [http.Body.reader, Bool.false_eq_true, if_false]
    exact hdec
  obtain ⟨h1, h2⟩ := List_result _ c opts req _ _ hsent hdo rfl hdec'
  rw [h1, h2]
  exact ⟨rfl, rfl⟩

/-- The outcome of `List` against the server of `TestList` over a store of
accounts that are text, by the page number and size the handler computes. -/
theorem List_against_handler (existing : Slice Account) (c : Client) (opts : Option PageOpts)
    (pNum pSize : Int) (hbase : plainBase c.BaseURL = true) (hc : c.httpClient = none)
    (htext : ∀ a ∈ existing, a.isText = true)
    (hopts : ∀ (req : http.Request) (p : GoString),
      TestList.pageOptsOf (setupAccountRepo existing)
        { req with URL := { Path := p, RawQuery := listQuery opts } } = some (pNum, pSize))
    (h0 : 0 ≤ pNum) (hN : 0 ≤ pSize) (he : pNum * pSize + pSize ≤ maxInt64) :
    (c.List (httptest.NewServer (TestList.handler (setupAccountRepo existing))).Client opts).ret =
      some
        { Data :=
            appended
              (((setupAccountRepo existing).sorted.drop (pNum * pSize).toNat).take
                pSize.toNat) } ∧
    (c.List (httptest.NewServer (TestList.handler (setupAccountRepo existing))).Client opts).err =
      none := by
  apply List_against_handler_decode existing c opts pNum pSize _ hbase hc hopts h0 hN he
  have hpt : ∀ x ∈ (appended
      (((setupAccountRepo existing).sorted.drop (pNum * pSize).toNat).take pSize.toNat)).getD [],
      x.isText = true := by
    intro x hx
    rw [appended_getD] at hx
    exact htext x (sorted_mem_existing existing x (page_mem_sorted _ _ _ x hx))
  have := Decode_AccountsResource
    { Data := appended
        (((setupAccountRepo existing).sorted.drop (pNum * pSize).toNat).take pSize.toNat) }
    [] none hpt rfl
  rw [List.append_nil] at this
  exact this

/-- The identifiers of the identifier-sorted store are the keys of the store
in increasing order. -/
theorem sorted_ids (existing : Slice Account) :
    (setupAccountRepo existing).sorted.map (fun a => a.ID) =
      url.sortStrings ((setupAccountRepo existing).map (fun kv => kv.1)) := by
  obtain ⟨hnd, hinv⟩ := setupAccountRepo_inv existing
  obtain ⟨h1, _, _⟩ := sorted_spec _ hnd
  have hp := sortStrings_perm ((setupAccountRepo existing).map (fun kv => kv.1))
  rw [h1, List.map_map]
  conv_rhs => rw [← List.map_id (url.sortStrings _)]
  apply List.map_congr_left
  intro k hk
  have hk' := hp.mem_iff.1 hk
  simp only [List.mem_map] at hk'
  obtain ⟨kv, hkv, he⟩ := hk'
  have hg := get_of_mem _ hnd kv.1 kv.2 hkv
  simp only [Function.comp, id]
  rw [← he, hg]
  exact (hinv kv hkv).1

/-- The identifier-sorted store: as many accounts as the store holds, the
same accounts up to their order, by strictly increasing identifier. -/
theorem sorted_store (existing : Slice Account) :
    (setupAccountRepo existing).sorted.length = (setupAccountRepo existing).length ∧
    (setupAccountRepo existing).sorted.Perm ((setupAccountRepo existing).map (fun kv => kv.2)) ∧
    ((setupAccountRepo existing).sorted.map (fun a => a.ID)).Pairwise
      (fun x y => url.stringLess x y = true) := by
  obtain ⟨hnd, _⟩ := setupAccountRepo_inv existing
  obtain ⟨_, h2, h3⟩ := sorted_spec _ hnd
  refine ⟨h2, h3, ?_⟩
  rw [sorted_ids]
  exact sortStrings_increasing _ hnd

/-- The page number the handler computes from the decimal rendering of a
non-negative page number gives the same first position as the page number
itself, for every page size that is a non-negative `int64`. -/
theorem page_start (K N : Int) (hK : 0 ≤ K) (hN : 0 ≤ N) (hKN : K * N + N ≤ maxInt64) :
    0 ≤ (strconv.ParseInt (formatInt K)).1 ∧
    (strconv.ParseInt (formatInt K)).1 * N = K * N := by
  have e1 : minInt64 = -9223372036854775808 := rfl
  have e2 : maxInt64 = 9223372036854775807 := rfl
  by_cases hle : K ≤ maxInt64
  · rw [ParseInt_formatInt K (by omega) hle]
    exact ⟨hK, rfl⟩
  · rw [ParseInt_formatInt_large K (by omega)]
    have hN0 : N = 0 := by
      by_contra hne
      have h1 : 1 ≤ N := by omega
      have : K * 1 ≤ K * N := Int.mul_le_mul_of_nonneg_left h1 hK
      omega
    rw [hN0]
    exact ⟨by omega, by simp⟩

/-! ## The pages `first` and `last` of the handler of `TestList` -/

/-- The page number and size the handler computes for the page number
`first` and a page size that is a non-negative `int64`. -/
theorem pageOptsOf_first (repo : AccountRepo) (req : http.Request) (p : GoString)
    (N : Int) (hN : 0 ≤ N) (hN' : N ≤ maxInt64) :
    TestList.pageOptsOf repo
        { req with
          URL := { Path := p
                   RawQuery :=
                     listQuery (some { Number := some (str "first"), Size := some N }) } } =
      some (0, N) := by
  obtain ⟨h1, h2⟩ := Get_page_params p (some { Number := some (str "first"), Size := some N })
  simp only [Option.some_bind, Option.map_some', Option.getD_some] at h1 h2
  obtain ⟨b1, _, _, _⟩ := formatInt_not_word N
  have hmin : minInt64 ≤ N := le_trans (by decide) hN
  unfold TestList.pageOptsOf
  simp only [h1, h2, ne_eq, b1, not_false_eq_true, if_true, ParseInt_formatInt N hmin hN']
  rfl

/-- The page number and size the handler computes for the page number `last`
and a page size that is a non-negative `int64`. -/
theorem pageOptsOf_last (repo : AccountRepo) (req : http.Request) (p : GoString)
    (N : Int) (hN : 0 ≤ N) (hN' : N ≤ maxInt64) :
    TestList.pageOptsOf repo
        { req with
          URL := { Path := p
                   RawQuery :=
                     listQuery (some { Number := some (str "last"), Size := some N }) } } =
      (TestList.lastPage repo.length N).map (fun pNum => (pNum, N)) := by
  obtain ⟨h1, h2⟩ := Get_page_params p (some { Number := some (str "last"), Size := some N })
  simp only [Option.some_bind, Option.map_some', Option.getD_some] at h1 h2
  obtain ⟨b1, _, _, _⟩ := formatInt_not_word N
  have hmin : minInt64 ≤ N := le_trans (by decide) hN
  unfold TestList.pageOptsOf
  simp only [h1, h2, ne_eq, b1, not_false_eq_true, if_true, ParseInt_formatInt N hmin hN']
  rfl

/-- The quotient rounded up, less one, by the quotient and the remainder. -/
theorem ceil_less_one (n N : Int) (hN : 0 < N) :
    (n + N - 1) / N - 1 = if n % N = 0 then n / N - 1 else n / N := by
  have hdm : N * (n / N) + n % N = n := Int.ediv_add_emod n N
  have hr0 : 0 ≤ n % N := Int.emod_nonneg n (by omega)
  have hr1 : n % N < N := Int.emod_lt_of_pos n hN
  split_ifs with h
  · have : (n + N - 1) / N = n / N :=
      ((Int.ediv_emod_unique hN).2 ⟨by
        show (N - 1) + N * (n / N) = n + N - 1
        omega, by omega, by omega⟩).1
    rw [this]
  · have : (n + N - 1) / N = n / N + 1 :=
      ((Int.ediv_emod_unique hN).2 ⟨by
        show (n % N - 1) + N * (n / N + 1) = n + N - 1
        rw [Int.mul_add, Int.mul_one]
        omega, by omega, by omega⟩).1
    rw [this]
    omega

/-- The page `last` of a store of `n > 0` accounts, for a page size `N > 0`:
the quotient of `n + N - 1` by `N`, less one. It starts before the end of the
store, and the page after it starts at the end or beyond. -/
theorem lastPage_eq (n : Nat) (N : Int) (hn : 0 < n) (hN : 0 < N) (hn' : (n : Int) ≤ maxInt64) :
    TestList.lastPage n N = some (((n : Int) + N - 1) / N - 1) ∧
    0 ≤ ((n : Int) + N - 1) / N - 1 ∧
    (((n : Int) + N - 1) / N - 1) * N < n ∧
    (n : Int) ≤ (((n : Int) + N - 1) / N - 1) * N + N := by
  have e1 : minInt64 = -9223372036854775808 := rfl
  have e2 : maxInt64 = 9223372036854775807 := rfl
  have hn0 : (0 : Int) ≤ n := Int.ofNat_nonneg n
  have hpos : (0 : Int) < n := by exact_mod_cast hn
  have hdm : N * ((n : Int) / N) + (n : Int) % N = n := Int.ediv_add_emod n N
  have hr0 : 0 ≤ (n : Int) % N := Int.emod_nonneg n (by omega)
  have hr1 : (n : Int) % N < N := Int.emod_lt_of_pos n hN
  have hq0 : 0 ≤ (n : Int) / N := Int.ediv_nonneg hn0 (le_of_lt hN)
  have hqn : (n : Int) / N ≤ n := Int.ediv_le_self _ hn0
  have hcomm : ∀ x : Int, x * N = N * x := fun x => Int.mul_comm x N
  have htd : Int.tdiv (n : Int) N = (n : Int) / N := Int.tdiv_eq_ediv hn0 (le_of_lt hN)
  have htm : Int.tmod (n : Int) N = (n : Int) % N := Int.tmod_eq_emod hn0 (le_of_lt hN)
  have hNe : N ≠ 0 := by omega
  rw [ceil_less_one n N hN]
  unfold TestList.lastPage modInt64 divInt64
  simp only [gt_iff_lt, hpos, if_true, hNe, if_false, htd, htm]
  by_cases h : (n : Int) % N = 0
  · simp only [h, if_true, Option.map_some']
    have hq1 : 1 ≤ (n : Int) / N := by
      by_contra hlt
      have hq : (n : Int) / N = 0 := by omega
      rw [hq, Int.mul_zero] at hdm
      omega
    rw [wrapInt64_id ((n : Int) / N) (by omega) (by omega),
      wrapInt64_id ((n : Int) / N - 1) (by omega) (by omega)]
    refine ⟨rfl, by omega, ?_, ?_⟩
    · rw [hcomm, Int.mul_sub, Int.mul_one]
      omega
    · rw [hcomm, Int.mul_sub, Int.mul_one]
      omega
  · simp only [h, if_false]
    rw [wrapInt64_id ((n : Int) / N) (by omega) (by omega)]
    refine ⟨rfl, hq0, ?_, ?_⟩
    · rw [hcomm]
      omega
    · rw [hcomm]
      omega

/-- The page `last` of an empty store is page 0, whatever the page size. -/
theorem lastPage_empty (N : Int) : TestList.lastPage (0 : Nat) N = some 0 := rfl

/-- With a page size of zero, the page `last` of a store that is not empty
is the panic of the division by zero. -/
theorem lastPage_zero (n : Nat) (hn : 0 < n) : TestList.lastPage n 0 = none := by
  have hpos : (0 : Int) < n := by exact_mod_cast hn
  unfold TestList.lastPage modInt64
  simp only [gt_iff_lt, hpos, if_true]

/-- A page that starts at the end of the store or beyond, within `int64`,
holds no account: the handler collects the nil slice. -/
theorem pageAccounts_beyond (repo : AccountRepo) (pNum pSize : Int)
    (h : (repo.length : Int) ≤ pNum * pSize) (h2 : pNum * pSize ≤ maxInt64) :
    TestList.pageAccounts repo pNum pSize = some none := by
  have e1 : minInt64 = -9223372036854775808 := rfl
  have hw : wrapInt64 (pNum * pSize) = pNum * pSize := wrapInt64_id _ (by omega) h2
  unfold TestList.pageAccounts
  simp only [hw]
  rw [if_neg (by omega)]
  rfl

/-- The last element of a list whose elements are pairwise related comes
after every other one. -/
theorem getLast_greatest {α : Type} (R : α → α → Prop) (l : List α) (x : α)
    (hp : l.Pairwise R) (hl : l.getLast? = some x) : ∀ a ∈ l, a = x ∨ R a x := by
  obtain ⟨ys, rfl⟩ := List.getLast?_eq_some_iff.1 hl
  intro a ha
  rw [List.pairwise_append] at hp
  rcases List.mem_append.1 ha with h | h
  · exact Or.inr (hp.2.2 a h x (by simp))
  · exact Or.inl (by simpa using h)

/-! ## What the operations write to the log -/

/-- The last entry `logError` writes is the one of the second format, with
the URL of the request of the response. -/
theorem logError_last (resp : http.Response) :
    ∃ code msg : GoString,
      (logError resp).getLast? = some (.callFailed resp.Request.URL.String code msg) := by
  unfold logError
  exact ⟨_, _, List.getLast?_concat _⟩

/-- On a response whose body has been closed, `logError` reads nothing: it
writes the failure of the decoder, then the second entry with an empty error
code and an empty error message. -/
theorem logError_closed (resp : http.Response) (h : resp.Body.closed = true) :
    logError resp =
      [.decodeFailed resp.Request.URL.String (.ReadError http.errReadOnClosedResBody),
       .callFailed resp.Request.URL.String [] []] := by
  unfold logError http.Body.reader
  rw [if_pos h]
  rfl

/-- The errors `newRequest` returns are those of `http.NewRequest`. -/
theorem newRequest_error (c : Client) (method p q : GoString)
    (body : Option (Option AccountResource)) (e : Error)
    (h : c.newRequest method p q body = .error e) : ∃ x, e = .request x := by
  unfold Client.newRequest at h
  simp only [] at h
  split at h
  · exact ⟨_, (Except.error.inj h).symm⟩
  · exact absurd h (by simp)

/-- The errors `do` returns are those of the round trip, of the decoder and
of closing the body: none of the five errors the client declares. -/
theorem do_out_error {α : Type} [json.Target α] (dc : http.Client) (c : Client)
    (req : http.Request) (v : Option α) (e : Error)
    (h : (c.do dc req v).out = .error e) : e ∉ Error.declared := by
  unfold Client.do at h
  simp only [] at h
  split at h
  · cases Except.error.inj h
    simp [Error.declared]
  · split at h
    · cases Except.error.inj h
      simp [Error.declared]
    · split at h
      · cases Except.error.inj h
        simp [Error.declared]
      · exact absurd h (by simp)

/-- The response `do` returns is the one of the round trip, with its body
closed. -/
theorem do_out_ok {α : Type} [json.Target α] (dc : http.Client) (c : Client)
    (req : http.Request) (v : Option α) (r : http.Response)
    (h : (c.do dc req v).out = .ok r) :
    ∃ resp, (c.transport dc).Do req = .ok resp ∧
      r = { resp with Body := { resp.Body with closed := true } } := by
  unfold Client.do at h
  simp only [transport_do_eq] at h
  split at h
  · exact absurd h (by simp)
  · rename_i resp hdo
    split at h
    · exact absurd h (by simp)
    · split at h
      · exact absurd h (by simp)
      · exact ⟨resp, hdo, (Except.ok.inj h).symm⟩

theorem not_declared {e : Error} (h : e ∉ Error.declared) :
    e ≠ .ErrNotFound ∧ e ≠ .ErrConflict ∧ e ≠ .ErrBadInput ∧ e ≠ .ErrServerError ∧
      e ≠ .ErrUnknown := by
  simp only [Error.declared, List.mem_cons, List.mem_singleton, not_or, List.mem_nil_iff,
    or_false] at h
  exact h

/-- What `Delete` writes to the log: what `logError` writes for the response
of the round trip, whose body `do` has closed, when it returns `ErrBadInput`,
`ErrServerError` or `ErrUnknown`; nothing otherwise. -/
theorem Delete_log (dc : http.Client) (c : Client) (accountID : GoString) (version : Int) :
    ((c.Delete dc accountID version).err = some .ErrBadInput ∨
        (c.Delete dc accountID version).err = some .ErrServerError ∨
        (c.Delete dc accountID version).err = some .ErrUnknown →
      ∃ req resp, (c.Delete dc accountID version).sent = [req] ∧
        (c.transport dc).Do req = .ok resp ∧
        (c.Delete dc accountID version).log =
          logError { resp with Body := { resp.Body with closed := true } }) ∧
    ((c.Delete dc accountID version).err ≠ some .ErrBadInput →
      (c.Delete dc accountID version).err ≠ some .ErrServerError →
      (c.Delete dc accountID version).err ≠ some .ErrUnknown →
      (c.Delete dc accountID version).log = []) := by
  unfold Client.Delete
  cases hreq : c.newRequest http.MethodDelete (str "/v1/organisation/accounts/" ++ accountID)
      (str "version=" ++ formatInt version) none with
  | error e =>
    obtain ⟨x, rfl⟩ := newRequest_error _ _ _ _ _ _ hreq
    simp only [hreq]
    simp
  | ok req =>
    simp only [hreq]
    cases hout : (c.do dc req (none : Option errorDetail)).out with
    | error e =>
      obtain ⟨_, _, h3, h4, h5⟩ := not_declared (do_out_error dc c req _ e hout)
      simp only [hout]
      simp [h3, h4, h5]
    | ok r =>
      obtain ⟨resp, hdo, rfl⟩ := do_out_ok dc c req _ r hout
      have hs := do_sent dc c req (none : Option errorDetail)
      simp only [hout]
      split_ifs <;> simp [hs, hdo]

/-- What `Create` writes to the log: as `Delete_log`. -/
theorem Create_log (dc : http.Client) (c : Client) (account : Option AccountResource) :
    ((c.Create dc account).err = some .ErrBadInput ∨
        (c.Create dc account).err = some .ErrServerError ∨
        (c.Create dc account).err = some .ErrUnknown →
      ∃ req resp, (c.Create dc account).sent = [req] ∧
        (c.transport dc).Do req = .ok resp ∧
        (c.Create dc account).log =
          logError { resp with Body := { resp.Body with closed := true } }) ∧
    ((c.Create dc account).err ≠ some .ErrBadInput →
      (c.Create dc account).err ≠ some .ErrServerError →
      (c.Create dc account).err ≠ some .ErrUnknown →
      (c.Create dc account).log = []) := by
  unfold Client.Create
  cases hreq : c.newRequest http.MethodPost (str "/v1/organisation/accounts") []
      (some account) with
  | error e =>
    obtain ⟨x, rfl⟩ := newRequest_error _ _ _ _ _ _ hreq
    simp only [hreq]
    simp
  | ok req =>
    simp only [hreq]
    cases hout : (c.do dc req (some ({} : AccountResource))).out with
    | error e =>
      obtain ⟨_, _, h3, h4, h5⟩ := not_declared (do_out_error dc c req _ e hout)
      simp only [hout]
      simp [h3, h4, h5]
    | ok r =>
      obtain ⟨resp, hdo, rfl⟩ := do_out_ok dc c req _ r hout
      have hs := do_sent dc c req (some ({} : AccountResource))
      simp only [hout]
      split_ifs <;> simp [hs, hdo]

/-- What `Fetch` writes to the log: as `Delete_log`. -/
theorem Fetch_log (dc : http.Client) (c : Client) (accountID : GoString) :
    ((c.Fetch dc accountID).err = some .ErrBadInput ∨
        (c.Fetch dc accountID).err = some .ErrServerError ∨
        (c.Fetch dc accountID).err = some .ErrUnknown →
      ∃ req resp, (c.Fetch dc accountID).sent = [req] ∧
        (c.transport dc).Do req = .ok resp ∧
        (c.Fetch dc accountID).log =
          logError { resp with Body := { resp.Body with closed := true } }) ∧
    ((c.Fetch dc accountID).err ≠ some .ErrBadInput →
      (c.Fetch dc accountID).err ≠ some .ErrServerError →
      (c.Fetch dc accountID).err ≠ some .ErrUnknown →
      (c.Fetch dc accountID).log = []) := by
  unfold Client.Fetch
  cases hreq : c.newRequest http.MethodGet (str "/v1/organisation/accounts/" ++ accountID) []
      none with
  | error e =>
    obtain ⟨x, rfl⟩ := newRequest_error _ _ _ _ _ _ hreq
    simp only [hreq]
    simp
  | ok req =>
    simp only [hreq]
    cases hout : (c.do dc req (some ({} : AccountResource))).out with
    | error e =>
      obtain ⟨_, _, h3, h4, h5⟩ := not_declared (do_out_error dc c req _ e hout)
      simp only [hout]
      simp [h3, h4, h5]
    | ok r =>
      obtain ⟨resp, hdo, rfl⟩ := do_out_ok dc c req _ r hout
      have hs := do_sent dc c req (some ({} : AccountResource))
      simp only [hout]
      split_ifs <;> simp [hs, hdo]

/-- What `List` writes to the log: as `Delete_log`. -/
theorem List_log (dc : http.Client) (c : Client) (opts : Option PageOpts) :
    ((c.List dc opts).err = some .ErrBadInput ∨
        (c.List dc opts).err = some .ErrServerError ∨
        (c.List dc opts).err = some .ErrUnknown →
      ∃ req resp, (c.List dc opts).sent = [req] ∧
        (c.transport dc).Do req = .ok resp ∧
        (c.List dc opts).log =
          logError { resp with Body := { resp.Body with closed := true } }) ∧
    ((c.List dc opts).err ≠ some .ErrBadInput →
      (c.List dc opts).err ≠ some .ErrServerError →
      (c.List dc opts).err ≠ some .ErrUnknown →
      (c.List dc opts).log = []) := by
  unfold Client.List
  simp only []
  cases hreq : c.newRequest http.MethodGet (str "/v1/organisation/accounts")
      (if (query.Values opts).length > 0 then url.Values.Encode (query.Values opts) else [])
      none with
  | error e =>
    obtain ⟨x, rfl⟩ := newRequest_error _ _ _ _ _ _ hreq
    simp only [hreq]
    simp
  | ok req =>
    simp only [hreq]
    cases hout : (c.do dc req (some ({} : AccountsResource))).out with
    | error e =>
      obtain ⟨_, _, h3, h4, h5⟩ := not_declared (do_out_error dc c req _ e hout)
      simp only [hout]
      simp [h3, h4, h5]
    | ok r =>
      obtain ⟨resp, hdo, rfl⟩ := do_out_ok dc c req _ r hout
      have hs := do_sent dc c req (some ({} : AccountsResource))
      simp only [hout]
      split_ifs <;> simp [hs, hdo]

/-! ## `Delete` and the body of the response -/

/-- With a nil `v`, the errors `do` returns are those of the round trip and
of closing the body: it does not run the decoder. -/
theorem do_nil_out_error (dc : http.Client) (c : Client) (req : http.Request) (e : Error)
    (h : (c.do dc req (none : Option errorDetail)).out = .error e) :
    (∃ msg, e = .transport msg) ∨ (∃ msg, e = .close msg) := by
  unfold Client.do at h
  simp only [Option.map_none'] at h
  split at h
  · exact Or.inl ⟨_, (Except.error.inj h).symm⟩
  · split at h
    · exact Or.inr ⟨_, (Except.error.inj h).symm⟩
    · exact absurd h (by simp)

/-- The error `Delete` returns is never one of the decoder. -/
theorem Delete_no_decode_error (dc : http.Client) (c : Client) (accountID : GoString)
    (version : Int) (e : json.Error) :
    (c.Delete dc accountID version).err ≠ some (.decode e) := by
  unfold Client.Delete
  cases hreq : c.newRequest http.MethodDelete (str "/v1/organisation/accounts/" ++ accountID)
      (str "version=" ++ formatInt version) none with
  | error x =>
    obtain ⟨y, rfl⟩ := newRequest_error _ _ _ _ _ _ hreq
    simp only [hreq]
    simp
  | ok req =>
    simp only [hreq]
    cases hout : (c.do dc req (none : Option errorDetail)).out with
    | error x =>
      simp only [hout]
      rcases do_nil_out_error dc c req x hout with ⟨m, rfl⟩ | ⟨m, rfl⟩ <;> simp
    | ok r =>
      simp only [hout]
      split_ifs <;> simp

/-- The error `Delete` returns for a response, by its status and the error
of closing its body. -/
theorem Delete_err_of_response (dc : http.Client) (c : Client) (accountID : GoString)
    (version : Int) (req : http.Request) (resp : http.Response)
    (hsent : (c.Delete dc accountID version).sent = [req])
    (hdo : (c.transport dc).Do req = .ok resp) :
    (c.Delete dc accountID version).err =
      if resp.Body.closeErr.isSome then resp.Body.closeErr.map Error.close
      else if resp.StatusCode = 204 then none
      else if resp.StatusCode = 404 then some .ErrNotFound
      else if resp.StatusCode = 409 then some .ErrConflict
      else some (defaultError resp.StatusCode) := by
  cases hclose : resp.Body.closeErr with
  | none =>
    rw [Delete_result dc c accountID version req resp hsent hdo hclose]
    rfl
  | some msg =>
    rw [Delete_error dc c accountID version req _ hsent
      (do_nil_close_error dc c req resp msg hdo hclose)]
    rfl

/-- The pointer `Delete` returns: it returns an error only. -/
theorem Delete_ret (dc : http.Client) (c : Client) (accountID : GoString) (version : Int) :
    (c.Delete dc accountID version).ret = none := by
  cases h : (c.Delete dc accountID version).ret with
  | none => rfl
  | some x => exact x.elim

/-- The errors `do` returns are those of the round trip, of the decoder and
of closing the body. -/
theorem do_out_error_kind {α : Type} [json.Target α] (dc : http.Client) (c : Client)
    (req : http.Request) (v : Option α) (e : Error)
    (h : (c.do dc req v).out = .error e) :
    (∃ msg, e = .transport msg) ∨ (∃ x, e = .decode x) ∨ (∃ msg, e = .close msg) := by
  unfold Client.do at h
  simp only [] at h
  split at h
  · exact Or.inl ⟨_, (Except.error.inj h).symm⟩
  · split at h
    · exact Or.inr (Or.inl ⟨_, (Except.error.inj h).symm⟩)
    · split at h
      · exact Or.inr (Or.inr ⟨_, (Except.error.inj h).symm⟩)
      · exact absurd h (by simp)

/-- Once `newRequest` has built the request of `List`, the error `List`
returns is not one of building a request. -/
theorem List_no_request_error (dc : http.Client) (c : Client) (opts : Option PageOpts)
    (req : http.Request)
    (hreq : c.newRequest http.MethodGet (str "/v1/organisation/accounts") (listQuery opts)
      none = .ok req) (e : http.RequestError) :
    (c.List dc opts).err ≠ some (.request e) := by
  unfold listQuery at hreq
  unfold Client.List
  simp only [hreq]
  cases hout : (c.do dc req (some ({} : AccountsResource))).out with
  | error x =>
    simp only [hout]
    rcases do_out_error_kind dc c req _ x hout with ⟨m, rfl⟩ | ⟨m, rfl⟩ | ⟨m, rfl⟩ <;> simp
  | ok r =>
    simp only [hout]
    split_ifs <;> simp

set_option maxRecDepth 1000000 in
/-- The JSON text of the zero value of the envelope. -/
theorem Encode_zero : json.Encode (some ({} : AccountResource)) = zeroAccountText := by decide

/-! ## Headers, envelopes and the client after a call (claims C12, C13, C15) -/

/-- C12. Every request one of the four operations builds and hands to the
transport, on whatever client, carries `Accept: application/vnd.api+json` and
`User-Agent: Accounts API Go client`; a request of `Create` carries a body and
`Content-Type: application/vnd.api+json`; a request of `Fetch`, `List` or
`Delete` carries no body and no `Content-Type` at all. -/
theorem request_headers (dc : http.Client) (c : Client) (account : Option AccountResource)
    (accountID : GoString) (opts : Option PageOpts) (version : Int) :
    (∀ req ∈ (c.Create dc account).sent,
      req.Header.Get (str "Accept") = str "application/vnd.api+json" ∧
      req.Header.Get (str "User-Agent") = str "Accounts API Go client" ∧
      req.Header.Values (str "Content-Type") = [str "application/vnd.api+json"] ∧
      req.Body.isSome = true) ∧
    (∀ req ∈ (c.Fetch dc accountID).sent ++ (c.List dc opts).sent ++
        (c.Delete dc accountID version).sent,
      req.Header.Get (str "Accept") = str "application/vnd.api+json" ∧
      req.Header.Get (str "User-Agent") = str "Accounts API Go client" ∧
      req.Header.Values (str "Content-Type") = [] ∧
      req.Body = none) := by
  have hT : ∀ req : http.Request, req.Header = requestHeader true →
      req.Header.Get (str "Accept") = str "application/vnd.api+json" ∧
      req.Header.Get (str "User-Agent") = str "Accounts API Go client" ∧
      req.Header.Values (str "Content-Type") = [str "application/vnd.api+json"] := by
    intro req h
    rw [h]
    decide
  have hF : ∀ req : http.Request, req.Header = requestHeader false →
      req.Header.Get (str "Accept") = str "application/vnd.api+json" ∧
      req.Header.Get (str "User-Agent") = str "Accounts API Go client" ∧
      req.Header.Values (str "Content-Type") = [] := by
    intro req h
    rw [h]
    decide
  constructor
  · intro req hreq
    rw [Create_sent] at hreq
    obtain ⟨hH, hB⟩ := newRequest_header _ _ _ _ _ _ (mem_sentOf hreq)
    obtain ⟨h1, h2, h3⟩ := hT req hH
    exact ⟨h1, h2, h3, by rw [hB]; rfl⟩
  · intro req hreq
    rw [Fetch_sent, List_sent, Delete_sent] at hreq
    simp only [List.mem_append] at hreq
    rcases hreq with (hreq | hreq) | hreq
    all_goals
      obtain ⟨hH, hB⟩ := newRequest_header _ _ _ _ _ _ (mem_sentOf hreq)
      obtain ⟨h1, h2, h3⟩ := hF req hH
      exact ⟨h1, h2, h3, hB⟩

set_option maxRecDepth 1000000 in
/-- Witness for C12: the request of `Create` for `exampleAccount` and the
request of `Delete` for its identifier, on `exampleBaseURL`. -/
theorem request_headers_witness :
    exampleCreateRequest ∈ ((exampleClient 201 []).Create (failingTransport [])
      (some exampleAccount)).sent ∧
    exampleDeleteRequest ∈
      ((exampleClient 204 []).Fetch (failingTransport []) exampleID).sent ++
        ((exampleClient 204 []).List (failingTransport []) none).sent ++
        ((exampleClient 204 []).Delete (failingTransport []) exampleID 0).sent ∧
    (exampleCreateRequest.Header.Get (str "Accept") = str "application/vnd.api+json" ∧
      exampleCreateRequest.Header.Get (str "User-Agent") = str "Accounts API Go client" ∧
      exampleCreateRequest.Header.Values (str "Content-Type") =
        [str "application/vnd.api+json"] ∧
      exampleCreateRequest.Body.isSome = true) ∧
    (exampleDeleteRequest.Header.Get (str "Accept") = str "application/vnd.api+json" ∧
      exampleDeleteRequest.Header.Get (str "User-Agent") = str "Accounts API Go client" ∧
      exampleDeleteRequest.Header.Values (str "Content-Type") = [] ∧
      exampleDeleteRequest.Body = none) :=
  ⟨by decide, by decide,
    (request_headers (failingTransport []) (exampleClient 201 []) (some exampleAccount)
      exampleID none 0).1 exampleCreateRequest (by decide),
    (request_headers (failingTransport []) (exampleClient 204 []) (some exampleAccount)
      exampleID none 0).2 exampleDeleteRequest (by decide)⟩

/-- C13. For every client, transport and argument, `Create`, `Fetch` and
`List` return a non-nil envelope if and only if they return a nil error:
whenever an error is returned, of whatever kind, the envelope is nil, and
whenever no error is returned the envelope is not nil. -/
theorem envelope_iff_no_error (dc : http.Client) (c : Client)
    (account : Option AccountResource) (accountID : GoString) (opts : Option PageOpts) :
    ((c.Create dc account).ret.isSome = true ↔ (c.Create dc account).err = none) ∧
    ((c.Fetch dc accountID).ret.isSome = true ↔ (c.Fetch dc accountID).err = none) ∧
    ((c.List dc opts).ret.isSome = true ↔ (c.List dc opts).err = none) := by
  refine ⟨?_, ?_, ?_⟩
  · cases h : c.newRequest http.MethodPost (str "/v1/organisation/accounts") [] (some account) with
    | error e => unfold Client.Create; simp [h]
    | ok req =>
      unfold Client.Create
      simp only [h]
      generalize c.do dc req (some ({} : AccountResource)) = r
      cases hr : r.out with
      | error e => simp
      | ok resp => simp only []; split_ifs <;> simp
  · cases h : c.newRequest http.MethodGet (str "/v1/organisation/accounts/" ++ accountID) []
        none with
    | error e => unfold Client.Fetch; simp [h]
    | ok req =>
      unfold Client.Fetch
      simp only [h]
      generalize c.do dc req (some ({} : AccountResource)) = r
      cases hr : r.out with
      | error e => simp
      | ok resp => simp only []; split_ifs <;> simp
  · cases h : c.newRequest http.MethodGet (str "/v1/organisation/accounts") (listQuery opts)
        none with
    | error e => unfold listQuery at h; unfold Client.List; simp [h]
    | ok req =>
      unfold listQuery at h
      unfold Client.List
      simp only [h]
      generalize c.do dc req (some ({} : AccountsResource)) = r
      cases hr : r.out with
      | error e => simp
      | ok resp => simp only []; split_ifs <;> simp

/-- C15, as amended. For every client, transport `dc` standing for
`http.DefaultClient` and argument, each of `Create`, `Fetch`, `List` and
`Delete` leaves the base URL of the client and the transport in effect as they
were. The client as a whole is unchanged when its HTTP client was set, and
when no request could be built; when its HTTP client was nil and a request has
been handed to the transport, the call has set it to `http.DefaultClient`. -/
theorem client_after_call (dc : http.Client) (c : Client) (account : Option AccountResource)
    (accountID : GoString) (opts : Option PageOpts) (version : Int) :
    ((c.Create dc account).client.BaseURL = c.BaseURL ∧
      (c.Create dc account).client.transport dc = c.transport dc ∧
      (c.httpClient.isSome = true → (c.Create dc account).client = c) ∧
      ((c.Create dc account).sent = [] → (c.Create dc account).client = c) ∧
      (c.httpClient.isNone = true → (c.Create dc account).sent ≠ [] →
        (c.Create dc account).client = { c with httpClient := some dc })) ∧
    ((c.Fetch dc accountID).client.BaseURL = c.BaseURL ∧
      (c.Fetch dc accountID).client.transport dc = c.transport dc ∧
      (c.httpClient.isSome = true → (c.Fetch dc accountID).client = c) ∧
      ((c.Fetch dc accountID).sent = [] → (c.Fetch dc accountID).client = c) ∧
      (c.httpClient.isNone = true → (c.Fetch dc accountID).sent ≠ [] →
        (c.Fetch dc accountID).client = { c with httpClient := some dc })) ∧
    ((c.List dc opts).client.BaseURL = c.BaseURL ∧
      (c.List dc opts).client.transport dc = c.transport dc ∧
      (c.httpClient.isSome = true → (c.List dc opts).client = c) ∧
      ((c.List dc opts).sent = [] → (c.List dc opts).client = c) ∧
      (c.httpClient.isNone = true → (c.List dc opts).sent ≠ [] →
        (c.List dc opts).client = { c with httpClient := some dc })) ∧
    ((c.Delete dc accountID version).client.BaseURL = c.BaseURL ∧
      (c.Delete dc accountID version).client.transport dc = c.transport dc ∧
      (c.httpClient.isSome = true → (c.Delete dc accountID version).client = c) ∧
      ((c.Delete dc accountID version).sent = [] → (c.Delete dc accountID version).client = c) ∧
      (c.httpClient.isNone = true → (c.Delete dc accountID version).sent ≠ [] →
        (c.Delete dc accountID version).client = { c with httpClient := some dc })) :=
  ⟨client_after dc c _ _ (Create_client dc c account),
    client_after dc c _ _ (Fetch_client dc c accountID),
    client_after dc c _ _ (List_client dc c opts),
    client_after dc c _ _ (Delete_client dc c accountID version)⟩

set_option maxRecDepth 1000000 in
/-- Witness for C15 as amended: a client made of a base URL only has
`http.DefaultClient` as its HTTP client after a `Fetch`, and a client with an
HTTP client of its own is unchanged by a `Delete`. -/
theorem client_after_call_witness :
    ({ BaseURL := exampleBaseURL } : Client).httpClient.isNone = true ∧
    (({ BaseURL := exampleBaseURL } : Client).Fetch (exampleTransport 404 []) exampleID).sent
      ≠ [] ∧
    (exampleClient 204 []).httpClient.isSome = true ∧
    (({ BaseURL := exampleBaseURL } : Client).Fetch (exampleTransport 404 []) exampleID).client =
      { BaseURL := exampleBaseURL, httpClient := some (exampleTransport 404 []) } ∧
    ((exampleClient 204 []).Delete (failingTransport []) exampleID 0).client =
      exampleClient 204 [] :=
  ⟨by decide, by decide, by decide,
    (client_after_call (exampleTransport 404 []) { BaseURL := exampleBaseURL } none exampleID
      none 0).2.1.2.2.2.2 (by decide) (by decide),
    (client_after_call (failingTransport []) (exampleClient 204 []) none exampleID
      none 0).2.2.2.2.2.1 (by decide)⟩

set_option maxRecDepth 1000000 in
/-- Counterexample to C15 as stated: on a client constructed with only a base
URL, whose HTTP client is nil, a `Delete` that succeeds and a `Fetch` that
fails each leave a client whose HTTP client is set. -/
theorem client_unchanged_counterexample :
    ({ BaseURL := exampleBaseURL } : Client).httpClient.isSome = false ∧
    (({ BaseURL := exampleBaseURL } : Client).Delete (exampleTransport 204 [])
      exampleID 0).err = none ∧
    (({ BaseURL := exampleBaseURL } : Client).Delete (exampleTransport 204 [])
      exampleID 0).client.httpClient.isSome = true ∧
    (({ BaseURL := exampleBaseURL } : Client).Fetch (exampleTransport 404 exampleErrorDocument)
      exampleID).err = some .ErrNotFound ∧
    (({ BaseURL := exampleBaseURL } : Client).Fetch (exampleTransport 404 exampleErrorDocument)
      exampleID).client.httpClient.isSome = true := by
  decide

/-! ## The request of `Create` and the query string of `List` (claims C11, C16) -/

/-- C11. On a client with a plain base URL (`scheme://host[:port]`), for every
envelope: `Create` hands exactly one request to the transport, a POST on the
scheme and host of the base URL to the path `/v1/organisation/accounts`, with
no query string and no fragment, whose body is the JSON text of the envelope
followed by a newline: an object with the one key `data`, holding an object
with the keys `id`, `organisation_id`, `type`, `version` and `attributes` in
this order, the first three being the strings of the account, the fourth its
version in base 10 and the last its attributes. -/
theorem Create_request (dc : http.Client) (c : Client) (a : AccountResource)
    (hbase : plainBase c.BaseURL = true) :
    ∃ req, (c.Create dc (some a)).sent = [req] ∧ req.Method = http.MethodPost ∧
      req.URL.Scheme = c.BaseURL.Scheme ∧ req.URL.Host = c.BaseURL.Host ∧
      req.URL.Path = str "/v1/organisation/accounts" ∧
      req.URL.RawQuery = [] ∧ req.URL.ForceQuery = false ∧ req.URL.Fragment = [] ∧
      req.Body = some (json.Encode (some a)) ∧
      json.Encode (some a) =
        json.encodeObject
          [("data", json.encodeObject
            [("id", json.encodeString a.Data.ID),
             ("organisation_id", json.encodeString a.Data.OrganisationID),
             ("type", json.encodeString a.Data.Type_),
             ("version", formatInt a.Data.Version),
             ("attributes", json.encodeAttributes a.Data.Attributes)])] ++ [(10 : Byte)] := by
  have hreq := newRequest_plain c http.MethodPost (str "v1/organisation/accounts")
    [] (some (some a)) hbase (by decide) (by simp)
  rw [← collection_path] at hreq
  refine ⟨builtRequest c.BaseURL http.MethodPost (str "/v1/organisation/accounts")
    [] (some (some a)), ?_, rfl, rfl, rfl, ?_, rfl, rfl, rfl, rfl, rfl⟩
  · rw [Create_sent, hreq]; rfl
  · exact collection_path_no_dots

set_option maxRecDepth 1000000 in
/-- Witness for C11: the request of `Create` for `exampleAccount`. -/
theorem Create_request_witness :
    plainBase (exampleClient 201 []).BaseURL = true ∧
    ((exampleClient 201 []).Create (failingTransport []) (some exampleAccount)).sent =
      [exampleCreateRequest] ∧
    ∃ req, ((exampleClient 201 []).Create (failingTransport []) (some exampleAccount)).sent =
        [req] ∧ req.Method = http.MethodPost ∧
      req.URL.Scheme = (exampleClient 201 []).BaseURL.Scheme ∧
      req.URL.Host = (exampleClient 201 []).BaseURL.Host ∧
      req.URL.Path = str "/v1/organisation/accounts" ∧
      req.URL.RawQuery = [] ∧ req.URL.ForceQuery = false ∧ req.URL.Fragment = [] ∧
      req.Body = some (json.Encode (some exampleAccount)) ∧
      json.Encode (some exampleAccount) =
        json.encodeObject
          [("data", json.encodeObject
            [("id", json.encodeString exampleAccount.Data.ID),
             ("organisation_id", json.encodeString exampleAccount.Data.OrganisationID),
             ("type", json.encodeString exampleAccount.Data.Type_),
             ("version", formatInt exampleAccount.Data.Version),
             ("attributes", json.encodeAttributes exampleAccount.Data.Attributes)])] ++
          [(10 : Byte)] :=
  ⟨by decide, by decide,
    Create_request (failingTransport []) (exampleClient 201 []) exampleAccount (by decide)⟩

/-- C16. On a client with a plain base URL (`scheme://host[:port]`), for every
`PageOpts`: parsing the query string of the request of `List` succeeds and
gives exactly `page[number]` with the `Number` string as given, when there is
one, followed by `page[size]` with the base-10 rendering of `Size`, when there
is one, and nothing else; encoding these parameters again gives the query
string sent, byte for byte; and that string is `page%5Bnumber%5D=` with the
query-escaped number and `page%5Bsize%5D=` with the decimal size, in this
order, joined by `&`. -/
theorem List_query_canonical (dc : http.Client) (c : Client) (o : PageOpts)
    (hbase : plainBase c.BaseURL = true) :
    ∃ req, (c.List dc (some o)).sent = [req] ∧
      url.ParseQuery req.URL.RawQuery =
        (o.Number.toList.map (fun n => (str "page[number]", [n])) ++
          o.Size.toList.map (fun k => (str "page[size]", [formatInt k])), none) ∧
      url.Values.Encode (url.ParseQuery req.URL.RawQuery).1 = req.URL.RawQuery ∧
      req.URL.RawQuery =
        strings.Join (b '&')
          (o.Number.toList.map (fun n => str "page%5Bnumber%5D=" ++ url.QueryEscape n) ++
            o.Size.toList.map (fun k => str "page%5Bsize%5D=" ++ formatInt k)) := by
  have hreq := newRequest_plain c http.MethodGet (str "v1/organisation/accounts")
    (listQuery (some o)) none hbase (by decide) (listQuery_bytes (some o))
  rw [← collection_path] at hreq
  refine ⟨builtRequest c.BaseURL http.MethodGet (str "/v1/organisation/accounts")
    (listQuery (some o)) none, ?_, ?_⟩
  · rw [List_sent, hreq]; rfl
  have hne : str "page[number]" ≠ str "page[size]" := by decide
  have hlt : url.stringLess (str "page[size]") (str "page[number]") = false := by decide
  have hn : url.QueryEscape (str "page[number]") ++ [b '='] = str "page%5Bnumber%5D=" := by
    decide
  have hs : url.QueryEscape (str "page[size]") ++ [b '='] = str "page%5Bsize%5D=" := by
    decide
  have hn' : ∀ t : GoString, url.QueryEscape (str "page[number]") ++ b '=' :: t =
      str "page%5Bnumber%5D=" ++ t := by
    intro t; rw [← hn]; simp
  have hs' : ∀ t : GoString, url.QueryEscape (str "page[size]") ++ b '=' :: t =
      str "page%5Bsize%5D=" ++ t := by
    intro t; rw [← hs]; simp
  simp only [builtRequest]
  rw [listQuery_cases]
  obtain ⟨num, size⟩ := o
  cases num with
  | none =>
    cases size with
    | none => simp only []; decide
    | some k =>
      simp only [ParseQuery_one, Encode_one, Option.toList, List.map_nil, List.map_cons,
        List.nil_append, true_and]
      simp only [QueryEscape_formatInt, hs', strings.Join, List.foldl_nil, true_and]
  | some n =>
    cases size with
    | none =>
      simp only [ParseQuery_one, Encode_one, Option.toList, List.map_nil, List.map_cons,
        List.append_nil, true_and]
      simp only [hn', strings.Join, List.foldl_nil, true_and]
    | some k =>
      simp only [ParseQuery_two _ _ _ _ hne, Encode_two _ _ _ _ hne hlt, Option.toList,
        List.map_nil, List.map_cons, List.cons_append, List.nil_append, true_and]
      simp only [QueryEscape_formatInt, hn', hs']
      simp [strings.Join]

set_option maxRecDepth 1000000 in
/-- Witness for C16: the number `last page` (with a blank) and the size 25. -/
theorem List_query_canonical_witness :
    plainBase (exampleClient 200 exampleEmptyList).BaseURL = true ∧
    ((exampleClient 200 exampleEmptyList).List (failingTransport [])
        (some { Number := some (str "last page"), Size := some 25 })).sent.map
          (fun r => r.URL.RawQuery) = [str "page%5Bnumber%5D=last+page&page%5Bsize%5D=25"] ∧
    ∃ req, ((exampleClient 200 exampleEmptyList).List (failingTransport [])
        (some { Number := some (str "last page"), Size := some 25 })).sent = [req] ∧
      url.ParseQuery req.URL.RawQuery =
        ((some (str "last page")).toList.map (fun n => (str "page[number]", [n])) ++
          (some (25 : Int)).toList.map (fun k => (str "page[size]", [formatInt k])), none) ∧
      url.Values.Encode (url.ParseQuery req.URL.RawQuery).1 = req.URL.RawQuery ∧
      req.URL.RawQuery =
        strings.Join (b '&')
          ((some (str "last page")).toList.map
              (fun n => str "page%5Bnumber%5D=" ++ url.QueryEscape n) ++
            (some (25 : Int)).toList.map (fun k => str "page%5Bsize%5D=" ++ formatInt k)) :=
  ⟨by decide, by decide,
    List_query_canonical (failingTransport []) (exampleClient 200 exampleEmptyList)
      { Number := some (str "last page"), Size := some 25 } (by decide)⟩

/-! ## The round trip of an account through JSON (claim C14) -/

/-- C14, as amended. For every envelope whose account is text (all its
strings are valid UTF-8; its version is an `int64`, as every version is):
decoding the JSON text the client encodes for it into a zero envelope gives a
value equal to it in every field, without error; hence `Create`, on a client
with a plain base URL, returns an envelope equal to its input and no error
against a server that echoes the request body with status 201, and against
the server of `TestCreate` when the id is not reserved and not in the store. -/
theorem Create_round_trip (dc : http.Client) (c : Client) (a : AccountResource)
    (htext : a.Data.isText = true) (hbase : plainBase c.BaseURL = true)
    (hecho : c.transport dc = echoTransport) :
    json.Decode { data := json.Encode (some a) } ({} : AccountResource) = (a, none) ∧
    (c.Create dc (some a)).ret = some a ∧ (c.Create dc (some a)).err = none ∧
    (∀ repo : AccountRepo, c.httpClient = none → a.Data.ID ≠ badInput →
      a.Data.ID ≠ serviceFailure → repo.get a.Data.ID = none →
      (c.Create (httptest.NewServer (TestCreate.handler repo)).Client (some a)).ret = some a ∧
      (c.Create (httptest.NewServer (TestCreate.handler repo)).Client (some a)).err = none) :=
  ⟨Decode_Encode a none htext, ((Create_returns_input c a htext hbase).1 dc hecho).1,
    ((Create_returns_input c a htext hbase).1 dc hecho).2,
    (Create_returns_input c a htext hbase).2⟩

set_option maxRecDepth 1000000 in
/-- Witness for C14 as amended: the envelope of `accountOne`, on a client
whose transport echoes. -/
theorem Create_round_trip_witness :
    accountOne.isText = true ∧
    plainBase ({ BaseURL := exampleBaseURL, httpClient := some echoTransport } : Client).BaseURL
      = true ∧
    json.Decode { data := json.Encode (some { Data := accountOne }) } ({} : AccountResource) =
      ({ Data := accountOne }, none) ∧
    (({ BaseURL := exampleBaseURL, httpClient := some echoTransport } : Client).Create
      (failingTransport []) (some { Data := accountOne })).ret = some { Data := accountOne } ∧
    (({ BaseURL := exampleBaseURL, httpClient := some echoTransport } : Client).Create
      (failingTransport []) (some { Data := accountOne })).err = none ∧
    (∀ repo : AccountRepo,
      ({ BaseURL := exampleBaseURL, httpClient := some echoTransport } : Client).httpClient =
        none →
      accountOne.ID ≠ badInput → accountOne.ID ≠ serviceFailure →
      repo.get accountOne.ID = none →
      (({ BaseURL := exampleBaseURL, httpClient := some echoTransport } : Client).Create
        (httptest.NewServer (TestCreate.handler repo)).Client (some { Data := accountOne })).ret =
        some { Data := accountOne } ∧
      (({ BaseURL := exampleBaseURL, httpClient := some echoTransport } : Client).Create
        (httptest.NewServer (TestCreate.handler repo)).Client (some { Data := accountOne })).err =
        none) :=
  ⟨by decide, by decide,
    Create_round_trip (failingTransport [])
      { BaseURL := exampleBaseURL, httpClient := some echoTransport } { Data := accountOne }
      (by decide) (by decide) rfl⟩

set_option maxRecDepth 1000000 in
/-- Counterexample to C14 as stated: the identifier made of the byte 0xFF is
not valid UTF-8; the client encodes it as the escape of U+FFFD, and decoding
gives the three bytes of U+FFFD, so that `Create` against a server that echoes
the request body with status 201 returns an envelope that differs from its
input. -/
theorem Create_round_trip_counterexample :
    exampleNotText.Data.isText = false ∧
    (json.Decode { data := json.Encode (some exampleNotText) } ({} : AccountResource)) =
      ({ Data := { ID := [0xEF, 0xBF, 0xBD] } }, none) ∧
    (({ BaseURL := exampleBaseURL, httpClient := some echoTransport } : Client).Create
      (failingTransport []) (some exampleNotText)).ret =
        some { Data := { ID := [0xEF, 0xBF, 0xBD] } } ∧
    (({ BaseURL := exampleBaseURL, httpClient := some echoTransport } : Client).Create
      (failingTransport []) (some exampleNotText)).err = none ∧
    ({ Data := { ID := [0xEF, 0xBF, 0xBD] } } : AccountResource) ≠ exampleNotText := by
  decide

/-! ## `Delete` composed with the store-backed handler (claim C17) -/

/-- C17, as amended. Composed with the handler of `TestDelete` over the store
made of any accounts, on a client set up with a plain base URL and no HTTP
client of its own, for every account id that is a single path segment other
than `.`, `..` and the two reserved ids, and every `int64` version: `Delete`
returns nil if and only if the store holds an account under the id and its
version is the one supplied; `ErrConflict` if and only if the store holds an
account under the id and its version differs; and `ErrNotFound` if and only
if the store holds nothing under the id. -/
theorem Delete_against_store (existing : Slice Account) (c : Client) (accountID : GoString)
    (version : Int) (hbase : plainBase c.BaseURL = true) (hc : c.httpClient = none)
    (hseg : b '/' ∉ accountID) (hdot : accountID ≠ str "." ∧ accountID ≠ str "..")
    (hres : accountID ≠ badInput ∧ accountID ≠ serviceFailure)
    (hv : minInt64 ≤ version ∧ version ≤ maxInt64) :
    ((c.Delete (httptest.NewServer (TestDelete.handler (setupAccountRepo existing))).Client
        accountID version).err = none ↔
      ∃ a, (setupAccountRepo existing).get accountID = some a ∧ a.Version = version) ∧
    ((c.Delete (httptest.NewServer (TestDelete.handler (setupAccountRepo existing))).Client
        accountID version).err = some .ErrConflict ↔
      ∃ a, (setupAccountRepo existing).get accountID = some a ∧ a.Version ≠ version) ∧
    ((c.Delete (httptest.NewServer (TestDelete.handler (setupAccountRepo existing))).Client
        accountID version).err = some .ErrNotFound ↔
      (setupAccountRepo existing).get accountID = none) := by
  rw [Delete_against_handler (setupAccountRepo existing) c accountID version hbase hc hseg
    hdot.1 hdot.2 hres.1 hres.2 hv.1 hv.2]
  cases hg : (setupAccountRepo existing).get accountID with
  | none => simp
  | some a =>
    by_cases hva : a.Version = version
    · simp [hva]
    · simp [hva]

set_option maxRecDepth 1000000 in
/-- Witness for C17 as amended: the store of `accountOne`, its id and its
version 0; the delete succeeds, and with the version 100 it is a conflict. -/
theorem Delete_against_store_witness :
    plainBase testClient.BaseURL = true ∧ testClient.httpClient = none ∧
    b '/' ∉ accountOne.ID ∧
    (accountOne.ID ≠ str "." ∧ accountOne.ID ≠ str "..") ∧
    (accountOne.ID ≠ badInput ∧ accountOne.ID ≠ serviceFailure) ∧
    (setupAccountRepo [accountOne]).get accountOne.ID = some accountOne ∧
    (testClient.Delete (httptest.NewServer (TestDelete.handler
        (setupAccountRepo [accountOne]))).Client accountOne.ID 0).err = none ∧
    (testClient.Delete (httptest.NewServer (TestDelete.handler
        (setupAccountRepo [accountOne]))).Client accountOne.ID 100).err = some .ErrConflict ∧
    ((testClient.Delete (httptest.NewServer (TestDelete.handler
        (setupAccountRepo [accountOne]))).Client accountOne.ID 0).err = none ↔
      ∃ a, (setupAccountRepo [accountOne]).get accountOne.ID = some a ∧ a.Version = 0) ∧
    ((testClient.Delete (httptest.NewServer (TestDelete.handler
        (setupAccountRepo [accountOne]))).Client accountOne.ID 0).err = some .ErrConflict ↔
      ∃ a, (setupAccountRepo [accountOne]).get accountOne.ID = some a ∧ a.Version ≠ 0) ∧
    ((testClient.Delete (httptest.NewServer (TestDelete.handler
        (setupAccountRepo [accountOne]))).Client accountOne.ID 0).err = some .ErrNotFound ↔
      (setupAccountRepo [accountOne]).get accountOne.ID = none) :=
  ⟨by decide, rfl, by decide, by decide, by decide, by decide,
    (Delete_against_handler (setupAccountRepo [accountOne]) testClient accountOne.ID 0
      (by decide) rfl (by decide) (by decide) (by decide) (by decide) (by decide)
      (by decide) (by decide)).trans (by decide),
    (Delete_against_handler (setupAccountRepo [accountOne]) testClient accountOne.ID 100
      (by decide) rfl (by decide) (by decide) (by decide) (by decide) (by decide)
      (by decide) (by decide)).trans (by decide),
    Delete_against_store [accountOne] testClient accountOne.ID 0 (by decide) rfl (by decide)
      (by decide) (by decide) (by decide)⟩

set_option maxRecDepth 1000000 in
/-- Counterexample to C17 as stated: the id `..` is a single non-empty path
segment and is not reserved. Its request goes to the path `/v1/organisation/`,
whose last segment is empty; so with the store holding an account under `..`
at version 0, `Delete` of `..` at version 0 returns `ErrNotFound`, and with
the store holding an account under the empty id only, it returns nil. -/
theorem Delete_against_store_counterexample :
    str ".." ≠ [] ∧ b '/' ∉ str ".." ∧ str ".." ≠ badInput ∧ str ".." ≠ serviceFailure ∧
    url.resolvePath [] (str "/v1/organisation/accounts/" ++ str "..") =
      str "/v1/organisation/" ∧
    (setupAccountRepo [{ ID := str "..", Version := 0 }]).get (str "..") =
      some { ID := str "..", Version := 0 } ∧
    (testClient.Delete (httptest.NewServer (TestDelete.handler
        (setupAccountRepo [{ ID := str "..", Version := 0 }]))).Client (str "..") 0).err =
      some .ErrNotFound ∧
    (setupAccountRepo [{ ID := [], Version := 0 }]).get (str "..") = none ∧
    (testClient.Delete (httptest.NewServer (TestDelete.handler
        (setupAccountRepo [{ ID := [], Version := 0 }]))).Client (str "..") 0).err = none :=
  ⟨by decide, by decide, by decide, by decide, by decide, by decide,
    (Delete_against_handler_path (setupAccountRepo [{ ID := str "..", Version := 0 }])
      testClient (str "..") 0 (str "/v1/organisation") [] (by decide) rfl (by decide)
      (by decide) (by decide) (by decide) (by decide) (by decide)).trans (by decide),
    by decide,
    (Delete_against_handler_path (setupAccountRepo [{ ID := [], Version := 0 }])
      testClient (str "..") 0 (str "/v1/organisation") [] (by decide) rfl (by decide)
      (by decide) (by decide) (by decide) (by decide) (by decide)).trans (by decide)⟩

/-! ## `List` composed with the store-backed handler (claims C18, C19) -/

/-- C18, as amended. Composed with the handler of `TestList` over the store
made of any accounts that are text (all their strings valid UTF-8), on a
client set up with a plain base URL and no HTTP client of its own, for every
page number `K ≥ 0` given by its decimal rendering and every page size
`N ≥ 0` with `K * N + N` within `int64`: `List` returns no error and an
envelope whose accounts are exactly those at the positions from `K * N` up to
`K * N + N` (or the end) of the identifier-sorted store, in that order; it is
the nil slice when `K * N` is at least the number of accounts. The
identifier-sorted store holds the accounts of the store, each once, by
strictly increasing identifier. -/
theorem List_page (existing : Slice Account) (c : Client) (K N : Int)
    (hbase : plainBase c.BaseURL = true) (hc : c.httpClient = none)
    (htext : ∀ a ∈ existing, a.isText = true)
    (hK : 0 ≤ K) (hN : 0 ≤ N) (hKN : K * N + N ≤ maxInt64) :
    ∃ page : Option (Slice Account),
      (c.List (httptest.NewServer (TestList.handler (setupAccountRepo existing))).Client
        (some { Number := some (formatInt K), Size := some N })).ret = some { Data := page } ∧
      (c.List (httptest.NewServer (TestList.handler (setupAccountRepo existing))).Client
        (some { Number := some (formatInt K), Size := some N })).err = none ∧
      page.getD [] =
        ((setupAccountRepo existing).sorted.drop (K * N).toNat).take N.toNat ∧
      (((setupAccountRepo existing).length : Int) ≤ K * N → page = none) ∧
      (setupAccountRepo existing).sorted.length = (setupAccountRepo existing).length ∧
      (setupAccountRepo existing).sorted.Perm
        ((setupAccountRepo existing).map (fun kv => kv.2)) ∧
      ((setupAccountRepo existing).sorted.map (fun a => a.ID)).Pairwise
        (fun x y => url.stringLess x y = true) := by
  obtain ⟨hp0, hpe⟩ := page_start K N hK hN hKN
  obtain ⟨s1, s2, s3⟩ := sorted_store existing
  have hKN0 : 0 ≤ K * N := mul_nonneg hK hN
  have hN' : N ≤ maxInt64 := by omega
  obtain ⟨h1, h2⟩ := List_against_handler existing c
    (some { Number := some (formatInt K), Size := some N })
    (strconv.ParseInt (formatInt K)).1 N hbase hc htext
    (fun req p => pageOptsOf_number _ req p K N hN hN') hp0 hN (by rw [hpe]; exact hKN)
  rw [hpe] at h1
  refine ⟨_, h1, h2, appended_getD _, ?_, s1, s2, s3⟩
  intro hle
  rw [appended_eq_none]
  have : (setupAccountRepo existing).sorted.drop (K * N).toNat = [] := by
    apply List.drop_eq_nil_of_le
    rw [s1]
    omega
  rw [this, List.take_nil]

set_option maxRecDepth 1000000 in
/-- Witness for C18 as amended: the store of the three accounts of the test
suite, page 1 of size 1, which holds `accountTwo`. -/
theorem List_page_witness :
    plainBase testClient.BaseURL = true ∧ testClient.httpClient = none ∧
    (∀ a ∈ [accountThree, accountOne, accountTwo], a.isText = true) ∧
    (1 : Int) * 1 + 1 ≤ maxInt64 ∧
    ((setupAccountRepo [accountThree, accountOne, accountTwo]).sorted.drop
      ((1 : Int) * 1).toNat).take (1 : Int).toNat = [accountTwo] ∧
    ∃ page : Option (Slice Account),
      (testClient.List (httptest.NewServer (TestList.handler
          (setupAccountRepo [accountThree, accountOne, accountTwo]))).Client
        (some { Number := some (formatInt 1), Size := some 1 })).ret = some { Data := page } ∧
      (testClient.List (httptest.NewServer (TestList.handler
          (setupAccountRepo [accountThree, accountOne, accountTwo]))).Client
        (some { Number := some (formatInt 1), Size := some 1 })).err = none ∧
      page.getD [] =
        ((setupAccountRepo [accountThree, accountOne, accountTwo]).sorted.drop
          ((1 : Int) * 1).toNat).take (1 : Int).toNat ∧
      (((setupAccountRepo [accountThree, accountOne, accountTwo]).length : Int) ≤ 1 * 1 →
        page = none) ∧
      (setupAccountRepo [accountThree, accountOne, accountTwo]).sorted.length =
        (setupAccountRepo [accountThree, accountOne, accountTwo]).length ∧
      (setupAccountRepo [accountThree, accountOne, accountTwo]).sorted.Perm
        ((setupAccountRepo [accountThree, accountOne, accountTwo]).map (fun kv => kv.2)) ∧
      ((setupAccountRepo [accountThree, accountOne, accountTwo]).sorted.map
        (fun a => a.ID)).Pairwise (fun x y => url.stringLess x y = true) :=
  ⟨by decide, rfl, by decide, by decide, by decide,
    List_page [accountThree, accountOne, accountTwo] testClient 1 1 (by decide) rfl
      (by decide) (by decide) (by decide) (by decide)⟩

set_option maxRecDepth 1000000 in
/-- Counterexample to C18 as stated: the store holds the one account
`accountNotText`, whose type is the byte 0xFF; `List` of page 0 of size 1
returns an account whose type is the three bytes of U+FFFD, which is not the
account at position 0 of the store. -/
theorem List_page_counterexample :
    (setupAccountRepo [accountNotText]).sorted = [accountNotText] ∧
    (testClient.List (httptest.NewServer (TestList.handler
        (setupAccountRepo [accountNotText]))).Client
      (some { Number := some (formatInt 0), Size := some 1 })).ret =
      some { Data := some [{ ID := str "a", Type_ := [0xEF, 0xBF, 0xBD] }] } ∧
    (testClient.List (httptest.NewServer (TestList.handler
        (setupAccountRepo [accountNotText]))).Client
      (some { Number := some (formatInt 0), Size := some 1 })).err = none ∧
    ({ ID := str "a", Type_ := [0xEF, 0xBF, 0xBD] } : Account) ≠ accountNotText :=
  ⟨by decide,
    (List_against_handler_decode [accountNotText] testClient
      (some { Number := some (formatInt 0), Size := some 1 })
      (strconv.ParseInt (formatInt 0)).1 1
      { Data := some [{ ID := str "a", Type_ := [0xEF, 0xBF, 0xBD] }] } (by decide) rfl
      (fun req p => pageOptsOf_number _ req p 0 1 (by decide) (by decide)) (by decide)
      (by decide) (by decide) (by decide)).1,
    (List_against_handler_decode [accountNotText] testClient
      (some { Number := some (formatInt 0), Size := some 1 })
      (strconv.ParseInt (formatInt 0)).1 1
      { Data := some [{ ID := str "a", Type_ := [0xEF, 0xBF, 0xBD] }] } (by decide) rfl
      (fun req p => pageOptsOf_number _ req p 0 1 (by decide) (by decide)) (by decide)
      (by decide) (by decide) (by decide)).2,
    by decide⟩

/-- C19, as amended. Composed with the handler of `TestList` over the store
made of any accounts that are text, on a client set up with a plain base URL
and no HTTP client of its own, `List` called with no pagination options (a
nil options pointer, or options whose number and size are both absent)
returns no error and an envelope holding the first 100 accounts of the
identifier-sorted store, 100 being the default page size of the handler: all
the stored accounts when the store holds at most 100, each once. -/
theorem List_without_options (existing : Slice Account) (c : Client) (opts : Option PageOpts)
    (hbase : plainBase c.BaseURL = true) (hc : c.httpClient = none)
    (htext : ∀ a ∈ existing, a.isText = true)
    (hn : opts.bind (fun o => o.Number) = none) (hs : opts.bind (fun o => o.Size) = none) :
    ∃ page : Option (Slice Account),
      (c.List (httptest.NewServer (TestList.handler (setupAccountRepo existing))).Client
        opts).ret = some { Data := page } ∧
      (c.List (httptest.NewServer (TestList.handler (setupAccountRepo existing))).Client
        opts).err = none ∧
      page.getD [] = (setupAccountRepo existing).sorted.take 100 ∧
      ((setupAccountRepo existing).length ≤ 100 →
        page.getD [] = (setupAccountRepo existing).sorted ∧
        (page.getD []).Perm ((setupAccountRepo existing).map (fun kv => kv.2))) := by
  obtain ⟨s1, s2, _⟩ := sorted_store existing
  obtain ⟨h1, h2⟩ := List_against_handler existing c opts 0 100 hbase hc htext
    (fun req p => pageOptsOf_default _ req p opts hn hs) (le_refl 0) (by decide) (by decide)
  have hpage : ((setupAccountRepo existing).sorted.drop ((0 : Int) * 100).toNat).take
      (100 : Int).toNat = (setupAccountRepo existing).sorted.take 100 := rfl
  rw [hpage] at h1
  refine ⟨_, h1, h2, appended_getD _, ?_⟩
  intro hle
  have hall : (setupAccountRepo existing).sorted.take 100 = (setupAccountRepo existing).sorted :=
    List.take_of_length_le (by rw [s1]; exact hle)
  rw [appended_getD, hall]
  exact ⟨rfl, s2⟩

set_option maxRecDepth 1000000 in
/-- Witness for C19 as amended: the store of the three accounts of the test
suite and a nil options pointer. -/
theorem List_without_options_witness :
    plainBase testClient.BaseURL = true ∧ testClient.httpClient = none ∧
    (∀ a ∈ [accountThree, accountOne, accountTwo], a.isText = true) ∧
    (setupAccountRepo [accountThree, accountOne, accountTwo]).sorted =
      [accountOne, accountTwo, accountThree] ∧
    ∃ page : Option (Slice Account),
      (testClient.List (httptest.NewServer (TestList.handler
          (setupAccountRepo [accountThree, accountOne, accountTwo]))).Client none).ret =
        some { Data := page } ∧
      (testClient.List (httptest.NewServer (TestList.handler
          (setupAccountRepo [accountThree, accountOne, accountTwo]))).Client none).err = none ∧
      page.getD [] = (setupAccountRepo [accountThree, accountOne, accountTwo]).sorted.take 100 ∧
      ((setupAccountRepo [accountThree, accountOne, accountTwo]).length ≤ 100 →
        page.getD [] = (setupAccountRepo [accountThree, accountOne, accountTwo]).sorted ∧
        (page.getD []).Perm
          ((setupAccountRepo [accountThree, accountOne, accountTwo]).map (fun kv => kv.2))) :=
  ⟨by decide, rfl, by decide, by decide,
    List_without_options [accountThree, accountOne, accountTwo] testClient none (by decide) rfl
      (by decide) rfl rfl⟩

set_option maxRecDepth 1000000 in
/-- Counterexample to C19 as stated: over the store of the 101 accounts
`hundredAndOne`, which are text, `List` with a nil options pointer returns
100 accounts, not the 101 of the store. -/
theorem List_without_options_counterexample :
    (∀ a ∈ hundredAndOne, a.isText = true) ∧
    (setupAccountRepo hundredAndOne).length = 101 ∧
    ∃ page : Slice Account,
      (testClient.List (httptest.NewServer (TestList.handler
          (setupAccountRepo hundredAndOne))).Client none).ret = some { Data := some page } ∧
      (testClient.List (httptest.NewServer (TestList.handler
          (setupAccountRepo hundredAndOne))).Client none).err = none ∧
      page.length = 100 := by
  have htext : ∀ a ∈ hundredAndOne, a.isText = true := by decide
  have hlen : (setupAccountRepo hundredAndOne).length = 101 := by decide
  obtain ⟨s1, _, _⟩ := sorted_store hundredAndOne
  obtain ⟨h1, h2⟩ := List_against_handler hundredAndOne testClient none 0 100 (by decide) rfl
    htext (fun req p => pageOptsOf_default _ req p none rfl rfl) (le_refl 0) (by decide)
    (by decide)
  have hpage : ((setupAccountRepo hundredAndOne).sorted.drop ((0 : Int) * 100).toNat).take
      (100 : Int).toNat = (setupAccountRepo hundredAndOne).sorted.take 100 := rfl
  rw [hpage] at h1
  have hl : ((setupAccountRepo hundredAndOne).sorted.take 100).length = 100 := by
    rw [List.length_take, s1, hlen]
    rfl
  have hne : (setupAccountRepo hundredAndOne).sorted.take 100 ≠ [] := by
    intro h
    rw [h] at hl
    exact absurd hl (by decide)
  have happ : appended ((setupAccountRepo hundredAndOne).sorted.take 100) =
      some ((setupAccountRepo hundredAndOne).sorted.take 100) := by
    cases hh : (setupAccountRepo hundredAndOne).sorted.take 100 with
    | nil => exact absurd hh hne
    | cons x xs => rfl
  rw [happ] at h1
  exact ⟨htext, hlen, _, h1, h2, hl⟩

/-! ## The pages `first` and `last` (claim C20) -/

/-- C20. In the handler of `TestList` over a store of `n` accounts, for every
page size `N > 0` (an `int64`; `n` is at most half of the greatest `int64`, as
the length of every map in memory is): for a request whose query is the one
`List` sends for the page number `first`, `pageOptsOf` gives page 0; for
`last` it gives page 0 when `n = 0` and page `(n + N - 1) / N - 1`, which is
`ceil(n/N) - 1`, when `n > 0`. When `n > 0` the handler answers `last` with
the status 200 and a page that is not empty, holds `N` accounts at most, is
the end of the identifier-sorted store from position `(ceil(n/N) - 1) * N`
and ends with the account whose identifier is the greatest of the store; the
page after it holds no account. With the page size 0 the computation of
`last` panics on the division by zero exactly when the store is not empty. -/
theorem first_and_last_page (existing : Slice Account) (req : http.Request) (p : GoString)
    (N : Int) (hN : 0 < N) (hN' : N ≤ maxInt64)
    (hn : 2 * ((setupAccountRepo existing).length : Int) ≤ maxInt64) :
    TestList.pageOptsOf (setupAccountRepo existing)
        { req with
          URL := { Path := p
                   RawQuery :=
                     listQuery (some { Number := some (str "first"), Size := some N }) } } =
      some (0, N) ∧
    ((setupAccountRepo existing).length = 0 →
      TestList.pageOptsOf (setupAccountRepo existing)
          { req with
            URL := { Path := p
                     RawQuery :=
                       listQuery (some { Number := some (str "last"), Size := some N }) } } =
        some (0, N)) ∧
    (0 < (setupAccountRepo existing).length →
      ∃ (page : Slice Account) (lastAccount : Account),
        TestList.pageOptsOf (setupAccountRepo existing)
            { req with
              URL := { Path := p
                       RawQuery :=
                         listQuery (some { Number := some (str "last"), Size := some N }) } } =
          some ((((setupAccountRepo existing).length : Int) + N - 1) / N - 1, N) ∧
        TestList.handler (setupAccountRepo existing) {}
            { req with
              URL := { Path := p
                       RawQuery :=
                         listQuery (some { Number := some (str "last"), Size := some N }) } } =
          some { status := some http.StatusOK
                 body := json.MarshalValue ({ Data := some page } : AccountsResource) } ∧
        page = (setupAccountRepo existing).sorted.drop
          (((((setupAccountRepo existing).length : Int) + N - 1) / N - 1) * N).toNat ∧
        page ≠ [] ∧ page.length ≤ N.toNat ∧ page.getLast? = some lastAccount ∧
        (∀ kv ∈ setupAccountRepo existing,
          kv.2 = lastAccount ∨ url.stringLess kv.2.ID lastAccount.ID = true) ∧
        TestList.pageAccounts (setupAccountRepo existing)
          ((((setupAccountRepo existing).length : Int) + N - 1) / N - 1 + 1) N = some none) ∧
    (TestList.pageOptsOf (setupAccountRepo existing)
        { req with
          URL := { Path := p
                   RawQuery :=
                     listQuery (some { Number := some (str "last"), Size := some 0 }) } } = none ↔
      0 < (setupAccountRepo existing).length) := by
  have e2 : maxInt64 = 9223372036854775807 := rfl
  obtain ⟨hnd, _⟩ := setupAccountRepo_inv existing
  obtain ⟨s1, s2, s3⟩ := sorted_store existing
  refine ⟨pageOptsOf_first _ req p N (le_of_lt hN) hN', ?_, ?_, ?_⟩
  · intro h0
    rw [pageOptsOf_last _ req p N (le_of_lt hN) hN', h0]
    rfl
  · intro hpos
    obtain ⟨hl, hL0, hL1, hL2⟩ :=
      lastPage_eq (setupAccountRepo existing).length N hpos hN (by omega)
    generalize hLdef : (((setupAccountRepo existing).length : Int) + N - 1) / N - 1 = L
      at hl hL0 hL1 hL2 ⊢
    have hopts := pageOptsOf_last (setupAccountRepo existing) req p N (le_of_lt hN) hN'
    rw [hl, Option.map_some'] at hopts
    have he : L * N + N ≤ maxInt64 := by
      by_cases hle : N ≤ ((setupAccountRepo existing).length : Int)
      · omega
      · have hLz : L = 0 := by
          by_contra hne
          have h1 : 1 ≤ L := by omega
          have := Int.mul_le_mul_of_nonneg_right h1 (le_of_lt hN)
          rw [Int.one_mul] at this
          omega
        rw [hLz, Int.zero_mul]
        omega
    have hx0 : 0 ≤ L * N := mul_nonneg hL0 (le_of_lt hN)
    have hlen : ((setupAccountRepo existing).sorted.drop (L * N).toNat).length ≤ N.toNat := by
      rw [List.length_drop, s1]
      omega
    have htake : ((setupAccountRepo existing).sorted.drop (L * N).toNat).take N.toNat =
        (setupAccountRepo existing).sorted.drop (L * N).toNat := List.take_of_length_le hlen
    have hlt : (L * N).toNat < (setupAccountRepo existing).sorted.length := by
      rw [s1]
      omega
    have hne : (setupAccountRepo existing).sorted.drop (L * N).toNat ≠ [] := by
      intro h
      have := congrArg List.length h
      rw [List.length_drop, List.length_nil] at this
      omega
    have happ : appended ((setupAccountRepo existing).sorted.drop (L * N).toNat) =
        some ((setupAccountRepo existing).sorted.drop (L * N).toNat) := by
      cases hh : (setupAccountRepo existing).sorted.drop (L * N).toNat with
      | nil => exact absurd hh hne
      | cons x xs => rfl
    have hhandler := TestList_handler_page (setupAccountRepo existing) hnd _ L N hopts hL0
      (le_of_lt hN) he
    rw [htake, happ] at hhandler
    have hsne : (setupAccountRepo existing).sorted ≠ [] := by
      intro h
      rw [h] at hlt
      exact absurd hlt (by simp)
    obtain ⟨lastAccount, hlast⟩ : ∃ x, (setupAccountRepo existing).sorted.getLast? = some x := by
      cases hh : (setupAccountRepo existing).sorted.getLast? with
      | none => exact absurd (List.getLast?_eq_none_iff.1 hh) hsne
      | some x => exact ⟨x, rfl⟩
    have hdl : ((setupAccountRepo existing).sorted.drop (L * N).toNat).getLast? =
        some lastAccount := by
      rw [List.getLast?_drop, if_neg (by omega), hlast]
    have hgreat := getLast_greatest (fun a c : Account => url.stringLess a.ID c.ID = true)
      (setupAccountRepo existing).sorted lastAccount (List.pairwise_map.1 s3) hlast
    refine ⟨_, lastAccount, hopts, hhandler, rfl, hne, hlen, hdl, ?_, ?_⟩
    · intro kv hkv
      exact hgreat kv.2 (s2.mem_iff.2 (List.mem_map_of_mem _ hkv))
    · apply pageAccounts_beyond
      · rw [Int.add_mul, Int.one_mul]
        exact hL2
      · rw [Int.add_mul, Int.one_mul]
        exact he
  · rw [pageOptsOf_last _ req p 0 (le_refl 0) (by decide)]
    constructor
    · intro h
      by_contra hz
      have h0 : (setupAccountRepo existing).length = 0 := by omega
      rw [h0] at h
      exact absurd h (by decide)
    · intro hpos
      rw [lastPage_zero _ hpos]
      rfl

set_option maxRecDepth 1000000 in
/-- Witness for C20: the store of the three accounts of the test suite and
the page size 1; the page `last` is page 2, which holds `accountThree`. -/
theorem first_and_last_page_witness :
    (0 : Int) < 1 ∧ (1 : Int) ≤ maxInt64 ∧
    2 * ((setupAccountRepo [accountThree, accountOne, accountTwo]).length : Int) ≤ maxInt64 ∧
    (((setupAccountRepo [accountThree, accountOne, accountTwo]).length : Int) + 1 - 1) / 1 - 1 =
      2 ∧
    (setupAccountRepo [accountThree, accountOne, accountTwo]).sorted.drop 2 = [accountThree] ∧
    (TestList.pageOptsOf (setupAccountRepo [accountThree, accountOne, accountTwo])
        { exampleListRequest with
          URL := { Path := str "/v1/organisation/accounts"
                   RawQuery :=
                     listQuery (some { Number := some (str "first"), Size := some 1 }) } } =
      some (0, 1) ∧
    ((setupAccountRepo [accountThree, accountOne, accountTwo]).length = 0 →
      TestList.pageOptsOf (setupAccountRepo [accountThree, accountOne, accountTwo])
          { exampleListRequest with
            URL := { Path := str "/v1/organisation/accounts"
                     RawQuery :=
                       listQuery (some { Number := some (str "last"), Size := some 1 }) } } =
        some (0, 1)) ∧
    (0 < (setupAccountRepo [accountThree, accountOne, accountTwo]).length →
      ∃ (page : Slice Account) (lastAccount : Account),
        TestList.pageOptsOf (setupAccountRepo [accountThree, accountOne, accountTwo])
            { exampleListRequest with
              URL := { Path := str "/v1/organisation/accounts"
                       RawQuery :=
                         listQuery (some { Number := some (str "last"), Size := some 1 }) } } =
          some ((((setupAccountRepo [accountThree, accountOne, accountTwo]).length : Int)
            + 1 - 1) / 1 - 1, 1) ∧
        TestList.handler (setupAccountRepo [accountThree, accountOne, accountTwo]) {}
            { exampleListRequest with
              URL := { Path := str "/v1/organisation/accounts"
                       RawQuery :=
                         listQuery (some { Number := some (str "last"), Size := some 1 }) } } =
          some { status := some http.StatusOK
                 body := json.MarshalValue ({ Data := some page } : AccountsResource) } ∧
        page = (setupAccountRepo [accountThree, accountOne, accountTwo]).sorted.drop
          (((((setupAccountRepo [accountThree, accountOne, accountTwo]).length : Int)
            + 1 - 1) / 1 - 1) * 1).toNat ∧
        page ≠ [] ∧ page.length ≤ (1 : Int).toNat ∧ page.getLast? = some lastAccount ∧
        (∀ kv ∈ setupAccountRepo [accountThree, accountOne, accountTwo],
          kv.2 = lastAccount ∨ url.stringLess kv.2.ID lastAccount.ID = true) ∧
        TestList.pageAccounts (setupAccountRepo [accountThree, accountOne, accountTwo])
          ((((setupAccountRepo [accountThree, accountOne, accountTwo]).length : Int)
            + 1 - 1) / 1 - 1 + 1) 1 = some none) ∧
    (TestList.pageOptsOf (setupAccountRepo [accountThree, accountOne, accountTwo])
        { exampleListRequest with
          URL := { Path := str "/v1/organisation/accounts"
                   RawQuery :=
                     listQuery (some { Number := some (str "last"), Size := some 0 }) } } = none ↔
      0 < (setupAccountRepo [accountThree, accountOne, accountTwo]).length)) :=
  ⟨by decide, by decide, by decide, by decide, by decide,
    first_and_last_page [accountThree, accountOne, accountTwo] exampleListRequest
      (str "/v1/organisation/accounts") 1 (by decide) (by decide) (by decide)⟩

/-! ## The log, the body of `Delete`, the body of `Create` and `List` without
options (claims C21 to C24) -/

/-- C21, as amended. For each of the four operations: whenever it returns
`ErrBadInput`, `ErrServerError` or `ErrUnknown`, it has handed one request to
the transport, the round trip has returned a response, and the last entry it
has written to the log is the one of the format "failed to call Account api",
with the URL of the request of that response; whenever it returns no error,
`ErrNotFound` or `ErrConflict`, it has written nothing to the log. -/
theorem error_log (dc : http.Client) (c : Client) (account : Option AccountResource)
    (accountID : GoString) (version : Int) (opts : Option PageOpts) :
    ((c.Create dc account).err = some .ErrBadInput ∨
        (c.Create dc account).err = some .ErrServerError ∨
        (c.Create dc account).err = some .ErrUnknown →
      ∃ req resp code msg, (c.Create dc account).sent = [req] ∧
        (c.transport dc).Do req = .ok resp ∧
        (c.Create dc account).log.getLast? =
          some (.callFailed resp.Request.URL.String code msg)) ∧
    ((c.Create dc account).err = none ∨ (c.Create dc account).err = some .ErrNotFound ∨
        (c.Create dc account).err = some .ErrConflict →
      (c.Create dc account).log = []) ∧
    ((c.Fetch dc accountID).err = some .ErrBadInput ∨
        (c.Fetch dc accountID).err = some .ErrServerError ∨
        (c.Fetch dc accountID).err = some .ErrUnknown →
      ∃ req resp code msg, (c.Fetch dc accountID).sent = [req] ∧
        (c.transport dc).Do req = .ok resp ∧
        (c.Fetch dc accountID).log.getLast? =
          some (.callFailed resp.Request.URL.String code msg)) ∧
    ((c.Fetch dc accountID).err = none ∨ (c.Fetch dc accountID).err = some .ErrNotFound ∨
        (c.Fetch dc accountID).err = some .ErrConflict →
      (c.Fetch dc accountID).log = []) ∧
    ((c.List dc opts).err = some .ErrBadInput ∨
        (c.List dc opts).err = some .ErrServerError ∨
        (c.List dc opts).err = some .ErrUnknown →
      ∃ req resp code msg, (c.List dc opts).sent = [req] ∧
        (c.transport dc).Do req = .ok resp ∧
        (c.List dc opts).log.getLast? =
          some (.callFailed resp.Request.URL.String code msg)) ∧
    ((c.List dc opts).err = none ∨ (c.List dc opts).err = some .ErrNotFound ∨
        (c.List dc opts).err = some .ErrConflict →
      (c.List dc opts).log = []) ∧
    ((c.Delete dc accountID version).err = some .ErrBadInput ∨
        (c.Delete dc accountID version).err = some .ErrServerError ∨
        (c.Delete dc accountID version).err = some .ErrUnknown →
      ∃ req resp code msg, (c.Delete dc accountID version).sent = [req] ∧
        (c.transport dc).Do req = .ok resp ∧
        (c.Delete dc accountID version).log.getLast? =
          some (.callFailed resp.Request.URL.String code msg)) ∧
    ((c.Delete dc accountID version).err = none ∨
        (c.Delete dc accountID version).err = some .ErrNotFound ∨
        (c.Delete dc accountID version).err = some .ErrConflict →
      (c.Delete dc accountID version).log = []) := by
  have key : ∀ (err : Option Error) (sent : Slice http.Request) (log : Slice LogEntry),
      ((err = some .ErrBadInput ∨ err = some .ErrServerError ∨ err = some .ErrUnknown →
        ∃ req resp, sent = [req] ∧ (c.transport dc).Do req = .ok resp ∧
          log = logError { resp with Body := { resp.Body with closed := true } }) ∧
       (err ≠ some .ErrBadInput → err ≠ some .ErrServerError → err ≠ some .ErrUnknown →
          log = [])) →
      (err = some .ErrBadInput ∨ err = some .ErrServerError ∨ err = some .ErrUnknown →
        ∃ req resp code msg, sent = [req] ∧ (c.transport dc).Do req = .ok resp ∧
          log.getLast? = some (.callFailed resp.Request.URL.String code msg)) ∧
      (err = none ∨ err = some .ErrNotFound ∨ err = some .ErrConflict → log = []) := by
    intro err sent log ⟨h1, h2⟩
    constructor
    · intro h
      obtain ⟨req, resp, hs, hdo, hl⟩ := h1 h
      obtain ⟨code, msg, hlast⟩ :=
        logError_last { resp with Body := { resp.Body with closed := true } }
      exact ⟨req, resp, code, msg, hs, hdo, by rw [hl, hlast]⟩
    · intro h
      apply h2 <;> rcases h with h | h | h <;> rw [h] <;> simp
  obtain ⟨k1, k2⟩ := key _ _ _ (Create_log dc c account)
  obtain ⟨k3, k4⟩ := key _ _ _ (Fetch_log dc c accountID)
  obtain ⟨k5, k6⟩ := key _ _ _ (List_log dc c opts)
  obtain ⟨k7, k8⟩ := key _ _ _ (Delete_log dc c accountID version)
  exact ⟨k1, k2, k3, k4, k5, k6, k7, k8⟩

set_option maxRecDepth 1000000 in
/-- Witness for C21 as amended: `Fetch` answered with the status 400 and an
error document returns `ErrBadInput` and writes to the log. -/
theorem error_log_witness :
    ((exampleClient 400 exampleErrorDocument).Fetch (failingTransport []) exampleID).err =
      some .ErrBadInput ∧
    ∃ req resp code msg,
      ((exampleClient 400 exampleErrorDocument).Fetch (failingTransport []) exampleID).sent =
        [req] ∧
      ((exampleClient 400 exampleErrorDocument).transport (failingTransport [])).Do req =
        .ok resp ∧
      ((exampleClient 400 exampleErrorDocument).Fetch (failingTransport [])
        exampleID).log.getLast? = some (.callFailed resp.Request.URL.String code msg) :=
  ⟨by decide,
    (error_log (failingTransport []) (exampleClient 400 exampleErrorDocument) none exampleID 0
      none).2.2.1 (Or.inl (by decide))⟩

set_option maxRecDepth 1000000 in
/-- Counterexample to C21 as stated: `Delete` answered with the status 409
and an error document, whose error code is `409` and whose error message is
`Conflict`, returns `ErrConflict` and writes nothing to the log. -/
theorem error_log_counterexample :
    json.Decode { data := exampleErrorDocument } ({} : errorDetail) =
      ({ ErrorCode := str "409", ErrorMsg := str "Conflict" }, none) ∧
    ((exampleClient 409 exampleErrorDocument).transport (failingTransport [])).Do
        exampleDeleteRequest =
      .ok (exampleResponse 409 exampleErrorDocument exampleDeleteRequest) ∧
    ((exampleClient 409 exampleErrorDocument).Delete (failingTransport []) exampleID 0).sent =
      [exampleDeleteRequest] ∧
    ((exampleClient 409 exampleErrorDocument).Delete (failingTransport []) exampleID 0).err =
      some .ErrConflict ∧
    ((exampleClient 409 exampleErrorDocument).Delete (failingTransport []) exampleID 0).log =
      [] := by
  decide

/-- C22. Two calls of `Delete` for the same account and version, answered by
two responses of the same status whose bodies close alike (both without
error, or both with the same error), return the same error, whatever the two
bodies hold, and the same (nil) pointer; and `Delete` never returns an error
of the JSON decoder, whatever the client, the transport and the response. -/
theorem Delete_depends_on_status_only (dc1 dc2 : http.Client) (c1 c2 : Client)
    (accountID : GoString) (version : Int) (req1 req2 : http.Request)
    (resp1 resp2 : http.Response)
    (hsent1 : (c1.Delete dc1 accountID version).sent = [req1])
    (hdo1 : (c1.transport dc1).Do req1 = .ok resp1)
    (hsent2 : (c2.Delete dc2 accountID version).sent = [req2])
    (hdo2 : (c2.transport dc2).Do req2 = .ok resp2)
    (hstatus : resp1.StatusCode = resp2.StatusCode)
    (hclose : resp1.Body.closeErr = resp2.Body.closeErr) :
    (c1.Delete dc1 accountID version).err = (c2.Delete dc2 accountID version).err ∧
    (c1.Delete dc1 accountID version).ret = (c2.Delete dc2 accountID version).ret ∧
    (∀ e, (c1.Delete dc1 accountID version).err ≠ some (.decode e)) ∧
    (∀ e, (c2.Delete dc2 accountID version).err ≠ some (.decode e)) := by
  refine ⟨?_, ?_, fun e => Delete_no_decode_error dc1 c1 accountID version e,
    fun e => Delete_no_decode_error dc2 c2 accountID version e⟩
  · rw [Delete_err_of_response dc1 c1 accountID version req1 resp1 hsent1 hdo1,
      Delete_err_of_response dc2 c2 accountID version req2 resp2 hsent2 hdo2, hstatus, hclose]
  · rw [Delete_ret, Delete_ret]

set_option maxRecDepth 1000000 in
/-- Witness for C22: `Delete` answered with the status 409 and an error
document, and with the status 409 and a body that is not JSON; both calls
return `ErrConflict`. -/
theorem Delete_depends_on_status_only_witness :
    exampleErrorDocument ≠ exampleNotJSON ∧
    ((exampleClient 409 exampleErrorDocument).Delete (failingTransport []) exampleID 0).err =
      some .ErrConflict ∧
    ((exampleClient 409 exampleErrorDocument).Delete (failingTransport []) exampleID 0).err =
      ((exampleClient 409 exampleNotJSON).Delete (failingTransport []) exampleID 0).err ∧
    ((exampleClient 409 exampleErrorDocument).Delete (failingTransport []) exampleID 0).ret =
      ((exampleClient 409 exampleNotJSON).Delete (failingTransport []) exampleID 0).ret ∧
    (∀ e, ((exampleClient 409 exampleErrorDocument).Delete (failingTransport [])
      exampleID 0).err ≠ some (.decode e)) ∧
    (∀ e, ((exampleClient 409 exampleNotJSON).Delete (failingTransport [])
      exampleID 0).err ≠ some (.decode e)) :=
  ⟨by decide, by decide,
    Delete_depends_on_status_only (failingTransport []) (failingTransport [])
      (exampleClient 409 exampleErrorDocument) (exampleClient 409 exampleNotJSON) exampleID 0
      exampleDeleteRequest exampleDeleteRequest
      (exampleResponse 409 exampleErrorDocument exampleDeleteRequest)
      (exampleResponse 409 exampleNotJSON exampleDeleteRequest)
      (by decide) (by decide) (by decide) (by decide) (by decide) (by decide)⟩

/-- C23. On a client with a plain base URL, for every envelope: the body of
the request `Create` sends is JSON text which the scanner reads, up to the
newline that ends it, as an object with the one key `data`, holding an object
with exactly the keys `id`, `organisation_id`, `type`, `version` and
`attributes`, the last holding an object with exactly the sixteen keys of
the attributes; a string is sent as a JSON string (the empty string as the
empty JSON string), the version as its decimal number (0 as `0`), a flag as
`true` or `false`, and the alternative names as an array, `null` when the
slice is nil. For the zero value of the envelope the body is `zeroAccountText`. -/
theorem Create_body_complete (dc : http.Client) (c : Client) (a : AccountResource)
    (hbase : plainBase c.BaseURL = true) :
    ∃ req body, (c.Create dc (some a)).sent = [req] ∧ req.Body = some body ∧
      json.readValue body =
        .ok (.object
          [(str "data", .object
            [(str "id", json.stringValue a.Data.ID),
             (str "organisation_id", json.stringValue a.Data.OrganisationID),
             (str "type", json.stringValue a.Data.Type_),
             (str "version", .number (formatInt a.Data.Version)),
             (str "attributes", .object
               [(str "country", json.stringValue a.Data.Attributes.Country),
                (str "base_currency", json.stringValue a.Data.Attributes.BaseCurrency),
                (str "bank_id", json.stringValue a.Data.Attributes.BankID),
                (str "bank_id_code", json.stringValue a.Data.Attributes.BankIDCode),
                (str "account_number", json.stringValue a.Data.Attributes.AccountNumber),
                (str "bic", json.stringValue a.Data.Attributes.BIC),
                (str "iban", json.stringValue a.Data.Attributes.IBAN),
                (str "customer_id", json.stringValue a.Data.Attributes.CustomerID),
                (str "title", json.stringValue a.Data.Attributes.Title),
                (str "first_name", json.stringValue a.Data.Attributes.FirstName),
                (str "bank_account_name", json.stringValue a.Data.Attributes.BankAccountName),
                (str "alternative_bank_account_names",
                  json.stringsValue a.Data.Attributes.AlternativeBankAccountNames),
                (str "account_classification",
                  json.stringValue a.Data.Attributes.AccountClassification),
                (str "joint_account", .bool a.Data.Attributes.JointAccount),
                (str "account_matching_opt_out",
                  .bool a.Data.Attributes.AccountMatchingOptOut),
                (str "secondary_identification",
                  json.stringValue a.Data.Attributes.SecondaryIdentification)])])],
          [(10 : Byte)]) ∧
      json.stringValue [] = .string [] ∧ formatInt 0 = str "0" ∧
      json.stringsValue none = .null ∧
      (a = {} → body = zeroAccountText) := by
  have hreq := newRequest_plain c http.MethodPost (str "v1/organisation/accounts")
    [] (some (some a)) hbase (by decide) (by simp)
  rw [← collection_path] at hreq
  refine ⟨builtRequest c.BaseURL http.MethodPost (str "/v1/organisation/accounts")
    [] (some (some a)), json.Encode (some a), ?_, rfl, ?_, rfl, by decide, rfl, ?_⟩
  · rw [Create_sent, hreq]; rfl
  · exact readValue_AccountResource a [10] rfl
  · intro h
    rw [h]
    exact Encode_zero

set_option maxRecDepth 1000000 in
/-- Witness for C23: the body `Create` sends for the zero value of the
envelope on the client of the examples. -/
theorem Create_body_complete_witness :
    plainBase (exampleClient 201 []).BaseURL = true ∧
    (((exampleClient 201 []).Create (failingTransport []) (some {})).sent.map
      (fun req => req.Body)) = [some zeroAccountText] ∧
    ∃ req body, ((exampleClient 201 []).Create (failingTransport []) (some {})).sent = [req] ∧
      req.Body = some body ∧
      json.readValue body =
        .ok (.object
          [(str "data", .object
            [(str "id", json.stringValue ({} : AccountResource).Data.ID),
             (str "organisation_id", json.stringValue ({} : AccountResource).Data.OrganisationID),
             (str "type", json.stringValue ({} : AccountResource).Data.Type_),
             (str "version", .number (formatInt ({} : AccountResource).Data.Version)),
             (str "attributes", .object
               [(str "country", json.stringValue ({} : AccountResource).Data.Attributes.Country),
                (str "base_currency",
                  json.stringValue ({} : AccountResource).Data.Attributes.BaseCurrency),
                (str "bank_id", json.stringValue ({} : AccountResource).Data.Attributes.BankID),
                (str "bank_id_code",
                  json.stringValue ({} : AccountResource).Data.Attributes.BankIDCode),
                (str "account_number",
                  json.stringValue ({} : AccountResource).Data.Attributes.AccountNumber),
                (str "bic", json.stringValue ({} : AccountResource).Data.Attributes.BIC),
                (str "iban", json.stringValue ({} : AccountResource).Data.Attributes.IBAN),
                (str "customer_id",
                  json.stringValue ({} : AccountResource).Data.Attributes.CustomerID),
                (str "title", json.stringValue ({} : AccountResource).Data.Attributes.Title),
                (str "first_name",
                  json.stringValue ({} : AccountResource).Data.Attributes.FirstName),
                (str "bank_account_name",
                  json.stringValue ({} : AccountResource).Data.Attributes.BankAccountName),
                (str "alternative_bank_account_names",
                  json.stringsValue
                    ({} : AccountResource).Data.Attributes.AlternativeBankAccountNames),
                (str "account_classification",
                  json.stringValue ({} : AccountResource).Data.Attributes.AccountClassification),
                (str "joint_account", .bool ({} : AccountResource).Data.Attributes.JointAccount),
                (str "account_matching_opt_out",
                  .bool ({} : AccountResource).Data.Attributes.AccountMatchingOptOut),
                (str "secondary_identification",
                  json.stringValue
                    ({} : AccountResource).Data.Attributes.SecondaryIdentification)])])],
          [(10 : Byte)]) ∧
      json.stringValue [] = .string [] ∧ formatInt 0 = str "0" ∧
      json.stringsValue none = .null ∧
      (({} : AccountResource) = {} → body = zeroAccountText) :=
  ⟨by decide, by decide,
    Create_body_complete (failingTransport []) (exampleClient 201 []) {} (by decide)⟩

/-- C24. `List` called with a nil options pointer does what `List` called
with options whose number and size are both absent does: the two calls have
the same outcome on every client and transport. On a client with a plain
base URL both hand exactly one request to the transport, the same one: a GET
on the scheme and host of the base URL to the path
`/v1/organisation/accounts`, with no query string and no body; and the error
returned, if any, is not one of building the request. -/
theorem List_nil_options (dc : http.Client) (c : Client)
    (hbase : plainBase c.BaseURL = true) :
    c.List dc none = c.List dc (some {}) ∧
    ∃ req, (c.List dc none).sent = [req] ∧ (c.List dc (some {})).sent = [req] ∧
      req.Method = http.MethodGet ∧
      req.URL.Scheme = c.BaseURL.Scheme ∧ req.URL.Host = c.BaseURL.Host ∧
      req.URL.Path = str "/v1/organisation/accounts" ∧
      req.URL.RawQuery = [] ∧ req.URL.ForceQuery = false ∧ req.URL.Fragment = [] ∧
      req.Body = none ∧
      (∀ e, (c.List dc none).err ≠ some (.request e)) := by
  have hv : query.Values (some {}) = query.Values none := by decide
  have heq : c.List dc none = c.List dc (some {}) := by
    unfold Client.List
    rw [hv]
  have hreq := newRequest_plain c http.MethodGet (str "v1/organisation/accounts")
    (listQuery none) none hbase (by decide) (listQuery_bytes none)
  rw [← collection_path] at hreq
  have hsent : (c.List dc none).sent = [builtRequest c.BaseURL http.MethodGet
      (str "/v1/organisation/accounts") (listQuery none) none] := by
    rw [List_sent, hreq]; rfl
  exact ⟨heq, _, hsent, heq ▸ hsent, rfl, rfl, rfl, collection_path_no_dots, rfl, rfl, rfl,
    rfl, fun e => List_no_request_error dc c none _ hreq e⟩

set_option maxRecDepth 1000000 in
/-- Witness for C24: `List` without options on the client of the examples
sends `exampleListRequest`. -/
theorem List_nil_options_witness :
    plainBase (exampleClient 200 exampleEmptyList).BaseURL = true ∧
    ((exampleClient 200 exampleEmptyList).List (failingTransport []) none).sent =
      [exampleListRequest] ∧
    ((exampleClient 200 exampleEmptyList).List (failingTransport []) none).err = none ∧
    ((exampleClient 200 exampleEmptyList).List (failingTransport []) none =
        (exampleClient 200 exampleEmptyList).List (failingTransport []) (some {}) ∧
      ∃ req, ((exampleClient 200 exampleEmptyList).List (failingTransport []) none).sent =
          [req] ∧
        ((exampleClient 200 exampleEmptyList).List (failingTransport []) (some {})).sent =
          [req] ∧
        req.Method = http.MethodGet ∧
        req.URL.Scheme = (exampleClient 200 exampleEmptyList).BaseURL.Scheme ∧
        req.URL.Host = (exampleClient 200 exampleEmptyList).BaseURL.Host ∧
        req.URL.Path = str "/v1/organisation/accounts" ∧
        req.URL.RawQuery = [] ∧ req.URL.ForceQuery = false ∧ req.URL.Fragment = [] ∧
        req.Body = none ∧
        (∀ e, ((exampleClient 200 exampleEmptyList).List (failingTransport []) none).err ≠
          some (.request e))) :=
  ⟨by decide, by decide, by decide,
    List_nil_options (failingTransport []) (exampleClient 200 exampleEmptyList) (by decide)⟩

end AccountAPI
